import Mathlib

/-!
# Pencil physics: shapes, interaction controller and scene

A shallow embedding of `shapes.hpp`, `uihelper.hpp`, the scene operations of
`main.cpp`, the frame timer of `engine.hpp` and the polyline drawing of
`draw.hpp` and `mesh.hpp`.

Conventions of the embedding:

* The embedding has two layers.  The scene, the controller and the frame loop
  are embedded with `float` values as exact rationals (`ℚ`): the statements about
  them concern which calls are issued, which bodies exist and which pointers
  are set, and they hold for whatever numbers are stored.
* The numerical operations, namely `glm::length`, `Circle::contains`,
  `Box::contains`, `UIHelper::windowToWorld` and the test of
  `UIHelper::onMouseMotion`, are embedded a second time in the namespace
  `Rounded` over the type `F32` of IEEE 754 binary32 values, with every operation
  rounded to nearest, ties to even.  The statements about the values that these
  operations compute are statements about this layer.
* In the exact layer `glm::length(v)` is only ever compared with a scalar; the
  two comparisons that occur (`<=` and `>`) are embedded as decision procedures
  on rationals, and `glmLengthLe_iff_sqrt` / `glmLengthGt_iff_sqrt` show that
  they decide the comparison of the real Euclidean norm with the scalar.
* Pointers (`b2Body*`, `b2MouseJoint*`) are `Option Nat`: `none` is `NULL`,
  `some n` is the object with handle `n`.
* `UIHelper` talks to the application through the abstract interface `UIMain`;
  its handlers return the new controller state together with the list of
  `UIMain` calls they issue, in order.  `PencilPhysics` executes these calls.
-/

namespace Pencil

/-! ## Vectors -/

/-- The type `glm::vec2`, with exact rational components. -/
structure Vec2 where
  x : ℚ
  y : ℚ
deriving DecidableEq, Repr

namespace Vec2

instance : Add Vec2 := ⟨fun a b => ⟨a.x + b.x, a.y + b.y⟩⟩
instance : Sub Vec2 := ⟨fun a b => ⟨a.x - b.x, a.y - b.y⟩⟩
/-- Componentwise product, as `glm` defines `vec2 * vec2`. -/
instance : Mul Vec2 := ⟨fun a b => ⟨a.x * b.x, a.y * b.y⟩⟩
/-- Scalar times vector. -/
instance : HMul ℚ Vec2 Vec2 := ⟨fun k a => ⟨k * a.x, k * a.y⟩⟩

/-- Squared Euclidean norm. -/
def normSq (v : Vec2) : ℚ := v.x * v.x + v.y * v.y

end Vec2

/-- The comparison `glm::length(v) <= r` in exact arithmetic: the norm is
non-negative, so it is below `r` exactly when `r` is non-negative and the
squared norm is below `r * r`. -/
def glmLengthLe (v : Vec2) (r : ℚ) : Bool :=
  decide (0 ≤ r ∧ v.normSq ≤ r * r)

/-- The comparison `glm::length(v) > r` in exact arithmetic. -/
def glmLengthGt (v : Vec2) (r : ℚ) : Bool :=
  decide (r < 0 ∨ r * r < v.normSq)

/-! ## Shapes (`shapes.hpp`) -/

/-- A pointer to a body of the physics world. -/
abbrev BodyPtr := Option Nat

/-- A pointer to a joint of the physics world. -/
abbrev JointPtr := Option Nat

/-- Class `Circle`; the member `rotation` is never read or written and is left
out. -/
structure Circle where
  center : Vec2
  radius : ℚ
  circle_body : BodyPtr
deriving DecidableEq, Repr

/-- Class `Box`; `size` is the full width and height. -/
structure Box where
  center : Vec2
  size : Vec2
  rect_body : BodyPtr
deriving DecidableEq, Repr

/-- Class `Polyline`. -/
structure Polyline where
  vertices : List Vec2
  chain_body : BodyPtr
deriving DecidableEq, Repr

/-- Method `Circle::contains` in exact arithmetic; `Rounded.Circle.contains` is
the method in binary32. -/
def Circle.contains (c : Circle) (worldPoint : Vec2) : Bool :=
  glmLengthLe (worldPoint - c.center) c.radius

/-- Method `Box::contains` in exact arithmetic; `abs` is the floating-point
absolute value.  `Rounded.Box.contains` is the method in binary32. -/
def Box.contains (b : Box) (worldPoint : Vec2) : Bool :=
  let d := worldPoint - b.center
  decide (|d.x| ≤ b.size.x / 2) && decide (|d.y| ≤ b.size.y / 2)

/-! ## Physics world

The rigid-body library behind `b2World` is not part of the sources.  Its state
is modelled by the bodies and joints that currently exist, a counter for fresh
handles, and the sequence of calls received so far. -/

/-- Enumeration `b2BodyType`, as far as it is used. -/
inductive BodyType where
  | b2_staticBody
  | b2_dynamicBody
deriving DecidableEq, Repr

/-- Structure `b2BodyDef`, as far as it is used. -/
structure BodyDef where
  type : BodyType
  position : Vec2
  angle : ℚ
  linearVelocity : Vec2
  angularVelocity : ℚ
deriving DecidableEq, Repr

/-- The default-constructed `b2BodyDef`: a static body at rest at the origin. -/
def BodyDef.default : BodyDef :=
  ⟨.b2_staticBody, ⟨0, 0⟩, 0, ⟨0, 0⟩, 0⟩

/-- Collision shapes handed to `CreateFixture`. -/
inductive Shape where
  | circle (m_p : Vec2) (m_radius : ℚ)
  | box (hx hy : ℚ)
  | chain (vertices : List Vec2)
deriving DecidableEq, Repr

/-- Structure `b2FixtureDef`, as far as it is used. -/
structure FixtureDef where
  shape : Shape
  density : ℚ
  friction : ℚ
  restitution : ℚ
deriving DecidableEq, Repr

/-- A body that exists in the world. -/
structure Body where
  id : Nat
  state : BodyDef
  fixtures : List FixtureDef
deriving DecidableEq, Repr

/-- Structure `b2MouseJointDef`. -/
structure MouseJointDef where
  bodyA : BodyPtr
  bodyB : BodyPtr
  target : Vec2
  collideConnected : Bool
  maxForce : ℚ
  frequencyHz : ℚ
  dampingRatio : ℚ
deriving DecidableEq, Repr

/-- A mouse joint that exists in the world. -/
structure MouseJoint where
  id : Nat
  state : MouseJointDef
deriving DecidableEq, Repr

/-- The calls a world receives. -/
inductive WorldCall where
  | createBody (d : BodyDef)
  | createFixture (body : BodyPtr) (f : FixtureDef)
  | destroyBody (body : BodyPtr)
  | createJoint (d : MouseJointDef)
  | setTarget (joint : JointPtr) (target : Vec2)
  | destroyJoint (joint : JointPtr)
  | step (dt : ℚ) (velocityIterations positionIterations : Nat)
deriving DecidableEq, Repr

/-- Modelled from the spec: the physics world `b2World` (the physics library is
not among the sources).  It owns the bodies and the constraints. -/
structure B2World where
  gravity : Vec2
  bodies : List Body
  joints : List MouseJoint
  nextHandle : Nat
  calls : List WorldCall
deriving DecidableEq, Repr

namespace B2World

/-- Modelled from the spec: `b2World::CreateBody` allocates a body and returns
its handle. -/
def CreateBody (w : B2World) (d : BodyDef) : B2World × BodyPtr :=
  ({ w with
      bodies := w.bodies ++ [⟨w.nextHandle, d, []⟩]
      nextHandle := w.nextHandle + 1
      calls := w.calls ++ [.createBody d] },
   some w.nextHandle)

/-- Modelled from the spec: `b2Body::CreateFixture` attaches collision and mass
properties to a body. -/
def CreateFixture (w : B2World) (body : BodyPtr) (f : FixtureDef) : B2World :=
  { w with
    bodies := w.bodies.map fun b =>
      if some b.id = body then { b with fixtures := b.fixtures ++ [f] } else b
    calls := w.calls ++ [.createFixture body f] }

/-- Modelled from the spec: `b2World::DestroyBody` removes a body together with
its fixtures and the joints attached to it. -/
def DestroyBody (w : B2World) (body : BodyPtr) : B2World :=
  { w with
    bodies := w.bodies.filter fun b => decide (some b.id ≠ body)
    joints := w.joints.filter fun j =>
      decide (j.state.bodyA ≠ body) && decide (j.state.bodyB ≠ body)
    calls := w.calls ++ [.destroyBody body] }

/-- Modelled from the spec: `b2World::CreateJoint` for a mouse joint definition
creates the constraint and returns its handle. -/
def CreateJoint (w : B2World) (d : MouseJointDef) : B2World × JointPtr :=
  ({ w with
      joints := w.joints ++ [⟨w.nextHandle, d⟩]
      nextHandle := w.nextHandle + 1
      calls := w.calls ++ [.createJoint d] },
   some w.nextHandle)

/-- Modelled from the spec: `b2MouseJoint::SetTarget` replaces the target point
of a constraint. -/
def SetTarget (w : B2World) (joint : JointPtr) (target : Vec2) : B2World :=
  { w with
    joints := w.joints.map fun j =>
      if some j.id = joint then { j with state := { j.state with target := target } } else j
    calls := w.calls ++ [.setTarget joint target] }

/-- Modelled from the spec: `b2World::DestroyJoint` removes a constraint. -/
def DestroyJoint (w : B2World) (joint : JointPtr) : B2World :=
  { w with
    joints := w.joints.filter fun j => decide (some j.id ≠ joint)
    calls := w.calls ++ [.destroyJoint joint] }

/-- Modelled from the spec: `b2Body::GetPosition` through a body pointer, the
position part of the pose query.  The result is `none` where the pointer is null
or refers to no body of the world. -/
def GetPosition (w : B2World) (body : BodyPtr) : Option Vec2 :=
  (w.bodies.find? fun b => decide (some b.id = body)).map fun b => b.state.position

/-- Modelled from the spec: `b2Body::GetAngle` through a body pointer, the
rotation part of the pose query. -/
def GetAngle (w : B2World) (body : BodyPtr) : Option ℚ :=
  (w.bodies.find? fun b => decide (some b.id = body)).map fun b => b.state.angle

end B2World

/-- Modelled from the spec: the solver behind `b2World::Step`, which is not
among the sources: the state of a body after a step of the given length and
iteration counts, as a function of the world before the step. -/
abbrev Solver := B2World → ℚ → Nat → Nat → Body → BodyDef

/-- Modelled from the spec: `b2World::Step` advances the pose and velocity of
every body; it creates and destroys nothing. -/
def B2World.Step (w : B2World) (solve : Solver) (dt : ℚ)
    (velocityIterations positionIterations : Nat) : B2World :=
  { w with
    bodies := w.bodies.map fun b =>
      { b with state := solve w dt velocityIterations positionIterations b }
    calls := w.calls ++ [.step dt velocityIterations positionIterations] }

/-! ## Interaction controller (`uihelper.hpp`) -/

/-- The scancode field of `SDL_KeyboardEvent`. -/
structure SDL_KeyboardEvent where
  scancode : Nat
deriving DecidableEq, Repr

/-- The fields of `SDL_MouseButtonEvent` that are read. -/
structure SDL_MouseButtonEvent where
  button : Nat
  x : Int
  y : Int
deriving DecidableEq, Repr

/-- The fields of `SDL_MouseMotionEvent` that are read. -/
structure SDL_MouseMotionEvent where
  x : Int
  y : Int
deriving DecidableEq, Repr

/-- Value of `SDL_SCANCODE_B`. -/
def SDL_SCANCODE_B : Nat := 5
/-- Value of `SDL_SCANCODE_C`. -/
def SDL_SCANCODE_C : Nat := 6
/-- Value of `SDL_SCANCODE_BACKSPACE`. -/
def SDL_SCANCODE_BACKSPACE : Nat := 42
/-- Value of `SDL_SCANCODE_TAB`. -/
def SDL_SCANCODE_TAB : Nat := 43

/-- The two drag modes of `UIHelper`. -/
inductive DragMode where
  | DrawMode
  | PullMode
deriving DecidableEq, Repr

/-- A call of a method of the interface `UIMain`, with its argument. -/
inductive MainCall where
  | addCircle
  | addBox
  | addPolyline (vertices : List Vec2)
  | clear
  | attachMouse (point : Vec2)
  | moveMouse (point : Vec2)
  | detachMouse
deriving DecidableEq, Repr

/-- Class `UIHelper`, without the pointer `main`: calls through it are returned
by the handlers. -/
structure UIHelper where
  worldMin : Vec2
  worldMax : Vec2
  width : Int
  height : Int
  dragMode : DragMode
  mouseDown : Bool
  polyline : List Vec2
  edgeMin : ℚ
deriving DecidableEq, Repr

namespace UIHelper

/-- Constructor `UIHelper(main, worldMin, worldMax, w, h)`; in exact arithmetic
`edgeMin` is one tenth, and `Rounded.UIHelper.new` has the value in binary32. -/
def new (worldMin worldMax : Vec2) (w h : Int) : UIHelper :=
  { worldMin := worldMin, worldMax := worldMax, width := w, height := h,
    dragMode := .DrawMode, mouseDown := false, polyline := [], edgeMin := 1 / 10 }

/-- Method `UIHelper::getPolyline`. -/
def getPolyline (h : UIHelper) : List Vec2 := h.polyline

/-- Method `UIHelper::windowToWorld` in exact arithmetic;
`Rounded.UIHelper.windowToWorld` is the method in binary32. -/
def windowToWorld (h : UIHelper) (x y : Int) : Vec2 :=
  let u : Vec2 := ⟨(x : ℚ) / (h.width : ℚ), ((h.height - 1 - y : Int) : ℚ) / (h.height : ℚ)⟩
  h.worldMin + u * (h.worldMax - h.worldMin)

/-- Method `UIHelper::onKeyDown`. -/
def onKeyDown (h : UIHelper) (e : SDL_KeyboardEvent) : UIHelper × List MainCall :=
  if e.scancode = SDL_SCANCODE_B then (h, [.addBox])
  else if e.scancode = SDL_SCANCODE_C then (h, [.addCircle])
  else if e.scancode = SDL_SCANCODE_BACKSPACE then (h, [.clear])
  else if e.scancode = SDL_SCANCODE_TAB then
    if !h.mouseDown then
      ({ h with dragMode := if h.dragMode = .DrawMode then .PullMode else .DrawMode }, [])
    else (h, [])
  else (h, [])

/-- Method `UIHelper::onKeyUp`. -/
def onKeyUp (h : UIHelper) (_e : SDL_KeyboardEvent) : UIHelper × List MainCall :=
  (h, [])

/-- Method `UIHelper::onMouseButtonDown`. -/
def onMouseButtonDown (h : UIHelper) (e : SDL_MouseButtonEvent) : UIHelper × List MainCall :=
  let h1 := { h with mouseDown := true }
  let point := h1.windowToWorld e.x e.y
  if h1.dragMode = .DrawMode then
    ({ h1 with polyline := h1.polyline ++ [point] }, [])
  else
    (h1, [.attachMouse point])

/-- Method `UIHelper::onMouseButtonUp`. -/
def onMouseButtonUp (h : UIHelper) (_e : SDL_MouseButtonEvent) : UIHelper × List MainCall :=
  let h1 := { h with mouseDown := false }
  if h1.dragMode = .DrawMode then
    let calls : List MainCall := if h1.polyline.length > 1 then [.addPolyline h1.polyline] else []
    ({ h1 with polyline := [] }, calls)
  else
    (h1, [.detachMouse])

/-- Method `UIHelper::onMouseMotion`.  The result is `none` where the source
reads `polyline.back()` of an empty vector, which is undefined. -/
def onMouseMotion (h : UIHelper) (e : SDL_MouseMotionEvent) :
    Option (UIHelper × List MainCall) :=
  if !h.mouseDown then some (h, [])
  else
    let point := h.windowToWorld e.x e.y
    if h.dragMode = .DrawMode then
      match h.polyline.getLast? with
      | none => none
      | some back =>
        if glmLengthGt (point - back) h.edgeMin then
          some ({ h with polyline := h.polyline ++ [point] }, [])
        else some (h, [])
    else
      some (h, [.moveMouse point])

end UIHelper

/-! ## Scene (`main.cpp`) -/

/-- The C library generator behind `rand()`: the constant `RAND_MAX`, the values
that successive calls return, and the number of calls made so far. -/
structure Rand where
  RAND_MAX : Nat
  values : Nat → Nat
  calls : Nat

/-- Function `rand()`. -/
def Rand.rand (r : Rand) : Nat × Rand :=
  (r.values r.calls, { r with calls := r.calls + 1 })

/-- Constructor `Circle(center, radius, world_ptr)`. -/
def Circle.create (center : Vec2) (radius : ℚ) (world : B2World) : Circle × B2World :=
  let circle_def : BodyDef :=
    { BodyDef.default with
      type := .b2_dynamicBody, position := center, linearVelocity := ⟨0, 0⟩,
      angularVelocity := 1 / 10 }
  let (w1, circle_body) := world.CreateBody circle_def
  let fixtureDef : FixtureDef := ⟨.circle ⟨0, 0⟩ radius, 2 / 10, 4 / 10, 4 / 10⟩
  let w2 := w1.CreateFixture circle_body fixtureDef
  (⟨center, radius, circle_body⟩, w2)

/-- Constructor `Box(center, size, world_ptr)`. -/
def Box.create (center size : Vec2) (world : B2World) : Box × B2World :=
  let rect_def : BodyDef :=
    { BodyDef.default with
      type := .b2_dynamicBody, position := center, linearVelocity := ⟨0, 0⟩,
      angularVelocity := 1 / 10 }
  let (w1, rect_body) := world.CreateBody rect_def
  let fixtureDef_box : FixtureDef := ⟨.box (size.x / 2) (size.y / 2), 2 / 10, 4 / 10, 4 / 10⟩
  let w2 := w1.CreateFixture rect_body fixtureDef_box
  (⟨center, size, rect_body⟩, w2)

/-- Constructor `Polyline(vertices, world_ptr)` for a non-empty vertex list and
a physics library whose `CreateChain` accepts it: the constructor as the scene
runs it.  `Polyline.construct` below is the constructor for every list. -/
def Polyline.create (vertices : List Vec2) (world : B2World) : Polyline × B2World :=
  let chain_def : BodyDef :=
    { BodyDef.default with
      type := .b2_staticBody, position := ⟨0, 0⟩, linearVelocity := ⟨0, 0⟩,
      angularVelocity := 0 }
  let (w1, chain_body) := world.CreateBody chain_def
  let fixtureDef_chain : FixtureDef := ⟨.chain vertices, 1, 4 / 10, 4 / 10⟩
  let w2 := w1.CreateFixture chain_body fixtureDef_chain
  (⟨vertices, chain_body⟩, w2)

/-- Modelled from the spec: `b2ChainShape::CreateChain(vertices, count)` of the
physics library, which is not among the sources, taken as a parameter: the chain
shape that the library builds over the first `count` points of the array, or
`none` where it does not return one. -/
abbrev ChainFactory := List Vec2 → Nat → Option Shape

/-- The chain factory that accepts every array, as the scene assumes of the
library. -/
def ChainFactory.permissive : ChainFactory :=
  fun vertices count => some (.chain (vertices.take count))

/-- The ways in which the constructor `Polyline(vertices, world_ptr)` does not
return: `undefinedRead` is the read `bv2vertices[0]` of an empty vector, which is
undefined; `chainRejected` is a call `chain.CreateChain(v, bv2vertices.size())`
that does not return a shape. -/
inductive PolylineFailure where
  | undefinedRead
  | chainRejected
deriving DecidableEq, Repr

/-- Constructor `Polyline(vertices, world_ptr)` for every vertex list, step by
step: the vertices are copied to `bv2vertices`, the address of its element 0 is
taken, `CreateChain` builds the chain shape from that address and the size, and
only then the body and its fixture are created. -/
def Polyline.construct (createChain : ChainFactory) (vertices : List Vec2) (world : B2World) :
    Except PolylineFailure (Polyline × B2World) :=
  let bv2vertices : List Vec2 := vertices.map fun v => ⟨v.x, v.y⟩
  match bv2vertices.head? with
  | none => .error .undefinedRead
  | some _ =>
    match createChain bv2vertices bv2vertices.length with
    | none => .error .chainRejected
    | some chain =>
      let chain_def : BodyDef :=
        { BodyDef.default with
          type := .b2_staticBody, position := ⟨0, 0⟩, linearVelocity := ⟨0, 0⟩,
          angularVelocity := 0 }
      let (w1, chain_body) := world.CreateBody chain_def
      let fixtureDef_chain : FixtureDef := ⟨chain, 1, 4 / 10, 4 / 10⟩
      let w2 := w1.CreateFixture chain_body fixtureDef_chain
      .ok (⟨vertices, chain_body⟩, w2)

/-- Class `PencilPhysics`: the members that the scene operations use, the flag
`userQuit` inherited from `Engine`, and the state of `rand()`. -/
structure PencilPhysics where
  userQuit : Bool
  uiHelper : UIHelper
  world : B2World
  walls : Polyline
  redCircle : Circle
  whiteBox : Box
  circles : List Circle
  boxes : List Box
  polylines : List Polyline
  bodies : List BodyPtr
  mouseJoint : JointPtr
  worldMin : Vec2
  worldMax : Vec2
  rng : Rand

/-- The values of the members that the constructor of `PencilPhysics` leaves
uninitialized. -/
structure Indeterminate where
  mouseJoint : JointPtr
  redCircle_body : BodyPtr
  whiteBox_body : BodyPtr

namespace PencilPhysics

/-- Method `PencilPhysics::initWorld`. -/
def initWorld (s : PencilPhysics) (u : Indeterminate) : PencilPhysics :=
  -- ground body
  let groundDef : BodyDef := { BodyDef.default with position := ⟨0, 0⟩ }
  let (w1, groundBody) := s.world.CreateBody groundDef
  let w2 := w1.CreateFixture groundBody ⟨.box 16 (1 / 2), 0, 2 / 10, 0⟩
  -- walls
  let wallVerts : List Vec2 :=
    [⟨s.worldMin.x, s.worldMax.y⟩, ⟨s.worldMin.x, s.worldMin.y⟩,
     ⟨s.worldMax.x, s.worldMin.y⟩, ⟨s.worldMax.x, s.worldMax.y⟩]
  let (walls, w3) := Polyline.create wallVerts w2
  let polylines := s.polylines ++ [walls]
  -- the two static shapes
  let redCircle : Circle := ⟨⟨-5, 2⟩, 1 / 2, u.redCircle_body⟩
  let whiteBox : Box := ⟨⟨5, 2⟩, ⟨9 / 10, 9 / 10⟩, u.whiteBox_body⟩
  let red_body_def : BodyDef :=
    { BodyDef.default with
      type := .b2_staticBody, position := redCircle.center, linearVelocity := ⟨0, 0⟩,
      angularVelocity := 1 / 10 }
  let (w4, red_circle_body) := w3.CreateBody red_body_def
  let w5 := w4.CreateFixture red_circle_body
    ⟨.circle ⟨0, 0⟩ redCircle.radius, 2 / 10, 4 / 10, 4 / 10⟩
  let white_rect_def : BodyDef :=
    { BodyDef.default with
      type := .b2_staticBody, position := whiteBox.center, linearVelocity := ⟨0, 0⟩,
      angularVelocity := 1 / 10 }
  let (w6, white_rect_body) := w5.CreateBody white_rect_def
  let w7 := w6.CreateFixture white_rect_body
    ⟨.box (whiteBox.size.x / 2) (whiteBox.size.y / 2), 2 / 10, 4 / 10, 4 / 10⟩
  { s with
    world := w7, walls := walls, polylines := polylines, redCircle := redCircle,
    whiteBox := whiteBox, bodies := s.bodies ++ [red_circle_body, white_rect_body] }

/-- Constructor `PencilPhysics()`. -/
def new (u : Indeterminate) (rng : Rand) : PencilPhysics :=
  let worldMin : Vec2 := ⟨-8, 0⟩
  let worldMax : Vec2 := ⟨8, 9⟩
  let s : PencilPhysics :=
    { userQuit := false
      uiHelper := UIHelper.new worldMin worldMax 1280 720
      world := ⟨⟨0, -98 / 10⟩, [], [], 0, []⟩
      walls := ⟨[], none⟩
      redCircle := ⟨⟨0, 0⟩, 0, u.redCircle_body⟩
      whiteBox := ⟨⟨0, 0⟩, ⟨0, 0⟩, u.whiteBox_body⟩
      circles := [], boxes := [], polylines := [], bodies := []
      mouseJoint := u.mouseJoint
      worldMin := worldMin, worldMax := worldMax, rng := rng }
  s.initWorld u

/-- Method `PencilPhysics::randomVec2`. -/
def randomVec2 (s : PencilPhysics) : Vec2 × PencilPhysics :=
  let (a, r1) := s.rng.rand
  let (b, r2) := r1.rand
  (⟨2 * (a : ℚ) / (s.rng.RAND_MAX : ℚ) - 1, 2 * (b : ℚ) / (s.rng.RAND_MAX : ℚ) - 1⟩,
   { s with rng := r2 })

/-- Method `PencilPhysics::addCircle`. -/
def addCircle (s : PencilPhysics) : PencilPhysics :=
  let (r, s1) := s.randomVec2
  let position : Vec2 := (⟨-5, 7⟩ : Vec2) + ((1 / 2 : ℚ) * r : Vec2)
  let (c, w) := Circle.create position (1 / 2) s1.world
  { s1 with circles := s1.circles ++ [c], world := w }

/-- Method `PencilPhysics::addBox`. -/
def addBox (s : PencilPhysics) : PencilPhysics :=
  let (r, s1) := s.randomVec2
  let position : Vec2 := (⟨-5, 7⟩ : Vec2) + ((1 / 2 : ℚ) * r : Vec2)
  let (b, w) := Box.create position ⟨12 / 10, 6 / 10⟩ s1.world
  { s1 with boxes := s1.boxes ++ [b], world := w }

/-- Method `PencilPhysics::addPolyline`. -/
def addPolyline (s : PencilPhysics) (vertices : List Vec2) : PencilPhysics :=
  let (p, w) := Polyline.create vertices s.world
  { s with polylines := s.polylines ++ [p], world := w }

/-- Method `PencilPhysics::clear`. -/
def clear (s : PencilPhysics) : PencilPhysics :=
  let w1 := s.circles.foldl (fun w c => w.DestroyBody c.circle_body) s.world
  let w2 := s.boxes.foldl (fun w b => w.DestroyBody b.rect_body) w1
  let w3 := s.polylines.foldl (fun w p => w.DestroyBody p.chain_body) w2
  { s with circles := [], boxes := [], polylines := [], world := w3 }

/-- The two scanning loops of `PencilPhysics::attachMouse`: the value of the
local variable `attachment` after them. -/
def attachment (s : PencilPhysics) (worldPoint : Vec2) : BodyPtr :=
  let a1 := s.circles.foldl
    (fun a c => if c.contains worldPoint then c.circle_body else a) (none : BodyPtr)
  s.boxes.foldl (fun a b => if b.contains worldPoint then b.rect_body else a) a1

/-- Method `PencilPhysics::attachMouse`.  The result is `none` where the source
reads `bodies[0]` of an empty vector, which is undefined. -/
def attachMouse (s : PencilPhysics) (worldPoint : Vec2) : Option PencilPhysics :=
  let attachment := s.attachment worldPoint
  if attachment ≠ none then
    match s.bodies with
    | [] => none
    | body0 :: _ =>
      let mouseJointDef : MouseJointDef :=
        { bodyA := body0, bodyB := attachment, target := ⟨worldPoint.x, worldPoint.y⟩,
          collideConnected := true, maxForce := 100, frequencyHz := 2,
          dampingRatio := 1 / 2 }
      let (w, j) := s.world.CreateJoint mouseJointDef
      some { s with world := w, mouseJoint := j }
  else some s

/-- Method `PencilPhysics::moveMouse`. -/
def moveMouse (s : PencilPhysics) (worldPoint : Vec2) : PencilPhysics :=
  if s.mouseJoint ≠ none then
    { s with world := s.world.SetTarget s.mouseJoint ⟨worldPoint.x, worldPoint.y⟩ }
  else s

/-- Method `PencilPhysics::detachMouse`. -/
def detachMouse (s : PencilPhysics) : PencilPhysics :=
  if s.mouseJoint ≠ none then
    { s with world := s.world.DestroyJoint s.mouseJoint, mouseJoint := none }
  else s

/-- Execution of one call through the interface `UIMain`, which `PencilPhysics`
implements. -/
def call (s : PencilPhysics) : MainCall → Option PencilPhysics
  | .addCircle => some s.addCircle
  | .addBox => some s.addBox
  | .addPolyline vertices => some (s.addPolyline vertices)
  | .clear => some s.clear
  | .attachMouse point => s.attachMouse point
  | .moveMouse point => some (s.moveMouse point)
  | .detachMouse => some s.detachMouse

/-- Execution of a sequence of `UIMain` calls, in order. -/
def calls (s : PencilPhysics) : List MainCall → Option PencilPhysics
  | [] => some s
  | c :: cs => (s.call c).bind fun s1 => s1.calls cs

end PencilPhysics

/-- The events that `Engine::handleInput` dispatches. -/
inductive SDL_Event where
  | SDL_QUIT
  | SDL_KEYDOWN (key : SDL_KeyboardEvent)
  | SDL_KEYUP (key : SDL_KeyboardEvent)
  | SDL_MOUSEMOTION (motion : SDL_MouseMotionEvent)
  | SDL_MOUSEBUTTONDOWN (button : SDL_MouseButtonEvent)
  | SDL_MOUSEBUTTONUP (button : SDL_MouseButtonEvent)
  | other
deriving DecidableEq, Repr

namespace PencilPhysics

/-- The handlers `onKeyDown`, `onKeyUp`, `onMouseButtonDown`, `onMouseButtonUp`
and `onMouseMotion` of `PencilPhysics` forward to `uiHelper`; the calls that the
helper makes through `main` run on the application. -/
def forward (s : PencilPhysics) (r : Option (UIHelper × List MainCall)) :
    Option PencilPhysics :=
  r.bind fun (ui, cs) => ({ s with uiHelper := ui }).calls cs

/-- The body of the loop of `Engine::handleInput`: dispatch of one event. -/
def dispatch (s : PencilPhysics) : SDL_Event → Option PencilPhysics
  | .SDL_QUIT => some { s with userQuit := true }
  | .SDL_KEYDOWN key => s.forward (some (s.uiHelper.onKeyDown key))
  | .SDL_KEYUP key => s.forward (some (s.uiHelper.onKeyUp key))
  | .SDL_MOUSEMOTION motion => s.forward (s.uiHelper.onMouseMotion motion)
  | .SDL_MOUSEBUTTONDOWN button => s.forward (some (s.uiHelper.onMouseButtonDown button))
  | .SDL_MOUSEBUTTONUP button => s.forward (some (s.uiHelper.onMouseButtonUp button))
  | .other => some s

/-- Method `Engine::handleInput` on the events that `SDL_PollEvent` delivers. -/
def handleInput (s : PencilPhysics) : List SDL_Event → Option PencilPhysics
  | [] => some s
  | e :: es => (s.dispatch e).bind fun s1 => s1.handleInput es

/-- The loop of `advanceState` over `circles`: every cached centre is read back
from the body.  The result is `none` where a body pointer refers to no body. -/
def syncCircles (w : B2World) : List Circle → Option (List Circle)
  | [] => some []
  | c :: cs =>
    (w.GetPosition c.circle_body).bind fun p =>
      (syncCircles w cs).map fun rest => { c with center := ⟨p.x, p.y⟩ } :: rest

/-- The loop of `advanceState` over `boxes`; only the position is read back. -/
def syncBoxes (w : B2World) : List Box → Option (List Box)
  | [] => some []
  | b :: bs =>
    (w.GetPosition b.rect_body).bind fun p =>
      (syncBoxes w bs).map fun rest => { b with center := ⟨p.x, p.y⟩ } :: rest

/-- Method `PencilPhysics::advanceState`.  The result is `none` where the source
reads through a pointer that refers to no body, or reads `bodies[0]` or
`bodies[1]` beyond the end of the vector. -/
def advanceState (s : PencilPhysics) (solve : Solver) (dt : ℚ) : Option PencilPhysics :=
  let w := s.world.Step solve dt 8 3
  (syncCircles w s.circles).bind fun circles =>
    (syncBoxes w s.boxes).bind fun boxes =>
      match s.bodies with
      | body0 :: body1 :: _ =>
        (w.GetPosition body0).bind fun p0 =>
          (w.GetPosition body1).bind fun p1 =>
            some { s with
              world := w, circles := circles, boxes := boxes
              redCircle := { s.redCircle with center := ⟨p0.x, p0.y⟩ }
              whiteBox := { s.whiteBox with center := ⟨p1.x, p1.y⟩ } }
      | _ => none

/-- Method `PencilPhysics::run` on the events that each iteration polls:
`handleInput`, then `advanceState(1/60)`.  The calls `drawGraphics` and
`waitForNextFrame` change none of the members modelled here. -/
def run (s : PencilPhysics) (solve : Solver) : List (List SDL_Event) → Option PencilPhysics
  | [] => some s
  | events :: rest =>
    if s.userQuit then some s
    else
      (s.handleInput events).bind fun s1 =>
        (s1.advanceState solve (1 / 60)).bind fun s2 => s2.run solve rest

end PencilPhysics

/-- The scene invariant that the constructor establishes and that every event
and every step keeps: the anchor pointers are the handles 2 and 3, handles in
use are below the next free one, every cached centre is the position of the
body of its shape, the bodies of the shapes in the collections are not the
anchors, and every polyline and every chain fixture has at least two
vertices. -/
structure WellFormed (s : PencilPhysics) : Prop where
  bodies_eq : s.bodies = [some 2, some 3]
  next_ge : 4 ≤ s.world.nextHandle
  fresh : ∀ b ∈ s.world.bodies, b.id < s.world.nextHandle
  red : s.world.GetPosition (some 2) = some s.redCircle.center
  white : s.world.GetPosition (some 3) = some s.whiteBox.center
  circles : ∀ c ∈ s.circles, ∃ id : Nat,
    c.circle_body = some id ∧ 4 ≤ id ∧ s.world.GetPosition (some id) = some c.center
  boxes : ∀ b ∈ s.boxes, ∃ id : Nat,
    b.rect_body = some id ∧ 4 ≤ id ∧ s.world.GetPosition (some id) = some b.center
  polylines : ∀ p ∈ s.polylines,
    (∃ id : Nat, p.chain_body = some id ∧ (id = 1 ∨ 4 ≤ id)) ∧ 2 ≤ p.vertices.length
  chains : ∀ (ptr : BodyPtr) (vs : List Vec2) (d f r : ℚ),
    WorldCall.createFixture ptr ⟨.chain vs, d, f, r⟩ ∈ s.world.calls → 2 ≤ vs.length

/-- The calls through `UIMain` that hand over a polyline hand over at least two
points. -/
def MainCall.ok : MainCall → Prop
  | .addPolyline vertices => 2 ≤ vertices.length
  | _ => True

/-- The controller invariant: the accumulator is empty while no button is down
and in `PullMode`, and holds a point while a stroke is drawn. -/
structure UIHelper.Consistent (h : UIHelper) : Prop where
  up_empty : h.mouseDown = false → h.polyline = []
  pull_empty : h.dragMode = .PullMode → h.polyline = []
  draw_nonempty : h.dragMode = .DrawMode → h.mouseDown = true → h.polyline ≠ []

/-! ## Frame pacing (`engine.hpp`) -/

/-- The conversion `(int)` of a `float`: truncation toward zero. -/
def truncToInt (q : ℚ) : Int := if 0 ≤ q then ⌊q⌋ else ⌈q⌉

/-- The member of class `Engine` that paces the frames.  Times are milliseconds
as `SDL_GetTicks()` counts them, taken to stay within the range of `int`. -/
structure Engine where
  lastFrameTime : Int
deriving DecidableEq, Repr

/-- Constructor `Engine()`, as far as the frame timer goes. -/
def Engine.new : Engine := ⟨0⟩

/-- Method `Engine::waitForNextFrame`, for the value `now` that `SDL_GetTicks()`
returns: the engine afterwards and the argument of `SDL_Delay`, if it is
called. -/
def Engine.waitForNextFrame (e : Engine) (now : Int) (secondsPerFrame : ℚ) :
    Engine × Option Int :=
  let millisPerFrame := truncToInt (1000 * secondsPerFrame)
  let nextFrameTime := e.lastFrameTime + millisPerFrame
  let e1 : Engine := { e with lastFrameTime := now }
  if nextFrameTime > now then (e1, some (nextFrameTime - now)) else (e1, none)

/-- The times at which the calls of `waitForNextFrame` at the end of the
iterations of `run` return, when the clock reads `clock` at the start, the rest
of each iteration takes the given number of milliseconds, and `SDL_Delay` sleeps
exactly the requested time. -/
def Engine.frameReturns (e : Engine) (clock : Int) (secondsPerFrame : ℚ) :
    List Nat → List Int
  | [] => []
  | work :: rest =>
    let now := clock + (work : Int)
    let r := e.waitForNextFrame now secondsPerFrame
    let returned := now + r.2.getD 0
    returned :: Engine.frameReturns r.1 returned secondsPerFrame rest

/-! ## Drawing polylines (`draw.hpp`, `mesh.hpp`) -/

/-- Class `Mesh2D`; the two buffers are modelled by their contents, and the
indices of `ivec2`, which are never negative, are natural numbers. -/
structure Mesh2D where
  vertices : List Vec2
  edges : List (Nat × Nat)
  vertexBuffer : List Vec2
  indexBuffer : List Nat
deriving DecidableEq, Repr

/-- The loop of `Mesh2D::createGPUData` that flattens the edges. -/
def Mesh2D.indices : List (Nat × Nat) → List Nat
  | [] => []
  | e :: es => e.1 :: e.2 :: Mesh2D.indices es

/-- Method `Mesh2D::createGPUData`. -/
def Mesh2D.createGPUData (m : Mesh2D) : Mesh2D :=
  { m with vertexBuffer := m.vertices, indexBuffer := Mesh2D.indices m.edges }

/-- Method `Engine::copyVertexData` on the contents of the buffer: the data
overwrite the start of the buffer.  The result is `none` where the data exceed
the buffer, which `dieIfOpenGLError` turns into an exit. -/
def copyVertexData (buffer data : List Vec2) : Option (List Vec2) :=
  if data.length ≤ buffer.length then some (data ++ buffer.drop data.length) else none

/-- The lines that `GL_LINES` draws for a sequence of indices: one per pair of
indices, between the vertices that they name.  The result is `none` where an
index lies outside the vertex buffer. -/
def linesOf (vertexBuffer : List Vec2) : List Nat → Option (List (Vec2 × Vec2))
  | a :: b :: rest =>
    (vertexBuffer.get? a).bind fun pa =>
      (vertexBuffer.get? b).bind fun pb =>
        (linesOf vertexBuffer rest).map fun ls => (pa, pb) :: ls
  | _ => some []

/-- Method `Engine::drawElements` with mode `GL_LINES`, on the contents of the
buffers: the lines drawn.  The result is `none` for a negative count or a count
beyond the index buffer. -/
def drawElements (vertexBuffer : List Vec2) (indexBuffer : List Nat) (count : Int) :
    Option (List (Vec2 × Vec2)) :=
  if count < 0 ∨ (indexBuffer.length : Int) < count then none
  else linesOf vertexBuffer (indexBuffer.take count.toNat)

/-- Class `Draw`, as far as polylines go. -/
structure Draw where
  polylineMesh : Mesh2D
  maxVerts : Int
deriving DecidableEq, Repr

/-- One pass of the loop of `Draw::polyline`: the index of the first copied
vertex, the number of vertices copied, the number of elements requested from
`Draw::mesh`, and the lines drawn. -/
structure Chunk where
  start : Int
  copied : Int
  nElements : Int
  lines : List (Vec2 × Vec2)
deriving DecidableEq, Repr

namespace Draw

/-- Constructor `Draw(engine)`, as far as polylines go. -/
def new : Draw :=
  let maxVerts : Nat := 100
  let polylineMesh : Mesh2D :=
    { vertices := List.replicate maxVerts ⟨0, 0⟩
      edges := (List.range (maxVerts - 1)).map fun i => (i, i + 1)
      vertexBuffer := [], indexBuffer := [] }
  { polylineMesh := polylineMesh.createGPUData, maxVerts := maxVerts }

/-- Method `Draw::mesh`: the lines drawn.  Shader and transformation do not
bear on which lines are drawn and are left out. -/
def mesh (m : Mesh2D) (nElements : Int) : Option (List (Vec2 × Vec2)) :=
  let n : Int := if nElements < 0 then (m.edges.length : Int) else nElements
  drawElements m.vertexBuffer m.indexBuffer (n * 2)

/-- The loop of `Draw::polyline` from index `i` on, with a bound on the number
of passes: the result is `none` when the bound is reached, and where a callee
fails.  A comparison of an `int` with `vertices.size()` converts the `int` to
an unsigned type, which makes a negative value larger than every size. -/
def polylineLoop (vertices : List Vec2) : Nat → Draw → Int → Option (Draw × List Chunk)
  | 0, _, _ => none
  | fuel + 1, d, i =>
    if 0 ≤ i ∧ i < (vertices.length : Int) then
      let start := i
      let stop0 := i + d.maxVerts
      let stop : Int :=
        if stop0 < 0 ∨ stop0 > (vertices.length : Int) then (vertices.length : Int) else stop0
      if stop - start < 0 then none
      else
        (copyVertexData d.polylineMesh.vertexBuffer
            ((vertices.drop start.toNat).take (stop - start).toNat)).bind fun vb =>
          let d1 : Draw := { d with polylineMesh := { d.polylineMesh with vertexBuffer := vb } }
          (Draw.mesh d1.polylineMesh (stop - start - 1)).bind fun lines =>
            (polylineLoop vertices fuel d1 (i + (d.maxVerts - 1))).map fun r =>
              (r.1, ⟨start, stop - start, stop - start - 1, lines⟩ :: r.2)
    else some (d, [])

/-- Method `Draw::polyline`, with a bound on the number of passes of its
loop. -/
def polyline (d : Draw) (vertices : List Vec2) (fuel : Nat) : Option (Draw × List Chunk) :=
  polylineLoop vertices fuel d 0

end Draw

/-- The segments of a polyline: the pairs of consecutive vertices, in order. -/
def segments (vertices : List Vec2) : List (Vec2 × Vec2) := vertices.zip vertices.tail

/-- The state in which the constructor leaves the polyline mesh and which
`Draw::polyline` keeps: 100 vertices per pass, a vertex buffer of 100 vertices
and the indices of the edges (i, i+1) for i below 99. -/
structure Draw.Ready (d : Draw) : Prop where
  maxVerts_eq : d.maxVerts = 100
  vertexBuffer_length : d.polylineMesh.vertexBuffer.length = 100
  indexBuffer_eq : d.polylineMesh.indexBuffer =
    Mesh2D.indices ((List.range 99).map fun i => (i, i + 1))

/-- The lines drawn by a sequence of passes, in the order of drawing. -/
def Chunk.allLines : List Chunk → List (Vec2 × Vec2)
  | [] => []
  | c :: cs => c.lines ++ Chunk.allLines cs

end Pencil

/-! ## Binary32 arithmetic

The type `float` of the sources is IEEE 754 binary32.  A finite value is carried
as the rational number it denotes; an operation computes the exact result and
rounds it to the nearest representable value, the one with the even significand
at a tie, or to an infinity beyond the largest finite value.  Every operation
is rounded on its own: no fused multiplication and addition and no
intermediate precision above binary32 is assumed. -/

namespace Pencil

/-- A value of the type `float`: a finite number, an infinity or a NaN.  The two
zeros are not distinguished. -/
inductive F32 where
  | finite (q : ℚ)
  | inf (negative : Bool)
  | nan
deriving DecidableEq, Repr

namespace F32

/-- The largest finite binary32 value. -/
def maxFinite : ℚ := (2 ^ 24 - 1) * 2 ^ 104

/-- The exponent of the unit in the last place for a number of the magnitude of
`q`: 23 below the binary exponent of `q`, and -149 in the subnormal range. -/
def ulpExp (q : ℚ) : ℤ := max (-149) (Int.log 2 |q| - 23)

/-- The integer nearest to `q`, the even one where two integers are equally
near. -/
def roundHalfEven (q : ℚ) : ℤ :=
  if q - ⌊q⌋ < 1 / 2 then ⌊q⌋
  else if 1 / 2 < q - ⌊q⌋ then ⌊q⌋ + 1
  else if ⌊q⌋ % 2 = 0 then ⌊q⌋ else ⌊q⌋ + 1

/-- The multiple of `2 ^ e` nearest to `q`, the even multiple at a tie. -/
def roundAt (e : ℤ) (q : ℚ) : ℚ := roundHalfEven (q / 2 ^ e) * 2 ^ e

/-- Round to nearest, ties to even, with a significand of 24 bits and no bound
on the exponent from above. -/
def rne (q : ℚ) : ℚ := roundAt (ulpExp q) q

/-- A number with a significand of at most 24 bits and an exponent of at least
-149. -/
def Rep (q : ℚ) : Prop := ∃ m e : ℤ, |m| < 2 ^ 24 ∧ -149 ≤ e ∧ q = m * 2 ^ e

/-- A finite binary32 value: representable and not beyond the largest finite
value. -/
def IsFinite (q : ℚ) : Prop := Rep q ∧ |q| ≤ maxFinite

/-- The square root of a non-negative number rounded to nearest, ties to even:
the argument is scaled by a power of four so that the integer part of its root
has 24 bits, and the integer root is corrected by comparing with the midpoint. -/
def sqrtRne (q : ℚ) : ℚ :=
  let e : ℤ := max (-149) (Int.log 2 q / 2 - 23)
  let n : ℚ := q / 4 ^ e
  let k : ℕ := Nat.sqrt ⌊n⌋₊
  let m : ℕ :=
    if 4 * n < (2 * k + 1) ^ 2 then k
    else if ((2 * k + 1) ^ 2 : ℚ) < 4 * n then k + 1
    else if k % 2 = 0 then k else k + 1
  m * 2 ^ e

/-- A rational number rounded to binary32: the nearest value, the one with the
even significand at a tie, and an infinity beyond the largest finite value. -/
def ofRat (q : ℚ) : F32 :=
  if |rne q| ≤ maxFinite then finite (rne q) else inf (decide (q < 0))

/-- Conversion of an `int` to `float`. -/
def ofInt (n : ℤ) : F32 := ofRat n

/-- Unary minus. -/
def neg : F32 → F32
  | finite q => finite (-q)
  | inf s => inf (!s)
  | nan => nan

/-- Function `abs` on `float`. -/
def abs : F32 → F32
  | finite q => finite |q|
  | inf _ => inf false
  | nan => nan

/-- Operator `+` on `float`. -/
def add : F32 → F32 → F32
  | finite a, finite b => ofRat (a + b)
  | finite _, inf s => inf s
  | inf s, finite _ => inf s
  | inf s, inf t => if s = t then inf s else nan
  | _, _ => nan

/-- Operator `-` on `float`. -/
def sub (a b : F32) : F32 := add a (neg b)

/-- Operator `*` on `float`. -/
def mul : F32 → F32 → F32
  | finite a, finite b => ofRat (a * b)
  | finite a, inf s => if a = 0 then nan else inf (xor (decide (a < 0)) s)
  | inf s, finite b => if b = 0 then nan else inf (xor s (decide (b < 0)))
  | inf s, inf t => inf (xor s t)
  | _, _ => nan

/-- Operator `/` on `float`.  A zero divisor is taken as `+0`: the divisors in
the sources are converted from an `int`. -/
def div : F32 → F32 → F32
  | finite a, finite b =>
    if b = 0 then (if a = 0 then nan else inf (decide (a < 0))) else ofRat (a / b)
  | finite _, inf _ => finite 0
  | inf s, finite b => inf (xor s (decide (b < 0)))
  | _, _ => nan

/-- Function `sqrt` on `float`. -/
def sqrt : F32 → F32
  | finite a => if a < 0 then nan else finite (sqrtRne a)
  | inf false => inf false
  | inf true => nan
  | nan => nan

/-- Comparison `a <= b` on `float`; every comparison with a NaN is false. -/
def le : F32 → F32 → Bool
  | finite a, finite b => decide (a ≤ b)
  | finite _, inf s => !s
  | inf s, finite _ => s
  | inf s, inf t => s || !t
  | _, _ => false

/-- Comparison `a < b` on `float`. -/
def lt : F32 → F32 → Bool
  | finite a, finite b => decide (a < b)
  | finite _, inf s => !s
  | inf s, finite _ => s
  | inf s, inf t => s && !t
  | _, _ => false

/-- Comparison `a > b` on `float`. -/
def gt (a b : F32) : Bool := lt b a

/-- The rounded sum of the rounded squares of the roundings of `a` and `b`, as
`glm::length` forms it before the square root. -/
def sumSq (a b : ℚ) : ℚ := rne (rne (rne a * rne a) + rne (rne b * rne b))

/-- The value of `glm::length` on a vector whose components are the roundings of
`a` and `b`, when nothing overflows. -/
def lengthRne (a b : ℚ) : ℚ := sqrtRne (sumSq a b)

end F32

/-! ## The numerical operations in binary32

The operations of `shapes.hpp` and `uihelper.hpp` that compute with `float`,
with every operation rounded. -/

namespace Rounded

/-- The type `glm::vec2` with binary32 components. -/
structure Vec2 where
  x : F32
  y : F32
deriving DecidableEq, Repr

instance : Add Vec2 := ⟨fun a b => ⟨F32.add a.x b.x, F32.add a.y b.y⟩⟩
instance : Sub Vec2 := ⟨fun a b => ⟨F32.sub a.x b.x, F32.sub a.y b.y⟩⟩
/-- Componentwise product, as `glm` defines `vec2 * vec2`. -/
instance : Mul Vec2 := ⟨fun a b => ⟨F32.mul a.x b.x, F32.mul a.y b.y⟩⟩

/-- A vector with rational components, read as a vector of finite binary32
values. -/
def Vec2.ofExact (v : Pencil.Vec2) : Vec2 := ⟨.finite v.x, .finite v.y⟩

/-- Function `glm::length` on `vec2`: the square root of the dot product of the
vector with itself, which is the sum of the two squares. -/
def glmLength (v : Vec2) : F32 :=
  F32.sqrt (F32.add (F32.mul v.x v.x) (F32.mul v.y v.y))

/-- Class `Circle` with binary32 members. -/
structure Circle where
  center : Vec2
  radius : F32
  circle_body : BodyPtr
deriving DecidableEq, Repr

/-- Class `Box` with binary32 members; `size` is the full width and height. -/
structure Box where
  center : Vec2
  size : Vec2
  rect_body : BodyPtr
deriving DecidableEq, Repr

/-- The arguments `size.x/2` and `size.y/2` of `polygon.SetAsBox` in the
constructor `Box(center, size, world_ptr)`: the half extents of the box
fixture. -/
def Box.halfExtents (size : Vec2) : Vec2 :=
  ⟨F32.div size.x (F32.ofInt 2), F32.div size.y (F32.ofInt 2)⟩

/-- Method `Circle::contains`. -/
def Circle.contains (c : Circle) (worldPoint : Vec2) : Bool :=
  F32.le (glmLength (worldPoint - c.center)) c.radius

/-- Method `Box::contains`; `abs` is the floating-point absolute value and the
divisor `2` is converted to `float`. -/
def Box.contains (b : Box) (worldPoint : Vec2) : Bool :=
  let d := worldPoint - b.center
  F32.le (F32.abs d.x) (F32.div b.size.x (F32.ofInt 2)) &&
    F32.le (F32.abs d.y) (F32.div b.size.y (F32.ofInt 2))

/-- A call of a method of the interface `UIMain`, with its argument. -/
inductive MainCall where
  | addCircle
  | addBox
  | addPolyline (vertices : List Vec2)
  | clear
  | attachMouse (point : Vec2)
  | moveMouse (point : Vec2)
  | detachMouse
deriving DecidableEq, Repr

/-- Class `UIHelper` with binary32 members, without the pointer `main`. -/
structure UIHelper where
  worldMin : Vec2
  worldMax : Vec2
  width : Int
  height : Int
  dragMode : DragMode
  mouseDown : Bool
  polyline : List Vec2
  edgeMin : F32
deriving DecidableEq, Repr

/-- The literal `0.1` of type `double`: the binary64 value nearest to one
tenth. -/
def doubleTenth : ℚ := 3602879701896397 / 2 ^ 55

namespace UIHelper

/-- Constructor `UIHelper(main, worldMin, worldMax, w, h)`; the assignment
`edgeMin = 0.1` converts the `double` literal to `float`. -/
def new (worldMin worldMax : Vec2) (w h : Int) : UIHelper :=
  { worldMin := worldMin, worldMax := worldMax, width := w, height := h,
    dragMode := .DrawMode, mouseDown := false, polyline := [],
    edgeMin := F32.ofRat doubleTenth }

/-- Method `UIHelper::windowToWorld`: both pixel numbers and both window sizes
are converted to `float`. -/
def windowToWorld (h : UIHelper) (x y : Int) : Vec2 :=
  let u : Vec2 := ⟨F32.div (F32.ofInt x) (F32.ofInt h.width),
    F32.div (F32.ofInt (h.height - 1 - y)) (F32.ofInt h.height)⟩
  h.worldMin + u * (h.worldMax - h.worldMin)

/-- Method `UIHelper::onMouseButtonDown`. -/
def onMouseButtonDown (h : UIHelper) (e : SDL_MouseButtonEvent) : UIHelper × List MainCall :=
  let h1 := { h with mouseDown := true }
  let point := h1.windowToWorld e.x e.y
  if h1.dragMode = .DrawMode then
    ({ h1 with polyline := h1.polyline ++ [point] }, [])
  else
    (h1, [.attachMouse point])

/-- Method `UIHelper::onMouseMotion`.  The result is `none` where the source
reads `polyline.back()` of an empty vector, which is undefined. -/
def onMouseMotion (h : UIHelper) (e : SDL_MouseMotionEvent) :
    Option (UIHelper × List MainCall) :=
  if !h.mouseDown then some (h, [])
  else
    let point := h.windowToWorld e.x e.y
    if h.dragMode = .DrawMode then
      match h.polyline.getLast? with
      | none => none
      | some back =>
        if F32.gt (glmLength (point - back)) h.edgeMin then
          some ({ h with polyline := h.polyline ++ [point] }, [])
        else some (h, [])
    else
      some (h, [.moveMouse point])

end UIHelper

end Rounded

end Pencil

/-! ## Sample states -/

namespace Pencil

/-- A generator whose `rand()` always returns 0, with `RAND_MAX` = 32767. -/
def zeroRand : Rand := ⟨32767, fun _ => 0, 0⟩

/-- The application right after construction, with the uninitialized pointers
taken to be null. -/
def startApp : PencilPhysics := PencilPhysics.new ⟨none, none, none⟩ zeroRand

/-- The scene with one circle and one box spawned on top of each other. -/
def dragScene : PencilPhysics := startApp.addCircle.addBox

/-- The controller of the application after a pointer-down in the middle of the
window: drawing, with the single accumulated point (0, 9/2). -/
def strokeHelper : UIHelper :=
  ((UIHelper.new ⟨-8, 0⟩ ⟨8, 9⟩ 1280 720).onMouseButtonDown ⟨1, 640, 359⟩).1

/-- The application while a stroke with two accumulated points is being
drawn. -/
def twoPointApp : PencilPhysics :=
  { startApp with uiHelper := { strokeHelper with polyline := [⟨0, 9 / 2⟩, ⟨1, 9 / 2⟩] } }

/-- The application in `PullMode` with the button down and a mouse joint on the
box of the sample scene. -/
def pullingApp : PencilPhysics :=
  { dragScene with
    uiHelper := { dragScene.uiHelper with dragMode := .PullMode, mouseDown := true }
    world := (dragScene.world.CreateJoint
      { bodyA := some 2, bodyB := some 5, target := ⟨-11 / 2, 13 / 2⟩, collideConnected := true,
        maxForce := 100, frequencyHz := 2, dampingRatio := 1 / 2 }).1
    mouseJoint := some 6 }

/-- A circle is spawned, the mode is switched to `PullMode`, and two pointer
buttons are pressed on the circle one after the other without a release. -/
def doublePress : List SDL_Event :=
  [.SDL_KEYDOWN ⟨SDL_SCANCODE_C⟩, .SDL_KEYDOWN ⟨SDL_SCANCODE_TAB⟩,
   .SDL_MOUSEBUTTONDOWN ⟨1, 200, 199⟩, .SDL_MOUSEBUTTONDOWN ⟨3, 200, 199⟩]

/-- The events of `doublePress` followed by the release of both buttons. -/
def doublePressRelease : List SDL_Event :=
  doublePress ++ [.SDL_MOUSEBUTTONUP ⟨1, 200, 199⟩, .SDL_MOUSEBUTTONUP ⟨3, 200, 199⟩]

/-- A circle is spawned and grabbed in `PullMode`, and the scene is cleared
while the button is still down. -/
def clearWhileDragging : List SDL_Event :=
  [.SDL_KEYDOWN ⟨SDL_SCANCODE_C⟩, .SDL_KEYDOWN ⟨SDL_SCANCODE_TAB⟩,
   .SDL_MOUSEBUTTONDOWN ⟨1, 200, 199⟩, .SDL_KEYDOWN ⟨SDL_SCANCODE_BACKSPACE⟩]

/-- The scene with three circles, two boxes and one polyline (the walls). -/
def sixShapes : PencilPhysics :=
  startApp.addCircle.addCircle.addCircle.addBox.addBox

/-- A solver under which every dynamic body falls by `dt` per step and static
bodies rest. -/
def fallSolver : Solver := fun _ dt _ _ b =>
  if b.state.type = .b2_dynamicBody then
    { b.state with position := ⟨b.state.position.x, b.state.position.y - dt⟩ }
  else b.state

/-- The application after one iteration of the loop in which a circle was
spawned. -/
def steppedApp : PencilPhysics :=
  (startApp.addCircle.advanceState fallSolver (1 / 60)).getD startApp

/-- A controller whose window has negative width and height. -/
def mirroredHelper : UIHelper := UIHelper.new ⟨0, 0⟩ ⟨1, 1⟩ (-1) (-1)

/-- In `DrawMode` two pointer buttons are pressed at the same pixel one after
the other, then one is released. -/
def doubleDraw : List SDL_Event :=
  [.SDL_MOUSEBUTTONDOWN ⟨1, 640, 359⟩, .SDL_MOUSEBUTTONDOWN ⟨3, 640, 359⟩,
   .SDL_MOUSEBUTTONUP ⟨1, 640, 359⟩]

/-- A stroke in `DrawMode`: pointer-down in the middle of the window, a move
by 64 pixels to the right, pointer-up. -/
def strokeEvents : List SDL_Event :=
  [.SDL_MOUSEBUTTONDOWN ⟨1, 640, 359⟩, .SDL_MOUSEMOTION ⟨704, 359⟩,
   .SDL_MOUSEBUTTONUP ⟨1, 704, 359⟩]

/-- The application after the sample stroke. -/
def drawnApp : PencilPhysics := (startApp.handleInput strokeEvents).getD startApp

/-- The application as constructed when the memory of `mouseJoint` holds the
non-null value 7. -/
def garbageApp : PencilPhysics := PencilPhysics.new ⟨some 7, none, none⟩ zeroRand

/-- The mode is switched to `PullMode`, the button is pressed where no shape is,
and the pointer is moved. -/
def pullNothing : List SDL_Event :=
  [.SDL_KEYDOWN ⟨SDL_SCANCODE_TAB⟩, .SDL_MOUSEBUTTONDOWN ⟨1, 640, 359⟩,
   .SDL_MOUSEMOTION ⟨648, 359⟩]

/-- The application after a pointer-down in the middle of the window in
`DrawMode`. -/
def midStrokeApp : PencilPhysics := { startApp with uiHelper := strokeHelper }

/-- Three iterations of the loop whose work takes 520, 2 and 2 milliseconds. -/
def pacingWork : List Nat := [520, 2, 2]

/-- A polyline of three vertices. -/
def threeVertices : List Vec2 := [⟨0, 0⟩, ⟨1, 0⟩, ⟨1, 1⟩]

namespace Rounded

/-- The controller that the constructor of `PencilPhysics` creates: the world
rectangle from (-8, 0) to (8, 9) and a window of 1280 by 720 pixels. -/
def appHelper : UIHelper := UIHelper.new (.ofExact ⟨-8, 0⟩) (.ofExact ⟨8, 9⟩) 1280 720

/-- The controller of the application after a pointer-down in the middle of the
window, at the pixel (640, 359). -/
def midStroke : UIHelper := (appHelper.onMouseButtonDown ⟨1, 640, 359⟩).1

/-- The controller of the application after a pointer-down near the bottom of
the window, at the pixel (640, 710). -/
def lowStroke : UIHelper := (appHelper.onMouseButtonDown ⟨1, 640, 710⟩).1

/-- A controller with the threshold 23497 that is drawing from the origin; its
bottom-left pixel (0, 0) is the world point (20905, 10728). -/
def coarseHelper : UIHelper :=
  { worldMin := .ofExact ⟨20905, 10728⟩, worldMax := .ofExact ⟨20906, 10729⟩, width := 1,
    height := 1, dragMode := .DrawMode, mouseDown := true, polyline := [.ofExact ⟨0, 0⟩],
    edgeMin := .finite 23497 }

/-- A controller for a window of `2 ^ 25 = 33554432` pixels in width over the
world interval from -1 to `3 / 2 ^ 25`. -/
def wideHelper : UIHelper :=
  UIHelper.new (.ofExact ⟨-1, 0⟩) (.ofExact ⟨3 / 2 ^ 25, 1⟩) 33554432 1

/-- A controller for a window of `2 ^ 24 + 1 = 16777217` pixels in width over the
same world interval. -/
def tightHelper : UIHelper :=
  UIHelper.new (.ofExact ⟨-1, 0⟩) (.ofExact ⟨3 / 2 ^ 25, 1⟩) 16777217 1

/-- A controller whose world rectangle is wider than the largest finite
value. -/
def hugeHelper : UIHelper :=
  UIHelper.new (.ofExact ⟨-(2 ^ 127), 0⟩) (.ofExact ⟨2 ^ 127, 1⟩) 2 1

end Rounded

end Pencil

/-! ## Comparisons with `glm::length` -/

namespace Pencil

/-- The embedded comparison `glm::length(v) <= r` decides the comparison of the
real Euclidean norm of `v` with `r`. -/
theorem glmLengthLe_iff_sqrt (v : Vec2) (r : ℚ) :
    glmLengthLe v r = true ↔
      Real.sqrt ((v.x : ℝ) ^ 2 + (v.y : ℝ) ^ 2) ≤ (r : ℝ) := by
  have hcast : ((v.normSq : ℚ) : ℝ) = (v.x : ℝ) ^ 2 + (v.y : ℝ) ^ 2 := by
    simp only [Vec2.normSq]; push_cast; ring
  have hsq : (((r * r : ℚ)) : ℝ) = (r : ℝ) ^ 2 := by push_cast; ring
  rw [Real.sqrt_le_iff, ← hcast, ← hsq]
  simp only [glmLengthLe, decide_eq_true_eq]
  constructor
  · rintro ⟨h0, h1⟩
    exact ⟨by exact_mod_cast h0, by exact_mod_cast h1⟩
  · rintro ⟨h0, h1⟩
    exact ⟨by exact_mod_cast h0, by exact_mod_cast h1⟩

/-- The embedded comparison `glm::length(v) > r` decides the comparison of the
real Euclidean norm of `v` with `r`. -/
theorem glmLengthGt_iff_sqrt (v : Vec2) (r : ℚ) :
    glmLengthGt v r = true ↔
      (r : ℝ) < Real.sqrt ((v.x : ℝ) ^ 2 + (v.y : ℝ) ^ 2) := by
  have hcast : ((v.normSq : ℚ) : ℝ) = (v.x : ℝ) ^ 2 + (v.y : ℝ) ^ 2 := by
    simp only [Vec2.normSq]; push_cast; ring
  have hsq : (((r * r : ℚ)) : ℝ) = (r : ℝ) ^ 2 := by push_cast; ring
  simp only [glmLengthGt, decide_eq_true_eq]
  rcases lt_or_le r 0 with hneg | hnn
  · have hr : (r : ℝ) < 0 := by exact_mod_cast hneg
    constructor
    · intro _
      exact lt_of_lt_of_le hr (Real.sqrt_nonneg _)
    · intro _
      exact Or.inl hneg
  · have hr : (0 : ℝ) ≤ (r : ℝ) := by exact_mod_cast hnn
    rw [Real.lt_sqrt hr, ← hcast, ← hsq]
    constructor
    · rintro (h | h)
      · exact absurd h (not_lt.mpr hnn)
      · exact_mod_cast h
    · intro h
      exact Or.inr (by exact_mod_cast h)

/-- The two embedded comparisons are complementary. -/
theorem glmLengthGt_eq_not_le (v : Vec2) (r : ℚ) :
    glmLengthGt v r = !glmLengthLe v r := by
  by_cases h : 0 ≤ r ∧ v.normSq ≤ r * r
  · have h2 : ¬ (r < 0 ∨ r * r < v.normSq) := by
      rintro (h2 | h2)
      · exact absurd h.1 (not_le.mpr h2)
      · exact absurd h.2 (not_le.mpr h2)
    simp [glmLengthGt, glmLengthLe, h, h2]
  · have h2 : r < 0 ∨ r * r < v.normSq := by
      by_contra hc
      push_neg at hc
      exact h ⟨hc.1, hc.2⟩
    simp [glmLengthGt, glmLengthLe, h, h2]

@[simp] theorem Vec2.sub_x (a b : Vec2) : (a - b).x = a.x - b.x := rfl
@[simp] theorem Vec2.sub_y (a b : Vec2) : (a - b).y = a.y - b.y := rfl
@[simp] theorem Vec2.add_x (a b : Vec2) : (a + b).x = a.x + b.x := rfl
@[simp] theorem Vec2.add_y (a b : Vec2) : (a + b).y = a.y + b.y := rfl
@[simp] theorem Vec2.mul_x (a b : Vec2) : (a * b).x = a.x * b.x := rfl
@[simp] theorem Vec2.mul_y (a b : Vec2) : (a * b).y = a.y * b.y := rfl
@[simp] theorem Vec2.smul_x (k : ℚ) (a : Vec2) : (k * a : Vec2).x = k * a.x := rfl
@[simp] theorem Vec2.smul_y (k : ℚ) (a : Vec2) : (k * a : Vec2).y = k * a.y := rfl
@[simp] theorem Vec2.mk_add_mk (a b c d : ℚ) :
    (⟨a, b⟩ + ⟨c, d⟩ : Vec2) = ⟨a + c, b + d⟩ := rfl
@[simp] theorem Vec2.mk_sub_mk (a b c d : ℚ) :
    (⟨a, b⟩ - ⟨c, d⟩ : Vec2) = ⟨a - c, b - d⟩ := rfl
@[simp] theorem Vec2.mk_mul_mk (a b c d : ℚ) :
    (⟨a, b⟩ * ⟨c, d⟩ : Vec2) = ⟨a * c, b * d⟩ := rfl
@[simp] theorem Vec2.smul_mk (k a b : ℚ) :
    (k * (⟨a, b⟩ : Vec2) : Vec2) = ⟨k * a, k * b⟩ := rfl

end Pencil

/-! ## Picking a body under the pointer -/

namespace Pencil

/-- A scan that overwrites its result at every match and finds no match returns
the initial value. -/
theorem foldl_overwrite_none {α β : Type} (f : α → Bool) (g : α → β) (l : List α) (init : β)
    (h : ∀ x ∈ l, f x = false) :
    l.foldl (fun a x => if f x then g x else a) init = init := by
  induction l generalizing init with
  | nil => rfl
  | cons y ys ih =>
    have hy : f y = false := h y (List.mem_cons_self y ys)
    have hys : ∀ x ∈ ys, f x = false := fun x hx => h x (List.mem_cons_of_mem y hx)
    simp only [List.foldl_cons, hy]
    exact ih init hys

/-- A scan that overwrites its result at every match returns the value of the
last match. -/
theorem foldl_overwrite_last {α β : Type} (f : α → Bool) (g : α → β) (pre post : List α)
    (x : α) (init : β) (hx : f x = true) (h : ∀ y ∈ post, f y = false) :
    (pre ++ x :: post).foldl (fun a x => if f x then g x else a) init = g x := by
  rw [List.foldl_append, List.foldl_cons]
  simp only [hx, if_true]
  exact foldl_overwrite_none f g post (g x) h

/-- C3: `attachMouse` scans the circles and then the boxes, the last match
winning: the last box that contains the point is picked whatever the circles
are; with no such box, the last circle that contains the point is picked; with
no match nothing is picked.  A picked body gets exactly one new mouse joint with
`bodyA = bodies[0]`, `bodyB` the picked body and the point as target, stored in
`mouseJoint`; when nothing is picked the state, the slot included, is unchanged. -/
theorem attachMouse_last_match_wins (s : PencilPhysics) (p : Vec2) (anchor : BodyPtr)
    (rest : List BodyPtr) (hb : s.bodies = anchor :: rest) :
    (∀ (pre post : List Box) (b : Box), s.boxes = pre ++ b :: post → b.contains p = true →
      (∀ b1 ∈ post, b1.contains p = false) → s.attachment p = b.rect_body) ∧
    ((∀ b ∈ s.boxes, b.contains p = false) →
      ∀ (pre post : List Circle) (c : Circle), s.circles = pre ++ c :: post →
        c.contains p = true → (∀ c1 ∈ post, c1.contains p = false) →
        s.attachment p = c.circle_body) ∧
    ((∀ b ∈ s.boxes, b.contains p = false) → (∀ c ∈ s.circles, c.contains p = false) →
      s.attachment p = none) ∧
    (∀ body : Nat, s.attachment p = some body →
      s.attachMouse p = some
        { s with
          world :=
            { s.world with
              joints := s.world.joints ++
                [⟨s.world.nextHandle,
                  { bodyA := anchor, bodyB := some body, target := p, collideConnected := true,
                    maxForce := 100, frequencyHz := 2, dampingRatio := 1 / 2 }⟩]
              nextHandle := s.world.nextHandle + 1
              calls := s.world.calls ++
                [.createJoint
                  { bodyA := anchor, bodyB := some body, target := p, collideConnected := true,
                    maxForce := 100, frequencyHz := 2, dampingRatio := 1 / 2 }] }
          mouseJoint := some s.world.nextHandle }) ∧
    (s.attachment p = none → s.attachMouse p = some s) := by
  refine ⟨?_, ?_, ?_, ?_, ?_⟩
  · intro pre post b hboxes hin hpost
    unfold PencilPhysics.attachment
    rw [hboxes]
    exact foldl_overwrite_last (fun b => b.contains p) (fun b => b.rect_body) pre post b _ hin hpost
  · intro hnobox pre post c hcircles hin hpost
    unfold PencilPhysics.attachment
    rw [foldl_overwrite_none (fun b => b.contains p) (fun b => b.rect_body) s.boxes _ hnobox,
      hcircles]
    exact foldl_overwrite_last (fun c => c.contains p) (fun c => c.circle_body) pre post c _
      hin hpost
  · intro hnobox hnocircle
    unfold PencilPhysics.attachment
    rw [foldl_overwrite_none (fun b => b.contains p) (fun b => b.rect_body) s.boxes _ hnobox]
    exact foldl_overwrite_none (fun c => c.contains p) (fun c => c.circle_body) s.circles _
      hnocircle
  · intro body hbody
    simp [PencilPhysics.attachMouse, hbody, hb, B2World.CreateJoint]
  · intro hnone
    simp [PencilPhysics.attachMouse, hnone]

/-- The boxes of the sample scene. -/
theorem dragScene_boxes :
    dragScene.boxes = [] ++ (⟨⟨-11 / 2, 13 / 2⟩, ⟨12 / 10, 6 / 10⟩, some 5⟩ : Box) :: [] := by
  simp [dragScene, startApp, PencilPhysics.new, PencilPhysics.initWorld, PencilPhysics.addBox,
    PencilPhysics.addCircle, PencilPhysics.randomVec2, Rand.rand, zeroRand, Box.create,
    Circle.create, B2World.CreateBody, B2World.CreateFixture, Polyline.create]
  norm_num

/-- C3, at the scene with a circle and a box on top of each other and a point
inside both: the box is picked. -/
theorem attachMouse_last_match_wins_witness :
    dragScene.bodies = some 2 :: [some 3] ∧
    dragScene.attachment ⟨-11 / 2, 13 / 2⟩ = some 5 :=
  ⟨rfl,
   (attachMouse_last_match_wins dragScene ⟨-11 / 2, 13 / 2⟩ (some 2) [some 3] rfl).1
     [] [] ⟨⟨-11 / 2, 13 / 2⟩, ⟨12 / 10, 6 / 10⟩, some 5⟩ dragScene_boxes
     (by norm_num [Box.contains, abs_le]) (fun _ hb => nomatch hb)⟩

end Pencil

/-! ## Controller transitions -/

namespace Pencil

/-- C5: in `DrawMode` a pointer-up clears `mouseDown` and the accumulator and
keeps the mode; with at least two accumulated points it calls `addPolyline`
exactly once, with the points in their order, which appends one polyline with
these vertices to the scene; with fewer points it makes no call and the scene is
untouched. -/
theorem onMouseButtonUp_draw_commits (s : PencilPhysics) (e : SDL_MouseButtonEvent)
    (hmode : s.uiHelper.dragMode = .DrawMode) :
    (s.uiHelper.onMouseButtonUp e).1 =
      { s.uiHelper with mouseDown := false, polyline := [] } ∧
    (2 ≤ s.uiHelper.polyline.length →
      (s.uiHelper.onMouseButtonUp e).2 = [.addPolyline s.uiHelper.polyline] ∧
      s.dispatch (.SDL_MOUSEBUTTONUP e) =
        some (({ s with uiHelper := { s.uiHelper with mouseDown := false, polyline := [] } }
          ).addPolyline s.uiHelper.polyline)) ∧
    (s.uiHelper.polyline.length < 2 →
      (s.uiHelper.onMouseButtonUp e).2 = [] ∧
      s.dispatch (.SDL_MOUSEBUTTONUP e) =
        some { s with uiHelper := { s.uiHelper with mouseDown := false, polyline := [] } }) ∧
    (∀ vertices : List Vec2,
      (s.addPolyline vertices).polylines =
        s.polylines ++ [⟨vertices, some s.world.nextHandle⟩]) := by
  refine ⟨?_, ?_, ?_, ?_⟩
  · simp [UIHelper.onMouseButtonUp, hmode]
  · intro hlen
    have hgt : 1 < s.uiHelper.polyline.length := hlen
    constructor
    · simp [UIHelper.onMouseButtonUp, hmode, hgt]
    · simp [PencilPhysics.dispatch, PencilPhysics.forward, UIHelper.onMouseButtonUp, hmode, hgt,
        PencilPhysics.calls, PencilPhysics.call]
  · intro hlen
    have hgt : ¬ 1 < s.uiHelper.polyline.length := by omega
    constructor
    · simp [UIHelper.onMouseButtonUp, hmode, hgt]
    · simp [PencilPhysics.dispatch, PencilPhysics.forward, UIHelper.onMouseButtonUp, hmode, hgt,
        PencilPhysics.calls]
  · intro vertices
    simp [PencilPhysics.addPolyline, Polyline.create, B2World.CreateBody]

/-- C5, at a stroke of two points: one `addPolyline` call with both points. -/
theorem onMouseButtonUp_draw_commits_witness :
    twoPointApp.uiHelper.dragMode = .DrawMode ∧
    (twoPointApp.uiHelper.onMouseButtonUp ⟨1, 0, 0⟩).2 =
      [.addPolyline [⟨0, 9 / 2⟩, ⟨1, 9 / 2⟩]] :=
  ⟨rfl, ((onMouseButtonUp_draw_commits twoPointApp ⟨1, 0, 0⟩ rfl).2.1 (by decide)).1⟩

/-- The TAB branch of `UIHelper::onKeyDown`. -/
theorem onKeyDown_tab (h : UIHelper) (e : SDL_KeyboardEvent)
    (hk : e.scancode = SDL_SCANCODE_TAB) :
    h.onKeyDown e =
      if h.mouseDown = true then (h, [])
      else ({ h with dragMode := if h.dragMode = .DrawMode then .PullMode else .DrawMode }, []) := by
  unfold UIHelper.onKeyDown
  rw [hk]
  cases h.mouseDown <;>
    simp [SDL_SCANCODE_TAB, SDL_SCANCODE_B, SDL_SCANCODE_C, SDL_SCANCODE_BACKSPACE]

/-- C6: on a TAB key-down with the button held the controller state is unchanged
and no `UIMain` call is made, so the application is unchanged; with the button
up the mode flips, `mouseDown` and the accumulator are kept, no call is made,
and a second TAB key-down restores the state. -/
theorem onKeyDown_tab_toggles (s : PencilPhysics) (e : SDL_KeyboardEvent)
    (hk : e.scancode = SDL_SCANCODE_TAB) :
    (s.uiHelper.mouseDown = true →
      s.uiHelper.onKeyDown e = (s.uiHelper, []) ∧ s.dispatch (.SDL_KEYDOWN e) = some s) ∧
    (s.uiHelper.mouseDown = false →
      (s.uiHelper.dragMode = .DrawMode →
        s.uiHelper.onKeyDown e = ({ s.uiHelper with dragMode := .PullMode }, [])) ∧
      (s.uiHelper.dragMode = .PullMode →
        s.uiHelper.onKeyDown e = ({ s.uiHelper with dragMode := .DrawMode }, [])) ∧
      (s.uiHelper.onKeyDown e).1.mouseDown = s.uiHelper.mouseDown ∧
      (s.uiHelper.onKeyDown e).1.polyline = s.uiHelper.polyline ∧
      (s.uiHelper.onKeyDown e).2 = [] ∧
      (s.uiHelper.onKeyDown e).1.onKeyDown e = (s.uiHelper, []) ∧
      ((s.dispatch (.SDL_KEYDOWN e)).bind fun s1 => s1.dispatch (.SDL_KEYDOWN e)) = some s) := by
  rcases s with ⟨uq, ui, w, walls, rc, wb, cs, bs, ps, bodies, mj, wmin, wmax, rng⟩
  rcases ui with ⟨umin, umax, uw, uh, mode, down, poly, em⟩
  constructor
  · intro hdown
    simp only at hdown
    subst hdown
    simp [PencilPhysics.dispatch, PencilPhysics.forward, PencilPhysics.calls,
      onKeyDown_tab _ e hk]
  · intro hup
    simp only at hup
    subst hup
    cases mode <;>
      simp [PencilPhysics.dispatch, PencilPhysics.forward, PencilPhysics.calls,
        onKeyDown_tab _ e hk]

/-- C6, at the freshly constructed application: TAB switches to `PullMode`. -/
theorem onKeyDown_tab_toggles_witness :
    (⟨43⟩ : SDL_KeyboardEvent).scancode = SDL_SCANCODE_TAB ∧
    startApp.uiHelper.onKeyDown ⟨43⟩ =
      ({ startApp.uiHelper with dragMode := .PullMode }, []) :=
  ⟨rfl, ((onKeyDown_tab_toggles startApp ⟨43⟩ rfl).2 rfl).1 rfl⟩

/-- C7: in `DrawMode` a pointer-down at the pixel (x, y) sets `mouseDown` and
appends exactly `windowToWorld(x, y)` to the accumulator; the earlier points and
the mode are kept, no `UIMain` call is made and the scene is untouched. -/
theorem onMouseButtonDown_draw_pushes (s : PencilPhysics) (e : SDL_MouseButtonEvent)
    (hmode : s.uiHelper.dragMode = .DrawMode) :
    s.uiHelper.onMouseButtonDown e =
      ({ s.uiHelper with
          mouseDown := true
          polyline := s.uiHelper.polyline ++ [s.uiHelper.windowToWorld e.x e.y] }, []) ∧
    s.dispatch (.SDL_MOUSEBUTTONDOWN e) =
      some { s with
        uiHelper :=
          { s.uiHelper with
            mouseDown := true
            polyline := s.uiHelper.polyline ++ [s.uiHelper.windowToWorld e.x e.y] } } := by
  constructor
  · simp [UIHelper.onMouseButtonDown, hmode, UIHelper.windowToWorld]
  · simp [PencilPhysics.dispatch, PencilPhysics.forward, UIHelper.onMouseButtonDown, hmode,
      UIHelper.windowToWorld, PencilPhysics.calls]

/-- C7, at the freshly constructed application and the pixel (640, 359). -/
theorem onMouseButtonDown_draw_pushes_witness :
    startApp.uiHelper.dragMode = .DrawMode ∧
    (startApp.uiHelper.onMouseButtonDown ⟨1, 640, 359⟩).1.polyline =
      [startApp.uiHelper.windowToWorld 640 359] :=
  ⟨rfl, congrArg (fun r => r.1.polyline)
    (onMouseButtonDown_draw_pushes startApp ⟨1, 640, 359⟩ rfl).1⟩

/-- C8: in `PullMode` a pointer-up clears `mouseDown` and calls `detachMouse`.
With a joint in the slot, `detachMouse` issues exactly one `DestroyJoint` for it,
after which the world holds no joint with that handle; with an empty slot it
changes nothing.  The slot is null afterwards, and a second `detachMouse`
changes nothing. -/
theorem onMouseButtonUp_pull_detaches (s : PencilPhysics) (e : SDL_MouseButtonEvent)
    (hmode : s.uiHelper.dragMode = .PullMode) :
    s.uiHelper.onMouseButtonUp e = ({ s.uiHelper with mouseDown := false }, [.detachMouse]) ∧
    s.dispatch (.SDL_MOUSEBUTTONUP e) =
      some ({ s with uiHelper := { s.uiHelper with mouseDown := false } }).detachMouse ∧
    (∀ j : Nat, s.mouseJoint = some j →
      s.detachMouse =
        { s with
          world :=
            { s.world with
              joints := s.world.joints.filter fun jt => decide (some jt.id ≠ some j)
              calls := s.world.calls ++ [.destroyJoint (some j)] }
          mouseJoint := none } ∧
      ∀ jt ∈ s.detachMouse.world.joints, jt.id ≠ j) ∧
    (s.mouseJoint = none → s.detachMouse = s) ∧
    s.detachMouse.mouseJoint = none ∧
    s.detachMouse.detachMouse = s.detachMouse := by
  refine ⟨?_, ?_, ?_, ?_, ?_, ?_⟩
  · simp [UIHelper.onMouseButtonUp, hmode]
  · simp [PencilPhysics.dispatch, PencilPhysics.forward, UIHelper.onMouseButtonUp, hmode,
      PencilPhysics.calls, PencilPhysics.call]
  · intro j hj
    constructor
    · simp [PencilPhysics.detachMouse, hj, B2World.DestroyJoint]
    · intro jt hjt
      simp [PencilPhysics.detachMouse, hj, B2World.DestroyJoint] at hjt
      exact hjt.2
  · intro hnone
    simp [PencilPhysics.detachMouse, hnone]
  · cases hj : s.mouseJoint <;> simp [PencilPhysics.detachMouse, hj]
  · cases hj : s.mouseJoint <;> simp [PencilPhysics.detachMouse, hj]

/-- C8, at the application that drags the box of the sample scene: the pointer-up
issues the call `detachMouse`. -/
theorem onMouseButtonUp_pull_detaches_witness :
    pullingApp.uiHelper.dragMode = .PullMode ∧
    (pullingApp.uiHelper.onMouseButtonUp ⟨1, 0, 0⟩).2 = [.detachMouse] ∧
    pullingApp.detachMouse.mouseJoint = none :=
  ⟨rfl, congrArg Prod.snd (onMouseButtonUp_pull_detaches pullingApp ⟨1, 0, 0⟩ rfl).1,
    (onMouseButtonUp_pull_detaches pullingApp ⟨1, 0, 0⟩ rfl).2.2.2.2.1⟩

/-- C9: a pointer-move with the button up changes nothing and makes no call.  In
`PullMode` with the button down the controller state is unchanged and the only
call is `moveMouse(windowToWorld(x, y))`: with a joint in the slot it issues one
`SetTarget` with that point, which becomes the target of the joint with that
handle, and with an empty slot the application is unchanged. -/
theorem onMouseMotion_pull_moves_target (s : PencilPhysics) (e : SDL_MouseMotionEvent) :
    (s.uiHelper.mouseDown = false →
      s.uiHelper.onMouseMotion e = some (s.uiHelper, []) ∧
      s.dispatch (.SDL_MOUSEMOTION e) = some s) ∧
    (s.uiHelper.mouseDown = true → s.uiHelper.dragMode = .PullMode →
      s.uiHelper.onMouseMotion e =
        some (s.uiHelper, [.moveMouse (s.uiHelper.windowToWorld e.x e.y)]) ∧
      (∀ j : Nat, s.mouseJoint = some j →
        s.dispatch (.SDL_MOUSEMOTION e) =
          some { s with
            world :=
              { s.world with
                joints := s.world.joints.map fun jt =>
                  if some jt.id = some j then
                    { jt with
                      state := { jt.state with target := s.uiHelper.windowToWorld e.x e.y } }
                  else jt
                calls := s.world.calls ++
                  [.setTarget (some j) (s.uiHelper.windowToWorld e.x e.y)] } } ∧
        ∀ s1, s.dispatch (.SDL_MOUSEMOTION e) = some s1 →
          ∀ jt ∈ s1.world.joints, jt.id = j →
            jt.state.target = s.uiHelper.windowToWorld e.x e.y) ∧
      (s.mouseJoint = none → s.dispatch (.SDL_MOUSEMOTION e) = some s)) := by
  constructor
  · intro hup
    constructor
    · simp [UIHelper.onMouseMotion, hup]
    · simp [PencilPhysics.dispatch, PencilPhysics.forward, UIHelper.onMouseMotion, hup,
        PencilPhysics.calls]
  · intro hdown hmode
    have hrun : s.uiHelper.onMouseMotion e =
        some (s.uiHelper, [.moveMouse (s.uiHelper.windowToWorld e.x e.y)]) := by
      simp [UIHelper.onMouseMotion, hdown, hmode]
    refine ⟨hrun, ?_, ?_⟩
    · intro j hj
      have hdisp : s.dispatch (.SDL_MOUSEMOTION e) =
          some { s with
            world :=
              { s.world with
                joints := s.world.joints.map fun jt =>
                  if some jt.id = some j then
                    { jt with
                      state := { jt.state with target := s.uiHelper.windowToWorld e.x e.y } }
                  else jt
                calls := s.world.calls ++
                  [.setTarget (some j) (s.uiHelper.windowToWorld e.x e.y)] } } := by
        simp [PencilPhysics.dispatch, PencilPhysics.forward, hrun, PencilPhysics.calls,
          PencilPhysics.call, PencilPhysics.moveMouse, hj, B2World.SetTarget]
      refine ⟨hdisp, ?_⟩
      intro s1 hs1 jt hjt hid
      rw [hdisp] at hs1
      injection hs1 with hs1
      subst hs1
      simp only [List.mem_map] at hjt
      obtain ⟨j0, _, hj0⟩ := hjt
      by_cases hc : some j0.id = some j
      · rw [if_pos hc] at hj0
        rw [← hj0]
      · rw [if_neg hc] at hj0
        rw [hj0] at hc
        exact absurd (congrArg some hid) hc
    · intro hnone
      simp [PencilPhysics.dispatch, PencilPhysics.forward, hrun, PencilPhysics.calls,
        PencilPhysics.call, PencilPhysics.moveMouse, hnone]
      rw [← hnone]

/-- C9, at the application that drags the box of the sample scene: the only call
of a pointer-move is `moveMouse` with the world point of the pixel. -/
theorem onMouseMotion_pull_moves_target_witness :
    pullingApp.uiHelper.mouseDown = true ∧ pullingApp.uiHelper.dragMode = .PullMode ∧
    pullingApp.uiHelper.onMouseMotion ⟨640, 359⟩ =
      some (pullingApp.uiHelper, [.moveMouse (pullingApp.uiHelper.windowToWorld 640 359)]) :=
  ⟨rfl, rfl, ((onMouseMotion_pull_moves_target pullingApp ⟨640, 359⟩).2 rfl rfl).1⟩

/-! ## Mouse joints over event sequences -/

/-- C10: from the freshly constructed application, spawning a circle, switching
to `PullMode` and pressing two pointer buttons on the circle without a release
in between leaves two mouse joints (handles 5 and 6) in the world, of which the
slot holds only the second; after both buttons are released the first joint is
still in the world and the slot is null. -/
theorem doublePress_leaves_two_mouse_joints :
    (startApp.handleInput doublePress).map
        (fun s => (s.world.joints.map (fun j => j.id), s.mouseJoint)) =
      some ([5, 6], some 6) ∧
    (startApp.handleInput doublePressRelease).map
        (fun s => (s.world.joints.map (fun j => j.id), s.mouseJoint)) =
      some ([5], none) := by
  constructor
  · simp [startApp, doublePress, PencilPhysics.handleInput, PencilPhysics.dispatch,
      PencilPhysics.forward, PencilPhysics.calls, PencilPhysics.call, UIHelper.onKeyDown,
      UIHelper.onMouseButtonDown, UIHelper.windowToWorld, UIHelper.new, SDL_SCANCODE_TAB,
      SDL_SCANCODE_B, SDL_SCANCODE_C, SDL_SCANCODE_BACKSPACE, PencilPhysics.new,
      PencilPhysics.initWorld, PencilPhysics.addCircle, PencilPhysics.randomVec2, Rand.rand,
      zeroRand, Circle.create, B2World.CreateBody, B2World.CreateFixture, Polyline.create,
      PencilPhysics.attachMouse, PencilPhysics.attachment, Circle.contains, glmLengthLe,
      Vec2.normSq, B2World.CreateJoint]
    norm_num
    simp [PencilPhysics.calls, PencilPhysics.call, PencilPhysics.attachMouse,
      PencilPhysics.attachment, Circle.contains, glmLengthLe, Vec2.normSq, B2World.CreateJoint]
  · simp [startApp, doublePressRelease, doublePress, PencilPhysics.handleInput,
      PencilPhysics.dispatch,
      PencilPhysics.forward, PencilPhysics.calls, PencilPhysics.call, UIHelper.onKeyDown,
      UIHelper.onMouseButtonDown, UIHelper.onMouseButtonUp, UIHelper.windowToWorld,
      UIHelper.new, SDL_SCANCODE_TAB,
      SDL_SCANCODE_B, SDL_SCANCODE_C, SDL_SCANCODE_BACKSPACE, PencilPhysics.new,
      PencilPhysics.initWorld, PencilPhysics.addCircle, PencilPhysics.randomVec2, Rand.rand,
      zeroRand, Circle.create, B2World.CreateBody, B2World.CreateFixture, Polyline.create,
      PencilPhysics.attachMouse, PencilPhysics.attachment, Circle.contains, glmLengthLe,
      Vec2.normSq, B2World.CreateJoint, PencilPhysics.detachMouse, B2World.DestroyJoint]
    norm_num
    simp [PencilPhysics.calls, PencilPhysics.call, PencilPhysics.attachMouse,
      PencilPhysics.attachment, Circle.contains, glmLengthLe, Vec2.normSq, B2World.CreateJoint,
      PencilPhysics.detachMouse, B2World.DestroyJoint]

end Pencil

/-! ## Clearing the scene -/

namespace Pencil

/-- C11: from the freshly constructed application, spawning a circle, grabbing
it in `PullMode` and pressing BACKSPACE with the button still down leaves the
handle 5 in the slot although the world holds no joint any more (the body and
its joint are destroyed by `clear`); the next pointer-move then issues
`SetTarget` on that handle, and a pointer-up issues `DestroyJoint` on it. -/
theorem clearWhileDragging_leaves_stale_joint :
    (startApp.handleInput clearWhileDragging).map
        (fun s => (s.mouseJoint, s.world.joints.map (fun j => j.id),
          s.world.bodies.map (fun b => b.id))) =
      some (some 5, [], [0, 2, 3]) ∧
    (startApp.handleInput (clearWhileDragging ++ [.SDL_MOUSEMOTION ⟨210, 199⟩])).map
        (fun s => (s.world.calls.getLast?, s.world.joints.map (fun j => j.id))) =
      some (some (.setTarget (some 5) ⟨-43 / 8, 13 / 2⟩), []) ∧
    (startApp.handleInput (clearWhileDragging ++ [.SDL_MOUSEBUTTONUP ⟨1, 200, 199⟩])).map
        (fun s => (s.world.calls.getLast?, s.world.joints.map (fun j => j.id))) =
      some (some (.destroyJoint (some 5)), []) := by
  refine ⟨?_, ?_, ?_⟩
  · simp [startApp, clearWhileDragging, PencilPhysics.handleInput, PencilPhysics.dispatch,
      PencilPhysics.forward, PencilPhysics.calls, PencilPhysics.call, UIHelper.onKeyDown,
      UIHelper.onMouseButtonDown, UIHelper.windowToWorld, UIHelper.new, SDL_SCANCODE_TAB,
      SDL_SCANCODE_B, SDL_SCANCODE_C, SDL_SCANCODE_BACKSPACE, PencilPhysics.new,
      PencilPhysics.initWorld, PencilPhysics.addCircle, PencilPhysics.randomVec2, Rand.rand,
      zeroRand, Circle.create, B2World.CreateBody, B2World.CreateFixture, Polyline.create,
      PencilPhysics.attachMouse, PencilPhysics.attachment, Circle.contains, glmLengthLe,
      Vec2.normSq, B2World.CreateJoint, PencilPhysics.clear, B2World.DestroyBody]
    norm_num
  · simp [startApp, clearWhileDragging, PencilPhysics.handleInput, PencilPhysics.dispatch,
      PencilPhysics.forward, PencilPhysics.calls, PencilPhysics.call, UIHelper.onKeyDown,
      UIHelper.onMouseButtonDown, UIHelper.onMouseMotion, UIHelper.windowToWorld,
      UIHelper.new, SDL_SCANCODE_TAB,
      SDL_SCANCODE_B, SDL_SCANCODE_C, SDL_SCANCODE_BACKSPACE, PencilPhysics.new,
      PencilPhysics.initWorld, PencilPhysics.addCircle, PencilPhysics.randomVec2, Rand.rand,
      zeroRand, Circle.create, B2World.CreateBody, B2World.CreateFixture, Polyline.create,
      PencilPhysics.attachMouse, PencilPhysics.attachment, Circle.contains, glmLengthLe,
      Vec2.normSq, B2World.CreateJoint, PencilPhysics.clear, B2World.DestroyBody,
      PencilPhysics.moveMouse, B2World.SetTarget]
    norm_num
    simp [PencilPhysics.calls, PencilPhysics.call, PencilPhysics.attachMouse,
      PencilPhysics.attachment, Circle.contains, glmLengthLe, Vec2.normSq, B2World.CreateJoint,
      UIHelper.onKeyDown, UIHelper.onMouseMotion, UIHelper.windowToWorld, SDL_SCANCODE_TAB,
      SDL_SCANCODE_B, SDL_SCANCODE_C,
      SDL_SCANCODE_BACKSPACE, PencilPhysics.clear, B2World.DestroyBody,
      PencilPhysics.moveMouse, B2World.SetTarget]
  · simp [startApp, clearWhileDragging, PencilPhysics.handleInput, PencilPhysics.dispatch,
      PencilPhysics.forward, PencilPhysics.calls, PencilPhysics.call, UIHelper.onKeyDown,
      UIHelper.onMouseButtonDown, UIHelper.onMouseButtonUp, UIHelper.windowToWorld,
      UIHelper.new, SDL_SCANCODE_TAB,
      SDL_SCANCODE_B, SDL_SCANCODE_C, SDL_SCANCODE_BACKSPACE, PencilPhysics.new,
      PencilPhysics.initWorld, PencilPhysics.addCircle, PencilPhysics.randomVec2, Rand.rand,
      zeroRand, Circle.create, B2World.CreateBody, B2World.CreateFixture, Polyline.create,
      PencilPhysics.attachMouse, PencilPhysics.attachment, Circle.contains, glmLengthLe,
      Vec2.normSq, B2World.CreateJoint, PencilPhysics.clear, B2World.DestroyBody,
      PencilPhysics.detachMouse, B2World.DestroyJoint]
    norm_num
    simp [PencilPhysics.calls, PencilPhysics.call, PencilPhysics.attachMouse,
      PencilPhysics.attachment, Circle.contains, glmLengthLe, Vec2.normSq, B2World.CreateJoint,
      UIHelper.onKeyDown, UIHelper.onMouseButtonUp, SDL_SCANCODE_TAB,
      SDL_SCANCODE_B, SDL_SCANCODE_C,
      SDL_SCANCODE_BACKSPACE, PencilPhysics.clear, B2World.DestroyBody,
      PencilPhysics.detachMouse, B2World.DestroyJoint]

/-- The calls that a loop of `DestroyBody` over a collection adds to the world. -/
theorem foldl_DestroyBody_calls {α : Type} (g : α → BodyPtr) (l : List α) (w : B2World) :
    (l.foldl (fun w x => w.DestroyBody (g x)) w).calls =
      w.calls ++ l.map fun x => WorldCall.destroyBody (g x) := by
  induction l generalizing w with
  | nil => simp
  | cons x xs ih =>
    rw [List.foldl_cons, ih]
    simp [B2World.DestroyBody]

/-- C12: `clear` empties `circles`, `boxes` and `polylines` and issues, after
the calls made so far, exactly one `DestroyBody` per shape that was in a
collection, with the body pointer of that shape: as many calls as there were
shapes, six for three circles, two boxes and one polyline. -/
theorem clear_destroys_each_body_once (s : PencilPhysics) :
    s.clear.circles = [] ∧ s.clear.boxes = [] ∧ s.clear.polylines = [] ∧
    s.clear.world.calls =
      s.world.calls ++
        ((s.circles.map fun c => WorldCall.destroyBody c.circle_body) ++
         (s.boxes.map fun b => WorldCall.destroyBody b.rect_body) ++
         (s.polylines.map fun p => WorldCall.destroyBody p.chain_body)) ∧
    s.clear.world.calls.length =
      s.world.calls.length + (s.circles.length + s.boxes.length + s.polylines.length) ∧
    (s.circles.length = 3 → s.boxes.length = 2 → s.polylines.length = 1 →
      s.clear.world.calls.length = s.world.calls.length + 6) := by
  have hcalls : s.clear.world.calls =
      s.world.calls ++
        ((s.circles.map fun c => WorldCall.destroyBody c.circle_body) ++
         (s.boxes.map fun b => WorldCall.destroyBody b.rect_body) ++
         (s.polylines.map fun p => WorldCall.destroyBody p.chain_body)) := by
    simp only [PencilPhysics.clear]
    rw [foldl_DestroyBody_calls (fun p : Polyline => p.chain_body),
      foldl_DestroyBody_calls (fun b : Box => b.rect_body),
      foldl_DestroyBody_calls (fun c : Circle => c.circle_body)]
    simp [List.append_assoc]
  have hlen : s.clear.world.calls.length =
      s.world.calls.length + (s.circles.length + s.boxes.length + s.polylines.length) := by
    rw [hcalls]
    simp only [List.length_append, List.length_map]
  refine ⟨rfl, rfl, rfl, hcalls, hlen, ?_⟩
  intro h3 h2 h1
  rw [hlen, h3, h2, h1]

/-- C12, at the scene with three circles, two boxes and the walls: six calls. -/
theorem clear_destroys_each_body_once_witness :
    sixShapes.circles.length = 3 ∧ sixShapes.boxes.length = 2 ∧
    sixShapes.polylines.length = 1 ∧
    sixShapes.clear.world.calls.length = sixShapes.world.calls.length + 6 :=
  ⟨rfl, rfl, rfl, (clear_destroys_each_body_once sixShapes).2.2.2.2.2 rfl rfl rfl⟩

/-- C13: from the freshly constructed application a BACKSPACE key-down destroys
the body of the boundary walls (handle 1), which `initWorld` put into
`polylines`: the world keeps the ground and the two anchor bodies only, and the
member `walls` still points to the destroyed body. -/
theorem clear_destroys_walls_body :
    startApp.walls.chain_body = some 1 ∧
    startApp.world.bodies.map (fun b => b.id) = [0, 1, 2, 3] ∧
    (startApp.handleInput [.SDL_KEYDOWN ⟨SDL_SCANCODE_BACKSPACE⟩]).map
        (fun s => (s.world.bodies.map (fun b => b.id), s.walls.chain_body,
          s.world.GetPosition s.walls.chain_body, s.bodies)) =
      some ([0, 2, 3], some 1, none, [some 2, some 3]) := by
  refine ⟨rfl, rfl, ?_⟩
  simp [startApp, PencilPhysics.handleInput, PencilPhysics.dispatch,
    PencilPhysics.forward, PencilPhysics.calls, PencilPhysics.call, UIHelper.onKeyDown,
    UIHelper.new, SDL_SCANCODE_TAB, SDL_SCANCODE_B, SDL_SCANCODE_C, SDL_SCANCODE_BACKSPACE,
    PencilPhysics.new, PencilPhysics.initWorld, zeroRand, B2World.CreateBody,
    B2World.CreateFixture, Polyline.create, PencilPhysics.clear, B2World.DestroyBody,
    B2World.GetPosition]

end Pencil

/-! ## Pose queries and world operations -/

namespace Pencil

/-- A pose query depends on the bodies of the world only. -/
theorem GetPosition_congr (w1 w2 : B2World) (h : w1.bodies = w2.bodies) (q : BodyPtr) :
    w1.GetPosition q = w2.GetPosition q := by
  simp only [B2World.GetPosition, h]

/-- A body that can be queried is in the world. -/
theorem GetPosition_some_mem (w : B2World) (id : Nat) (p : Vec2)
    (h : w.GetPosition (some id) = some p) :
    ∃ b ∈ w.bodies, b.id = id ∧ b.state.position = p := by
  simp only [B2World.GetPosition, Option.map_eq_some'] at h
  obtain ⟨b, hb, hp⟩ := h
  have hmem := List.mem_of_find?_eq_some hb
  have hid := List.find?_some hb
  simp only [decide_eq_true_eq, Option.some.injEq] at hid
  exact ⟨b, hmem, hid, hp⟩

/-- Creating a body keeps the answer of every pose query that had one. -/
theorem GetPosition_CreateBody_old (w : B2World) (d : BodyDef) (q : BodyPtr) (p : Vec2)
    (h : w.GetPosition q = some p) : (w.CreateBody d).1.GetPosition q = some p := by
  simp only [B2World.GetPosition, Option.map_eq_some'] at h ⊢
  obtain ⟨b, hb, hp⟩ := h
  exact ⟨b, by simp [B2World.CreateBody, List.find?_append, hb], hp⟩

/-- A new body is found at the position of its definition when all handles in
use are below the next free one. -/
theorem GetPosition_CreateBody_new (w : B2World) (d : BodyDef)
    (hfresh : ∀ b ∈ w.bodies, b.id < w.nextHandle) :
    (w.CreateBody d).1.GetPosition (some w.nextHandle) = some d.position := by
  have hnone : w.bodies.find? (fun b => decide (some b.id = some w.nextHandle)) = none := by
    rw [List.find?_eq_none]
    intro b hb
    have := hfresh b hb
    simp only [Option.some.injEq, decide_eq_true_eq]
    omega
  show ((w.bodies ++ [(⟨w.nextHandle, d, []⟩ : Body)]).find?
    (fun b : Body => decide (some b.id = some w.nextHandle))).map
      (fun b : Body => b.state.position) = _
  rw [List.find?_append, hnone]
  simp [List.find?_cons]

/-- Searching by handle after a map that keeps the handles. -/
theorem find?_map_keep_id {β : Type} (f : Body → Body) (hid : ∀ b, (f b).id = b.id)
    (q : BodyPtr) (g : Body → β) (l : List Body) :
    ((l.map f).find? (fun b => decide (some b.id = q))).map g =
      (l.find? (fun b => decide (some b.id = q))).map (fun b => g (f b)) := by
  induction l with
  | nil => rfl
  | cons b bs ih =>
    rw [List.map_cons, List.find?_cons, List.find?_cons, hid b]
    cases decide (some b.id = q)
    · exact ih
    · rfl

/-- Searching by handle after the removal of another handle. -/
theorem find?_filter_other (body q : BodyPtr) (hne : body ≠ q) (l : List Body) :
    (l.filter (fun b => decide (some b.id ≠ body))).find? (fun b => decide (some b.id = q)) =
      l.find? (fun b => decide (some b.id = q)) := by
  induction l with
  | nil => rfl
  | cons b bs ih =>
    by_cases hq : some b.id = q
    · have hb : some b.id ≠ body := fun hc => hne (hc.symm.trans hq)
      rw [List.filter_cons_of_pos (by simpa using hb), List.find?_cons, List.find?_cons]
      simp [hq]
    · by_cases hb : some b.id = body
      · rw [List.filter_cons_of_neg (by simpa using hb), ih, List.find?_cons]
        simp [hq]
      · rw [List.filter_cons_of_pos (by simpa using hb), List.find?_cons, List.find?_cons, ih]

/-- Attaching a fixture changes no pose. -/
theorem GetPosition_CreateFixture (w : B2World) (body : BodyPtr) (f : FixtureDef)
    (q : BodyPtr) : (w.CreateFixture body f).GetPosition q = w.GetPosition q := by
  show ((w.bodies.map _).find? _).map _ = _
  rw [find?_map_keep_id _ (fun b => by split <;> rfl)]
  unfold B2World.GetPosition
  congr 1
  funext b
  split <;> rfl

/-- Destroying a body changes no pose query for another pointer. -/
theorem GetPosition_DestroyBody (w : B2World) (body q : BodyPtr) (hne : body ≠ q) :
    (w.DestroyBody body).GetPosition q = w.GetPosition q := by
  show ((w.bodies.filter _).find? _).map _ = _
  rw [find?_filter_other body q hne]
  rfl

/-- A step keeps the bodies that can be queried and moves each to the position
that the solver gives it. -/
theorem GetPosition_Step (w : B2World) (solve : Solver) (dt : ℚ) (vi pi : Nat) (q : BodyPtr) :
    (w.Step solve dt vi pi).GetPosition q =
      (w.bodies.find? fun b => decide (some b.id = q)).map
        fun b => (solve w dt vi pi b).position := by
  exact find?_map_keep_id
    (fun b => { b with state := solve w dt vi pi b }) (fun _ => rfl) q
    (fun b => b.state.position) w.bodies

/-- A step keeps every pose query answerable. -/
theorem GetPosition_Step_isSome (w : B2World) (solve : Solver) (dt : ℚ) (vi pi : Nat)
    (q : BodyPtr) (p : Vec2) (h : w.GetPosition q = some p) :
    ∃ p1, (w.Step solve dt vi pi).GetPosition q = some p1 := by
  rw [GetPosition_Step]
  simp only [B2World.GetPosition, Option.map_eq_some'] at h
  obtain ⟨b, hb, _⟩ := h
  exact ⟨_, by rw [hb]; rfl⟩

/-- The loop of `DestroyBody` over a collection changes no pose query for a
pointer that is not the body of a shape in it. -/
theorem foldl_DestroyBody_GetPosition {α : Type} (g : α → BodyPtr) (l : List α) (w : B2World)
    (q : BodyPtr) (h : ∀ x ∈ l, g x ≠ q) :
    (l.foldl (fun w x => w.DestroyBody (g x)) w).GetPosition q = w.GetPosition q := by
  induction l generalizing w with
  | nil => rfl
  | cons x xs ih =>
    rw [List.foldl_cons, ih _ (fun y hy => h y (List.mem_cons_of_mem x hy))]
    exact GetPosition_DestroyBody w (g x) q (h x (List.mem_cons_self x xs))

/-- The loop of `DestroyBody` creates no body and uses no new handle. -/
theorem foldl_DestroyBody_fresh {α : Type} (g : α → BodyPtr) (l : List α) (w : B2World)
    (n : Nat) (hn : n ≤ w.nextHandle) (h : ∀ b ∈ w.bodies, b.id < w.nextHandle) :
    n ≤ (l.foldl (fun w x => w.DestroyBody (g x)) w).nextHandle ∧
    ∀ b ∈ (l.foldl (fun w x => w.DestroyBody (g x)) w).bodies,
      b.id < (l.foldl (fun w x => w.DestroyBody (g x)) w).nextHandle := by
  induction l generalizing w with
  | nil => exact ⟨hn, h⟩
  | cons x xs ih =>
    rw [List.foldl_cons]
    apply ih
    · exact hn
    · intro b hb
      simp only [B2World.DestroyBody, List.mem_filter] at hb
      exact h b hb.1

end Pencil

/-! ## The scene invariant -/

namespace Pencil

/-- The world after `CreateBody` followed by `CreateFixture` on the new body, as
every shape constructor does. -/
theorem spawn_facts (w : B2World) (d : BodyDef) (f : FixtureDef)
    (hfresh : ∀ b ∈ w.bodies, b.id < w.nextHandle) :
    ((w.CreateBody d).1.CreateFixture (some w.nextHandle) f).nextHandle = w.nextHandle + 1 ∧
    (∀ b ∈ ((w.CreateBody d).1.CreateFixture (some w.nextHandle) f).bodies,
      b.id < w.nextHandle + 1) ∧
    (∀ q p, w.GetPosition q = some p →
      ((w.CreateBody d).1.CreateFixture (some w.nextHandle) f).GetPosition q = some p) ∧
    ((w.CreateBody d).1.CreateFixture (some w.nextHandle) f).GetPosition (some w.nextHandle) =
      some d.position ∧
    ((w.CreateBody d).1.CreateFixture (some w.nextHandle) f).calls =
      w.calls ++ [.createBody d, .createFixture (some w.nextHandle) f] := by
  refine ⟨rfl, ?_, ?_, ?_, ?_⟩
  · intro b hb
    simp only [B2World.CreateFixture, B2World.CreateBody, List.mem_map, List.mem_append,
      List.mem_singleton] at hb
    obtain ⟨b0, hb0, hb⟩ := hb
    have hid : b.id = b0.id := by
      rw [← hb]
      split <;> rfl
    rw [hid]
    rcases hb0 with hb0 | hb0
    · exact Nat.lt_succ_of_lt (hfresh b0 hb0)
    · rw [hb0]
      exact Nat.lt_succ_self _
  · intro q p hq
    rw [GetPosition_CreateFixture]
    exact GetPosition_CreateBody_old w d q p hq
  · rw [GetPosition_CreateFixture]
    exact GetPosition_CreateBody_new w d hfresh
  · simp [B2World.CreateFixture, B2World.CreateBody]

/-- The invariant passes from a state to a state whose world answers the old
pose queries as before and whose new shapes and calls are as the invariant
demands. -/
theorem WellFormed.extend {s s1 : PencilPhysics} (h : WellFormed s)
    (hb : s1.bodies = s.bodies) (hr : s1.redCircle.center = s.redCircle.center)
    (hw : s1.whiteBox.center = s.whiteBox.center)
    (hn : s.world.nextHandle ≤ s1.world.nextHandle)
    (hfresh : ∀ b ∈ s1.world.bodies, b.id < s1.world.nextHandle)
    (hpos : ∀ q p, s.world.GetPosition q = some p → s1.world.GetPosition q = some p)
    (hcir : ∀ c ∈ s1.circles, c ∈ s.circles ∨ ∃ id : Nat,
      c.circle_body = some id ∧ 4 ≤ id ∧ s1.world.GetPosition (some id) = some c.center)
    (hbox : ∀ b ∈ s1.boxes, b ∈ s.boxes ∨ ∃ id : Nat,
      b.rect_body = some id ∧ 4 ≤ id ∧ s1.world.GetPosition (some id) = some b.center)
    (hpoly : ∀ p ∈ s1.polylines, p ∈ s.polylines ∨
      ((∃ id : Nat, p.chain_body = some id ∧ (id = 1 ∨ 4 ≤ id)) ∧ 2 ≤ p.vertices.length))
    (hch : ∀ (ptr : BodyPtr) (vs : List Vec2) (d f r : ℚ),
      WorldCall.createFixture ptr ⟨.chain vs, d, f, r⟩ ∈ s1.world.calls →
      WorldCall.createFixture ptr ⟨.chain vs, d, f, r⟩ ∈ s.world.calls ∨ 2 ≤ vs.length) :
    WellFormed s1 where
  bodies_eq := hb.trans h.bodies_eq
  next_ge := le_trans h.next_ge hn
  fresh := hfresh
  red := by rw [hr]; exact hpos _ _ h.red
  white := by rw [hw]; exact hpos _ _ h.white
  circles := by
    intro c hc
    rcases hcir c hc with hold | hnew
    · obtain ⟨id, h1, h2, h3⟩ := h.circles c hold
      exact ⟨id, h1, h2, hpos _ _ h3⟩
    · exact hnew
  boxes := by
    intro b hbm
    rcases hbox b hbm with hold | hnew
    · obtain ⟨id, h1, h2, h3⟩ := h.boxes b hold
      exact ⟨id, h1, h2, hpos _ _ h3⟩
    · exact hnew
  polylines := by
    intro p hp
    rcases hpoly p hp with hold | hnew
    · exact h.polylines p hold
    · exact hnew
  chains := by
    intro ptr vs d f r hmem
    rcases hch ptr vs d f r hmem with hold | hnew
    · exact h.chains ptr vs d f r hold
    · exact hnew

/-- The constructor establishes the invariant. -/
theorem WellFormed.new (u : Indeterminate) (rng : Rand) :
    WellFormed (PencilPhysics.new u rng) where
  bodies_eq := rfl
  next_ge := Nat.le_refl 4
  fresh := by
    intro b hb
    have hn : (PencilPhysics.new u rng).world.nextHandle = 4 := rfl
    rw [hn]
    simp [PencilPhysics.new, PencilPhysics.initWorld, Polyline.create, B2World.CreateBody,
      B2World.CreateFixture] at hb
    rcases hb with hb | hb | hb | hb <;> rw [hb] <;> decide
  red := by
    simp [PencilPhysics.new, PencilPhysics.initWorld, Polyline.create, B2World.CreateBody,
      B2World.CreateFixture, B2World.GetPosition, List.find?_cons]
  white := by
    simp [PencilPhysics.new, PencilPhysics.initWorld, Polyline.create, B2World.CreateBody,
      B2World.CreateFixture, B2World.GetPosition, List.find?_cons]
  circles := by
    intro c hc
    exact absurd hc (List.not_mem_nil c)
  boxes := by
    intro b hb
    exact absurd hb (List.not_mem_nil b)
  polylines := by
    intro p hp
    simp [PencilPhysics.new, PencilPhysics.initWorld, Polyline.create, B2World.CreateBody,
      B2World.CreateFixture] at hp
    rw [hp]
    exact ⟨⟨1, rfl, Or.inl rfl⟩, by decide⟩
  chains := by
    intro ptr vs d f r hmem
    simp [PencilPhysics.new, PencilPhysics.initWorld, Polyline.create, B2World.CreateBody,
      B2World.CreateFixture] at hmem
    obtain ⟨_, hvs, _⟩ := hmem
    rw [hvs]
    decide

end Pencil

namespace Pencil

/-- The invariant after a shape constructor has run on the world and the new
shape, if any, has been appended to its collection. -/
theorem WellFormed.spawn {s s1 : PencilPhysics} (h : WellFormed s) (d : BodyDef)
    (f : FixtureDef)
    (hworld : s1.world = (s.world.CreateBody d).1.CreateFixture (some s.world.nextHandle) f)
    (hb : s1.bodies = s.bodies) (hr : s1.redCircle.center = s.redCircle.center)
    (hw : s1.whiteBox.center = s.whiteBox.center)
    (hcir : ∀ c ∈ s1.circles, c ∈ s.circles ∨
      (c.circle_body = some s.world.nextHandle ∧ c.center = d.position))
    (hbox : ∀ b ∈ s1.boxes, b ∈ s.boxes ∨
      (b.rect_body = some s.world.nextHandle ∧ b.center = d.position))
    (hpoly : ∀ p ∈ s1.polylines, p ∈ s.polylines ∨
      (p.chain_body = some s.world.nextHandle ∧ 2 ≤ p.vertices.length))
    (hf : ∀ vs : List Vec2, f.shape = .chain vs → 2 ≤ vs.length) : WellFormed s1 := by
  obtain ⟨h1, h2, h3, h4, h5⟩ := spawn_facts s.world d f h.fresh
  rw [← hworld] at h1 h2 h3 h4 h5
  refine h.extend hb hr hw (by rw [h1]; exact Nat.le_succ _) (by rw [h1]; exact h2) h3 ?_ ?_ ?_ ?_
  · intro c hc
    rcases hcir c hc with hold | ⟨hptr, hcen⟩
    · exact Or.inl hold
    · exact Or.inr ⟨s.world.nextHandle, hptr, h.next_ge, by rw [hcen]; exact h4⟩
  · intro b hbm
    rcases hbox b hbm with hold | ⟨hptr, hcen⟩
    · exact Or.inl hold
    · exact Or.inr ⟨s.world.nextHandle, hptr, h.next_ge, by rw [hcen]; exact h4⟩
  · intro p hp
    rcases hpoly p hp with hold | ⟨hptr, hlen⟩
    · exact Or.inl hold
    · exact Or.inr ⟨⟨s.world.nextHandle, hptr, Or.inr h.next_ge⟩, hlen⟩
  · intro ptr vs dd ff r hmem
    rw [h5] at hmem
    simp only [List.mem_append, List.mem_cons, List.mem_singleton, List.not_mem_nil,
      or_false] at hmem
    rcases hmem with hold | hc | hc
    · exact Or.inl hold
    · exact absurd hc (by simp)
    · right
      injection hc with _ hfx
      exact hf vs (by rw [← hfx])

/-- The invariant after an operation that keeps the bodies and the collections
and adds no fixture call. -/
theorem WellFormed.sameBodies {s s1 : PencilPhysics} (h : WellFormed s)
    (hb : s1.bodies = s.bodies) (hr : s1.redCircle.center = s.redCircle.center)
    (hw : s1.whiteBox.center = s.whiteBox.center)
    (hbodies : s1.world.bodies = s.world.bodies)
    (hn : s.world.nextHandle ≤ s1.world.nextHandle)
    (hc : s1.circles = s.circles) (hbx : s1.boxes = s.boxes) (hp : s1.polylines = s.polylines)
    (hcalls : ∀ (ptr : BodyPtr) (fx : FixtureDef),
      WorldCall.createFixture ptr fx ∈ s1.world.calls →
      WorldCall.createFixture ptr fx ∈ s.world.calls) : WellFormed s1 := by
  refine h.extend hb hr hw hn ?_ ?_ ?_ ?_ ?_ ?_
  · intro b hbm
    rw [hbodies] at hbm
    exact lt_of_lt_of_le (h.fresh b hbm) hn
  · intro q p hq
    rw [GetPosition_congr s1.world s.world hbodies]
    exact hq
  · intro c hcm
    rw [hc] at hcm
    exact Or.inl hcm
  · intro b hbm
    rw [hbx] at hbm
    exact Or.inl hbm
  · intro p hpm
    rw [hp] at hpm
    exact Or.inl hpm
  · intro ptr vs d f r hmem
    exact Or.inl (hcalls ptr _ hmem)

/-- A change of the controller keeps the invariant. -/
theorem WellFormed.withHelper {s : PencilPhysics} (h : WellFormed s) (ui : UIHelper) :
    WellFormed { s with uiHelper := ui } :=
  h.sameBodies rfl rfl rfl rfl (Nat.le_refl _) rfl rfl rfl (fun _ _ hm => hm)

/-- Method `addCircle` keeps the invariant. -/
theorem WellFormed.addCircle {s : PencilPhysics} (h : WellFormed s) :
    WellFormed s.addCircle := by
  refine h.spawn _ _ rfl rfl rfl rfl ?_ ?_ ?_ ?_
  · intro c hc
    rcases List.mem_append.mp (show c ∈ s.circles ++ [_] from hc) with hold | hnew
    · exact Or.inl hold
    · rw [List.mem_singleton.mp hnew]
      exact Or.inr ⟨rfl, rfl⟩
  · intro b hb
    exact Or.inl hb
  · intro p hp
    exact Or.inl hp
  · intro vs hvs
    exact absurd hvs (by simp)

/-- Method `addBox` keeps the invariant. -/
theorem WellFormed.addBox {s : PencilPhysics} (h : WellFormed s) :
    WellFormed s.addBox := by
  refine h.spawn _ _ rfl rfl rfl rfl ?_ ?_ ?_ ?_
  · intro c hc
    exact Or.inl hc
  · intro b hb
    rcases List.mem_append.mp (show b ∈ s.boxes ++ [_] from hb) with hold | hnew
    · exact Or.inl hold
    · rw [List.mem_singleton.mp hnew]
      exact Or.inr ⟨rfl, rfl⟩
  · intro p hp
    exact Or.inl hp
  · intro vs hvs
    exact absurd hvs (by simp)

/-- Method `addPolyline` keeps the invariant when it is given at least two
points. -/
theorem WellFormed.addPolyline {s : PencilPhysics} (h : WellFormed s) (vertices : List Vec2)
    (hlen : 2 ≤ vertices.length) : WellFormed (s.addPolyline vertices) := by
  refine h.spawn _ _ rfl rfl rfl rfl ?_ ?_ ?_ ?_
  · intro c hc
    exact Or.inl hc
  · intro b hb
    exact Or.inl hb
  · intro p hp
    rcases List.mem_append.mp (show p ∈ s.polylines ++ [_] from hp) with hold | hnew
    · exact Or.inl hold
    · rw [List.mem_singleton.mp hnew]
      exact Or.inr ⟨rfl, hlen⟩
  · intro vs hvs
    injection hvs with hvs
    rw [← hvs]
    exact hlen

end Pencil

namespace Pencil

/-- Method `clear` keeps the invariant. -/
theorem WellFormed.clear {s : PencilPhysics} (h : WellFormed s) : WellFormed s.clear := by
  have hc : ∀ (q : BodyPtr), (q = some 2 ∨ q = some 3) →
      ∀ c ∈ s.circles, c.circle_body ≠ q := by
    intro q hq c hcm hcq
    obtain ⟨id, h1, h2, _⟩ := h.circles c hcm
    rw [h1] at hcq
    rcases hq with hq | hq <;> rw [hq] at hcq <;> injection hcq with hcq <;> omega
  have hbx : ∀ (q : BodyPtr), (q = some 2 ∨ q = some 3) →
      ∀ b ∈ s.boxes, b.rect_body ≠ q := by
    intro q hq b hbm hbq
    obtain ⟨id, h1, h2, _⟩ := h.boxes b hbm
    rw [h1] at hbq
    rcases hq with hq | hq <;> rw [hq] at hbq <;> injection hbq with hbq <;> omega
  have hp : ∀ (q : BodyPtr), (q = some 2 ∨ q = some 3) →
      ∀ p ∈ s.polylines, p.chain_body ≠ q := by
    intro q hq p hpm hpq
    obtain ⟨⟨id, h1, h2⟩, _⟩ := h.polylines p hpm
    rw [h1] at hpq
    rcases hq with hq | hq <;> rw [hq] at hpq <;> injection hpq with hpq <;> omega
  have hpos : ∀ (q : BodyPtr), (q = some 2 ∨ q = some 3) →
      s.clear.world.GetPosition q = s.world.GetPosition q := by
    intro q hq
    show (s.polylines.foldl (fun w p => w.DestroyBody p.chain_body)
      (s.boxes.foldl (fun w b => w.DestroyBody b.rect_body)
        (s.circles.foldl (fun w c => w.DestroyBody c.circle_body) s.world))).GetPosition q = _
    rw [foldl_DestroyBody_GetPosition (fun p : Polyline => p.chain_body) _ _ q (hp q hq),
      foldl_DestroyBody_GetPosition (fun b : Box => b.rect_body) _ _ q (hbx q hq),
      foldl_DestroyBody_GetPosition (fun c : Circle => c.circle_body) _ _ q (hc q hq)]
  have hfresh : 4 ≤ s.clear.world.nextHandle ∧
      ∀ b ∈ s.clear.world.bodies, b.id < s.clear.world.nextHandle := by
    have h1 := foldl_DestroyBody_fresh (fun c : Circle => c.circle_body) s.circles s.world 4
      h.next_ge h.fresh
    have h2 := foldl_DestroyBody_fresh (fun b : Box => b.rect_body) s.boxes _ 4 h1.1 h1.2
    exact foldl_DestroyBody_fresh (fun p : Polyline => p.chain_body) s.polylines _ 4 h2.1 h2.2
  have hcalls : s.clear.world.calls =
      ((s.world.calls ++ s.circles.map fun c => WorldCall.destroyBody c.circle_body) ++
        s.boxes.map fun b => WorldCall.destroyBody b.rect_body) ++
        s.polylines.map fun p => WorldCall.destroyBody p.chain_body := by
    show (s.polylines.foldl (fun w p => w.DestroyBody p.chain_body)
      (s.boxes.foldl (fun w b => w.DestroyBody b.rect_body)
        (s.circles.foldl (fun w c => w.DestroyBody c.circle_body) s.world))).calls = _
    rw [foldl_DestroyBody_calls (fun p : Polyline => p.chain_body),
      foldl_DestroyBody_calls (fun b : Box => b.rect_body),
      foldl_DestroyBody_calls (fun c : Circle => c.circle_body)]
  exact
    { bodies_eq := h.bodies_eq
      next_ge := hfresh.1
      fresh := hfresh.2
      red := by rw [hpos _ (Or.inl rfl)]; exact h.red
      white := by rw [hpos _ (Or.inr rfl)]; exact h.white
      circles := fun c hcm => absurd hcm (List.not_mem_nil c)
      boxes := fun b hbm => absurd hbm (List.not_mem_nil b)
      polylines := fun p hpm => absurd hpm (List.not_mem_nil p)
      chains := by
        intro ptr vs d f r hmem
        rw [hcalls] at hmem
        simp only [List.mem_append, List.mem_map] at hmem
        rcases hmem with ((hold | ⟨_, _, hx⟩) | ⟨_, _, hx⟩) | ⟨_, _, hx⟩
        · exact h.chains ptr vs d f r hold
        · exact absurd hx (by simp)
        · exact absurd hx (by simp)
        · exact absurd hx (by simp) }

/-- Method `attachMouse` keeps the invariant. -/
theorem WellFormed.attachMouse {s s1 : PencilPhysics} (h : WellFormed s) (p : Vec2)
    (hrun : s.attachMouse p = some s1) : WellFormed s1 := by
  unfold PencilPhysics.attachMouse at hrun
  by_cases ha : s.attachment p = none
  · simp only [ha, ne_eq, not_true_eq_false, if_false, Option.some.injEq] at hrun
    rw [← hrun]
    exact h
  · simp only [ne_eq, ha, not_false_eq_true, if_true, h.bodies_eq, Option.some.injEq] at hrun
    rw [← hrun]
    refine h.sameBodies h.bodies_eq.symm rfl rfl rfl (Nat.le_succ _) rfl rfl rfl ?_
    intro ptr fx hm
    simp only [B2World.CreateJoint, List.mem_append, List.mem_singleton] at hm
    rcases hm with hm | hm
    · exact hm
    · exact absurd hm (by simp)

/-- Method `moveMouse` keeps the invariant. -/
theorem WellFormed.moveMouse {s : PencilPhysics} (h : WellFormed s) (p : Vec2) :
    WellFormed (s.moveMouse p) := by
  unfold PencilPhysics.moveMouse
  split
  · refine h.sameBodies rfl rfl rfl rfl (Nat.le_refl _) rfl rfl rfl ?_
    intro ptr fx hm
    simp only [B2World.SetTarget, List.mem_append, List.mem_singleton] at hm
    rcases hm with hm | hm
    · exact hm
    · exact absurd hm (by simp)
  · exact h

/-- Method `detachMouse` keeps the invariant. -/
theorem WellFormed.detachMouse {s : PencilPhysics} (h : WellFormed s) :
    WellFormed s.detachMouse := by
  unfold PencilPhysics.detachMouse
  split
  · refine h.sameBodies rfl rfl rfl rfl (Nat.le_refl _) rfl rfl rfl ?_
    intro ptr fx hm
    simp only [B2World.DestroyJoint, List.mem_append, List.mem_singleton] at hm
    rcases hm with hm | hm
    · exact hm
    · exact absurd hm (by simp)
  · exact h

/-- Every call through `UIMain` keeps the invariant. -/
theorem WellFormed.call {s s1 : PencilPhysics} (h : WellFormed s) (c : MainCall) (hok : c.ok)
    (hrun : s.call c = some s1) : WellFormed s1 := by
  cases c with
  | addCircle => injection hrun with hrun; rw [← hrun]; exact h.addCircle
  | addBox => injection hrun with hrun; rw [← hrun]; exact h.addBox
  | addPolyline vertices =>
    injection hrun with hrun; rw [← hrun]; exact h.addPolyline vertices hok
  | clear => injection hrun with hrun; rw [← hrun]; exact h.clear
  | attachMouse point => exact h.attachMouse point hrun
  | moveMouse point => injection hrun with hrun; rw [← hrun]; exact h.moveMouse point
  | detachMouse => injection hrun with hrun; rw [← hrun]; exact h.detachMouse

/-- Every sequence of calls through `UIMain` keeps the invariant. -/
theorem WellFormed.calls {s s1 : PencilPhysics} (h : WellFormed s) (cs : List MainCall)
    (hok : ∀ c ∈ cs, c.ok) (hrun : s.calls cs = some s1) : WellFormed s1 := by
  induction cs generalizing s with
  | nil =>
    injection hrun with hrun
    rw [← hrun]
    exact h
  | cons c cs ih =>
    simp only [PencilPhysics.calls, Option.bind_eq_some] at hrun
    obtain ⟨s2, h2, h3⟩ := hrun
    exact ih (h.call c (hok c (List.mem_cons_self c cs)) h2)
      (fun c1 hc1 => hok c1 (List.mem_cons_of_mem c hc1)) h3

/-- The handlers of `UIHelper` hand at least two points to `addPolyline`. -/
theorem handlers_calls_ok (ui : UIHelper) :
    (∀ e, ∀ c ∈ (ui.onKeyDown e).2, c.ok) ∧ (∀ e, ∀ c ∈ (ui.onKeyUp e).2, c.ok) ∧
    (∀ e, ∀ c ∈ (ui.onMouseButtonDown e).2, c.ok) ∧
    (∀ e, ∀ c ∈ (ui.onMouseButtonUp e).2, c.ok) ∧
    (∀ e r, ui.onMouseMotion e = some r → ∀ c ∈ r.2, c.ok) := by
  refine ⟨?_, ?_, ?_, ?_, ?_⟩
  · intro e c hc
    unfold UIHelper.onKeyDown at hc
    split_ifs at hc <;> simp at hc <;> rw [hc] <;> trivial
  · intro e c hc
    exact absurd hc (List.not_mem_nil c)
  · intro e c hc
    unfold UIHelper.onMouseButtonDown at hc
    simp only at hc
    split_ifs at hc <;> simp at hc
    rw [hc]
    trivial
  · intro e c hc
    unfold UIHelper.onMouseButtonUp at hc
    simp only at hc
    split_ifs at hc with h1 h2 <;> simp at hc
    · rw [hc]
      exact h2
    · rw [hc]
      trivial
  · intro e r hr c hc
    unfold UIHelper.onMouseMotion at hr
    split_ifs at hr with h1 h2
    · injection hr with hr
      rw [← hr] at hc
      exact absurd hc (List.not_mem_nil c)
    · split at hr
      · exact absurd hr (by simp)
      · dsimp only at hr
        split_ifs at hr <;> injection hr with hr <;> rw [← hr] at hc <;>
          exact absurd hc (List.not_mem_nil c)
    · injection hr with hr
      rw [← hr] at hc
      simp at hc
      rw [hc]
      trivial

end Pencil

namespace Pencil

/-- Forwarding a handler result keeps the invariant. -/
theorem WellFormed.forward {s s1 : PencilPhysics} (h : WellFormed s)
    (r : Option (UIHelper × List MainCall)) (hok : ∀ r1, r = some r1 → ∀ c ∈ r1.2, c.ok)
    (hrun : s.forward r = some s1) : WellFormed s1 := by
  cases r with
  | none => exact absurd hrun (by simp [PencilPhysics.forward])
  | some r1 =>
    obtain ⟨ui, cs⟩ := r1
    exact (h.withHelper ui).calls cs (hok (ui, cs) rfl) hrun

/-- The dispatch of one event keeps the invariant. -/
theorem WellFormed.dispatch {s s1 : PencilPhysics} (h : WellFormed s) (e : SDL_Event)
    (hrun : s.dispatch e = some s1) : WellFormed s1 := by
  obtain ⟨hkd, hku, hbd, hbu, hmm⟩ := handlers_calls_ok s.uiHelper
  cases e with
  | SDL_QUIT =>
    injection hrun with hrun
    rw [← hrun]
    exact h.sameBodies rfl rfl rfl rfl (Nat.le_refl _) rfl rfl rfl (fun _ _ hm => hm)
  | SDL_KEYDOWN key =>
    exact h.forward _ (fun r1 hr1 => by injection hr1 with hr1; rw [← hr1]; exact hkd key) hrun
  | SDL_KEYUP key =>
    exact h.forward _ (fun r1 hr1 => by injection hr1 with hr1; rw [← hr1]; exact hku key) hrun
  | SDL_MOUSEMOTION motion =>
    exact h.forward _ (fun r1 hr1 => hmm motion r1 hr1) hrun
  | SDL_MOUSEBUTTONDOWN button =>
    exact h.forward _ (fun r1 hr1 => by injection hr1 with hr1; rw [← hr1]; exact hbd button)
      hrun
  | SDL_MOUSEBUTTONUP button =>
    exact h.forward _ (fun r1 hr1 => by injection hr1 with hr1; rw [← hr1]; exact hbu button)
      hrun
  | other =>
    injection hrun with hrun
    rw [← hrun]
    exact h

/-- Method `handleInput` keeps the invariant. -/
theorem WellFormed.handleInput {s s1 : PencilPhysics} (h : WellFormed s)
    (events : List SDL_Event) (hrun : s.handleInput events = some s1) : WellFormed s1 := by
  induction events generalizing s with
  | nil =>
    injection hrun with hrun
    rw [← hrun]
    exact h
  | cons e es ih =>
    simp only [PencilPhysics.handleInput, Option.bind_eq_some] at hrun
    obtain ⟨s2, h2, h3⟩ := hrun
    exact ih (h.dispatch e h2) h3

/-- The loop of `advanceState` over `circles` returns when every circle has a
body in the world. -/
theorem syncCircles_returns (w : B2World) (cs : List Circle)
    (h : ∀ c ∈ cs, ∃ p, w.GetPosition c.circle_body = some p) :
    ∃ cs1, PencilPhysics.syncCircles w cs = some cs1 := by
  induction cs with
  | nil => exact ⟨[], rfl⟩
  | cons c cs ih =>
    obtain ⟨p, hp⟩ := h c (List.mem_cons_self c cs)
    obtain ⟨rest, hrest⟩ := ih (fun c1 hc1 => h c1 (List.mem_cons_of_mem c hc1))
    exact ⟨{ c with center := ⟨p.x, p.y⟩ } :: rest, by
      simp [PencilPhysics.syncCircles, hp, hrest]⟩

/-- After the loop of `advanceState` over `circles` every circle is an old
circle whose centre is the position of its body. -/
theorem syncCircles_spec (w : B2World) (cs cs1 : List Circle)
    (h : PencilPhysics.syncCircles w cs = some cs1) :
    cs1.map (fun c => (c.radius, c.circle_body)) = cs.map (fun c => (c.radius, c.circle_body)) ∧
    ∀ c1 ∈ cs1, w.GetPosition c1.circle_body = some c1.center ∧
      ∃ c ∈ cs, c1.circle_body = c.circle_body := by
  induction cs generalizing cs1 with
  | nil =>
    injection h with h
    rw [← h]
    exact ⟨rfl, fun c1 hc1 => absurd hc1 (List.not_mem_nil c1)⟩
  | cons c cs ih =>
    simp only [PencilPhysics.syncCircles, Option.bind_eq_some, Option.map_eq_some'] at h
    obtain ⟨p, hp, rest, hrest, hcs1⟩ := h
    obtain ⟨ih1, ih2⟩ := ih rest hrest
    rw [← hcs1]
    constructor
    · simp only [List.map_cons, ih1]
    · intro c1 hc1
      rcases List.mem_cons.mp hc1 with hhead | htail
      · rw [hhead]
        exact ⟨hp, c, List.mem_cons_self c cs, rfl⟩
      · obtain ⟨h1, c0, hc0, h2⟩ := ih2 c1 htail
        exact ⟨h1, c0, List.mem_cons_of_mem c hc0, h2⟩

/-- The loop of `advanceState` over `boxes` returns when every box has a body in
the world. -/
theorem syncBoxes_returns (w : B2World) (bs : List Box)
    (h : ∀ b ∈ bs, ∃ p, w.GetPosition b.rect_body = some p) :
    ∃ bs1, PencilPhysics.syncBoxes w bs = some bs1 := by
  induction bs with
  | nil => exact ⟨[], rfl⟩
  | cons b bs ih =>
    obtain ⟨p, hp⟩ := h b (List.mem_cons_self b bs)
    obtain ⟨rest, hrest⟩ := ih (fun b1 hb1 => h b1 (List.mem_cons_of_mem b hb1))
    exact ⟨{ b with center := ⟨p.x, p.y⟩ } :: rest, by
      simp [PencilPhysics.syncBoxes, hp, hrest]⟩

/-- After the loop of `advanceState` over `boxes` every box is an old box whose
centre is the position of its body. -/
theorem syncBoxes_spec (w : B2World) (bs bs1 : List Box)
    (h : PencilPhysics.syncBoxes w bs = some bs1) :
    bs1.map (fun b => (b.size, b.rect_body)) = bs.map (fun b => (b.size, b.rect_body)) ∧
    ∀ b1 ∈ bs1, w.GetPosition b1.rect_body = some b1.center ∧
      ∃ b ∈ bs, b1.rect_body = b.rect_body := by
  induction bs generalizing bs1 with
  | nil =>
    injection h with h
    rw [← h]
    exact ⟨rfl, fun b1 hb1 => absurd hb1 (List.not_mem_nil b1)⟩
  | cons b bs ih =>
    simp only [PencilPhysics.syncBoxes, Option.bind_eq_some, Option.map_eq_some'] at h
    obtain ⟨p, hp, rest, hrest, hbs1⟩ := h
    obtain ⟨ih1, ih2⟩ := ih rest hrest
    rw [← hbs1]
    constructor
    · simp only [List.map_cons, ih1]
    · intro b1 hb1
      rcases List.mem_cons.mp hb1 with hhead | htail
      · rw [hhead]
        exact ⟨hp, b, List.mem_cons_self b bs, rfl⟩
      · obtain ⟨h1, b0, hb0, h2⟩ := ih2 b1 htail
        exact ⟨h1, b0, List.mem_cons_of_mem b hb0, h2⟩

/-- What `advanceState` returns, whenever it returns: the world is the stepped
world and every cached centre is the position of its body in that world. -/
theorem advanceState_spec (s s1 : PencilPhysics) (solve : Solver) (dt : ℚ)
    (h : s.advanceState solve dt = some s1) :
    s1.world = s.world.Step solve dt 8 3 ∧
    s1.bodies = s.bodies ∧ s1.polylines = s.polylines ∧
    (∀ c ∈ s1.circles, s1.world.GetPosition c.circle_body = some c.center ∧
      ∃ c0 ∈ s.circles, c.circle_body = c0.circle_body) ∧
    (∀ b ∈ s1.boxes, s1.world.GetPosition b.rect_body = some b.center ∧
      ∃ b0 ∈ s.boxes, b.rect_body = b0.rect_body) ∧
    (∃ body0 body1 rest, s1.bodies = body0 :: body1 :: rest ∧
      s1.world.GetPosition body0 = some s1.redCircle.center ∧
      s1.world.GetPosition body1 = some s1.whiteBox.center) := by
  unfold PencilPhysics.advanceState at h
  simp only [Option.bind_eq_some] at h
  obtain ⟨cs1, hcs, bs1, hbs, hrest⟩ := h
  split at hrest
  · rename_i body0 body1 rest hbodies
    simp only [Option.bind_eq_some, Option.some.injEq] at hrest
    obtain ⟨p0, hp0, p1, hp1, hs1⟩ := hrest
    rw [← hs1]
    exact ⟨rfl, rfl, rfl, (syncCircles_spec _ _ _ hcs).2, (syncBoxes_spec _ _ _ hbs).2,
      body0, body1, rest, hbodies, hp0, hp1⟩
  · exact absurd hrest (by simp)

/-- On a state with the invariant `advanceState` returns, and the invariant
holds afterwards. -/
theorem WellFormed.advanceState {s : PencilPhysics} (h : WellFormed s) (solve : Solver)
    (dt : ℚ) : ∃ s1, s.advanceState solve dt = some s1 ∧ WellFormed s1 := by
  obtain ⟨cs1, hcs⟩ := syncCircles_returns (s.world.Step solve dt 8 3) s.circles (by
    intro c hc
    obtain ⟨id, h1, _, h3⟩ := h.circles c hc
    rw [h1]
    exact GetPosition_Step_isSome _ _ _ _ _ _ _ h3)
  obtain ⟨bs1, hbs⟩ := syncBoxes_returns (s.world.Step solve dt 8 3) s.boxes (by
    intro b hb
    obtain ⟨id, h1, _, h3⟩ := h.boxes b hb
    rw [h1]
    exact GetPosition_Step_isSome _ _ _ _ _ _ _ h3)
  obtain ⟨p0, hp0⟩ := GetPosition_Step_isSome s.world solve dt 8 3 _ _ h.red
  obtain ⟨p1, hp1⟩ := GetPosition_Step_isSome s.world solve dt 8 3 _ _ h.white
  have hrun : s.advanceState solve dt = some
      { s with
        world := s.world.Step solve dt 8 3, circles := cs1, boxes := bs1
        redCircle := { s.redCircle with center := ⟨p0.x, p0.y⟩ }
        whiteBox := { s.whiteBox with center := ⟨p1.x, p1.y⟩ } } := by
    simp [PencilPhysics.advanceState, hcs, hbs, h.bodies_eq, hp0, hp1]
  refine ⟨_, hrun, ?_⟩
  obtain ⟨_, _, _, hc, hb, _⟩ := advanceState_spec s _ solve dt hrun
  exact
    { bodies_eq := h.bodies_eq
      next_ge := h.next_ge
      fresh := by
        intro b hbm
        simp only [B2World.Step, List.mem_map] at hbm
        obtain ⟨b0, hb0, hb1⟩ := hbm
        rw [← hb1]
        exact h.fresh b0 hb0
      red := hp0
      white := hp1
      circles := by
        intro c hcm
        obtain ⟨hpos, c0, hc0, hptr⟩ := hc c hcm
        obtain ⟨id, h1, h2, _⟩ := h.circles c0 hc0
        exact ⟨id, hptr.trans h1, h2, by rw [← h1, ← hptr]; exact hpos⟩
      boxes := by
        intro b hbm
        obtain ⟨hpos, b0, hb0, hptr⟩ := hb b hbm
        obtain ⟨id, h1, h2, _⟩ := h.boxes b0 hb0
        exact ⟨id, hptr.trans h1, h2, by rw [← h1, ← hptr]; exact hpos⟩
      polylines := h.polylines
      chains := by
        intro ptr vs d f r hmem
        simp only [B2World.Step, List.mem_append, List.mem_singleton] at hmem
        rcases hmem with hm | hm
        · exact h.chains ptr vs d f r hm
        · exact absurd hm (by simp) }

/-- Method `run` keeps the invariant. -/
theorem WellFormed.run {s s1 : PencilPhysics} (h : WellFormed s) (solve : Solver)
    (frames : List (List SDL_Event)) (hrun : s.run solve frames = some s1) :
    WellFormed s1 := by
  induction frames generalizing s with
  | nil =>
    injection hrun with hrun
    rw [← hrun]
    exact h
  | cons events rest ih =>
    unfold PencilPhysics.run at hrun
    split_ifs at hrun with hq
    · injection hrun with hrun
      rw [← hrun]
      exact h
    · simp only [Option.bind_eq_some] at hrun
      obtain ⟨s2, h2, s3, h3, h4⟩ := hrun
      obtain ⟨s4, h5, h6⟩ := (h.handleInput events h2).advanceState solve (1 / 60)
      rw [h5] at h3
      injection h3 with h3
      rw [h3] at h6
      exact ih h6 h4

end Pencil

/-! ## Cached centres -/

namespace Pencil

/-- C14: whenever `advanceState` returns, the world is the stepped world and the
cached centre of every circle, of every box and of the two anchor shapes is the
position of its body in that world.  A constructed circle or box has the
position of its new body as centre.  Hence in every state in which events are
dispatched (after any number of loop iterations and any events of the current
one) every cached centre is the current position of its body, and the next
`advanceState` returns. -/
theorem advanceState_keeps_centers_current (u : Indeterminate) (rng : Rand) (solve : Solver)
    (frames : List (List SDL_Event)) (events : List SDL_Event) (s : PencilPhysics)
    (hrun : ((PencilPhysics.new u rng).run solve frames).bind
      (fun s0 => s0.handleInput events) = some s) :
    (∀ (s0 s1 : PencilPhysics) (dt : ℚ), s0.advanceState solve dt = some s1 →
      s1.world = s0.world.Step solve dt 8 3 ∧
      (∀ c ∈ s1.circles, s1.world.GetPosition c.circle_body = some c.center) ∧
      (∀ b ∈ s1.boxes, s1.world.GetPosition b.rect_body = some b.center) ∧
      (∃ body0 body1 rest, s1.bodies = body0 :: body1 :: rest ∧
        s1.world.GetPosition body0 = some s1.redCircle.center ∧
        s1.world.GetPosition body1 = some s1.whiteBox.center)) ∧
    (∀ (center : Vec2) (radius : ℚ),
      (Circle.create center radius s.world).1.center = center ∧
      (Circle.create center radius s.world).2.GetPosition
        (Circle.create center radius s.world).1.circle_body = some center) ∧
    (∀ (center size : Vec2),
      (Box.create center size s.world).1.center = center ∧
      (Box.create center size s.world).2.GetPosition
        (Box.create center size s.world).1.rect_body = some center) ∧
    (∀ c ∈ s.circles, s.world.GetPosition c.circle_body = some c.center) ∧
    (∀ b ∈ s.boxes, s.world.GetPosition b.rect_body = some b.center) ∧
    (∃ body0 body1 rest, s.bodies = body0 :: body1 :: rest ∧
      s.world.GetPosition body0 = some s.redCircle.center ∧
      s.world.GetPosition body1 = some s.whiteBox.center) ∧
    (∀ dt : ℚ, ∃ s1, s.advanceState solve dt = some s1) := by
  have hwf : WellFormed s := by
    simp only [Option.bind_eq_some] at hrun
    obtain ⟨s0, h0, h1⟩ := hrun
    exact ((WellFormed.new u rng).run solve frames h0).handleInput events h1
  refine ⟨?_, ?_, ?_, ?_, ?_, ?_, ?_⟩
  · intro s0 s1 dt h
    obtain ⟨h1, _, _, h4, h5, h6⟩ := advanceState_spec s0 s1 solve dt h
    exact ⟨h1, fun c hc => (h4 c hc).1, fun b hb => (h5 b hb).1, h6⟩
  · intro center radius
    exact ⟨rfl, (spawn_facts s.world _ _ hwf.fresh).2.2.2.1⟩
  · intro center size
    exact ⟨rfl, (spawn_facts s.world _ _ hwf.fresh).2.2.2.1⟩
  · intro c hc
    obtain ⟨id, h1, _, h3⟩ := hwf.circles c hc
    rw [h1]
    exact h3
  · intro b hb
    obtain ⟨id, h1, _, h3⟩ := hwf.boxes b hb
    rw [h1]
    exact h3
  · exact ⟨some 2, some 3, [], hwf.bodies_eq, hwf.red, hwf.white⟩
  · intro dt
    obtain ⟨s1, h1, _⟩ := hwf.advanceState solve dt
    exact ⟨s1, h1⟩

/-- The sample iteration of the loop returns the sample state. -/
theorem steppedApp_run :
    (startApp.run fallSolver [[.SDL_KEYDOWN ⟨SDL_SCANCODE_C⟩]]).bind
      (fun s0 => s0.handleInput []) = some steppedApp := by
  have h0 : startApp.handleInput [.SDL_KEYDOWN ⟨SDL_SCANCODE_C⟩] = some startApp.addCircle :=
    rfl
  obtain ⟨s1, h1, _⟩ :=
    ((WellFormed.new ⟨none, none, none⟩ zeroRand).addCircle).advanceState fallSolver (1 / 60)
  have h2 : steppedApp = s1 := by
    unfold steppedApp
    rw [show startApp.addCircle.advanceState fallSolver (1 / 60) = some s1 from h1]
    rfl
  have hq : startApp.userQuit = false := rfl
  rw [h2]
  unfold PencilPhysics.run
  rw [if_neg (by rw [hq]; simp), h0]
  simp only [Option.some_bind]
  rw [show startApp.addCircle.advanceState fallSolver (1 / 60) = some s1 from h1]
  rfl

/-- C14, at the state after one loop iteration that spawned a circle: the
centre of the circle is the position of its body. -/
theorem advanceState_keeps_centers_current_witness :
    (startApp.run fallSolver [[.SDL_KEYDOWN ⟨SDL_SCANCODE_C⟩]]).bind
      (fun s0 => s0.handleInput []) = some steppedApp ∧
    ∀ c ∈ steppedApp.circles, steppedApp.world.GetPosition c.circle_body = some c.center :=
  ⟨steppedApp_run,
   (advanceState_keeps_centers_current ⟨none, none, none⟩ zeroRand fallSolver
     [[.SDL_KEYDOWN ⟨SDL_SCANCODE_C⟩]] [] steppedApp steppedApp_run).2.2.2.1⟩

/-- C15: `Box::contains` reads the cached centre and the size only, and
`advanceState` reads back only the position of the body: replacing the angles of
the bodies of a world by any other angles changes no position query and hence
no box after the read-back, so `contains` answers the same for every point.  A
box of size (1.2, 0.6), half-extents (0.6, 0.3), does not contain the point at
offset (0, 0.5) from its centre whatever the angle of its body, although the box
with the extents swapped, the footprint after a quarter turn, does. -/
theorem box_contains_ignores_rotation :
    (∀ (w : B2World) (angle : Body → ℚ) (q : BodyPtr),
      B2World.GetPosition
        { w with bodies := w.bodies.map fun b =>
            { b with state := { b.state with angle := angle b } } } q =
      w.GetPosition q) ∧
    (∀ (w : B2World) (angle : Body → ℚ) (bs : List Box),
      PencilPhysics.syncBoxes
        { w with bodies := w.bodies.map fun b =>
            { b with state := { b.state with angle := angle b } } } bs =
      PencilPhysics.syncBoxes w bs) ∧
    (∀ (w : B2World) (angle : Body → ℚ) (b b1 b2 : Box) (p : Vec2),
      PencilPhysics.syncBoxes w [b] = some [b1] →
      PencilPhysics.syncBoxes
        { w with bodies := w.bodies.map fun b =>
            { b with state := { b.state with angle := angle b } } } [b] = some [b2] →
      b1.contains p = b2.contains p) ∧
    (∀ (b1 b2 : Box) (p : Vec2), b1.center = b2.center → b1.size = b2.size →
      b1.contains p = b2.contains p) ∧
    (∀ (w : B2World) (angle : Body → ℚ) (b b1 : Box), b.size = ⟨12 / 10, 6 / 10⟩ →
      PencilPhysics.syncBoxes
        { w with bodies := w.bodies.map fun b =>
            { b with state := { b.state with angle := angle b } } } [b] = some [b1] →
      b1.contains (b1.center + ⟨0, 1 / 2⟩) = false ∧
      Box.contains { b1 with size := ⟨b1.size.y, b1.size.x⟩ } (b1.center + ⟨0, 1 / 2⟩) = true) := by
  have hpos : ∀ (w : B2World) (angle : Body → ℚ) (q : BodyPtr),
      B2World.GetPosition
        { w with bodies := w.bodies.map fun b =>
            { b with state := { b.state with angle := angle b } } } q =
      w.GetPosition q := by
    intro w angle q
    exact find?_map_keep_id (fun b => { b with state := { b.state with angle := angle b } })
      (fun _ => rfl) q (fun b => b.state.position) w.bodies
  have hsync : ∀ (w : B2World) (angle : Body → ℚ) (bs : List Box),
      PencilPhysics.syncBoxes
        { w with bodies := w.bodies.map fun b =>
            { b with state := { b.state with angle := angle b } } } bs =
      PencilPhysics.syncBoxes w bs := by
    intro w angle bs
    induction bs with
    | nil => rfl
    | cons b bs ih => simp only [PencilPhysics.syncBoxes, hpos, ih]
  refine ⟨hpos, hsync, ?_, ?_, ?_⟩
  · intro w angle b b1 b2 p h1 h2
    rw [hsync, h1] at h2
    injection h2 with h2
    injection h2 with h2
    rw [h2]
  · intro b1 b2 p hc hs
    simp only [Box.contains, hc, hs]
  · intro w angle b b1 hsize h
    have hb1 : b1.size = ⟨12 / 10, 6 / 10⟩ := by
      have := (syncBoxes_spec _ _ _ h).1
      simp only [List.map_cons, List.map_nil, List.cons.injEq, Prod.mk.injEq, and_true] at this
      rw [this.1, hsize]
    constructor
    · simp only [Box.contains, hb1, Vec2.sub_x, Vec2.sub_y, Vec2.add_x, Vec2.add_y]
      norm_num [abs_le]
    · simp only [Box.contains, hb1, Vec2.sub_x, Vec2.sub_y, Vec2.add_x, Vec2.add_y]
      norm_num [abs_le]

end Pencil

/-! ## Window to world -/

namespace Pencil

/-- C16, as stated, fails for a window of negative width and height: with world
rectangle (0,0)-(1,1) the world x decreases from pixel column 0 to column 1 and
the world y increases from pixel row 0 to row 1. -/
theorem windowToWorld_monotone_fails_mirrored :
    mirroredHelper.worldMin.x < mirroredHelper.worldMax.x ∧
    mirroredHelper.worldMin.y < mirroredHelper.worldMax.y ∧
    ¬ ((mirroredHelper.windowToWorld 0 0).x < (mirroredHelper.windowToWorld 1 0).x) ∧
    ¬ ((mirroredHelper.windowToWorld 0 1).y < (mirroredHelper.windowToWorld 0 0).y) := by
  refine ⟨?_, ?_, ?_, ?_⟩ <;>
    norm_num [mirroredHelper, UIHelper.new, UIHelper.windowToWorld]

/-- C16, amended: `windowToWorld(x, y)` is
`worldMin + (x/width, (height-1-y)/height) * (worldMax - worldMin)` componentwise;
for a window of positive width and height and `worldMin < worldMax`
componentwise the world x is strictly increasing in the window x, the world y
is strictly decreasing in the window y, and the pixel (0, height-1) maps to
`worldMin`. -/
theorem windowToWorld_affine_monotone (h : UIHelper) (hw : 0 < h.width) (hh : 0 < h.height)
    (hx : h.worldMin.x < h.worldMax.x) (hy : h.worldMin.y < h.worldMax.y) :
    (∀ x y : Int,
      (h.windowToWorld x y).x =
        h.worldMin.x + ((x : ℚ) / (h.width : ℚ)) * (h.worldMax.x - h.worldMin.x) ∧
      (h.windowToWorld x y).y =
        h.worldMin.y +
          (((h.height : ℚ) - 1 - (y : ℚ)) / (h.height : ℚ)) * (h.worldMax.y - h.worldMin.y)) ∧
    (∀ x1 x2 y : Int, x1 < x2 → (h.windowToWorld x1 y).x < (h.windowToWorld x2 y).x) ∧
    (∀ x y1 y2 : Int, y1 < y2 → (h.windowToWorld x y2).y < (h.windowToWorld x y1).y) ∧
    h.windowToWorld 0 (h.height - 1) = h.worldMin := by
  have hwq : (0 : ℚ) < (h.width : ℚ) := by exact_mod_cast hw
  have hhq : (0 : ℚ) < (h.height : ℚ) := by exact_mod_cast hh
  have hdx : 0 < h.worldMax.x - h.worldMin.x := sub_pos.mpr hx
  have hdy : 0 < h.worldMax.y - h.worldMin.y := sub_pos.mpr hy
  refine ⟨?_, ?_, ?_, ?_⟩
  · intro x y
    constructor
    · simp [UIHelper.windowToWorld]
    · simp [UIHelper.windowToWorld]
  · intro x1 x2 y hlt
    have hq : (x1 : ℚ) < (x2 : ℚ) := by exact_mod_cast hlt
    simp only [UIHelper.windowToWorld, Vec2.add_x, Vec2.mul_x, Vec2.sub_x]
    have hdiv : (x1 : ℚ) / (h.width : ℚ) < (x2 : ℚ) / (h.width : ℚ) :=
      div_lt_div_of_pos_right hq hwq
    have := mul_lt_mul_of_pos_right hdiv hdx
    linarith
  · intro x y1 y2 hlt
    have hq : (y1 : ℚ) < (y2 : ℚ) := by exact_mod_cast hlt
    simp only [UIHelper.windowToWorld, Vec2.add_y, Vec2.mul_y, Vec2.sub_y]
    have hnum : ((h.height - 1 - y2 : Int) : ℚ) < ((h.height - 1 - y1 : Int) : ℚ) := by
      push_cast
      linarith
    have hdiv := div_lt_div_of_pos_right hnum hhq
    have := mul_lt_mul_of_pos_right hdiv hdy
    linarith
  · have hext : ∀ a b : Vec2, a.x = b.x → a.y = b.y → a = b := by
      intro a b h1 h2
      cases a
      cases b
      simp_all
    apply hext
    · simp [UIHelper.windowToWorld]
    · simp [UIHelper.windowToWorld]

/-- C16, amended, at the controller of the application: the columns 0 and 1 of
row 0 map to increasing world x. -/
theorem windowToWorld_affine_monotone_witness :
    (0 : Int) < startApp.uiHelper.width ∧ (0 : Int) < startApp.uiHelper.height ∧
    startApp.uiHelper.worldMin.x < startApp.uiHelper.worldMax.x ∧
    startApp.uiHelper.worldMin.y < startApp.uiHelper.worldMax.y ∧
    (startApp.uiHelper.windowToWorld 0 0).x < (startApp.uiHelper.windowToWorld 1 0).x := by
  have hw : (0 : Int) < startApp.uiHelper.width := by decide
  have hh : (0 : Int) < startApp.uiHelper.height := by decide
  have hx : startApp.uiHelper.worldMin.x < startApp.uiHelper.worldMax.x := by
    norm_num [startApp, PencilPhysics.new, PencilPhysics.initWorld, UIHelper.new]
  have hy : startApp.uiHelper.worldMin.y < startApp.uiHelper.worldMax.y := by
    norm_num [startApp, PencilPhysics.new, PencilPhysics.initWorld, UIHelper.new]
  exact ⟨hw, hh, hx, hy,
    (windowToWorld_affine_monotone startApp.uiHelper hw hh hx hy).2.1 0 1 0 (by decide)⟩

end Pencil

/-! ## Committed polylines -/

namespace Pencil

/-- C18: from the freshly constructed application, pressing two pointer buttons
at the same pixel in `DrawMode` and releasing one commits the polyline
(0, 9/2), (0, 9/2), after the walls: its two consecutive vertices coincide, so
they are not more than `edgeMin` apart. -/
theorem doubleDraw_commits_zero_length_edge :
    (startApp.handleInput doubleDraw).map (fun s => s.polylines.map (fun p => p.vertices)) =
      some [[⟨-8, 9⟩, ⟨-8, 0⟩, ⟨8, 0⟩, ⟨8, 9⟩], [⟨0, 9 / 2⟩, ⟨0, 9 / 2⟩]] ∧
    glmLengthGt ((⟨0, 9 / 2⟩ : Vec2) - ⟨0, 9 / 2⟩) startApp.uiHelper.edgeMin = false := by
  constructor
  · simp [startApp, doubleDraw, PencilPhysics.handleInput, PencilPhysics.dispatch,
      PencilPhysics.forward, PencilPhysics.calls, PencilPhysics.call,
      UIHelper.onMouseButtonDown, UIHelper.onMouseButtonUp, UIHelper.windowToWorld,
      UIHelper.new, PencilPhysics.new, PencilPhysics.initWorld, zeroRand,
      B2World.CreateBody, B2World.CreateFixture, Polyline.create, PencilPhysics.addPolyline]
    norm_num
  · norm_num [glmLengthGt, Vec2.normSq, startApp, PencilPhysics.new, PencilPhysics.initWorld,
      UIHelper.new]

/-- C19: in every state reached from the constructed application by loop
iterations and events, every polyline of `polylines` has at least two vertices
and every chain fixture handed to the world was built from at least two
vertices; the walls, which the constructor puts into `polylines`, have four, and
a pointer-up hands a polyline to `addPolyline` only with at least two points. -/
theorem polylines_have_two_vertices (u : Indeterminate) (rng : Rand) (solve : Solver)
    (frames : List (List SDL_Event)) (events : List SDL_Event) (s : PencilPhysics)
    (hrun : ((PencilPhysics.new u rng).run solve frames).bind
      (fun s0 => s0.handleInput events) = some s) :
    (∀ p ∈ s.polylines, 2 ≤ p.vertices.length) ∧
    (∀ (ptr : BodyPtr) (vs : List Vec2) (d f r : ℚ),
      WorldCall.createFixture ptr ⟨.chain vs, d, f, r⟩ ∈ s.world.calls → 2 ≤ vs.length) ∧
    (PencilPhysics.new u rng).polylines = [(PencilPhysics.new u rng).walls] ∧
    (PencilPhysics.new u rng).walls.vertices.length = 4 ∧
    (∀ (ui : UIHelper) (e : SDL_MouseButtonEvent) (vs : List Vec2),
      MainCall.addPolyline vs ∈ (ui.onMouseButtonUp e).2 → 2 ≤ vs.length) := by
  have hwf : WellFormed s := by
    simp only [Option.bind_eq_some] at hrun
    obtain ⟨s0, h0, h1⟩ := hrun
    exact ((WellFormed.new u rng).run solve frames h0).handleInput events h1
  refine ⟨fun p hp => (hwf.polylines p hp).2, hwf.chains, rfl, rfl, ?_⟩
  intro ui e vs hmem
  exact (handlers_calls_ok ui).2.2.2.1 e _ hmem

/-- The polylines after the sample stroke: the walls and the drawn stroke. -/
theorem strokeEvents_polylines :
    (startApp.handleInput strokeEvents).map (fun s => s.polylines.map (fun p => p.vertices)) =
      some [[⟨-8, 9⟩, ⟨-8, 0⟩, ⟨8, 0⟩, ⟨8, 9⟩], [⟨0, 9 / 2⟩, ⟨4 / 5, 9 / 2⟩]] := by
  simp [startApp, strokeEvents, PencilPhysics.handleInput, PencilPhysics.dispatch,
    PencilPhysics.forward, PencilPhysics.calls, PencilPhysics.call,
    UIHelper.onMouseButtonDown, UIHelper.onMouseButtonUp, UIHelper.onMouseMotion,
    UIHelper.windowToWorld, UIHelper.new, PencilPhysics.new, PencilPhysics.initWorld,
    zeroRand, B2World.CreateBody, B2World.CreateFixture, Polyline.create,
    PencilPhysics.addPolyline, glmLengthGt, Vec2.normSq]
  norm_num
  simp [PencilPhysics.handleInput, PencilPhysics.dispatch,
    PencilPhysics.forward, PencilPhysics.calls, PencilPhysics.call,
    UIHelper.onMouseButtonUp, B2World.CreateBody, B2World.CreateFixture, Polyline.create,
    PencilPhysics.addPolyline]

/-- The sample stroke runs to the sample state. -/
theorem drawnApp_run :
    ((startApp.run fallSolver []).bind fun s0 => s0.handleInput strokeEvents) =
      some drawnApp := by
  obtain ⟨s1, h1, _⟩ := Option.map_eq_some'.mp strokeEvents_polylines
  show startApp.handleInput strokeEvents = some drawnApp
  unfold drawnApp
  rw [h1]
  rfl

/-- C19, at the state after the sample stroke, whose polylines are the walls
and the stroke of two points. -/
theorem polylines_have_two_vertices_witness :
    ((startApp.run fallSolver []).bind fun s0 => s0.handleInput strokeEvents) =
      some drawnApp ∧
    ∀ p ∈ drawnApp.polylines, 2 ≤ p.vertices.length :=
  ⟨drawnApp_run,
   (polylines_have_two_vertices ⟨none, none, none⟩ zeroRand fallSolver [] strokeEvents
     drawnApp drawnApp_run).1⟩

/-! ## Shape constructors -/

/-- Copying the components of every vertex gives the same list. -/
theorem map_components (vertices : List Vec2) :
    (vertices.map fun v => (⟨v.x, v.y⟩ : Vec2)) = vertices := by
  induction vertices with
  | nil => rfl
  | cons v vs ih => rw [List.map_cons, ih]

/-- C20, as stated, fails: on the world of the constructed application a circle of
radius -1 and a box of size (-1, 0) are constructed as given, each with a new body
(handle 4) in the world. -/
theorem constructors_accept_invalid :
    (Circle.create ⟨0, 0⟩ (-1) startApp.world).1 = ⟨⟨0, 0⟩, -1, some 4⟩ ∧
    (Circle.create ⟨0, 0⟩ (-1) startApp.world).2.bodies.map (fun b => b.id) = [0, 1, 2, 3, 4] ∧
    (Box.create ⟨0, 0⟩ ⟨-1, 0⟩ startApp.world).1 = ⟨⟨0, 0⟩, ⟨-1, 0⟩, some 4⟩ ∧
    (Box.create ⟨0, 0⟩ ⟨-1, 0⟩ startApp.world).2.bodies.map (fun b => b.id) = [0, 1, 2, 3, 4] :=
  ⟨rfl, rfl, rfl, rfl⟩

/-- C20, amended: the constructors of `Circle`, `Box` and `Polyline` validate nothing.
For every radius and size the first two return the shape with the arguments as given and
the handle of a new body, and hand the world exactly one `CreateBody` and one
`CreateFixture` with the radius or half the size unchanged.  The constructor of `Polyline`
has no check either: for a non-empty vertex list it hands all the points unchanged to
`CreateChain` and, where that returns a shape, creates one static body with that shape as
its fixture; where `CreateChain` returns none, no body is created; for the empty list the
read of element 0 is undefined.  With a library that accepts every array it is the
constructor that the scene uses. -/
theorem constructors_do_not_validate (w : B2World) :
    (∀ (center : Vec2) (radius : ℚ),
      (Circle.create center radius w).1 = ⟨center, radius, some w.nextHandle⟩ ∧
      (Circle.create center radius w).2.bodies.length = w.bodies.length + 1 ∧
      (Circle.create center radius w).2.calls = w.calls ++
        [.createBody ⟨.b2_dynamicBody, center, 0, ⟨0, 0⟩, 1 / 10⟩,
         .createFixture (some w.nextHandle) ⟨.circle ⟨0, 0⟩ radius, 2 / 10, 4 / 10, 4 / 10⟩]) ∧
    (∀ (center size : Vec2),
      (Box.create center size w).1 = ⟨center, size, some w.nextHandle⟩ ∧
      (Box.create center size w).2.bodies.length = w.bodies.length + 1 ∧
      (Box.create center size w).2.calls = w.calls ++
        [.createBody ⟨.b2_dynamicBody, center, 0, ⟨0, 0⟩, 1 / 10⟩,
         .createFixture (some w.nextHandle)
           ⟨.box (size.x / 2) (size.y / 2), 2 / 10, 4 / 10, 4 / 10⟩]) ∧
    (∀ (createChain : ChainFactory) (vertices : List Vec2),
      (vertices = [] → Polyline.construct createChain vertices w = .error .undefinedRead) ∧
      (vertices ≠ [] → createChain vertices vertices.length = none →
        Polyline.construct createChain vertices w = .error .chainRejected) ∧
      (vertices ≠ [] → ∀ chain : Shape, createChain vertices vertices.length = some chain →
        ∃ w2 : B2World,
          Polyline.construct createChain vertices w = .ok (⟨vertices, some w.nextHandle⟩, w2) ∧
          w2.bodies.length = w.bodies.length + 1 ∧
          w2.calls = w.calls ++
            [.createBody ⟨.b2_staticBody, ⟨0, 0⟩, 0, ⟨0, 0⟩, 0⟩,
             .createFixture (some w.nextHandle) ⟨chain, 1, 4 / 10, 4 / 10⟩])) ∧
    (∀ (vertices : List Vec2), vertices ≠ [] →
      Polyline.construct ChainFactory.permissive vertices w =
        .ok (Polyline.create vertices w)) := by
  refine ⟨?_, ?_, ?_, ?_⟩
  · intro center radius
    refine ⟨rfl, ?_, ?_⟩
    · simp [Circle.create, B2World.CreateBody, B2World.CreateFixture]
    · simp [Circle.create, B2World.CreateBody, B2World.CreateFixture, BodyDef.default]
  · intro center size
    refine ⟨rfl, ?_, ?_⟩
    · simp [Box.create, B2World.CreateBody, B2World.CreateFixture]
    · simp [Box.create, B2World.CreateBody, B2World.CreateFixture, BodyDef.default]
  · intro createChain vertices
    refine ⟨?_, ?_, ?_⟩
    · intro h
      rw [h]
      rfl
    · intro h hc
      obtain ⟨v, vs, rfl⟩ := List.exists_cons_of_ne_nil h
      simp only [Polyline.construct, map_components, List.head?_cons, hc]
    · intro h chain hc
      obtain ⟨v, vs, rfl⟩ := List.exists_cons_of_ne_nil h
      refine ⟨(w.CreateBody ⟨.b2_staticBody, ⟨0, 0⟩, 0, ⟨0, 0⟩, 0⟩).1.CreateFixture
        (some w.nextHandle) ⟨chain, 1, 4 / 10, 4 / 10⟩, ?_, ?_, ?_⟩
      · simp only [Polyline.construct, map_components, List.head?_cons, hc]
        rfl
      · simp [B2World.CreateBody, B2World.CreateFixture]
      · simp [B2World.CreateBody, B2World.CreateFixture, BodyDef.default]
  · intro vertices h
    obtain ⟨v, vs, rfl⟩ := List.exists_cons_of_ne_nil h
    simp only [Polyline.construct, map_components, List.head?_cons, ChainFactory.permissive,
      List.take_length]
    rfl

/-- C20, amended, at the world of the constructed application: for the empty
vertex list the constructor reads element 0 of an empty vector, and a polyline
of one point gets a body when the library accepts the array. -/
theorem constructors_do_not_validate_witness :
    Polyline.construct ChainFactory.permissive [] startApp.world = .error .undefinedRead ∧
    ∃ w2 : B2World,
      Polyline.construct ChainFactory.permissive [⟨0, 0⟩] startApp.world =
        .ok (⟨[⟨0, 0⟩], some startApp.world.nextHandle⟩, w2) ∧
      w2.bodies.length = startApp.world.bodies.length + 1 :=
  ⟨((constructors_do_not_validate startApp.world).2.2.1 ChainFactory.permissive []).1 rfl,
   (((constructors_do_not_validate startApp.world).2.2.1 ChainFactory.permissive
      [⟨0, 0⟩]).2.2 (by simp) (.chain [⟨0, 0⟩]) rfl).imp fun _ h => ⟨h.1, h.2.1⟩⟩

end Pencil

/-! ## Spawned bodies -/

namespace Pencil

/-- The calls that `addCircle` hands to the world: one `CreateBody` for a
dynamic body at rest but for an angular velocity of 0.1, and one
`CreateFixture`. -/
theorem addCircle_calls (s : PencilPhysics) :
    ∃ (position : Vec2) (f : FixtureDef),
      s.addCircle.world.calls = s.world.calls ++
        [.createBody ⟨.b2_dynamicBody, position, 0, ⟨0, 0⟩, 1 / 10⟩,
         .createFixture (some s.world.nextHandle) f] :=
  ⟨(⟨-5, 7⟩ : Vec2) + ((1 / 2 : ℚ) * s.randomVec2.1 : Vec2),
    ⟨.circle ⟨0, 0⟩ (1 / 2), 2 / 10, 4 / 10, 4 / 10⟩, by
    simp [PencilPhysics.addCircle, PencilPhysics.randomVec2, Rand.rand, Circle.create,
      B2World.CreateBody, B2World.CreateFixture, BodyDef.default]⟩

/-- The calls that `addBox` hands to the world: one `CreateBody` for a dynamic
body at rest but for an angular velocity of 0.1, and one `CreateFixture`. -/
theorem addBox_calls (s : PencilPhysics) :
    ∃ (position : Vec2) (f : FixtureDef),
      s.addBox.world.calls = s.world.calls ++
        [.createBody ⟨.b2_dynamicBody, position, 0, ⟨0, 0⟩, 1 / 10⟩,
         .createFixture (some s.world.nextHandle) f] :=
  ⟨(⟨-5, 7⟩ : Vec2) + ((1 / 2 : ℚ) * s.randomVec2.1 : Vec2),
    ⟨.box ((12 / 10 : ℚ) / 2) ((6 / 10 : ℚ) / 2), 2 / 10, 4 / 10, 4 / 10⟩, by
    simp [PencilPhysics.addBox, PencilPhysics.randomVec2, Rand.rand, Box.create,
      B2World.CreateBody, B2World.CreateFixture, BodyDef.default]⟩

/-- C21, as stated, fails: the body definition that `addCircle` hands to the
world on the freshly constructed application has a non-zero angular velocity,
and so has the one of `addBox`. -/
theorem spawned_body_angular_velocity_nonzero :
    (∃ (d : BodyDef) (c : WorldCall),
      startApp.addCircle.world.calls = startApp.world.calls ++ [.createBody d, c] ∧
      d.type = .b2_dynamicBody ∧ d.angularVelocity ≠ 0) ∧
    (∃ (d : BodyDef) (c : WorldCall),
      startApp.addBox.world.calls = startApp.world.calls ++ [.createBody d, c] ∧
      d.type = .b2_dynamicBody ∧ d.angularVelocity ≠ 0) := by
  constructor
  · obtain ⟨position, f, h⟩ := addCircle_calls startApp
    exact ⟨_, _, h, rfl, by norm_num⟩
  · obtain ⟨position, f, h⟩ := addBox_calls startApp
    exact ⟨_, _, h, rfl, by norm_num⟩

/-- C21, amended: the body definition that `addCircle` and `addBox` hand to the
world is that of a dynamic body with linear velocity (0, 0) and angular
velocity 0.1; it is the only body that the call creates. -/
theorem spawned_body_velocity (s : PencilPhysics) :
    (∃ (d : BodyDef) (f : FixtureDef),
      s.addCircle.world.calls = s.world.calls ++
        [.createBody d, .createFixture (some s.world.nextHandle) f] ∧
      d.type = .b2_dynamicBody ∧ d.linearVelocity = ⟨0, 0⟩ ∧ d.angularVelocity = 1 / 10) ∧
    (∃ (d : BodyDef) (f : FixtureDef),
      s.addBox.world.calls = s.world.calls ++
        [.createBody d, .createFixture (some s.world.nextHandle) f] ∧
      d.type = .b2_dynamicBody ∧ d.linearVelocity = ⟨0, 0⟩ ∧ d.angularVelocity = 1 / 10) := by
  constructor
  · obtain ⟨position, f, h⟩ := addCircle_calls s
    exact ⟨_, f, h, rfl, rfl, rfl⟩
  · obtain ⟨position, f, h⟩ := addBox_calls s
    exact ⟨_, f, h, rfl, rfl, rfl⟩

/-! ## Frame pacing -/

/-- At 60 Hz a frame has 16 whole milliseconds. -/
theorem truncToInt_sixtieth : truncToInt (1000 * (1 / 60)) = 16 := by
  unfold truncToInt
  rw [if_pos (by norm_num), Int.floor_eq_iff]
  norm_num

/-- C22: with the engine as constructed, the clock at 0 and three iterations
whose work takes 520, 2 and 2 milliseconds at 60 Hz, the calls of
`waitForNextFrame` return at 520, 536 and 538: the last two returns are 2
milliseconds apart, not 16.  The second call stores the time 522 before its
delay of 14, so the third call, at 538, is taken to be on time. -/
theorem frameReturns_two_ms_apart :
    truncToInt (1000 * (1 / 60)) = 16 ∧
    Engine.new.frameReturns 0 (1 / 60) pacingWork = [520, 536, 538] ∧
    (Engine.new.waitForNextFrame 520 (1 / 60)) = (⟨520⟩, none) ∧
    (Engine.waitForNextFrame ⟨520⟩ 522 (1 / 60)) = (⟨522⟩, some 14) ∧
    (Engine.waitForNextFrame ⟨522⟩ 538 (1 / 60)) = (⟨538⟩, none) := by
  have h16 : truncToInt (1000 * 60⁻¹) = 16 := by
    have := truncToInt_sixtieth
    rwa [one_div] at this
  refine ⟨truncToInt_sixtieth, ?_, ?_, ?_, ?_⟩ <;>
    simp [Engine.frameReturns, Engine.waitForNextFrame, Engine.new, pacingWork, h16]

/-! ## The mouse-joint slot after construction -/

/-- C25: the constructor leaves `mouseJoint` as it finds it.  When that memory
holds the non-null value 7, a pointer-move in `PullMode` after a pointer-down on
no shape - so before any successful `attachMouse` - issues `SetTarget` on the
handle 7, and a pointer-up issues `DestroyJoint` on it. -/
theorem uninitialized_mouseJoint_is_used :
    (∀ (u : Indeterminate) (rng : Rand), (PencilPhysics.new u rng).mouseJoint = u.mouseJoint) ∧
    garbageApp.mouseJoint = some 7 ∧
    garbageApp.world.joints = [] ∧
    (garbageApp.handleInput pullNothing).map
        (fun s => (s.world.calls.getLast?, s.world.joints, s.mouseJoint)) =
      some (some (.setTarget (some 7) ⟨1 / 10, 9 / 2⟩), [], some 7) ∧
    (garbageApp.handleInput (pullNothing ++ [.SDL_MOUSEBUTTONUP ⟨1, 648, 359⟩])).map
        (fun s => (s.world.calls.getLast?, s.mouseJoint)) =
      some (some (.destroyJoint (some 7)), none) := by
  refine ⟨fun _ _ => rfl, rfl, rfl, ?_, ?_⟩
  · simp [garbageApp, pullNothing, PencilPhysics.handleInput, PencilPhysics.dispatch,
      PencilPhysics.forward, PencilPhysics.calls, PencilPhysics.call, UIHelper.onKeyDown,
      UIHelper.onMouseButtonDown, UIHelper.onMouseMotion, UIHelper.windowToWorld,
      UIHelper.new, SDL_SCANCODE_TAB, SDL_SCANCODE_B, SDL_SCANCODE_C, SDL_SCANCODE_BACKSPACE,
      PencilPhysics.new, PencilPhysics.initWorld, zeroRand, B2World.CreateBody,
      B2World.CreateFixture, Polyline.create, PencilPhysics.attachMouse,
      PencilPhysics.attachment, PencilPhysics.moveMouse, B2World.SetTarget]
    norm_num
  · simp [garbageApp, pullNothing, PencilPhysics.handleInput, PencilPhysics.dispatch,
      PencilPhysics.forward, PencilPhysics.calls, PencilPhysics.call, UIHelper.onKeyDown,
      UIHelper.onMouseButtonDown, UIHelper.onMouseMotion, UIHelper.onMouseButtonUp,
      UIHelper.windowToWorld,
      UIHelper.new, SDL_SCANCODE_TAB, SDL_SCANCODE_B, SDL_SCANCODE_C, SDL_SCANCODE_BACKSPACE,
      PencilPhysics.new, PencilPhysics.initWorld, zeroRand, B2World.CreateBody,
      B2World.CreateFixture, Polyline.create, PencilPhysics.attachMouse,
      PencilPhysics.attachment, PencilPhysics.moveMouse, B2World.SetTarget,
      PencilPhysics.detachMouse, B2World.DestroyJoint]

end Pencil

/-! ## The controller invariant -/

namespace Pencil

/-- The constructor of `UIHelper` establishes the controller invariant. -/
theorem UIHelper.Consistent.atConstruction (worldMin worldMax : Vec2) (w h : Int) :
    (UIHelper.new worldMin worldMax w h).Consistent :=
  ⟨fun _ => rfl, fun _ => rfl, fun _ hd => absurd hd (by simp [UIHelper.new])⟩

/-- Method `onKeyDown` keeps the controller invariant. -/
theorem UIHelper.Consistent.onKeyDown {h : UIHelper} (hc : h.Consistent)
    (e : SDL_KeyboardEvent) : (h.onKeyDown e).1.Consistent := by
  obtain ⟨h1, h2, h3⟩ := hc
  rcases h with ⟨umin, umax, uw, uh, mode, down, poly, em⟩
  simp only at h1 h2 h3
  by_cases kB : e.scancode = SDL_SCANCODE_B
  · simp only [UIHelper.onKeyDown, kB, if_true]
    exact ⟨h1, h2, h3⟩
  by_cases kC : e.scancode = SDL_SCANCODE_C
  · simp only [UIHelper.onKeyDown, kB, kC, if_true, if_false]
    exact ⟨h1, h2, h3⟩
  by_cases kD : e.scancode = SDL_SCANCODE_BACKSPACE
  · simp only [UIHelper.onKeyDown, kB, kC, kD, if_true, if_false]
    exact ⟨h1, h2, h3⟩
  by_cases kT : e.scancode = SDL_SCANCODE_TAB
  · rw [onKeyDown_tab _ e kT]
    cases down
    · have hpoly : poly = [] := h1 rfl
      subst hpoly
      cases mode <;> refine ⟨?_, ?_, ?_⟩ <;> simp
    · simp only [if_true]
      exact ⟨h1, h2, h3⟩
  · simp only [UIHelper.onKeyDown, kB, kC, kD, kT, if_false]
    exact ⟨h1, h2, h3⟩

/-- Method `onMouseButtonDown` keeps the controller invariant. -/
theorem UIHelper.Consistent.onMouseButtonDown {h : UIHelper} (hc : h.Consistent)
    (e : SDL_MouseButtonEvent) : (h.onMouseButtonDown e).1.Consistent := by
  obtain ⟨h1, h2, h3⟩ := hc
  rcases h with ⟨umin, umax, uw, uh, mode, down, poly, em⟩
  simp only at h1 h2 h3
  cases mode
  · refine ⟨?_, ?_, ?_⟩ <;> simp [UIHelper.onMouseButtonDown]
  · have hpoly : poly = [] := h2 rfl
    refine ⟨?_, ?_, ?_⟩ <;> simp [UIHelper.onMouseButtonDown, hpoly]

/-- Method `onMouseButtonUp` keeps the controller invariant. -/
theorem UIHelper.Consistent.onMouseButtonUp {h : UIHelper} (hc : h.Consistent)
    (e : SDL_MouseButtonEvent) : (h.onMouseButtonUp e).1.Consistent := by
  obtain ⟨h1, h2, h3⟩ := hc
  rcases h with ⟨umin, umax, uw, uh, mode, down, poly, em⟩
  simp only at h1 h2 h3
  cases mode
  · refine ⟨?_, ?_, ?_⟩ <;> simp [UIHelper.onMouseButtonUp]
  · have hpoly : poly = [] := h2 rfl
    refine ⟨?_, ?_, ?_⟩ <;> simp [UIHelper.onMouseButtonUp, hpoly]

/-- Under the controller invariant `onMouseMotion` returns: the accumulator
holds a last point whenever it is read. -/
theorem UIHelper.Consistent.onMouseMotion_returns {h : UIHelper} (hc : h.Consistent)
    (e : SDL_MouseMotionEvent) : ∃ r, h.onMouseMotion e = some r := by
  unfold UIHelper.onMouseMotion
  by_cases hd : h.mouseDown = true
  · by_cases hm : h.dragMode = .DrawMode
    · have hne := hc.draw_nonempty hm hd
      obtain ⟨back, hback⟩ : ∃ back, h.polyline.getLast? = some back := by
        cases hp : h.polyline.getLast? with
        | none => exact absurd (List.getLast?_eq_none_iff.mp hp) hne
        | some back => exact ⟨back, rfl⟩
      simp only [hd, hm, hback, Bool.not_true, Bool.false_eq_true, if_false, if_true]
      split_ifs <;> exact ⟨_, rfl⟩
    · simp only [hd, hm, Bool.not_true, Bool.false_eq_true, if_false]
      exact ⟨_, rfl⟩
  · have hd1 : h.mouseDown = false := by simpa using hd
    simp only [hd1, Bool.not_false, if_true]
    exact ⟨_, rfl⟩

/-- Method `onMouseMotion` keeps the controller invariant. -/
theorem UIHelper.Consistent.onMouseMotion {h : UIHelper} (hc : h.Consistent)
    (e : SDL_MouseMotionEvent) (r : UIHelper × List MainCall)
    (hr : h.onMouseMotion e = some r) : r.1.Consistent := by
  unfold UIHelper.onMouseMotion at hr
  split_ifs at hr with k1 k2
  · injection hr with hr
    rw [← hr]
    exact hc
  · split at hr
    · exact absurd hr (by simp)
    · dsimp only at hr
      split_ifs at hr
      · injection hr with hr
        rw [← hr]
        have hd : h.mouseDown = true := by simpa using k1
        refine ⟨?_, ?_, ?_⟩
        · intro hup
          simp only at hup
          rw [hd] at hup
          exact absurd hup (by simp)
        · intro hpull
          simp only at hpull
          rw [k2] at hpull
          exact absurd hpull (by simp)
        · intro _ _
          simp
      · injection hr with hr
        rw [← hr]
        exact hc
  · injection hr with hr
    rw [← hr]
    exact hc

/-- A call through `UIMain` does not touch the controller. -/
theorem call_uiHelper (s s1 : PencilPhysics) (c : MainCall) (h : s.call c = some s1) :
    s1.uiHelper = s.uiHelper := by
  cases c with
  | addCircle => injection h with h; rw [← h]; rfl
  | addBox => injection h with h; rw [← h]; rfl
  | addPolyline vertices => injection h with h; rw [← h]; rfl
  | clear => injection h with h; rw [← h]; rfl
  | attachMouse point =>
    simp only [PencilPhysics.call, PencilPhysics.attachMouse] at h
    split_ifs at h
    · split at h
      · exact absurd h (by simp)
      · injection h with h
        rw [← h]
    · injection h with h
      rw [← h]
  | moveMouse point =>
    injection h with h
    rw [← h]
    unfold PencilPhysics.moveMouse
    split <;> rfl
  | detachMouse =>
    injection h with h
    rw [← h]
    unfold PencilPhysics.detachMouse
    split <;> rfl

/-- A sequence of calls through `UIMain` does not touch the controller. -/
theorem calls_uiHelper (s s1 : PencilPhysics) (cs : List MainCall)
    (h : s.calls cs = some s1) : s1.uiHelper = s.uiHelper := by
  induction cs generalizing s with
  | nil =>
    injection h with h
    rw [← h]
  | cons c cs ih =>
    simp only [PencilPhysics.calls, Option.bind_eq_some] at h
    obtain ⟨s2, h2, h3⟩ := h
    rw [ih s2 h3, call_uiHelper s s2 c h2]

/-- The dispatch of one event keeps the controller invariant. -/
theorem UIHelper.Consistent.afterDispatch {s s1 : PencilPhysics} (hc : s.uiHelper.Consistent)
    (e : SDL_Event) (hrun : s.dispatch e = some s1) : s1.uiHelper.Consistent := by
  cases e with
  | SDL_QUIT =>
    injection hrun with hrun
    rw [← hrun]
    exact hc
  | SDL_KEYDOWN key =>
    have := calls_uiHelper _ _ _ hrun
    rw [this]
    exact hc.onKeyDown key
  | SDL_KEYUP key =>
    have := calls_uiHelper _ _ _ hrun
    rw [this]
    exact hc
  | SDL_MOUSEMOTION motion =>
    obtain ⟨r, hr⟩ := hc.onMouseMotion_returns motion
    simp only [PencilPhysics.dispatch, hr, PencilPhysics.forward, Option.some_bind] at hrun
    have := calls_uiHelper _ _ _ hrun
    rw [this]
    exact hc.onMouseMotion motion r hr
  | SDL_MOUSEBUTTONDOWN button =>
    have := calls_uiHelper _ _ _ hrun
    rw [this]
    exact hc.onMouseButtonDown button
  | SDL_MOUSEBUTTONUP button =>
    have := calls_uiHelper _ _ _ hrun
    rw [this]
    exact hc.onMouseButtonUp button
  | other =>
    injection hrun with hrun
    rw [← hrun]
    exact hc

/-- Method `handleInput` keeps the controller invariant. -/
theorem UIHelper.Consistent.afterHandleInput {s s1 : PencilPhysics} (hc : s.uiHelper.Consistent)
    (events : List SDL_Event) (hrun : s.handleInput events = some s1) :
    s1.uiHelper.Consistent := by
  induction events generalizing s with
  | nil =>
    injection hrun with hrun
    rw [← hrun]
    exact hc
  | cons e es ih =>
    simp only [PencilPhysics.handleInput, Option.bind_eq_some] at hrun
    obtain ⟨s2, h2, h3⟩ := hrun
    exact ih (hc.afterDispatch e h2) h3

/-- Method `advanceState` does not touch the controller. -/
theorem advanceState_uiHelper (s s1 : PencilPhysics) (solve : Solver) (dt : ℚ)
    (h : s.advanceState solve dt = some s1) : s1.uiHelper = s.uiHelper := by
  unfold PencilPhysics.advanceState at h
  simp only [Option.bind_eq_some] at h
  obtain ⟨cs1, _, bs1, _, hrest⟩ := h
  split at hrest
  · simp only [Option.bind_eq_some, Option.some.injEq] at hrest
    obtain ⟨p0, _, p1, _, hs1⟩ := hrest
    rw [← hs1]
  · exact absurd hrest (by simp)

/-- Method `run` keeps the controller invariant. -/
theorem UIHelper.Consistent.afterRun {s s1 : PencilPhysics} (hc : s.uiHelper.Consistent)
    (solve : Solver) (frames : List (List SDL_Event)) (hrun : s.run solve frames = some s1) :
    s1.uiHelper.Consistent := by
  induction frames generalizing s with
  | nil =>
    injection hrun with hrun
    rw [← hrun]
    exact hc
  | cons events rest ih =>
    unfold PencilPhysics.run at hrun
    split_ifs at hrun with hq
    · injection hrun with hrun
      rw [← hrun]
      exact hc
    · simp only [Option.bind_eq_some] at hrun
      obtain ⟨s2, h2, s3, h3, h4⟩ := hrun
      have h5 := hc.afterHandleInput events h2
      rw [← advanceState_uiHelper s2 s3 solve _ h3] at h5
      exact ih h5 h4

/-- The controller invariant holds in every state that the loop reaches. -/
theorem UIHelper.Consistent.whenReached (u : Indeterminate) (rng : Rand) (solve : Solver)
    (frames : List (List SDL_Event)) (events : List SDL_Event) (s : PencilPhysics)
    (hrun : ((PencilPhysics.new u rng).run solve frames).bind
      (fun s0 => s0.handleInput events) = some s) : s.uiHelper.Consistent := by
  simp only [Option.bind_eq_some] at hrun
  obtain ⟨s0, h0, h1⟩ := hrun
  have hinit : (PencilPhysics.new u rng).uiHelper.Consistent :=
    UIHelper.Consistent.atConstruction ⟨-8, 0⟩ ⟨8, 9⟩ 1280 720
  exact (hinit.afterRun solve frames h0).afterHandleInput events h1

/-- The scene invariant holds in every state that the loop reaches. -/
theorem WellFormed.reached (u : Indeterminate) (rng : Rand) (solve : Solver)
    (frames : List (List SDL_Event)) (events : List SDL_Event) (s : PencilPhysics)
    (hrun : ((PencilPhysics.new u rng).run solve frames).bind
      (fun s0 => s0.handleInput events) = some s) : WellFormed s := by
  simp only [Option.bind_eq_some] at hrun
  obtain ⟨s0, h0, h1⟩ := hrun
  exact ((WellFormed.new u rng).run solve frames h0).handleInput events h1

/-- Under the scene invariant every sequence of admissible calls through
`UIMain` returns. -/
theorem calls_returns {s : PencilPhysics} (h : WellFormed s) (cs : List MainCall)
    (hok : ∀ c ∈ cs, c.ok) : ∃ s1, s.calls cs = some s1 := by
  induction cs generalizing s with
  | nil => exact ⟨s, rfl⟩
  | cons c cs ih =>
    have hcall : ∃ s2, s.call c = some s2 := by
      cases c with
      | attachMouse point =>
        simp only [PencilPhysics.call, PencilPhysics.attachMouse, h.bodies_eq]
        split_ifs
        · exact ⟨_, rfl⟩
        · exact ⟨_, rfl⟩
      | addCircle => exact ⟨_, rfl⟩
      | addBox => exact ⟨_, rfl⟩
      | addPolyline vertices => exact ⟨_, rfl⟩
      | clear => exact ⟨_, rfl⟩
      | moveMouse point => exact ⟨_, rfl⟩
      | detachMouse => exact ⟨_, rfl⟩
    obtain ⟨s2, h2⟩ := hcall
    obtain ⟨s3, h3⟩ := ih (h.call c (hok c (List.mem_cons_self c cs)) h2)
      (fun c1 hc1 => hok c1 (List.mem_cons_of_mem c hc1))
    exact ⟨s3, by simp [PencilPhysics.calls, h2, h3]⟩

/-- Under both invariants the dispatch of every event returns. -/
theorem dispatch_returns {s : PencilPhysics} (h : WellFormed s) (hc : s.uiHelper.Consistent)
    (e : SDL_Event) : ∃ s1, s.dispatch e = some s1 := by
  obtain ⟨hkd, hku, hbd, hbu, hmm⟩ := handlers_calls_ok s.uiHelper
  cases e with
  | SDL_QUIT => exact ⟨_, rfl⟩
  | SDL_KEYDOWN key => exact calls_returns (h.withHelper _) _ (hkd key)
  | SDL_KEYUP key => exact calls_returns (h.withHelper _) _ (hku key)
  | SDL_MOUSEMOTION motion =>
    obtain ⟨r, hr⟩ := hc.onMouseMotion_returns motion
    obtain ⟨s1, h1⟩ := calls_returns (h.withHelper r.1) r.2 (hmm motion r hr)
    exact ⟨s1, by simp only [PencilPhysics.dispatch, hr, PencilPhysics.forward,
      Option.some_bind]; exact h1⟩
  | SDL_MOUSEBUTTONDOWN button => exact calls_returns (h.withHelper _) _ (hbd button)
  | SDL_MOUSEBUTTONUP button => exact calls_returns (h.withHelper _) _ (hbu button)
  | other => exact ⟨_, rfl⟩

/-- Under both invariants `handleInput` returns on every sequence of events. -/
theorem handleInput_returns {s : PencilPhysics} (h : WellFormed s)
    (hc : s.uiHelper.Consistent) (events : List SDL_Event) :
    ∃ s1, s.handleInput events = some s1 := by
  induction events generalizing s with
  | nil => exact ⟨s, rfl⟩
  | cons e es ih =>
    obtain ⟨s2, h2⟩ := dispatch_returns h hc e
    obtain ⟨s3, h3⟩ := ih (h.dispatch e h2) (hc.afterDispatch e h2)
    exact ⟨s3, by simp [PencilPhysics.handleInput, h2, h3]⟩

end Pencil

/-! ## The accumulator -/

namespace Pencil

/-- C23: the controller starts in `DrawMode` with the button up and an empty
accumulator, and in every state that events (and loop iterations) lead to,
`DrawMode` with `mouseDown` implies a non-empty accumulator.  Hence
`onMouseMotion` returns for every pointer-move there - its read of
`polyline.back()` is defined - and `handleInput` returns on every further
sequence of events. -/
theorem drawing_accumulator_nonempty (u : Indeterminate) (rng : Rand) (solve : Solver)
    (frames : List (List SDL_Event)) (events : List SDL_Event) (s : PencilPhysics)
    (hrun : ((PencilPhysics.new u rng).run solve frames).bind
      (fun s0 => s0.handleInput events) = some s) :
    (s.uiHelper.dragMode = .DrawMode → s.uiHelper.mouseDown = true →
      s.uiHelper.polyline ≠ []) ∧
    (s.uiHelper.dragMode = .DrawMode → s.uiHelper.mouseDown = true →
      ∃ back, s.uiHelper.polyline.getLast? = some back) ∧
    (∀ e : SDL_MouseMotionEvent, ∃ r, s.uiHelper.onMouseMotion e = some r) ∧
    (∀ more : List SDL_Event, ∃ s1, s.handleInput more = some s1) ∧
    ((PencilPhysics.new u rng).uiHelper.dragMode = .DrawMode ∧
      (PencilPhysics.new u rng).uiHelper.mouseDown = false ∧
      (PencilPhysics.new u rng).uiHelper.polyline = []) := by
  have hc := UIHelper.Consistent.whenReached u rng solve frames events s hrun
  have hwf := WellFormed.reached u rng solve frames events s hrun
  refine ⟨hc.draw_nonempty, ?_, hc.onMouseMotion_returns, handleInput_returns hwf hc,
    rfl, rfl, rfl⟩
  intro hm hd
  cases hp : s.uiHelper.polyline.getLast? with
  | none => exact absurd (List.getLast?_eq_none_iff.mp hp) (hc.draw_nonempty hm hd)
  | some back => exact ⟨back, rfl⟩

/-- The sample pointer-down runs to the sample state. -/
theorem midStrokeApp_run :
    ((startApp.run fallSolver []).bind fun s0 =>
      s0.handleInput [.SDL_MOUSEBUTTONDOWN ⟨1, 640, 359⟩]) = some midStrokeApp :=
  rfl

/-- C23, at the state after a pointer-down in `DrawMode`: the accumulator is not
empty. -/
theorem drawing_accumulator_nonempty_witness :
    ((startApp.run fallSolver []).bind fun s0 =>
      s0.handleInput [.SDL_MOUSEBUTTONDOWN ⟨1, 640, 359⟩]) = some midStrokeApp ∧
    midStrokeApp.uiHelper.polyline ≠ [] :=
  ⟨midStrokeApp_run,
   (drawing_accumulator_nonempty ⟨none, none, none⟩ zeroRand fallSolver []
     [.SDL_MOUSEBUTTONDOWN ⟨1, 640, 359⟩] midStrokeApp midStrokeApp_run).1 rfl rfl⟩

/-- C24: in every state that events (and loop iterations) lead to from the
constructed application, the accumulator is empty whenever the mode is
`PullMode` and whenever `mouseDown` is false. -/
theorem accumulator_empty_unless_drawing (u : Indeterminate) (rng : Rand) (solve : Solver)
    (frames : List (List SDL_Event)) (events : List SDL_Event) (s : PencilPhysics)
    (hrun : ((PencilPhysics.new u rng).run solve frames).bind
      (fun s0 => s0.handleInput events) = some s) :
    (s.uiHelper.dragMode = .PullMode → s.uiHelper.polyline = []) ∧
    (s.uiHelper.mouseDown = false → s.uiHelper.polyline = []) ∧
    (s.uiHelper.polyline ≠ [] →
      s.uiHelper.dragMode = .DrawMode ∧ s.uiHelper.mouseDown = true) := by
  have hc := UIHelper.Consistent.whenReached u rng solve frames events s hrun
  refine ⟨hc.pull_empty, hc.up_empty, ?_⟩
  intro hne
  constructor
  · cases hm : s.uiHelper.dragMode with
    | DrawMode => rfl
    | PullMode => exact absurd (hc.pull_empty hm) hne
  · cases hd : s.uiHelper.mouseDown with
    | true => rfl
    | false => exact absurd (hc.up_empty hd) hne

/-- C24, at the state after the sample stroke: with the button up the
accumulator is empty. -/
theorem accumulator_empty_unless_drawing_witness :
    ((startApp.run fallSolver []).bind fun s0 => s0.handleInput strokeEvents) =
      some drawnApp ∧
    (drawnApp.uiHelper.mouseDown = false → drawnApp.uiHelper.polyline = []) :=
  ⟨drawnApp_run,
   (accumulator_empty_unless_drawing ⟨none, none, none⟩ zeroRand fallSolver [] strokeEvents
     drawnApp drawnApp_run).2.1⟩

end Pencil

/-! ## Drawing a polyline in chunks -/

namespace Pencil

/-- The segments of a list with at least two vertices. -/
theorem segments_cons_cons (a b : Vec2) (t : List Vec2) :
    segments (a :: b :: t) = (a, b) :: segments (b :: t) := rfl

/-- A list of at most one vertex has no segment. -/
theorem segments_short (l : List Vec2) (h : l.length ≤ 1) : segments l = [] := by
  match l, h with
  | [], _ => rfl
  | [_], _ => rfl

/-- The segments of a polyline are those of its first `k + 1` vertices followed
by those from vertex `k` on. -/
theorem segments_split (k : Nat) (l : List Vec2) :
    segments l = segments (l.take (k + 1)) ++ segments (l.drop k) := by
  induction k generalizing l with
  | zero =>
    rw [segments_short (l.take 1) (by simp [List.length_take])]
    simp
  | succ k ih =>
    match l with
    | [] => rfl
    | [a] => simp [segments]
    | a :: b :: t =>
      have h1 : (a :: b :: t).take (k + 1 + 1) = a :: b :: t.take k := rfl
      have h2 : (b :: t).take (k + 1) = b :: t.take k := rfl
      have h3 : (a :: b :: t).drop (k + 1) = (b :: t).drop k := rfl
      rw [h1, h3, segments_cons_cons, segments_cons_cons, ih (b :: t), h2]
      rfl

/-- The first `2 k` indices of a flattened edge list are the first `k` edges. -/
theorem indices_take (es : List (Nat × Nat)) (k : Nat) :
    (Mesh2D.indices es).take (2 * k) = Mesh2D.indices (es.take k) := by
  induction k generalizing es with
  | zero => simp [Mesh2D.indices]
  | succ k ih =>
    match es with
    | [] => rfl
    | e :: es =>
      have h : 2 * (k + 1) = 2 * k + 1 + 1 := by ring
      rw [h]
      simp only [Mesh2D.indices, List.take_succ_cons, ih]

/-- The flattened edge list has two indices per edge. -/
theorem indices_length (es : List (Nat × Nat)) : (Mesh2D.indices es).length = 2 * es.length := by
  induction es with
  | nil => rfl
  | cons e es ih =>
    simp only [Mesh2D.indices, List.length_cons, ih]
    ring

/-- The first `k` of the edges (i, i+1) from `off` on. -/
theorem chain_edges_take (off m k : Nat) (hk : k ≤ m) :
    ((List.range' off m).map fun i => (i, i + 1)).take k =
      (List.range' off k).map fun i => (i, i + 1) := by
  induction k generalizing off m with
  | zero => simp
  | succ k ih =>
    match m, hk with
    | m + 1, hk =>
      simp only [List.range'_succ, List.map_cons, List.take_succ_cons]
      rw [ih (off + 1) m (by omega)]

/-- The lines that the chain indices draw over a stretch of the vertex buffer
are the segments of the stretch. -/
theorem linesOf_chain (pre l post : List Vec2) :
    linesOf (pre ++ l ++ post)
        (Mesh2D.indices ((List.range' pre.length (l.length - 1)).map fun i => (i, i + 1))) =
      some (segments l) := by
  induction l generalizing pre with
  | nil => rfl
  | cons a t ih =>
    match t with
    | [] => rfl
    | b :: t =>
      have hlen : (a :: b :: t).length - 1 = (b :: t).length - 1 + 1 := by simp
      rw [hlen, List.range'_succ]
      simp only [List.map_cons, Mesh2D.indices]
      have hget0 : (pre ++ a :: b :: t ++ post).get? pre.length = some a := by
        rw [List.get?_eq_getElem?, List.append_assoc,
          List.getElem?_append_right (Nat.le_refl _)]
        simp
      have hget1 : (pre ++ a :: b :: t ++ post).get? (pre.length + 1) = some b := by
        rw [List.get?_eq_getElem?, List.append_assoc,
          List.getElem?_append_right (Nat.le_succ _)]
        simp
      have hih := ih (pre ++ [a])
      have hlist : pre ++ [a] ++ b :: t ++ post = pre ++ a :: b :: t ++ post := by simp
      have hpl : (pre ++ [a]).length = pre.length + 1 := by simp
      rw [hlist, hpl] at hih
      simp only [linesOf, hget0, hget1, Option.some_bind, hih, Option.map_some',
        segments_cons_cons]

end Pencil

namespace Pencil

/-- The constructor of `Draw` leaves the polyline mesh ready. -/
theorem Draw.Ready.atNew : Draw.new.Ready :=
  ⟨rfl, by simp [Draw.new, Mesh2D.createGPUData], rfl⟩

/-- With the chain indices in the index buffer and a chunk of at least one and
at most 100 vertices at the start of the vertex buffer, `Draw::mesh` with one
element less than the chunk has vertices draws the segments of the chunk. -/
theorem mesh_chain (m : Mesh2D) (chunk rest : List Vec2)
    (hvb : m.vertexBuffer = chunk ++ rest)
    (hib : m.indexBuffer = Mesh2D.indices ((List.range 99).map fun i => (i, i + 1)))
    (hc1 : 1 ≤ chunk.length) (hc2 : chunk.length ≤ 100) :
    Draw.mesh m ((chunk.length : Int) - 1) = some (segments chunk) := by
  have hn : ¬ ((chunk.length : Int) - 1 < 0) := by omega
  have hlen : m.indexBuffer.length = 198 := by
    rw [hib, indices_length]
    simp
  have hcount : (((chunk.length : Int) - 1) * 2).toNat = 2 * (chunk.length - 1) := by omega
  have hguard : ¬ (((chunk.length : Int) - 1) * 2 < 0 ∨
      (m.indexBuffer.length : Int) < ((chunk.length : Int) - 1) * 2) := by
    rw [hlen]
    omega
  simp only [Draw.mesh, if_neg hn, drawElements, if_neg hguard, hcount]
  rw [hib, indices_take, List.range_eq_range', chain_edges_take 0 99 (chunk.length - 1) (by omega),
    hvb]
  exact linesOf_chain [] chunk rest

/-- One pass of the loop of `Draw::polyline` at an index inside the polyline,
for 100 vertices per pass. -/
theorem polylineLoop_step (vertices : List Vec2) (fuel : Nat) (d : Draw) (i : Nat)
    (hd : d.maxVerts = 100) (hi : i < vertices.length) :
    Draw.polylineLoop vertices (fuel + 1) d (i : Int) =
      (copyVertexData d.polylineMesh.vertexBuffer
          ((vertices.drop i).take (min 100 (vertices.length - i)))).bind fun vb =>
        (Draw.mesh { d.polylineMesh with vertexBuffer := vb }
            (((min 100 (vertices.length - i) : Nat) : Int) - 1)).bind fun lines =>
          (Draw.polylineLoop vertices fuel
              { d with polylineMesh := { d.polylineMesh with vertexBuffer := vb } }
              ((i + 99 : Nat) : Int)).map fun r =>
            (r.1, ⟨(i : Int), ((min 100 (vertices.length - i) : Nat) : Int),
              ((min 100 (vertices.length - i) : Nat) : Int) - 1, lines⟩ :: r.2) := by
  have hcond : 0 ≤ (i : Int) ∧ (i : Int) < (vertices.length : Int) := by omega
  have hnext : (i : Int) + (d.maxVerts - 1) = ((i + 99 : Nat) : Int) := by
    rw [hd]
    push_cast
    ring
  by_cases hbig : vertices.length < i + 100
  · have hstop : ((i : Int) + d.maxVerts < 0 ∨
        (i : Int) + d.maxVerts > (vertices.length : Int)) := by
      rw [hd]
      omega
    have hmin : min 100 (vertices.length - i) = vertices.length - i := by omega
    have hcnt : ((vertices.length : Int) - (i : Int)) = ((vertices.length - i : Nat) : Int) := by
      omega
    have hneg : ¬ ((vertices.length : Int) - (i : Int) < 0) := by omega
    simp only [Draw.polylineLoop, if_pos hcond, if_pos hstop, if_neg hneg, hnext, hmin, hcnt,
      Int.toNat_ofNat]
    rw [if_neg (by omega)]
  · have hstop : ¬ ((i : Int) + d.maxVerts < 0 ∨
        (i : Int) + d.maxVerts > (vertices.length : Int)) := by
      rw [hd]
      omega
    have hmin : min 100 (vertices.length - i) = 100 := by omega
    have hcnt : (i : Int) + d.maxVerts - (i : Int) = ((100 : Nat) : Int) := by
      rw [hd]
      omega
    have hneg : ¬ ((i : Int) + d.maxVerts - (i : Int) < 0) := by
      rw [hd]
      omega
    simp only [Draw.polylineLoop, if_pos hcond, if_neg hstop, if_neg hneg, hnext, hmin, hcnt,
      Int.toNat_ofNat]
    rw [if_neg (by omega)]

end Pencil

namespace Pencil

/-- The loop of `Draw::polyline` from index `i` on, for a ready mesh and enough
passes allowed: it returns, leaves the mesh ready, copies between 1 and 100
vertices per pass and requests one element less, each pass draws the segments of
the vertices it copied, and all passes together draw the segments of the
polyline from vertex `i` on, in order. -/
theorem polylineLoop_spec (vertices : List Vec2) (fuel : Nat) (d : Draw) (i : Nat)
    (hd : d.Ready) (hfuel : vertices.length - i < fuel) :
    ∃ d1 cs, Draw.polylineLoop vertices fuel d (i : Int) = some (d1, cs) ∧ d1.Ready ∧
      Chunk.allLines cs = segments (vertices.drop i) ∧
      ∀ c ∈ cs, 1 ≤ c.copied ∧ c.copied ≤ 100 ∧ 0 ≤ c.nElements ∧
        c.nElements = c.copied - 1 ∧
        c.lines = segments ((vertices.drop c.start.toNat).take c.copied.toNat) := by
  induction fuel generalizing d i with
  | zero => exact absurd hfuel (Nat.not_lt_zero _)
  | succ fuel ih =>
    by_cases hi : i < vertices.length
    · have hc1 : 1 ≤ min 100 (vertices.length - i) := by omega
      have hc2 : min 100 (vertices.length - i) ≤ 100 := by omega
      have hlen : ((vertices.drop i).take (min 100 (vertices.length - i))).length =
          min 100 (vertices.length - i) := by
        rw [List.length_take, List.length_drop]
        omega
      have hdata : (vertices.drop i).take (min 100 (vertices.length - i)) =
          (vertices.drop i).take 100 := by
        by_cases hbig : vertices.length - i < 100
        · rw [List.take_of_length_le (by rw [List.length_drop]; omega),
            List.take_of_length_le (by rw [List.length_drop]; omega)]
        · rw [show min 100 (vertices.length - i) = 100 by omega]
      have hcopy : copyVertexData d.polylineMesh.vertexBuffer
          ((vertices.drop i).take (min 100 (vertices.length - i))) =
          some ((vertices.drop i).take (min 100 (vertices.length - i)) ++
            d.polylineMesh.vertexBuffer.drop (min 100 (vertices.length - i))) := by
        unfold copyVertexData
        rw [hlen, if_pos (by rw [hd.vertexBuffer_length]; exact hc2)]
      have hready : Draw.Ready
          { d with polylineMesh :=
            { d.polylineMesh with
              vertexBuffer := (vertices.drop i).take (min 100 (vertices.length - i)) ++
                d.polylineMesh.vertexBuffer.drop (min 100 (vertices.length - i)) } } := by
        refine ⟨hd.maxVerts_eq, ?_, hd.indexBuffer_eq⟩
        show ((vertices.drop i).take (min 100 (vertices.length - i)) ++
          d.polylineMesh.vertexBuffer.drop (min 100 (vertices.length - i))).length = 100
        rw [List.length_append, hlen, List.length_drop, hd.vertexBuffer_length]
        omega
      have hmesh := mesh_chain
        { d.polylineMesh with
          vertexBuffer := (vertices.drop i).take (min 100 (vertices.length - i)) ++
            d.polylineMesh.vertexBuffer.drop (min 100 (vertices.length - i)) }
        ((vertices.drop i).take (min 100 (vertices.length - i)))
        (d.polylineMesh.vertexBuffer.drop (min 100 (vertices.length - i))) rfl
        hd.indexBuffer_eq (by rw [hlen]; exact hc1) (by rw [hlen]; exact hc2)
      rw [hlen] at hmesh
      obtain ⟨d1, cs, hrun, hd1, hlines, hcs⟩ := ih _ (i + 99) hready (by omega)
      refine ⟨d1,
        ⟨(i : Int), ((min 100 (vertices.length - i) : Nat) : Int),
          ((min 100 (vertices.length - i) : Nat) : Int) - 1,
          segments ((vertices.drop i).take (min 100 (vertices.length - i)))⟩ :: cs,
        ?_, hd1, ?_, ?_⟩
      · rw [polylineLoop_step vertices fuel d i hd.maxVerts_eq hi, hcopy]
        simp only [Option.some_bind, hmesh, hrun, Option.map_some']
      · simp only [Chunk.allLines, hlines]
        rw [hdata, segments_split 99 (vertices.drop i), List.drop_drop]
      · intro c hc
        rcases List.mem_cons.mp hc with hhead | htail
        · rw [hhead]
          refine ⟨?_, ?_, ?_, rfl, ?_⟩
          · show (1 : Int) ≤ ((min 100 (vertices.length - i) : Nat) : Int)
            omega
          · show ((min 100 (vertices.length - i) : Nat) : Int) ≤ 100
            omega
          · show (0 : Int) ≤ ((min 100 (vertices.length - i) : Nat) : Int) - 1
            omega
          · simp only [Int.toNat_ofNat]
        · exact hcs c htail
    · refine ⟨d, [], ?_, hd, ?_, ?_⟩
      · have hcond : ¬ (0 ≤ (i : Int) ∧ (i : Int) < (vertices.length : Int)) := by omega
        simp only [Draw.polylineLoop, if_neg hcond]
      · rw [List.drop_of_length_le (by omega)]
        rfl
      · intro c hc
        exact absurd hc (List.not_mem_nil c)

/-- The segments of a polyline by position: one less than vertices, the `k`-th
joining the vertices `k` and `k + 1`. -/
theorem segments_get (vertices : List Vec2) :
    (segments vertices).length = vertices.length - 1 ∧
    ∀ k : Nat, k + 1 < vertices.length →
      (segments vertices).get? k =
        (vertices.get? k).bind fun a => (vertices.get? (k + 1)).map fun b => (a, b) := by
  constructor
  · simp [segments]
  · intro k hk
    induction vertices generalizing k with
    | nil => exact absurd hk (Nat.not_lt_zero _)
    | cons a t ih =>
      match t, k with
      | [], _ => simp at hk
      | b :: t, 0 => rfl
      | b :: t, k + 1 =>
        have := ih k (by simpa using hk)
        simpa [segments] using this

/-- C26: `Draw::polyline` on the mesh that the constructor builds, for a
polyline of any length and with more passes allowed than the polyline has
vertices, returns; every pass copies at least 1 and at most `maxVerts` = 100
vertices and requests a number of elements that is not negative, one less than
the vertices copied, and draws the segments of the copied vertices; all passes
together draw exactly the segments of the polyline in order: as many lines as
there are vertices less one, the `k`-th from vertex `k` to vertex `k + 1`. -/
theorem polyline_draws_each_segment_once (vertices : List Vec2) (fuel : Nat)
    (hfuel : vertices.length < fuel) :
    Draw.new.maxVerts = 100 ∧
    ∃ d cs, Draw.new.polyline vertices fuel = some (d, cs) ∧
      (∀ c ∈ cs, 1 ≤ c.copied ∧ c.copied ≤ Draw.new.maxVerts ∧ 0 ≤ c.nElements ∧
        c.nElements = c.copied - 1 ∧
        c.lines = segments ((vertices.drop c.start.toNat).take c.copied.toNat)) ∧
      Chunk.allLines cs = segments vertices ∧
      (Chunk.allLines cs).length = vertices.length - 1 ∧
      (∀ k : Nat, k + 1 < vertices.length →
        (Chunk.allLines cs).get? k =
          (vertices.get? k).bind fun a => (vertices.get? (k + 1)).map fun b => (a, b)) := by
  obtain ⟨d, cs, hrun, _, hlines, hcs⟩ :=
    polylineLoop_spec vertices fuel Draw.new 0 Draw.Ready.atNew (by omega)
  refine ⟨rfl, d, cs, hrun, hcs, hlines, ?_, ?_⟩
  · rw [hlines]
    exact (segments_get vertices).1
  · rw [hlines]
    exact (segments_get vertices).2

/-- C26, at a polyline of three vertices: the two segments are drawn. -/
theorem polyline_draws_each_segment_once_witness :
    threeVertices.length < 4 ∧
    ∃ d cs, Draw.new.polyline threeVertices 4 = some (d, cs) ∧
      Chunk.allLines cs = [(⟨0, 0⟩, ⟨1, 0⟩), (⟨1, 0⟩, ⟨1, 1⟩)] := by
  obtain ⟨_, d, cs, hrun, _, hlines, _⟩ :=
    polyline_draws_each_segment_once threeVertices 4 (by decide)
  exact ⟨by decide, d, cs, hrun, hlines⟩

end Pencil

/-! ## Rounding to binary32

The rounding function is monotone, fixes the representable numbers, returns a
representable number nearest to its argument, and has a relative error of at most
`2 ^ (-24)` in the normal range. -/

namespace Pencil

namespace F32

/-! ### Rounding to an integer -/

theorem roundHalfEven_spec (q : ℚ) :
    |(roundHalfEven q : ℚ) - q| < 1 / 2 ∨
      (|(roundHalfEven q : ℚ) - q| = 1 / 2 ∧ roundHalfEven q % 2 = 0) := by
  have h0 : (⌊q⌋ : ℚ) ≤ q := Int.floor_le q
  have h1 : q < ⌊q⌋ + 1 := Int.lt_floor_add_one q
  unfold roundHalfEven
  split_ifs with ha hb hc
  · left
    rw [abs_lt]; constructor <;> linarith
  · left
    push_cast
    rw [abs_lt]; constructor <;> linarith
  · right
    have he : q - ⌊q⌋ = 1 / 2 := le_antisymm (not_lt.mp hb) (not_lt.mp ha)
    refine ⟨?_, hc⟩
    rw [abs_sub_comm, he]
    norm_num
  · right
    have he : q - ⌊q⌋ = 1 / 2 := le_antisymm (not_lt.mp hb) (not_lt.mp ha)
    constructor
    · push_cast
      have : (⌊q⌋ : ℚ) + 1 - q = 1 / 2 := by linarith
      rw [this]; norm_num
    · omega

theorem roundHalfEven_abs_sub_le (q : ℚ) : |(roundHalfEven q : ℚ) - q| ≤ 1 / 2 := by
  rcases roundHalfEven_spec q with h | ⟨h, _⟩
  · exact h.le
  · exact h.le

/-- The integer nearest to `q`, the even one at a tie, is unique. -/
theorem roundHalfEven_eq_of (q : ℚ) (m : ℤ)
    (h : |(m : ℚ) - q| < 1 / 2 ∨ (|(m : ℚ) - q| = 1 / 2 ∧ m % 2 = 0)) :
    roundHalfEven q = m := by
  have hs := roundHalfEven_spec q
  set r := roundHalfEven q with hr
  by_contra hne
  have hd : (1 : ℚ) ≤ |(r : ℚ) - m| := by
    have : (1 : ℤ) ≤ |r - m| := by
      have : r - m ≠ 0 := sub_ne_zero.mpr hne
      exact Int.one_le_abs this
    have h2 : ((1 : ℤ) : ℚ) ≤ ((|r - m| : ℤ) : ℚ) := by exact_mod_cast this
    simpa using h2
  have htri : |(r : ℚ) - m| ≤ |(r : ℚ) - q| + |(m : ℚ) - q| := by
    have : (r : ℚ) - m = (r - q) - (m - q) := by ring
    rw [this]
    exact abs_sub _ _
  rcases hs with hs | ⟨hs, hse⟩
  · rcases h with h | ⟨h, _⟩ <;> linarith
  · rcases h with h | ⟨h, he⟩
    · linarith
    · -- both at distance one half: they differ by exactly one, so parities differ
      have hle : |(r : ℚ) - m| ≤ 1 := by linarith
      have heq : |(r : ℚ) - m| = 1 := le_antisymm hle hd
      have hz : |r - m| = 1 := by
        have : ((|r - m| : ℤ) : ℚ) = 1 := by push_cast; exact heq
        exact_mod_cast this
      rcases abs_eq (by norm_num : (0 : ℤ) ≤ 1) |>.mp hz with h1 | h1 <;> omega

theorem roundHalfEven_intCast (n : ℤ) : roundHalfEven (n : ℚ) = n :=
  roundHalfEven_eq_of _ _ (Or.inl (by simp))

theorem roundHalfEven_neg (q : ℚ) : roundHalfEven (-q) = -roundHalfEven q := by
  apply roundHalfEven_eq_of
  have hs := roundHalfEven_spec q
  have e : ((-roundHalfEven q : ℤ) : ℚ) - -q = -((roundHalfEven q : ℚ) - q) := by
    push_cast; ring
  rw [e, abs_neg]
  rcases hs with h | ⟨h, he⟩
  · exact Or.inl h
  · exact Or.inr ⟨h, by omega⟩

theorem roundHalfEven_mono {a b : ℚ} (h : a ≤ b) : roundHalfEven a ≤ roundHalfEven b := by
  by_contra hlt
  push_neg at hlt
  have ha := roundHalfEven_spec a
  have hb := roundHalfEven_spec b
  set ra := roundHalfEven a
  set rb := roundHalfEven b
  have h1 : (rb : ℚ) + 1 ≤ ra := by exact_mod_cast Int.add_one_le_iff.mpr hlt
  have hale : |(ra : ℚ) - a| ≤ 1 / 2 := by rcases ha with h | ⟨h, _⟩ <;> exact h.le
  have hble : |(rb : ℚ) - b| ≤ 1 / 2 := by rcases hb with h | ⟨h, _⟩ <;> exact h.le
  have ha1 := (abs_le.mp hale)
  have hb1 := (abs_le.mp hble)
  -- ra - 1/2 ≤ a ≤ b ≤ rb + 1/2 ≤ ra - 1/2
  have e1 : (ra : ℚ) - a = 1 / 2 := by linarith
  have e2 : (rb : ℚ) - b = -(1 / 2) := by linarith
  have e3 : (ra : ℚ) = rb + 1 := by linarith
  have e3z : ra = rb + 1 := by exact_mod_cast e3
  rcases ha with h | ⟨_, hae⟩
  · rw [e1, abs_of_pos (by norm_num : (0 : ℚ) < 1 / 2)] at h
    exact lt_irrefl _ h
  · rcases hb with h | ⟨_, hbe⟩
    · rw [e2, abs_neg, abs_of_pos (by norm_num : (0 : ℚ) < 1 / 2)] at h
      exact lt_irrefl _ h
    · omega

theorem roundHalfEven_nonneg {q : ℚ} (h : 0 ≤ q) : 0 ≤ roundHalfEven q := by
  have := roundHalfEven_mono h
  rwa [show ((0 : ℚ)) = ((0 : ℤ) : ℚ) by simp, roundHalfEven_intCast] at this

/-! ### Powers of two and the binary logarithm -/

theorem two_zpow_pos (e : ℤ) : (0 : ℚ) < 2 ^ e := zpow_pos (by norm_num) e

theorem two_zpow_le {m n : ℤ} (h : m ≤ n) : (2 : ℚ) ^ m ≤ 2 ^ n :=
  zpow_le_zpow_right₀ (by norm_num) h

theorem two_zpow_lt {m n : ℤ} (h : m < n) : (2 : ℚ) ^ m < 2 ^ n :=
  zpow_lt_zpow_right₀ (by norm_num) h

theorem two_zpow_succ (e : ℤ) : (2 : ℚ) ^ (e + 1) = 2 * 2 ^ e := by
  rw [zpow_add₀ (by norm_num : (2 : ℚ) ≠ 0), zpow_one, mul_comm]

theorem two_zpow_sub_mul (a b : ℤ) : (2 : ℚ) ^ (a - b) * 2 ^ b = 2 ^ a := by
  rw [← zpow_add₀ (by norm_num : (2 : ℚ) ≠ 0)]
  congr 1
  ring

theorem log2_le (r : ℚ) (hr : 0 < r) : (2 : ℚ) ^ Int.log 2 r ≤ r := by
  have := Int.zpow_log_le_self (b := 2) (r := r) (by norm_num) hr
  simpa using this

theorem lt_log2_succ (r : ℚ) : r < (2 : ℚ) ^ (Int.log 2 r + 1) := by
  have := Int.lt_zpow_succ_log_self (b := 2) (by norm_num) r
  simpa using this

theorem log2_eq (r : ℚ) (e : ℤ) (h1 : (2 : ℚ) ^ e ≤ r) (h2 : r < 2 ^ (e + 1)) :
    Int.log 2 r = e := by
  have hr : 0 < r := lt_of_lt_of_le (two_zpow_pos e) h1
  apply le_antisymm
  · have := (Int.lt_zpow_iff_log_lt (b := 2) (by norm_num) hr (x := e + 1)).mp
      (by simpa using h2)
    omega
  · exact (Int.zpow_le_iff_le_log (b := 2) (by norm_num) hr).mp (by simpa using h1)

/-! ### The exponent of the last place -/

theorem ulpExp_ge (q : ℚ) : -149 ≤ ulpExp q := le_max_left _ _

theorem ulpExp_neg (q : ℚ) : ulpExp (-q) = ulpExp q := by
  unfold ulpExp; rw [abs_neg]

theorem ulpExp_abs (q : ℚ) : ulpExp |q| = ulpExp q := by
  unfold ulpExp; rw [abs_abs]

theorem abs_lt_ulpExp (q : ℚ) : |q| < 2 ^ (ulpExp q + 24) := by
  have h := lt_log2_succ |q|
  refine lt_of_lt_of_le h (two_zpow_le ?_)
  have : Int.log 2 |q| - 23 ≤ ulpExp q := le_max_right _ _
  omega

theorem ulpExp_le_abs (q : ℚ) (hq : q ≠ 0) (h : ulpExp q ≠ -149) :
    (2 : ℚ) ^ (ulpExp q + 23) ≤ |q| := by
  have hl := log2_le |q| (abs_pos.mpr hq)
  have : ulpExp q = Int.log 2 |q| - 23 := by
    unfold ulpExp at h ⊢
    rcases max_cases (-149 : ℤ) (Int.log 2 |q| - 23) with ⟨h1, _⟩ | ⟨h1, _⟩
    · exact absurd h1 h
    · exact h1
  rw [this]
  simpa using hl

theorem ulpExp_eq (q : ℚ) (e : ℤ) (he : -149 ≤ e) (h1 : (2 : ℚ) ^ (e + 23) ≤ |q|)
    (h2 : |q| < 2 ^ (e + 24)) : ulpExp q = e := by
  have := log2_eq |q| (e + 23) h1 (by simpa [add_assoc] using h2)
  unfold ulpExp
  rw [this]
  simp [he]

theorem ulpExp_eq_min (q : ℚ) (hq : q ≠ 0) (h : |q| < 2 ^ (-125 : ℤ)) : ulpExp q = -149 := by
  have hp : 0 < |q| := abs_pos.mpr hq
  have : Int.log 2 |q| < -125 :=
    (Int.lt_zpow_iff_log_lt (b := 2) (by norm_num) hp).mp (by simpa using h)
  unfold ulpExp
  exact max_eq_left (by omega)

theorem ulpExp_mono {a b : ℚ} (ha : a ≠ 0) (h : |a| ≤ |b|) : ulpExp a ≤ ulpExp b := by
  unfold ulpExp
  have := Int.log_mono_right (b := 2) (abs_pos.mpr ha) h
  exact max_le_max le_rfl (by omega)

/-! ### Rounding to a multiple of a power of two -/

theorem roundAt_abs_sub_le (e : ℤ) (q : ℚ) : |roundAt e q - q| ≤ 2 ^ e / 2 := by
  have hp := two_zpow_pos e
  have h := roundHalfEven_abs_sub_le (q / 2 ^ e)
  have e1 : roundAt e q - q = ((roundHalfEven (q / 2 ^ e) : ℚ) - q / 2 ^ e) * 2 ^ e := by
    unfold roundAt
    field_simp
  rw [e1, abs_mul, abs_of_pos hp]
  calc |(roundHalfEven (q / 2 ^ e) : ℚ) - q / 2 ^ e| * 2 ^ e ≤ 1 / 2 * 2 ^ e :=
        mul_le_mul_of_nonneg_right h hp.le
    _ = 2 ^ e / 2 := by ring

theorem roundAt_mul (e : ℤ) (k : ℤ) : roundAt e (k * 2 ^ e) = k * 2 ^ e := by
  unfold roundAt
  rw [mul_div_assoc, div_self (two_zpow_pos e).ne', mul_one, roundHalfEven_intCast]

theorem roundAt_zero (e : ℤ) : roundAt e 0 = 0 := by
  have := roundAt_mul e 0
  simpa using this

theorem roundAt_mono (e : ℤ) {a b : ℚ} (h : a ≤ b) : roundAt e a ≤ roundAt e b := by
  unfold roundAt
  have hp := two_zpow_pos e
  have h1 : a / 2 ^ e ≤ b / 2 ^ e := div_le_div_of_nonneg_right h hp.le
  have h2 := roundHalfEven_mono h1
  exact mul_le_mul_of_nonneg_right (by exact_mod_cast h2) hp.le

theorem roundAt_neg (e : ℤ) (q : ℚ) : roundAt e (-q) = -roundAt e q := by
  unfold roundAt
  rw [neg_div, roundHalfEven_neg]
  push_cast
  ring

theorem roundAt_nearest (e : ℤ) (q : ℚ) (k : ℤ) :
    |roundAt e q - q| ≤ |(k : ℚ) * 2 ^ e - q| := by
  have hp := two_zpow_pos e
  by_cases hk : (k : ℚ) * 2 ^ e = roundAt e q
  · rw [hk]
  · have h1 := roundAt_abs_sub_le e q
    -- two different multiples of `2 ^ e` are at least `2 ^ e` apart
    have h2 : (2 : ℚ) ^ e ≤ |(k : ℚ) * 2 ^ e - roundAt e q| := by
      unfold roundAt at hk ⊢
      rw [← sub_mul, abs_mul, abs_of_pos hp]
      have hne : k ≠ roundHalfEven (q / 2 ^ e) := by
        intro hh; apply hk; rw [hh]
      have : (1 : ℤ) ≤ |k - roundHalfEven (q / 2 ^ e)| := Int.one_le_abs (sub_ne_zero.mpr hne)
      have h3 : (1 : ℚ) ≤ |(k : ℚ) - roundHalfEven (q / 2 ^ e)| := by exact_mod_cast this
      calc (2 : ℚ) ^ e = 1 * 2 ^ e := by ring
        _ ≤ _ := mul_le_mul_of_nonneg_right h3 hp.le
    have h3 : |(k : ℚ) * 2 ^ e - roundAt e q| ≤ |(k : ℚ) * 2 ^ e - q| + |roundAt e q - q| := by
      have : (k : ℚ) * 2 ^ e - roundAt e q = ((k : ℚ) * 2 ^ e - q) - (roundAt e q - q) := by ring
      rw [this]; exact abs_sub _ _
    linarith

/-! ### Representable numbers -/

theorem two_zpow_natCast (n : ℕ) : (2 : ℚ) ^ (n : ℤ) = ((2 ^ n : ℤ) : ℚ) := by
  rw [zpow_natCast]; push_cast; rfl

/-- A multiple of `2 ^ e` is a multiple of every smaller power of two. -/
theorem multiple_of_le (m e E : ℤ) (h : E ≤ e) : ∃ k : ℤ, (m : ℚ) * 2 ^ e = k * 2 ^ E := by
  refine ⟨m * 2 ^ (e - E).toNat, ?_⟩
  have h1 : ((e - E).toNat : ℤ) = e - E := Int.toNat_of_nonneg (by omega)
  have h2 : (2 : ℚ) ^ e = 2 ^ ((e - E).toNat : ℤ) * 2 ^ E := by
    rw [h1, two_zpow_sub_mul]
  rw [h2, two_zpow_natCast]
  push_cast
  ring

theorem two_zpow_add_24 (E : ℤ) : (2 : ℚ) ^ (E + 24) = ((2 ^ 24 : ℤ) : ℚ) * 2 ^ E := by
  rw [zpow_add₀ (by norm_num : (2 : ℚ) ≠ 0), mul_comm]
  norm_num

theorem two_zpow_add_23 (E : ℤ) : (2 : ℚ) ^ (E + 23) = ((2 ^ 23 : ℤ) : ℚ) * 2 ^ E := by
  rw [zpow_add₀ (by norm_num : (2 : ℚ) ≠ 0), mul_comm]
  norm_num

theorem rep_zero : Rep 0 := ⟨0, 0, by norm_num, by norm_num, by simp⟩

theorem rep_neg {q : ℚ} (h : Rep q) : Rep (-q) := by
  obtain ⟨m, e, hm, he, rfl⟩ := h
  exact ⟨-m, e, by rwa [abs_neg], he, by push_cast; ring⟩

theorem rep_abs_lt {q : ℚ} {m e : ℤ} (hm : |m| < 2 ^ 24) (hq : q = m * 2 ^ e) :
    |q| < 2 ^ (e + 24) := by
  rw [hq, abs_mul, abs_of_pos (two_zpow_pos e), two_zpow_add_24]
  have : |(m : ℚ)| < ((2 ^ 24 : ℤ) : ℚ) := by exact_mod_cast hm
  exact mul_lt_mul_of_pos_right this (two_zpow_pos e)

/-- A representable number is a multiple of the unit in its last place. -/
theorem rep_multiple {q : ℚ} (h : Rep q) (hq : q ≠ 0) : ∃ k : ℤ, q = k * 2 ^ ulpExp q := by
  obtain ⟨m, e, hm, he, hqe⟩ := h
  by_cases hE : ulpExp q ≤ e
  · obtain ⟨k, hk⟩ := multiple_of_le m e (ulpExp q) hE
    exact ⟨k, by rw [← hk, ← hqe]⟩
  · exfalso
    push_neg at hE
    have h1 := ulpExp_le_abs q hq (by omega)
    have h2 := rep_abs_lt hm hqe
    have h3 : (2 : ℚ) ^ (e + 24) ≤ 2 ^ (ulpExp q + 23) := two_zpow_le (by omega)
    linarith

/-- Every representable number is a multiple of `2 ^ (-149)`. -/
theorem rep_multiple_min {q : ℚ} (h : Rep q) : ∃ k : ℤ, q = k * 2 ^ (-149 : ℤ) := by
  obtain ⟨m, e, _, he, hqe⟩ := h
  obtain ⟨k, hk⟩ := multiple_of_le m e (-149) he
  exact ⟨k, by rw [← hk, ← hqe]⟩

theorem rep_of_small {q : ℚ} (k : ℤ) (hk : q = k * 2 ^ (-149 : ℤ)) (h : |q| < 2 ^ (-125 : ℤ)) :
    Rep q := by
  refine ⟨k, -149, ?_, le_rfl, hk⟩
  rw [hk, abs_mul, abs_of_pos (two_zpow_pos _)] at h
  have h2 : (2 : ℚ) ^ (-125 : ℤ) = ((2 ^ 24 : ℤ) : ℚ) * 2 ^ (-149 : ℤ) := by
    rw [← two_zpow_add_24]; norm_num
  rw [h2] at h
  have := lt_of_mul_lt_mul_right h (two_zpow_pos _).le
  exact_mod_cast this

/-! ### Rounding to binary32 -/

theorem rne_zero : rne 0 = 0 := roundAt_zero _

theorem rne_neg (q : ℚ) : rne (-q) = -rne q := by
  unfold rne
  rw [ulpExp_neg, roundAt_neg]

theorem rne_abs_sub_le (q : ℚ) : |rne q - q| ≤ 2 ^ ulpExp q / 2 := roundAt_abs_sub_le _ _

theorem rne_of_rep {q : ℚ} (h : Rep q) : rne q = q := by
  by_cases hq : q = 0
  · rw [hq, rne_zero]
  · obtain ⟨k, hk⟩ := rep_multiple h hq
    have := roundAt_mul (ulpExp q) k
    rw [← hk] at this
    exact this

theorem rne_rep (q : ℚ) : Rep (rne q) := by
  have hp := two_zpow_pos (ulpExp q)
  have hlt := abs_lt_ulpExp q
  rw [two_zpow_add_24] at hlt
  have hb := abs_lt.mp hlt
  push_cast at hb
  -- the scaled value lies between `-2 ^ 24` and `2 ^ 24`, and so does its rounding
  have h1 : q / 2 ^ ulpExp q ≤ ((2 ^ 24 : ℤ) : ℚ) := by
    rw [div_le_iff₀ hp]; push_cast; exact hb.2.le
  have h2 : ((-(2 ^ 24) : ℤ) : ℚ) ≤ q / 2 ^ ulpExp q := by
    rw [le_div_iff₀ hp]; push_cast; linarith [hb.1]
  have r1 := roundHalfEven_mono h1
  have r2 := roundHalfEven_mono h2
  rw [roundHalfEven_intCast] at r1 r2
  set M := roundHalfEven (q / 2 ^ ulpExp q) with hM
  have hr : rne q = M * 2 ^ ulpExp q := rfl
  by_cases hmax : |M| < 2 ^ 24
  · exact ⟨M, ulpExp q, hmax, ulpExp_ge q, hr⟩
  · have hM2 : M = 2 ^ 24 ∨ M = -(2 ^ 24) := by
      rcases le_or_lt 0 M with h0 | h0
      · left; rw [abs_of_nonneg h0] at hmax; omega
      · right; rw [abs_of_neg h0] at hmax; omega
    rcases hM2 with h | h
    · refine ⟨2 ^ 23, ulpExp q + 1, by norm_num, by have := ulpExp_ge q; omega, ?_⟩
      rw [hr, h, two_zpow_succ]; push_cast; ring
    · refine ⟨-(2 ^ 23), ulpExp q + 1, by norm_num, by have := ulpExp_ge q; omega, ?_⟩
      rw [hr, h, two_zpow_succ]; push_cast; ring

theorem rne_nonneg {q : ℚ} (h : 0 ≤ q) : 0 ≤ rne q := by
  have := roundAt_mono (ulpExp q) h
  rwa [roundAt_zero] at this

theorem rne_nonpos {q : ℚ} (h : q ≤ 0) : rne q ≤ 0 := by
  have := roundAt_mono (ulpExp q) h
  rwa [roundAt_zero] at this

theorem rne_mono_pos {a b : ℚ} (ha : 0 < a) (h : a ≤ b) : rne a ≤ rne b := by
  have hb : 0 < b := lt_of_lt_of_le ha h
  have hE : ulpExp a ≤ ulpExp b :=
    ulpExp_mono ha.ne' (by rwa [abs_of_pos ha, abs_of_pos hb])
  rcases eq_or_lt_of_le hE with he | hlt
  · unfold rne; rw [he]; exact roundAt_mono _ h
  · have h1 : (2 : ℚ) ^ (ulpExp b + 23) ≤ b := by
      have := ulpExp_le_abs b hb.ne' (by have := ulpExp_ge a; omega)
      rwa [abs_of_pos hb] at this
    have h2 : a < 2 ^ (ulpExp a + 24) := by
      have := abs_lt_ulpExp a
      rwa [abs_of_pos ha] at this
    have h3 : (2 : ℚ) ^ (ulpExp a + 24) ≤ 2 ^ (ulpExp b + 23) := two_zpow_le (by omega)
    calc rne a = roundAt (ulpExp a) a := rfl
      _ ≤ roundAt (ulpExp a) (2 ^ (ulpExp a + 24)) := roundAt_mono _ h2.le
      _ = 2 ^ (ulpExp a + 24) := by rw [two_zpow_add_24, roundAt_mul]
      _ ≤ 2 ^ (ulpExp b + 23) := h3
      _ = roundAt (ulpExp b) (2 ^ (ulpExp b + 23)) := by rw [two_zpow_add_23, roundAt_mul]
      _ ≤ roundAt (ulpExp b) b := roundAt_mono _ h1
      _ = rne b := rfl

/-- Rounding to nearest is monotone. -/
theorem rne_mono {a b : ℚ} (h : a ≤ b) : rne a ≤ rne b := by
  rcases lt_or_le 0 a with ha | ha
  · exact rne_mono_pos ha h
  · rcases le_or_lt 0 b with hb | hb
    · exact le_trans (rne_nonpos ha) (rne_nonneg hb)
    · have := rne_mono_pos (neg_pos.mpr hb) (neg_le_neg h)
      rw [rne_neg, rne_neg] at this
      linarith

theorem rne_le_of_le {q g : ℚ} (hg : Rep g) (h : q ≤ g) : rne q ≤ g := by
  have := rne_mono h
  rwa [rne_of_rep hg] at this

theorem le_rne_of_le {q g : ℚ} (hg : Rep g) (h : g ≤ q) : g ≤ rne q := by
  have := rne_mono h
  rwa [rne_of_rep hg] at this

theorem abs_rne_le_of_abs_le {q g : ℚ} (hg : Rep g) (h : |q| ≤ g) : |rne q| ≤ g := by
  rw [abs_le] at h ⊢
  exact ⟨by have := le_rne_of_le (rep_neg hg) h.1; linarith, rne_le_of_le hg h.2⟩

theorem rne_nearest_pos {q g : ℚ} (hq : 0 < q) (hg : Rep g) : |rne q - q| ≤ |g - q| := by
  obtain ⟨m, e, hm, he, hge⟩ := hg
  by_cases hE : ulpExp q ≤ e
  · obtain ⟨k, hk⟩ := multiple_of_le m e (ulpExp q) hE
    rw [hge, hk]
    exact roundAt_nearest _ _ _
  · push_neg at hE
    have h1 : (2 : ℚ) ^ (ulpExp q + 23) ≤ q := by
      have := ulpExp_le_abs q hq.ne' (by omega)
      rwa [abs_of_pos hq] at this
    have h2 := rep_abs_lt hm hge
    have h3 : (2 : ℚ) ^ (e + 24) ≤ 2 ^ (ulpExp q + 23) := two_zpow_le (by omega)
    have h4 : |rne q - q| ≤ |((2 ^ 23 : ℤ) : ℚ) * 2 ^ ulpExp q - q| := roundAt_nearest _ _ _
    rw [← two_zpow_add_23] at h4
    have h5 : |(2 : ℚ) ^ (ulpExp q + 23) - q| = q - 2 ^ (ulpExp q + 23) := by
      rw [abs_sub_comm, abs_of_nonneg (by linarith)]
    have h6 : q - |g| ≤ |g - q| := by
      have := abs_sub_abs_le_abs_sub q g
      rw [abs_of_pos hq, abs_sub_comm] at this
      exact this
    linarith

/-- The rounded value is a representable number nearest to the argument. -/
theorem rne_nearest {q g : ℚ} (hg : Rep g) : |rne q - q| ≤ |g - q| := by
  rcases lt_trichotomy 0 q with hq | hq | hq
  · exact rne_nearest_pos hq hg
  · rw [← hq, rne_zero]; simp
  · have := rne_nearest_pos (neg_pos.mpr hq) (rep_neg hg)
    rw [rne_neg] at this
    have e1 : -rne q - -q = -(rne q - q) := by ring
    have e2 : -g - -q = -(g - q) := by ring
    rwa [e1, e2, abs_neg, abs_neg] at this

/-- The relative error of rounding in the normal range. -/
theorem rne_rel {q : ℚ} (h : (2 : ℚ) ^ (-126 : ℤ) ≤ |q|) :
    |rne q - q| ≤ 2 ^ (-24 : ℤ) * |q| := by
  have hq : q ≠ 0 := by
    intro h0; rw [h0, abs_zero] at h
    exact absurd h (not_le.mpr (two_zpow_pos _))
  have h1 := rne_abs_sub_le q
  have h2 : (2 : ℚ) ^ ulpExp q / 2 ≤ 2 ^ (-24 : ℤ) * |q| := by
    by_cases hE : ulpExp q = -149
    · rw [hE]
      calc (2 : ℚ) ^ (-149 : ℤ) / 2 = 2 ^ (-24 : ℤ) * 2 ^ (-126 : ℤ) := by norm_num
        _ ≤ 2 ^ (-24 : ℤ) * |q| := mul_le_mul_of_nonneg_left h (two_zpow_pos _).le
    · have h3 := ulpExp_le_abs q hq hE
      calc (2 : ℚ) ^ ulpExp q / 2 = 2 ^ (-24 : ℤ) * 2 ^ (ulpExp q + 23) := by
            rw [zpow_add₀ (by norm_num : (2 : ℚ) ≠ 0)]; norm_num; ring
        _ ≤ 2 ^ (-24 : ℤ) * |q| := mul_le_mul_of_nonneg_left h3 (two_zpow_pos _).le
  exact le_trans h1 h2

/-- The error of rounding anywhere: relative in the normal range, absolute below. -/
theorem rne_err (q : ℚ) : |rne q - q| ≤ 2 ^ (-24 : ℤ) * |q| + 2 ^ (-150 : ℤ) := by
  rcases le_or_lt ((2 : ℚ) ^ (-126 : ℤ)) |q| with h | h
  · exact le_trans (rne_rel h) (le_add_of_nonneg_right (two_zpow_pos _).le)
  · by_cases hq : q = 0
    · rw [hq, rne_zero]; simp; positivity
    · have hE : ulpExp q = -149 :=
        ulpExp_eq_min q hq (lt_trans h (two_zpow_lt (by norm_num)))
      have h1 := rne_abs_sub_le q
      rw [hE] at h1
      have h2 : (2 : ℚ) ^ (-149 : ℤ) / 2 = 2 ^ (-150 : ℤ) := by norm_num
      have h3 : (0 : ℚ) ≤ 2 ^ (-24 : ℤ) * |q| := by positivity
      rw [h2] at h1
      exact le_trans h1 (le_add_of_nonneg_left h3)

theorem rep_add {a b : ℚ} (ha : Rep a) (hb : Rep b) (h : |a + b| < 2 ^ (-125 : ℤ)) :
    Rep (a + b) := by
  obtain ⟨k, hk⟩ := rep_multiple_min ha
  obtain ⟨l, hl⟩ := rep_multiple_min hb
  exact rep_of_small (k + l) (by rw [hk, hl]; push_cast; ring) h

/-- Sums of representable numbers are rounded with a relative error only. -/
theorem rne_add_rel {a b : ℚ} (ha : Rep a) (hb : Rep b) :
    |rne (a + b) - (a + b)| ≤ 2 ^ (-24 : ℤ) * |a + b| := by
  rcases le_or_lt ((2 : ℚ) ^ (-126 : ℤ)) |a + b| with h | h
  · exact rne_rel h
  · have hr : Rep (a + b) := rep_add ha hb (lt_trans h (two_zpow_lt (by norm_num)))
    rw [rne_of_rep hr, sub_self, abs_zero]
    positivity

theorem rne_sub_rel {a b : ℚ} (ha : Rep a) (hb : Rep b) :
    |rne (a - b) - (a - b)| ≤ 2 ^ (-24 : ℤ) * |a - b| := by
  have := rne_add_rel ha (rep_neg hb)
  rwa [← sub_eq_add_neg] at this

/-! ### The rounded square root -/

theorem four_zpow (e : ℤ) : (4 : ℚ) ^ e = 2 ^ e * 2 ^ e := by
  rw [show (4 : ℚ) = 2 * 2 by norm_num, mul_zpow]

/-- The integer chosen by `sqrtRne` is within one half of the exact root of the scaled
argument. -/
theorem sqrtRne_mantissa (n : ℚ) (hn : 0 ≤ n) (m : ℕ)
    (hm : m = (if 4 * n < (2 * (Nat.sqrt ⌊n⌋₊ : ℚ) + 1) ^ 2 then Nat.sqrt ⌊n⌋₊
      else if ((2 * (Nat.sqrt ⌊n⌋₊ : ℚ) + 1) ^ 2 : ℚ) < 4 * n then Nat.sqrt ⌊n⌋₊ + 1
      else if Nat.sqrt ⌊n⌋₊ % 2 = 0 then Nat.sqrt ⌊n⌋₊ else Nat.sqrt ⌊n⌋₊ + 1)) :
    |(m : ℝ) - Real.sqrt n| ≤ 1 / 2 := by
  set k := Nat.sqrt ⌊n⌋₊ with hk
  have h1 : ((k : ℚ)) ^ 2 ≤ n := by
    have : k ^ 2 ≤ ⌊n⌋₊ := Nat.sqrt_le' _
    have h2 : ((k ^ 2 : ℕ) : ℚ) ≤ (⌊n⌋₊ : ℚ) := by exact_mod_cast this
    have h3 : ((⌊n⌋₊ : ℕ) : ℚ) ≤ n := Nat.floor_le hn
    push_cast at h2
    linarith
  have h2 : n < ((k : ℚ) + 1) ^ 2 := by
    have : ⌊n⌋₊ < (k + 1) ^ 2 := Nat.lt_succ_sqrt' _
    have h2 : ((⌊n⌋₊ + 1 : ℕ) : ℚ) ≤ (((k + 1) ^ 2 : ℕ) : ℚ) := by exact_mod_cast this
    have h3 : n < (⌊n⌋₊ : ℚ) + 1 := Nat.lt_floor_add_one n
    push_cast at h2
    linarith
  set t := Real.sqrt (n : ℝ) with ht
  have ht0 : 0 ≤ t := Real.sqrt_nonneg _
  have hn' : (0 : ℝ) ≤ (n : ℝ) := by exact_mod_cast hn
  have htt : t * t = (n : ℝ) := Real.mul_self_sqrt hn'
  have h1r : ((k : ℝ)) ^ 2 ≤ (n : ℝ) := by exact_mod_cast h1
  have h2r : (n : ℝ) < ((k : ℝ) + 1) ^ 2 := by exact_mod_cast h2
  have hkt : (k : ℝ) ≤ t := by
    by_contra hc; push_neg at hc
    nlinarith
  have htk : t < (k : ℝ) + 1 := by
    by_contra hc; push_neg at hc
    nlinarith
  have hk0 : (0 : ℝ) ≤ (k : ℝ) := Nat.cast_nonneg k
  split_ifs at hm with c1 c2 c3
  · -- below the midpoint
    have c1r : 4 * (n : ℝ) < (2 * (k : ℝ) + 1) ^ 2 := by exact_mod_cast c1
    have : t < (k : ℝ) + 1 / 2 := by
      by_contra hc; push_neg at hc
      nlinarith
    rw [hm, abs_le]; constructor <;> linarith
  · have c2r : (2 * (k : ℝ) + 1) ^ 2 < 4 * (n : ℝ) := by exact_mod_cast c2
    have : (k : ℝ) + 1 / 2 < t := by
      by_contra hc; push_neg at hc
      nlinarith
    rw [hm, abs_le]; push_cast; constructor <;> linarith
  · have c2r : 4 * (n : ℝ) ≤ (2 * (k : ℝ) + 1) ^ 2 := by exact_mod_cast (not_lt.mp c2)
    have : t ≤ (k : ℝ) + 1 / 2 := by
      by_contra hc; push_neg at hc
      nlinarith
    rw [hm, abs_le]; constructor <;> linarith
  · have c1r : (2 * (k : ℝ) + 1) ^ 2 ≤ 4 * (n : ℝ) := by exact_mod_cast (not_lt.mp c1)
    have : (k : ℝ) + 1 / 2 ≤ t := by
      by_contra hc; push_neg at hc
      nlinarith
    rw [hm, abs_le]; push_cast; constructor <;> linarith

theorem sqrtRne_nonneg (s : ℚ) : 0 ≤ sqrtRne s := by
  unfold sqrtRne
  positivity

/-- The rounded square root of a positive binary32 value has a relative error of at
most `2 ^ (-24)`. -/
theorem sqrtRne_bounds (s : ℚ) (hs : (2 : ℚ) ^ (-149 : ℤ) ≤ s) :
    Real.sqrt s * (1 - 2 ^ (-24 : ℤ)) ≤ (sqrtRne s : ℝ) ∧
      (sqrtRne s : ℝ) ≤ Real.sqrt s * (1 + 2 ^ (-24 : ℤ)) := by
  have hs0 : 0 < s := lt_of_lt_of_le (two_zpow_pos _) hs
  have hL1 := log2_le s hs0
  have hL2 := lt_log2_succ s
  have hL0 : -149 ≤ Int.log 2 s :=
    (Int.zpow_le_iff_le_log (b := 2) (by norm_num) hs0).mp (by simpa using hs)
  obtain ⟨e, he⟩ : ∃ e : ℤ, e = Int.log 2 s / 2 - 23 := ⟨_, rfl⟩
  have hmax : max (-149) (Int.log 2 s / 2 - 23) = e := by
    rw [← he]; exact max_eq_right (by omega)
  have hp := two_zpow_pos e
  obtain ⟨n, hn⟩ : ∃ n : ℚ, n = s / 4 ^ e := ⟨_, rfl⟩
  have hsn : s = n * (2 ^ e * 2 ^ e) := by
    rw [hn, four_zpow]; field_simp
  have hn1 : (2 : ℚ) ^ (46 : ℤ) ≤ n := by
    have h : (2 : ℚ) ^ (46 : ℤ) * (2 ^ e * 2 ^ e) ≤ n * (2 ^ e * 2 ^ e) := by
      rw [← hsn, ← zpow_add₀ (by norm_num : (2 : ℚ) ≠ 0), ← zpow_add₀ (by norm_num : (2 : ℚ) ≠ 0)]
      exact le_trans (two_zpow_le (by omega)) hL1
    exact le_of_mul_le_mul_right h (by positivity)
  have hn0 : 0 ≤ n := le_trans (two_zpow_pos _).le hn1
  obtain ⟨m, hm⟩ : ∃ m : ℕ, m = (if 4 * n < (2 * (Nat.sqrt ⌊n⌋₊ : ℚ) + 1) ^ 2 then Nat.sqrt ⌊n⌋₊
      else if ((2 * (Nat.sqrt ⌊n⌋₊ : ℚ) + 1) ^ 2 : ℚ) < 4 * n then Nat.sqrt ⌊n⌋₊ + 1
      else if Nat.sqrt ⌊n⌋₊ % 2 = 0 then Nat.sqrt ⌊n⌋₊ else Nat.sqrt ⌊n⌋₊ + 1) := ⟨_, rfl⟩
  have hval : sqrtRne s = m * 2 ^ e := by
    unfold sqrtRne
    simp only [hmax, ← hn, ← hm]
  have hmt := sqrtRne_mantissa n hn0 m hm
  set t := Real.sqrt (n : ℝ) with ht
  have ht23 : (2 : ℝ) ^ (23 : ℤ) ≤ t := by
    rw [ht]
    apply Real.le_sqrt_of_sq_le
    have : ((2 : ℚ) ^ (46 : ℤ) : ℝ) ≤ (n : ℝ) := by exact_mod_cast hn1
    calc ((2 : ℝ) ^ (23 : ℤ)) ^ 2 = ((2 : ℚ) ^ (46 : ℤ) : ℝ) := by norm_num
      _ ≤ n := this
  have hpr : (0 : ℝ) < (2 : ℝ) ^ e := zpow_pos (by norm_num) e
  have hsq : Real.sqrt (s : ℝ) = t * 2 ^ e := by
    rw [hsn]
    push_cast
    rw [Real.sqrt_mul (by exact_mod_cast hn0), Real.sqrt_mul_self hpr.le]
  have hvr : ((sqrtRne s : ℚ) : ℝ) = (m : ℝ) * 2 ^ e := by
    rw [hval]; push_cast; rfl
  rw [hsq, hvr]
  have hb := abs_le.mp hmt
  have hu : (1 : ℝ) / 2 ≤ 2 ^ (-24 : ℤ) * t := by
    calc (1 : ℝ) / 2 = 2 ^ (-24 : ℤ) * 2 ^ (23 : ℤ) := by norm_num
      _ ≤ 2 ^ (-24 : ℤ) * t := mul_le_mul_of_nonneg_left ht23 (by positivity)
  generalize (2 : ℝ) ^ (-24 : ℤ) = u at hu ⊢
  constructor
  · have : t * (1 - u) ≤ (m : ℝ) := by
      have : t * (1 - u) = t - u * t := by ring
      linarith [hb.1]
    calc t * 2 ^ e * (1 - u) = t * (1 - u) * 2 ^ e := by ring
      _ ≤ (m : ℝ) * 2 ^ e := mul_le_mul_of_nonneg_right this hpr.le
  · have : (m : ℝ) ≤ t * (1 + u) := by
      have : t * (1 + u) = t + u * t := by ring
      linarith [hb.2]
    calc (m : ℝ) * 2 ^ e ≤ t * (1 + u) * 2 ^ e :=
          mul_le_mul_of_nonneg_right this hpr.le
      _ = t * 2 ^ e * (1 + u) := by ring

/-! ### Operations on finite values -/

theorem maxFinite_rep : Rep maxFinite :=
  ⟨2 ^ 24 - 1, 104, by norm_num, by norm_num, by unfold maxFinite; norm_num⟩

theorem maxFinite_pos : 0 < maxFinite := by unfold maxFinite; norm_num

theorem ofRat_of_abs_le {q : ℚ} (h : |q| ≤ maxFinite) : ofRat q = finite (rne q) := by
  unfold ofRat
  rw [if_pos (abs_rne_le_of_abs_le maxFinite_rep h)]

theorem ofRat_of_isFinite {q : ℚ} (h : IsFinite q) : ofRat q = finite q := by
  rw [ofRat_of_abs_le h.2, rne_of_rep h.1]

/-- A rounded value is finite or an infinity. -/
theorem ofRat_cases (q : ℚ) :
    (ofRat q = finite (rne q) ∧ |rne q| ≤ maxFinite) ∨
      (ofRat q = inf (decide (q < 0)) ∧ maxFinite < |rne q|) := by
  unfold ofRat
  by_cases h : |rne q| ≤ maxFinite
  · left; exact ⟨if_pos h, h⟩
  · right; exact ⟨if_neg h, not_le.mp h⟩

theorem rep_of_int (n : ℤ) (h : |n| ≤ 2 ^ 24) : Rep (n : ℚ) := by
  rcases lt_or_eq_of_le h with h1 | h1
  · exact ⟨n, 0, h1, by norm_num, by simp⟩
  · rcases abs_eq (by norm_num : (0 : ℤ) ≤ 2 ^ 24) |>.mp h1 with h2 | h2
    · exact ⟨2 ^ 23, 1, by norm_num, by norm_num, by rw [h2]; norm_num⟩
    · exact ⟨-(2 ^ 23), 1, by norm_num, by norm_num, by rw [h2]; norm_num⟩

theorem isFinite_of_int (n : ℤ) (h : |n| ≤ 2 ^ 24) : IsFinite (n : ℚ) := by
  refine ⟨rep_of_int n h, ?_⟩
  have h1 : |(n : ℚ)| ≤ ((2 ^ 24 : ℤ) : ℚ) := by exact_mod_cast h
  refine le_trans h1 ?_
  unfold maxFinite; norm_num

theorem ofInt_of_abs_le (n : ℤ) (h : |n| ≤ 2 ^ 24) : ofInt n = finite n :=
  ofRat_of_isFinite (isFinite_of_int n h)

theorem ofInt_two : ofInt 2 = finite 2 := by
  have := ofInt_of_abs_le 2 (by norm_num)
  simpa using this

theorem sub_finite (a b : ℚ) : F32.sub (finite a) (finite b) = ofRat (a - b) := by
  show ofRat (a + -b) = ofRat (a - b)
  rw [sub_eq_add_neg]

theorem add_finite (a b : ℚ) : F32.add (finite a) (finite b) = ofRat (a + b) := rfl

theorem mul_finite (a b : ℚ) : F32.mul (finite a) (finite b) = ofRat (a * b) := rfl

theorem div_finite (a b : ℚ) (hb : b ≠ 0) : F32.div (finite a) (finite b) = ofRat (a / b) := by
  show (if b = 0 then _ else _) = _
  rw [if_neg hb]

/-- Halving a finite value gives a finite value. -/
theorem div_two_finite (a : ℚ) (h : |a| ≤ maxFinite) :
    F32.div (finite a) (ofInt 2) = finite (rne (a / 2)) := by
  rw [ofInt_two, div_finite _ _ (by norm_num), ofRat_of_abs_le]
  rw [abs_div]
  have : |(2 : ℚ)| = 2 := abs_of_pos (by norm_num)
  rw [this]
  have := abs_nonneg a
  linarith

/-- Halving is exact unless it underflows. -/
theorem rne_half {a : ℚ} (ha : Rep a) (h : (2 : ℚ) ^ (-125 : ℤ) ≤ |a|) : rne (a / 2) = a / 2 := by
  apply rne_of_rep
  obtain ⟨m, e, hm, he, hq⟩ := ha
  have he2 : -149 ≤ e - 1 := by
    by_contra hc
    have he3 : e = -149 := by omega
    have := rep_abs_lt hm hq
    rw [he3] at this
    norm_num at this h
    linarith
  refine ⟨m, e - 1, hm, he2, ?_⟩
  rw [hq]
  have : (2 : ℚ) ^ e = 2 ^ (e - 1) * 2 := by
    have := two_zpow_sub_mul e 1
    rw [← this]; norm_num
  rw [this]; ring

/-- The comparison of the magnitude of a rounded value with a finite bound. -/
theorem le_abs_ofRat (a g : ℚ) (hg : g ≤ maxFinite) :
    F32.le (F32.abs (ofRat a)) (finite g) = decide (|rne a| ≤ g) := by
  rcases ofRat_cases a with ⟨h1, h2⟩ | ⟨h1, h2⟩
  · rw [h1]; rfl
  · rw [h1]
    have : ¬ (|rne a| ≤ g) := by
      intro hc; linarith
    simp [F32.abs, F32.le, this]

/-! ### Scaling an extent by a factor below one -/

theorem one_sub_ulp_rep : Rep (1 - 2 ^ (-24 : ℤ)) :=
  ⟨2 ^ 24 - 1, -24, by norm_num, by norm_num, by norm_num⟩

/-- A representable number that is not the rounding of `v` from above lies below `v`. -/
theorem le_of_rep_of_lt_rne {v g : ℚ} (hg : Rep g) (h : g < rne v) : g ≤ v := by
  by_contra hc
  push_neg at hc
  have := rne_le_of_le hg hc.le
  linarith

/-- Multiplying a positive representable number by a factor of at most `1 - 2 ^ (-24)`
and rounding gives a smaller number. -/
theorem rne_mul_lt {D u : ℚ} (hD : Rep D) (hD1 : (2 : ℚ) ^ (-125 : ℤ) ≤ D)
    (hu1 : u ≤ 1 - 2 ^ (-24 : ℤ)) : rne (u * D) < D := by
  have hD0 : 0 < D := lt_of_lt_of_le (two_zpow_pos _) hD1
  have hne : D ≠ 0 := hD0.ne'
  obtain ⟨k, hk⟩ := rep_multiple hD hne
  set E := ulpExp D with hE
  have hp := two_zpow_pos E
  have hEne : E ≠ -149 := by
    intro h
    have := abs_lt_ulpExp D
    rw [← hE, h, abs_of_pos hD0] at this
    norm_num at this hD1
    linarith
  have hEge : -149 ≤ E := ulpExp_ge D
  have h1 : (2 : ℚ) ^ (E + 23) ≤ D := by
    have := ulpExp_le_abs D hne hEne
    rwa [abs_of_pos hD0] at this
  have h2 : D < 2 ^ (E + 24) := by
    have := abs_lt_ulpExp D
    rwa [abs_of_pos hD0] at this
  rw [two_zpow_add_23] at h1
  rw [two_zpow_add_24] at h2
  have hk1 : (2 : ℤ) ^ 23 ≤ k := by
    have : ((2 ^ 23 : ℤ) : ℚ) * 2 ^ E ≤ (k : ℚ) * 2 ^ E := by rw [← hk]; exact h1
    have := le_of_mul_le_mul_right this hp
    exact_mod_cast this
  have hk2 : k < 2 ^ 24 := by
    have : (k : ℚ) * 2 ^ E < ((2 ^ 24 : ℤ) : ℚ) * 2 ^ E := by rw [← hk]; exact h2
    have := lt_of_mul_lt_mul_right this hp.le
    exact_mod_cast this
  have ht : u * D ≤ (1 - 2 ^ (-24 : ℤ)) * D := mul_le_mul_of_nonneg_right hu1 hD0.le
  have hEm : (2 : ℚ) ^ (E - 1) * 2 = 2 ^ E := by
    have := two_zpow_sub_mul E 1
    rw [← this]; norm_num
  rcases eq_or_lt_of_le hk1 with hk23 | hk23
  · -- a power of two: the factor gives the number just below
    have hg : Rep ((1 - 2 ^ (-24 : ℤ)) * D) := by
      refine ⟨2 ^ 24 - 1, E - 1, by norm_num, by omega, ?_⟩
      rw [hk, ← hk23, ← hEm]
      norm_num
      ring
    have := rne_le_of_le hg ht
    have hlt : (1 - 2 ^ (-24 : ℤ)) * D < D := by
      have : (0 : ℚ) < 2 ^ (-24 : ℤ) * D := mul_pos (two_zpow_pos _) hD0
      linarith
    linarith
  · -- otherwise the product lies below the midpoint to the number just below
    have hg : Rep (D - 2 ^ E) := by
      refine ⟨k - 1, E, ?_, hEge, ?_⟩
      · rw [abs_lt]; constructor <;> omega
      · rw [hk]; push_cast; ring
    have hkq : ((2 : ℚ) ^ 23 + 1) ≤ (k : ℚ) := by
      have : (2 : ℤ) ^ 23 + 1 ≤ k := by omega
      exact_mod_cast this
    have hmid : u * D < D - 2 ^ E / 2 := by
      have h3 : (2 : ℚ) ^ (-24 : ℤ) * D = (k : ℚ) * 2 ^ (-24 : ℤ) * 2 ^ E := by rw [hk]; ring
      have h4 : (2 : ℚ) ^ E / 2 < (k : ℚ) * 2 ^ (-24 : ℤ) * 2 ^ E := by
        have : (1 : ℚ) / 2 < (k : ℚ) * 2 ^ (-24 : ℤ) := by
          have : ((2 : ℚ) ^ 23 + 1) * 2 ^ (-24 : ℤ) ≤ (k : ℚ) * 2 ^ (-24 : ℤ) :=
            mul_le_mul_of_nonneg_right hkq (two_zpow_pos _).le
          have h5 : (1 : ℚ) / 2 < ((2 : ℚ) ^ 23 + 1) * 2 ^ (-24 : ℤ) := by norm_num
          linarith
        calc (2 : ℚ) ^ E / 2 = 1 / 2 * 2 ^ E := by ring
          _ < (k : ℚ) * 2 ^ (-24 : ℤ) * 2 ^ E := mul_lt_mul_of_pos_right this hp
      have h6 : (1 - 2 ^ (-24 : ℤ)) * D = D - 2 ^ (-24 : ℤ) * D := by ring
      rw [h6, h3] at ht
      generalize (k : ℚ) * 2 ^ (-24 : ℤ) * 2 ^ E = x at ht h4
      linarith
    rcases le_or_lt (u * D) (D - 2 ^ E) with hle | hgt
    · have := rne_le_of_le hg hle
      linarith
    · have hn := rne_nearest (q := u * D) hg
      have hP : rne (u * D) ≤ D := rne_le_of_le hD (by linarith)
      rcases eq_or_lt_of_le hP with heq | hlt
      · exfalso
        rw [heq, abs_of_pos (by linarith), abs_of_neg (by linarith)] at hn
        linarith
      · exact hlt

/-- The rounded product of a factor in `[0, 1 - 2 ^ (-24)]` with the rounded extent of an
interval with representable ends does not exceed the extent. -/
theorem rne_mul_extent {a b u : ℚ} (ha : Rep a) (hb : Rep b) (hab : a ≤ b)
    (hu0 : 0 ≤ u) (hu1 : u ≤ 1 - 2 ^ (-24 : ℤ)) :
    0 ≤ rne (u * rne (b - a)) ∧ rne (u * rne (b - a)) ≤ b - a := by
  have hv : 0 ≤ b - a := by linarith
  have hD0 : 0 ≤ rne (b - a) := rne_nonneg hv
  refine ⟨rne_nonneg (mul_nonneg hu0 hD0), ?_⟩
  have hu1' : u ≤ 1 := by
    have := two_zpow_pos (-24)
    linarith
  have hPD : rne (u * rne (b - a)) ≤ rne (b - a) := by
    apply rne_le_of_le (rne_rep _)
    calc u * rne (b - a) ≤ 1 * rne (b - a) := mul_le_mul_of_nonneg_right hu1' hD0
      _ = rne (b - a) := one_mul _
  rcases le_or_lt (rne (b - a)) (b - a) with h | h
  · exact le_trans hPD h
  · -- the extent was rounded up, so it is not representable and not tiny
    have hbig : (2 : ℚ) ^ (-125 : ℤ) ≤ b - a := by
      by_contra hc
      push_neg at hc
      have hr : Rep (b - a) := by
        rw [sub_eq_add_neg]
        apply rep_add hb (rep_neg ha)
        rw [← sub_eq_add_neg, abs_of_nonneg hv]
        exact hc
      rw [rne_of_rep hr] at h
      exact lt_irrefl _ h
    have hD1 : (2 : ℚ) ^ (-125 : ℤ) ≤ rne (b - a) := by
      apply le_rne_of_le _ hbig
      exact ⟨1, -125, by norm_num, by norm_num, by norm_num⟩
    have hlt := rne_mul_lt (rne_rep (b - a)) hD1 hu1
    exact le_of_rep_of_lt_rne (rne_rep _) hlt

/-- The quotient of a pixel index by a window size of at most `2 ^ 24`, rounded, lies in
`[0, 1 - 2 ^ (-24)]`. -/
theorem rne_div_int {n w : ℤ} (hn : 0 ≤ n) (hnw : n < w) (hw : w ≤ 2 ^ 24) :
    0 ≤ rne ((n : ℚ) / (w : ℚ)) ∧ rne ((n : ℚ) / (w : ℚ)) ≤ 1 - 2 ^ (-24 : ℤ) := by
  have hw0 : (0 : ℚ) < (w : ℚ) := by exact_mod_cast (lt_of_le_of_lt hn hnw)
  have hn0 : (0 : ℚ) ≤ (n : ℚ) := by exact_mod_cast hn
  refine ⟨rne_nonneg (div_nonneg hn0 hw0.le), ?_⟩
  apply rne_le_of_le one_sub_ulp_rep
  rw [div_le_iff₀ hw0]
  have h1 : (n : ℚ) + 1 ≤ (w : ℚ) := by exact_mod_cast Int.add_one_le_iff.mpr hnw
  have h2 : (w : ℚ) ≤ 2 ^ 24 := by exact_mod_cast hw
  have h3 : (2 : ℚ) ^ (-24 : ℤ) * (w : ℚ) ≤ 1 := by
    calc (2 : ℚ) ^ (-24 : ℤ) * (w : ℚ) ≤ 2 ^ (-24 : ℤ) * 2 ^ 24 :=
          mul_le_mul_of_nonneg_left h2 (two_zpow_pos _).le
      _ = 1 := by norm_num
  linarith

/-- One coordinate of `windowToWorld`: the result is finite and lies between the ends of
the world interval. -/
theorem affine_in_range (a b : ℚ) (ha : IsFinite a) (hb : IsFinite b) (hab : a ≤ b)
    (hext : b - a ≤ maxFinite) (n w : ℤ) (hn : 0 ≤ n) (hnw : n < w) (hw : w ≤ 2 ^ 24) :
    ∃ r : ℚ, F32.add (finite a) (F32.mul (F32.div (ofInt n) (ofInt w))
        (F32.sub (finite b) (finite a))) = finite r ∧ a ≤ r ∧ r ≤ b := by
  have hw0 : 0 < w := lt_of_le_of_lt hn hnw
  have hwq : (w : ℚ) ≠ 0 := by exact_mod_cast hw0.ne'
  have hv : 0 ≤ b - a := by linarith
  obtain ⟨hu0, hu1⟩ := rne_div_int hn hnw hw
  obtain ⟨hP0, hP1⟩ := rne_mul_extent ha.1 hb.1 hab hu0 hu1
  have hmax := maxFinite_pos
  have hone : (1 : ℚ) ≤ maxFinite := by unfold maxFinite; norm_num
  have hD : rne (b - a) ≤ maxFinite := rne_le_of_le maxFinite_rep hext
  have hD0 : 0 ≤ rne (b - a) := rne_nonneg hv
  rw [ofInt_of_abs_le n (by rw [abs_of_nonneg hn]; omega),
    ofInt_of_abs_le w (by rw [abs_of_pos hw0]; exact hw), div_finite _ _ hwq, sub_finite]
  have e1 : ofRat ((n : ℚ) / (w : ℚ)) = finite (rne ((n : ℚ) / (w : ℚ))) := by
    unfold ofRat
    rw [if_pos]
    rw [abs_of_nonneg hu0]
    have := two_zpow_pos (-24)
    linarith
  have e2 : ofRat (b - a) = finite (rne (b - a)) :=
    ofRat_of_abs_le (by rw [abs_of_nonneg hv]; exact hext)
  rw [e1, e2, mul_finite]
  have e3 : ofRat (rne ((n : ℚ) / (w : ℚ)) * rne (b - a)) =
      finite (rne (rne ((n : ℚ) / (w : ℚ)) * rne (b - a))) := by
    unfold ofRat
    rw [if_pos]
    rw [abs_of_nonneg hP0]
    linarith
  rw [e3, add_finite]
  set P := rne (rne ((n : ℚ) / (w : ℚ)) * rne (b - a)) with hPdef
  have h1 : a ≤ a + P := by linarith
  have h2 : a + P ≤ b := by linarith
  have hr1 : a ≤ rne (a + P) := le_rne_of_le ha.1 h1
  have hr2 : rne (a + P) ≤ b := rne_le_of_le hb.1 h2
  refine ⟨rne (a + P), ?_, hr1, hr2⟩
  unfold ofRat
  rw [if_pos]
  rw [abs_le]
  have := abs_le.mp ha.2
  have := abs_le.mp hb.2
  constructor <;> linarith

/-! ### The rounded length of a vector -/

theorem sqrtRne_zero : sqrtRne 0 = 0 := by
  simp [sqrtRne]

theorem rep_eq_zero_of_lt {s : ℚ} (h : Rep s) (h0 : 0 ≤ s) (h1 : s < 2 ^ (-149 : ℤ)) : s = 0 := by
  obtain ⟨k, hk⟩ := rep_multiple_min h
  have hp := two_zpow_pos (-149)
  have hk0 : 0 ≤ k := by
    by_contra hc
    push_neg at hc
    have : (k : ℚ) < 0 := by exact_mod_cast hc
    have := mul_neg_of_neg_of_pos this hp
    linarith
  have hk1 : k < 1 := by
    have : (k : ℚ) * 2 ^ (-149 : ℤ) < 1 * 2 ^ (-149 : ℤ) := by rw [← hk, one_mul]; exact h1
    have := lt_of_mul_lt_mul_right this hp.le
    exact_mod_cast this
  have : k = 0 := by omega
  rw [hk, this]; simp

/-- The square of a rounded number against the square of the number. -/
theorem sq_rne_bounds {a u : ℚ} (hu1 : u ≤ 1) (ha : |rne a - a| ≤ u * |a|) :
    rne a * rne a ≤ a * a * (1 + u) ^ 2 ∧ a * a * (1 - u) ^ 2 ≤ rne a * rne a := by
  have h0 := abs_nonneg a
  have h1 : |rne a| ≤ |a| * (1 + u) := by
    have := abs_sub_abs_le_abs_sub (rne a) a
    linarith
  have h2 : |a| * (1 - u) ≤ |rne a| := by
    have := abs_sub_abs_le_abs_sub a (rne a)
    rw [abs_sub_comm] at this
    linarith
  have h3 : 0 ≤ |a| * (1 - u) := mul_nonneg h0 (by linarith)
  constructor
  · have := mul_self_le_mul_self (abs_nonneg (rne a)) h1
    rw [abs_mul_abs_self] at this
    calc rne a * rne a ≤ |a| * (1 + u) * (|a| * (1 + u)) := this
      _ = |a| * |a| * (1 + u) ^ 2 := by ring
      _ = a * a * (1 + u) ^ 2 := by rw [abs_mul_abs_self]
  · have := mul_self_le_mul_self h3 h2
    rw [abs_mul_abs_self] at this
    calc a * a * (1 - u) ^ 2 = |a| * |a| * (1 - u) ^ 2 := by rw [abs_mul_abs_self]
      _ = |a| * (1 - u) * (|a| * (1 - u)) := by ring
      _ ≤ rne a * rne a := this

theorem sumSq_nonneg (a b : ℚ) : 0 ≤ sumSq a b :=
  rne_nonneg (add_nonneg (rne_nonneg (mul_self_nonneg _)) (rne_nonneg (mul_self_nonneg _)))

theorem sumSq_rep (a b : ℚ) : Rep (sumSq a b) := rne_rep _

/-- The rounded sum of squares against the exact sum of squares. -/
theorem sumSq_bounds {a b : ℚ} (ha : |rne a - a| ≤ 2 ^ (-24 : ℤ) * |a|)
    (hb : |rne b - b| ≤ 2 ^ (-24 : ℤ) * |b|) :
    sumSq a b ≤ (a * a + b * b) * (1 + 2 ^ (-24 : ℤ)) ^ 4 + 2 * 2 ^ (-150 : ℤ) * (1 + 2 ^ (-24 : ℤ)) ∧
    (a * a + b * b) * (1 - 2 ^ (-24 : ℤ)) ^ 4 - 2 * 2 ^ (-150 : ℤ) * (1 - 2 ^ (-24 : ℤ)) ≤
      sumSq a b := by
  have hu0 : (0 : ℚ) ≤ 2 ^ (-24 : ℤ) := (two_zpow_pos _).le
  have hu1 : (2 : ℚ) ^ (-24 : ℤ) ≤ 1 := by norm_num
  have hη : (0 : ℚ) ≤ 2 ^ (-150 : ℤ) := (two_zpow_pos _).le
  obtain ⟨a1, a2⟩ := sq_rne_bounds hu1 ha
  obtain ⟨b1, b2⟩ := sq_rne_bounds hu1 hb
  have eX := rne_err (rne a * rne a)
  have eY := rne_err (rne b * rne b)
  rw [abs_of_nonneg (mul_self_nonneg (rne a))] at eX
  rw [abs_of_nonneg (mul_self_nonneg (rne b))] at eY
  have eS := rne_add_rel (rne_rep (rne a * rne a)) (rne_rep (rne b * rne b))
  have hS0 : 0 ≤ rne (rne a * rne a) + rne (rne b * rne b) :=
    add_nonneg (rne_nonneg (mul_self_nonneg _)) (rne_nonneg (mul_self_nonneg _))
  rw [abs_of_nonneg hS0] at eS
  unfold sumSq
  generalize (2 : ℚ) ^ (-24 : ℤ) = u at *
  generalize (2 : ℚ) ^ (-150 : ℤ) = η at *
  generalize rne (rne (rne a * rne a) + rne (rne b * rne b)) = s at *
  generalize rne (rne a * rne a) = rX at *
  generalize rne (rne b * rne b) = rY at *
  generalize rne a * rne a = X at *
  generalize rne b * rne b = Y at *
  have eX' := abs_le.mp eX
  have eY' := abs_le.mp eY
  have eS' := abs_le.mp eS
  have hp1 : 0 ≤ 1 + u := by linarith
  have hm1 : 0 ≤ 1 - u := by linarith
  constructor
  · have hX : rX ≤ a * a * (1 + u) ^ 3 + η := by
      have := mul_le_mul_of_nonneg_right a1 hp1
      linarith [eX'.2]
    have hY : rY ≤ b * b * (1 + u) ^ 3 + η := by
      have := mul_le_mul_of_nonneg_right b1 hp1
      linarith [eY'.2]
    have hS : rX + rY ≤ (a * a + b * b) * (1 + u) ^ 3 + 2 * η := by linarith
    have := mul_le_mul_of_nonneg_right hS hp1
    linarith [eS'.2]
  · have hX : a * a * (1 - u) ^ 3 - η ≤ rX := by
      have := mul_le_mul_of_nonneg_right a2 hm1
      linarith [eX'.1]
    have hY : b * b * (1 - u) ^ 3 - η ≤ rY := by
      have := mul_le_mul_of_nonneg_right b2 hm1
      linarith [eY'.1]
    have hS : (a * a + b * b) * (1 - u) ^ 3 - 2 * η ≤ rX + rY := by linarith
    have := mul_le_mul_of_nonneg_right hS hm1
    linarith [eS'.1]

theorem lengthRne_nonneg (a b : ℚ) : 0 ≤ lengthRne a b := sqrtRne_nonneg _

/-- A vector well inside the radius has a rounded length of at most the radius. -/
theorem lengthRne_le {a b r : ℚ} (ha : |rne a - a| ≤ 2 ^ (-24 : ℤ) * |a|)
    (hb : |rne b - b| ≤ 2 ^ (-24 : ℤ) * |b|) (hr : (2 : ℚ) ^ (-60 : ℤ) ≤ r)
    (h : a * a + b * b ≤ (r * (1 - 2 ^ (-22 : ℤ))) ^ 2) : lengthRne a b ≤ r := by
  have hr0 : 0 < r := lt_of_lt_of_le (two_zpow_pos _) hr
  obtain ⟨hs, _⟩ := sumSq_bounds ha hb
  have hs0 := sumSq_nonneg a b
  unfold lengthRne
  rcases lt_or_le (sumSq a b) (2 ^ (-149 : ℤ)) with hsmall | hbig
  · rw [rep_eq_zero_of_lt (sumSq_rep a b) hs0 hsmall, sqrtRne_zero]
    exact hr0.le
  · obtain ⟨_, hup⟩ := sqrtRne_bounds _ hbig
    -- the rounded sum of squares, enlarged by the error of the root, is below `r ^ 2`
    have hr2 : (2 : ℚ) ^ (-120 : ℤ) ≤ r * r := by
      have := mul_self_le_mul_self (two_zpow_pos (-60)).le hr
      calc (2 : ℚ) ^ (-120 : ℤ) = 2 ^ (-60 : ℤ) * 2 ^ (-60 : ℤ) := by norm_num
        _ ≤ r * r := this
    have key : sumSq a b * (1 + 2 ^ (-24 : ℤ)) ^ 2 ≤ r * r := by
      have c1 : ((1 : ℚ) - 2 ^ (-22 : ℤ)) ^ 2 * (1 + 2 ^ (-24 : ℤ)) ^ 6 ≤ 1 - 2 ^ (-24 : ℤ) := by
        norm_num
      have c2 : (2 : ℚ) * 2 ^ (-150 : ℤ) * (1 + 2 ^ (-24 : ℤ)) ^ 3 ≤ 2 ^ (-148 : ℤ) := by
        norm_num
      have c3 : (2 : ℚ) ^ (-148 : ℤ) ≤ 2 ^ (-24 : ℤ) * 2 ^ (-120 : ℤ) := by norm_num
      have hq : (0 : ℚ) ≤ (1 + 2 ^ (-24 : ℤ)) ^ 2 := by positivity
      have h1 := mul_le_mul_of_nonneg_right hs hq
      have hq6 : (0 : ℚ) ≤ (1 + 2 ^ (-24 : ℤ)) ^ 6 := by positivity
      have h2 := mul_le_mul_of_nonneg_right h hq6
      have h3 := mul_le_mul_of_nonneg_left c1 (mul_self_nonneg r)
      have h4 := mul_le_mul_of_nonneg_left hr2 (two_zpow_pos (-24)).le
      generalize (2 : ℚ) ^ (-24 : ℤ) = u at *
      generalize (2 : ℚ) ^ (-22 : ℤ) = ε at *
      generalize (2 : ℚ) ^ (-150 : ℤ) = η at *
      generalize (2 : ℚ) ^ (-148 : ℤ) = η2 at *
      generalize (2 : ℚ) ^ (-120 : ℤ) = ρ at *
      linarith
    have keyR : ((sumSq a b : ℚ) : ℝ) * (1 + 2 ^ (-24 : ℤ)) ^ 2 ≤ (r : ℝ) * (r : ℝ) := by
      have h := (Rat.cast_le (K := ℝ)).mpr key
      push_cast at h
      exact h
    have hu : (0 : ℝ) < 1 + 2 ^ (-24 : ℤ) := by positivity
    have hrR : (0 : ℝ) ≤ (r : ℝ) := by exact_mod_cast hr0.le
    have hsqrt : Real.sqrt ((sumSq a b : ℚ) : ℝ) ≤ (r : ℝ) / (1 + 2 ^ (-24 : ℤ)) := by
      rw [Real.sqrt_le_left (div_nonneg hrR hu.le), div_pow, le_div_iff₀ (by positivity)]
      calc ((sumSq a b : ℚ) : ℝ) * (1 + 2 ^ (-24 : ℤ)) ^ 2 ≤ (r : ℝ) * r := keyR
        _ = (r : ℝ) ^ 2 := by ring
    have : ((sqrtRne (sumSq a b) : ℚ) : ℝ) ≤ (r : ℝ) := by
      calc ((sqrtRne (sumSq a b) : ℚ) : ℝ)
          ≤ Real.sqrt ((sumSq a b : ℚ) : ℝ) * (1 + 2 ^ (-24 : ℤ)) := hup
        _ ≤ (r : ℝ) / (1 + 2 ^ (-24 : ℤ)) * (1 + 2 ^ (-24 : ℤ)) :=
          mul_le_mul_of_nonneg_right hsqrt hu.le
        _ = r := by field_simp
    exact_mod_cast this

/-- A vector well outside the radius has a rounded length above the radius. -/
theorem lt_lengthRne {a b r : ℚ} (ha : |rne a - a| ≤ 2 ^ (-24 : ℤ) * |a|)
    (hb : |rne b - b| ≤ 2 ^ (-24 : ℤ) * |b|) (hr : (2 : ℚ) ^ (-60 : ℤ) ≤ r)
    (h : (r * (1 + 2 ^ (-22 : ℤ))) ^ 2 ≤ a * a + b * b) : r < lengthRne a b := by
  have hr0 : 0 < r := lt_of_lt_of_le (two_zpow_pos _) hr
  obtain ⟨_, hs⟩ := sumSq_bounds ha hb
  unfold lengthRne
  have hr2 : (2 : ℚ) ^ (-120 : ℤ) ≤ r * r := by
    have := mul_self_le_mul_self (two_zpow_pos (-60)).le hr
    calc (2 : ℚ) ^ (-120 : ℤ) = 2 ^ (-60 : ℤ) * 2 ^ (-60 : ℤ) := by norm_num
      _ ≤ r * r := this
  have key : r * r < sumSq a b * (1 - 2 ^ (-24 : ℤ)) ^ 2 := by
    have c1 : (1 : ℚ) + 2 ^ (-24 : ℤ) ≤ (1 + 2 ^ (-22 : ℤ)) ^ 2 * (1 - 2 ^ (-24 : ℤ)) ^ 6 := by
      norm_num
    have c2 : (2 : ℚ) * 2 ^ (-150 : ℤ) * (1 - 2 ^ (-24 : ℤ)) ^ 3 ≤ 2 ^ (-149 : ℤ) := by
      norm_num
    have c3 : (2 : ℚ) ^ (-149 : ℤ) < 2 ^ (-24 : ℤ) * 2 ^ (-120 : ℤ) := by norm_num
    have hq : (0 : ℚ) ≤ (1 - 2 ^ (-24 : ℤ)) ^ 2 := by positivity
    have h1 := mul_le_mul_of_nonneg_right hs hq
    have hq6 : (0 : ℚ) ≤ (1 - 2 ^ (-24 : ℤ)) ^ 6 := by positivity
    have h2 := mul_le_mul_of_nonneg_right h hq6
    have h3 := mul_le_mul_of_nonneg_left c1 (mul_self_nonneg r)
    have h4 := mul_le_mul_of_nonneg_left hr2 (two_zpow_pos (-24)).le
    generalize (2 : ℚ) ^ (-24 : ℤ) = u at *
    generalize (2 : ℚ) ^ (-22 : ℤ) = ε at *
    generalize (2 : ℚ) ^ (-150 : ℤ) = η at *
    generalize (2 : ℚ) ^ (-149 : ℤ) = η2 at *
    generalize (2 : ℚ) ^ (-120 : ℤ) = ρ at *
    linarith
  have hq : (0 : ℚ) < (1 - 2 ^ (-24 : ℤ)) ^ 2 := by norm_num
  have hpos : 0 < sumSq a b := by
    by_contra hc
    push_neg at hc
    have := mul_nonpos_iff.mpr (Or.inr ⟨hc, hq.le⟩)
    linarith [mul_pos hr0 hr0]
  have hbig : (2 : ℚ) ^ (-149 : ℤ) ≤ sumSq a b := by
    by_contra hc
    push_neg at hc
    have := rep_eq_zero_of_lt (sumSq_rep a b) hpos.le hc
    linarith
  obtain ⟨hlow, _⟩ := sqrtRne_bounds _ hbig
  have keyR : (r : ℝ) * (r : ℝ) < ((sumSq a b : ℚ) : ℝ) * (1 - 2 ^ (-24 : ℤ)) ^ 2 := by
    have h := (Rat.cast_lt (K := ℝ)).mpr key
    push_cast at h
    exact h
  have hu : (0 : ℝ) < 1 - 2 ^ (-24 : ℤ) := by norm_num
  have hrR : (0 : ℝ) ≤ (r : ℝ) := by exact_mod_cast hr0.le
  have hsqrt : (r : ℝ) / (1 - 2 ^ (-24 : ℤ)) < Real.sqrt ((sumSq a b : ℚ) : ℝ) := by
    apply Real.lt_sqrt_of_sq_lt
    rw [div_pow, div_lt_iff₀ (by positivity)]
    calc (r : ℝ) ^ 2 = (r : ℝ) * r := by ring
      _ < ((sumSq a b : ℚ) : ℝ) * (1 - 2 ^ (-24 : ℤ)) ^ 2 := keyR
  have : (r : ℝ) < ((sqrtRne (sumSq a b) : ℚ) : ℝ) := by
    calc (r : ℝ) = (r : ℝ) / (1 - 2 ^ (-24 : ℤ)) * (1 - 2 ^ (-24 : ℤ)) := by field_simp
      _ < Real.sqrt ((sumSq a b : ℚ) : ℝ) * (1 - 2 ^ (-24 : ℤ)) :=
        mul_lt_mul_of_pos_right hsqrt hu
      _ ≤ ((sqrtRne (sumSq a b) : ℚ) : ℝ) := hlow
  exact_mod_cast this

/-! ### `glm::length` on binary32 vectors -/

theorem mul_self_ofRat_cases (a : ℚ) :
    F32.mul (ofRat a) (ofRat a) = inf false ∨
      (F32.mul (ofRat a) (ofRat a) = finite (rne (rne a * rne a)) ∧
        |rne a| ≤ maxFinite ∧ rne (rne a * rne a) ≤ maxFinite) := by
  rcases ofRat_cases a with ⟨h1, h2⟩ | ⟨h1, _⟩
  · rw [h1, mul_finite]
    rcases ofRat_cases (rne a * rne a) with ⟨h3, h4⟩ | ⟨h3, _⟩
    · right
      exact ⟨h3, h2, le_trans (le_abs_self _) h4⟩
    · left
      rw [h3]
      have : ¬ (rne a * rne a < 0) := not_lt.mpr (mul_self_nonneg _)
      simp [this]
  · left
    rw [h1]
    simp [F32.mul]

/-- The value of `glm::length` on a vector of rounded numbers: an infinity where a square
or their sum overflows, and otherwise the rounded root of the rounded sum of squares. -/
theorem glmLength_ofRat_cases (a b : ℚ) :
    Rounded.glmLength ⟨ofRat a, ofRat b⟩ = inf false ∨
      Rounded.glmLength ⟨ofRat a, ofRat b⟩ = finite (lengthRne a b) := by
  unfold Rounded.glmLength
  simp only
  rcases mul_self_ofRat_cases a with ha | ⟨ha, _, _⟩
  · left
    rw [ha]
    rcases mul_self_ofRat_cases b with hb | ⟨hb, _, _⟩
    · rw [hb]; rfl
    · rw [hb]; rfl
  · rcases mul_self_ofRat_cases b with hb | ⟨hb, _, _⟩
    · left
      rw [ha, hb]; rfl
    · rw [ha, hb, add_finite]
      have h0 : 0 ≤ rne (rne a * rne a) + rne (rne b * rne b) :=
        add_nonneg (rne_nonneg (mul_self_nonneg _)) (rne_nonneg (mul_self_nonneg _))
      rcases ofRat_cases (rne (rne a * rne a) + rne (rne b * rne b)) with ⟨h3, _⟩ | ⟨h3, _⟩
      · right
        rw [h3]
        have : ¬ (rne (rne (rne a * rne a) + rne (rne b * rne b)) < 0) :=
          not_lt.mpr (rne_nonneg h0)
        simp [F32.sqrt, this, lengthRne, sumSq]
      · left
        rw [h3]
        have : ¬ (rne (rne a * rne a) + rne (rne b * rne b) < 0) := not_lt.mpr h0
        simp [this, F32.sqrt]

theorem two_pow_rep (e : ℤ) (he : -149 ≤ e) : Rep ((2 : ℚ) ^ e) :=
  ⟨1, e, by norm_num, he, by simp⟩

/-- Nothing overflows in `glm::length` for components of magnitude at most `2 ^ 61`. -/
theorem glmLength_ofRat_finite {a b : ℚ} (ha : |a| ≤ 2 ^ (61 : ℤ)) (hb : |b| ≤ 2 ^ (61 : ℤ)) :
    Rounded.glmLength ⟨ofRat a, ofRat b⟩ = finite (lengthRne a b) := by
  have hmax : (2 : ℚ) ^ (123 : ℤ) ≤ maxFinite := by unfold maxFinite; norm_num
  have h61 : (2 : ℚ) ^ (61 : ℤ) ≤ maxFinite := by unfold maxFinite; norm_num
  have h122 : (2 : ℚ) ^ (122 : ℤ) ≤ maxFinite := by unfold maxFinite; norm_num
  have ra : |rne a| ≤ 2 ^ (61 : ℤ) := abs_rne_le_of_abs_le (two_pow_rep 61 (by norm_num)) ha
  have rb : |rne b| ≤ 2 ^ (61 : ℤ) := abs_rne_le_of_abs_le (two_pow_rep 61 (by norm_num)) hb
  have sq : ∀ x : ℚ, |x| ≤ 2 ^ (61 : ℤ) → x * x ≤ 2 ^ (122 : ℤ) := by
    intro x hx
    have := mul_self_le_mul_self (abs_nonneg x) hx
    rw [abs_mul_abs_self] at this
    calc x * x ≤ 2 ^ (61 : ℤ) * 2 ^ (61 : ℤ) := this
      _ = 2 ^ (122 : ℤ) := by norm_num
  have xa : rne (rne a * rne a) ≤ 2 ^ (122 : ℤ) :=
    rne_le_of_le (two_pow_rep 122 (by norm_num)) (sq _ ra)
  have xb : rne (rne b * rne b) ≤ 2 ^ (122 : ℤ) :=
    rne_le_of_le (two_pow_rep 122 (by norm_num)) (sq _ rb)
  have xa0 : 0 ≤ rne (rne a * rne a) := rne_nonneg (mul_self_nonneg _)
  have xb0 : 0 ≤ rne (rne b * rne b) := rne_nonneg (mul_self_nonneg _)
  have hs : rne (rne a * rne a) + rne (rne b * rne b) ≤ 2 ^ (123 : ℤ) := by
    calc rne (rne a * rne a) + rne (rne b * rne b) ≤ 2 ^ (122 : ℤ) + 2 ^ (122 : ℤ) :=
          add_le_add xa xb
      _ = 2 ^ (123 : ℤ) := by norm_num
  unfold Rounded.glmLength
  simp only
  rw [ofRat_of_abs_le (le_trans ha h61), ofRat_of_abs_le (le_trans hb h61), mul_finite,
    mul_finite,
    ofRat_of_abs_le (by rw [abs_of_nonneg (mul_self_nonneg _)]; exact le_trans (sq _ ra) h122),
    ofRat_of_abs_le (by rw [abs_of_nonneg (mul_self_nonneg _)]; exact le_trans (sq _ rb) h122),
    add_finite,
    ofRat_of_abs_le (by rw [abs_of_nonneg (add_nonneg xa0 xb0)]; exact le_trans hs hmax)]
  have : ¬ (rne (rne (rne a * rne a) + rne (rne b * rne b)) < 0) :=
    not_lt.mpr (rne_nonneg (add_nonneg xa0 xb0))
  simp [F32.sqrt, this, lengthRne, sumSq]

/-- The components of a vector are bounded by its length. -/
theorem abs_le_of_sq_add_sq_le {a b r : ℚ} (hr : 0 ≤ r) (h : a * a + b * b ≤ r ^ 2) :
    |a| ≤ r ∧ |b| ≤ r := by
  constructor
  · apply abs_le_of_sq_le_sq' _ hr |> fun h => abs_le.mpr h
    nlinarith [mul_self_nonneg b]
  · apply abs_le_of_sq_le_sq' _ hr |> fun h => abs_le.mpr h
    nlinarith [mul_self_nonneg a]

/-- Comparison of the Euclidean norm with a bound, through squares. -/
theorem sqrt_le_iff_sq (a b r : ℚ) (hr : 0 ≤ r) :
    Real.sqrt (((a : ℚ) : ℝ) ^ 2 + ((b : ℚ) : ℝ) ^ 2) ≤ (r : ℝ) ↔ a * a + b * b ≤ r ^ 2 := by
  have hrR : (0 : ℝ) ≤ (r : ℝ) := by exact_mod_cast hr
  rw [Real.sqrt_le_left hrR]
  constructor
  · intro h
    have : (((a * a + b * b : ℚ)) : ℝ) ≤ ((r ^ 2 : ℚ) : ℝ) := by
      push_cast; nlinarith
    exact_mod_cast this
  · intro h
    have : (((a * a + b * b : ℚ)) : ℝ) ≤ ((r ^ 2 : ℚ) : ℝ) := by exact_mod_cast h
    push_cast at this
    nlinarith

theorem le_sqrt_iff_sq (a b r : ℚ) (hr : 0 ≤ r) :
    (r : ℝ) ≤ Real.sqrt (((a : ℚ) : ℝ) ^ 2 + ((b : ℚ) : ℝ) ^ 2) ↔ r ^ 2 ≤ a * a + b * b := by
  have hrR : (0 : ℝ) ≤ (r : ℝ) := by exact_mod_cast hr
  rw [Real.le_sqrt hrR (by positivity)]
  constructor
  · intro h
    have : ((r ^ 2 : ℚ) : ℝ) ≤ (((a * a + b * b : ℚ)) : ℝ) := by
      push_cast; nlinarith
    exact_mod_cast this
  · intro h
    have : ((r ^ 2 : ℚ) : ℝ) ≤ (((a * a + b * b : ℚ)) : ℝ) := by exact_mod_cast h
    push_cast at this
    nlinarith

/-! ### Evaluating roundings -/

/-- The rounding of a positive number, from the binade it lies in and the nearest
multiple of the unit in the last place. -/
theorem rne_eq_of_pos (q : ℚ) (m e : ℤ) (he : -149 ≤ e)
    (h1 : (2 : ℚ) ^ (e + 23) ≤ q ∨ (e = -149 ∧ 0 < q)) (h2 : q < 2 ^ (e + 24))
    (hm1 : (m : ℚ) * 2 ^ e - 2 ^ e / 2 < q) (hm2 : q < (m : ℚ) * 2 ^ e + 2 ^ e / 2) :
    rne q = m * 2 ^ e := by
  have hp := two_zpow_pos e
  have hq : 0 < q := by
    rcases h1 with h | ⟨_, h⟩
    · exact lt_of_lt_of_le (two_zpow_pos _) h
    · exact h
  have hE : ulpExp q = e := by
    rcases h1 with h | ⟨h, _⟩
    · exact ulpExp_eq q e he (by rwa [abs_of_pos hq]) (by rwa [abs_of_pos hq])
    · rw [h]
      apply ulpExp_eq_min q hq.ne'
      rw [abs_of_pos hq]
      rw [h] at h2
      exact lt_of_lt_of_le h2 (by norm_num)
  unfold rne roundAt
  rw [hE]
  congr 1
  have : roundHalfEven (q / 2 ^ e) = m := by
    apply roundHalfEven_eq_of
    left
    have b1 : (m : ℚ) - 1 / 2 < q / 2 ^ e := by
      rw [lt_div_iff₀ hp]; linarith
    have b2 : q / 2 ^ e < (m : ℚ) + 1 / 2 := by
      rw [div_lt_iff₀ hp]; linarith
    rw [abs_lt]
    constructor <;> linarith
  rw [this]

/-- A number written with a significand below `2 ^ 24` and an exponent in range is a
finite binary32 value. -/
theorem isFinite_of_int_pow {q : ℚ} (m e : ℤ) (hm : |m| < 2 ^ 24) (he : -149 ≤ e)
    (he2 : e ≤ 104) (hq : q = m * 2 ^ e) : IsFinite q := by
  refine ⟨⟨m, e, hm, he, hq⟩, ?_⟩
  rw [hq, abs_mul, abs_of_pos (two_zpow_pos e)]
  have h1 : |(m : ℚ)| ≤ 2 ^ 24 - 1 := by
    have : |m| ≤ 2 ^ 24 - 1 := by omega
    exact_mod_cast this
  have h2 : (2 : ℚ) ^ e ≤ 2 ^ (104 : ℤ) := two_zpow_le he2
  unfold maxFinite
  calc |(m : ℚ)| * 2 ^ e ≤ (2 ^ 24 - 1) * 2 ^ e :=
        mul_le_mul_of_nonneg_right h1 (two_zpow_pos e).le
    _ ≤ (2 ^ 24 - 1) * 2 ^ (104 : ℤ) := mul_le_mul_of_nonneg_left h2 (by norm_num)
    _ = (2 ^ 24 - 1) * 2 ^ 104 := by norm_num

theorem ofRat_zero : ofRat 0 = finite 0 := by
  have : IsFinite (0 : ℚ) := ⟨rep_zero, by rw [abs_zero]; exact maxFinite_pos.le⟩
  exact ofRat_of_isFinite this

/-- The rounding of a number whose nearest binary32 value is known. -/
theorem ofRat_of_rne {q v : ℚ} (h : rne q = v) (hv : |v| ≤ maxFinite) : ofRat q = finite v := by
  unfold ofRat
  rw [h, if_pos hv]

theorem ofRat_neg_of {q v : ℚ} (h : ofRat q = finite v) : ofRat (-q) = finite (-v) := by
  unfold ofRat at h ⊢
  rw [rne_neg, abs_neg]
  by_cases hc : |rne q| ≤ maxFinite
  · rw [if_pos hc] at h ⊢
    injection h with h
    rw [h]
  · rw [if_neg hc] at h
    exact absurd h (by simp)

/-- The rounded square root, from the binade of the argument and the nearest multiple
of the unit in the last place of the root. -/
theorem sqrtRne_eq_of (s : ℚ) (m : ℕ) (e L : ℤ) (hL1 : (2 : ℚ) ^ L ≤ s)
    (hL2 : s < 2 ^ (L + 1)) (he : max (-149) (L / 2 - 23) = e)
    (h1 : (2 * (m : ℚ) - 1) ^ 2 * 4 ^ e < 4 * s) (h2 : 4 * s < (2 * (m : ℚ) + 1) ^ 2 * 4 ^ e)
    (hm : 1 ≤ m) : sqrtRne s = m * 2 ^ e := by
  have hlog := log2_eq s L hL1 hL2
  have h4 : (0 : ℚ) < 4 ^ e := zpow_pos (by norm_num) e
  have hs0 : 0 < s := lt_of_lt_of_le (two_zpow_pos _) hL1
  obtain ⟨n, hn⟩ : ∃ n : ℚ, n = s / 4 ^ e := ⟨_, rfl⟩
  have hn0 : 0 ≤ n := by rw [hn]; positivity
  have g1 : (2 * (m : ℚ) - 1) ^ 2 < 4 * n := by
    rw [hn, mul_div_assoc', lt_div_iff₀ h4]; exact h1
  have g2 : 4 * n < (2 * (m : ℚ) + 1) ^ 2 := by
    rw [hn, mul_div_assoc', div_lt_iff₀ h4]; exact h2
  obtain ⟨k, hk⟩ : ∃ k : ℕ, k = Nat.sqrt ⌊n⌋₊ := ⟨_, rfl⟩
  have k1 : ((k : ℚ)) ^ 2 ≤ n := by
    have : k ^ 2 ≤ ⌊n⌋₊ := by rw [hk]; exact Nat.sqrt_le' _
    have h2 : ((k ^ 2 : ℕ) : ℚ) ≤ (⌊n⌋₊ : ℚ) := by exact_mod_cast this
    have h3 : ((⌊n⌋₊ : ℕ) : ℚ) ≤ n := Nat.floor_le hn0
    push_cast at h2
    linarith
  have k2 : n < ((k : ℚ) + 1) ^ 2 := by
    have : ⌊n⌋₊ < (k + 1) ^ 2 := by rw [hk]; exact Nat.lt_succ_sqrt' _
    have h2 : ((⌊n⌋₊ + 1 : ℕ) : ℚ) ≤ (((k + 1) ^ 2 : ℕ) : ℚ) := by exact_mod_cast this
    have h3 : n < (⌊n⌋₊ : ℚ) + 1 := Nat.lt_floor_add_one n
    push_cast at h2
    linarith
  have hm1 : (1 : ℚ) ≤ (m : ℚ) := by exact_mod_cast hm
  have hk0 : (0 : ℚ) ≤ (k : ℚ) := Nat.cast_nonneg k
  -- `k ≤ m ≤ k + 1`
  have km : k ≤ m := by
    by_contra hc
    push_neg at hc
    have : (m : ℚ) + 1 ≤ (k : ℚ) := by exact_mod_cast hc
    nlinarith
  have mk : m ≤ k + 1 := by
    by_contra hc
    push_neg at hc
    have : (k : ℚ) + 2 ≤ (m : ℚ) := by exact_mod_cast hc
    nlinarith
  unfold sqrtRne
  simp only [hlog, he, ← hn, ← hk]
  congr 1
  split_ifs with c1 c2 c3
  · -- below the midpoint: the root is `k`
    have : m = k := by
      by_contra hc
      have hmk : m = k + 1 := by omega
      rw [hmk] at g1
      push_cast at g1
      nlinarith
    rw [this]
  · have : m = k + 1 := by
      by_contra hc
      have hmk : m = k := by omega
      rw [hmk] at g2
      linarith
    rw [this]
  · exfalso
    have e1 : 4 * n = (2 * (k : ℚ) + 1) ^ 2 := le_antisymm (not_lt.mp c2) (not_lt.mp c1)
    rcases Nat.eq_or_lt_of_le km with h | h
    · rw [← h] at g2; linarith
    · have hmk : m = k + 1 := by omega
      rw [hmk] at g1
      push_cast at g1
      nlinarith
  · exfalso
    have e1 : 4 * n = (2 * (k : ℚ) + 1) ^ 2 := le_antisymm (not_lt.mp c2) (not_lt.mp c1)
    rcases Nat.eq_or_lt_of_le km with h | h
    · rw [← h] at g2; linarith
    · have hmk : m = k + 1 := by omega
      rw [hmk] at g1
      push_cast at g1
      nlinarith

/-- A finite result of an addition is a finite binary32 value. -/
theorem isFinite_of_add_eq {a b : F32} {q : ℚ} (h : F32.add a b = finite q) : IsFinite q := by
  cases a with
  | finite x =>
    cases b with
    | finite y =>
      rw [add_finite] at h
      rcases ofRat_cases (x + y) with ⟨h1, h2⟩ | ⟨h1, _⟩
      · rw [h1] at h
        injection h with h
        rw [← h]
        exact ⟨rne_rep _, h2⟩
      · rw [h1] at h
        exact absurd h (by simp)
    | inf s => exact absurd h (by simp [F32.add])
    | nan => exact absurd h (by simp [F32.add])
  | inf s =>
    cases b with
    | finite y => exact absurd h (by simp [F32.add])
    | inf t =>
      simp only [F32.add] at h
      split_ifs at h
    | nan => exact absurd h (by simp [F32.add])
  | nan => exact absurd h (by simp [F32.add])

/-- Evaluation of the rounding of a positive number. -/
theorem ofRat_eval (q v : ℚ) (m e : ℤ) (he : -149 ≤ e)
    (h1 : (2 : ℚ) ^ (e + 23) ≤ q ∨ (e = -149 ∧ 0 < q)) (h2 : q < 2 ^ (e + 24))
    (hm1 : (m : ℚ) * 2 ^ e - 2 ^ e / 2 < q) (hm2 : q < (m : ℚ) * 2 ^ e + 2 ^ e / 2)
    (hv : v = m * 2 ^ e) (hmax : v ≤ maxFinite) : ofRat q = finite v := by
  have hr := rne_eq_of_pos q m e he h1 h2 hm1 hm2
  have hq : 0 < q := by
    rcases h1 with h | ⟨_, h⟩
    · exact lt_of_lt_of_le (two_zpow_pos _) h
    · exact h
  rw [← hv] at hr
  apply ofRat_of_rne hr
  have : 0 ≤ v := by rw [← hr]; exact rne_nonneg hq.le
  rwa [abs_of_nonneg this]

/-- Evaluation of the rounding of a negative number. -/
theorem ofRat_eval_neg (q v : ℚ) (m e : ℤ) (he : -149 ≤ e)
    (h1 : (2 : ℚ) ^ (e + 23) ≤ -q ∨ (e = -149 ∧ 0 < -q)) (h2 : -q < 2 ^ (e + 24))
    (hm1 : (m : ℚ) * 2 ^ e - 2 ^ e / 2 < -q) (hm2 : -q < (m : ℚ) * 2 ^ e + 2 ^ e / 2)
    (hv : v = -(m * 2 ^ e)) (hmax : -v ≤ maxFinite) : ofRat q = finite v := by
  have h := ofRat_neg_of (ofRat_eval (-q) (-v) m e he h1 h2 hm1 hm2 (by rw [hv, neg_neg]) hmax)
  rwa [neg_neg, neg_neg] at h

/-- Evaluation of the square root of a positive finite value. -/
theorem sqrt_eval (s v : ℚ) (m : ℕ) (e L : ℤ) (hL1 : (2 : ℚ) ^ L ≤ s)
    (hL2 : s < 2 ^ (L + 1)) (he : max (-149) (L / 2 - 23) = e)
    (h1 : (2 * (m : ℚ) - 1) ^ 2 * 4 ^ e < 4 * s) (h2 : 4 * s < (2 * (m : ℚ) + 1) ^ 2 * 4 ^ e)
    (hm : 1 ≤ m) (hv : v = m * 2 ^ e) : F32.sqrt (finite s) = finite v := by
  have hs0 : 0 < s := lt_of_lt_of_le (two_zpow_pos _) hL1
  have := sqrtRne_eq_of s m e L hL1 hL2 he h1 h2 hm
  simp [F32.sqrt, not_lt.mpr hs0.le, this, hv]

/-- Evaluation of the rounding of a positive number half way between two neighbours: the
one with the even significand is taken. -/
theorem ofRat_eval_tie (q v : ℚ) (m e : ℤ) (he : -149 ≤ e)
    (h1 : (2 : ℚ) ^ (e + 23) ≤ q ∨ (e = -149 ∧ 0 < q)) (h2 : q < 2 ^ (e + 24))
    (hm : q - (m : ℚ) * 2 ^ e = 2 ^ e / 2 ∨ (m : ℚ) * 2 ^ e - q = 2 ^ e / 2) (heven : m % 2 = 0)
    (hv : v = m * 2 ^ e) (hmax : v ≤ maxFinite) : ofRat q = finite v := by
  have hp := two_zpow_pos e
  have hq : 0 < q := by
    rcases h1 with h | ⟨_, h⟩
    · exact lt_of_lt_of_le (two_zpow_pos _) h
    · exact h
  have hE : ulpExp q = e := by
    rcases h1 with h | ⟨h, _⟩
    · exact ulpExp_eq q e he (by rwa [abs_of_pos hq]) (by rwa [abs_of_pos hq])
    · rw [h]
      apply ulpExp_eq_min q hq.ne'
      rw [abs_of_pos hq]
      rw [h] at h2
      exact lt_of_lt_of_le h2 (by norm_num)
  have hr : rne q = v := by
    unfold rne roundAt
    rw [hE, hv]
    congr 1
    have : roundHalfEven (q / 2 ^ e) = m := by
      apply roundHalfEven_eq_of
      right
      refine ⟨?_, heven⟩
      rcases hm with h | h
      · have hx : q / 2 ^ e = (m : ℚ) + 1 / 2 := by
          rw [div_eq_iff hp.ne']; linarith
        rw [hx, show (m : ℚ) - ((m : ℚ) + 1 / 2) = -(1 / 2) by ring, abs_neg,
          abs_of_pos (by norm_num)]
      · have hx : q / 2 ^ e = (m : ℚ) - 1 / 2 := by
          rw [div_eq_iff hp.ne']; linarith
        rw [hx, show (m : ℚ) - ((m : ℚ) - 1 / 2) = 1 / 2 by ring, abs_of_pos (by norm_num)]
    rw [this]
  apply ofRat_of_rne hr
  have : 0 ≤ v := by rw [← hr]; exact rne_nonneg hq.le
  rwa [abs_of_nonneg this]

end F32

end Pencil

/-! ## The numerical claims in binary32 -/

namespace Pencil

/-! ### Vectors of binary32 values -/

theorem Rounded.Vec2.x_sub (a b : Rounded.Vec2) : (a - b).x = F32.sub a.x b.x := rfl
theorem Rounded.Vec2.y_sub (a b : Rounded.Vec2) : (a - b).y = F32.sub a.y b.y := rfl
theorem Rounded.Vec2.x_add (a b : Rounded.Vec2) : (a + b).x = F32.add a.x b.x := rfl
theorem Rounded.Vec2.y_add (a b : Rounded.Vec2) : (a + b).y = F32.add a.y b.y := rfl
theorem Rounded.Vec2.x_mul (a b : Rounded.Vec2) : (a * b).x = F32.mul a.x b.x := rfl
theorem Rounded.Vec2.y_mul (a b : Rounded.Vec2) : (a * b).y = F32.mul a.y b.y := rfl

theorem Rounded.Vec2.eq_of_components {a b : Rounded.Vec2} (hx : a.x = b.x) (hy : a.y = b.y) :
    a = b := by
  cases a; cases b
  simp only at hx hy
  rw [hx, hy]

/-! ### `Box::contains` in binary32 -/

theorem box_contains_rounded_aux (c s p : Pencil.Vec2) (body : BodyPtr)
    (hs : F32.IsFinite s.x ∧ F32.IsFinite s.y) :
    ((⟨.ofExact c, .ofExact s, body⟩ : Rounded.Box).contains (.ofExact p) = true ↔
      |F32.rne (p.x - c.x)| ≤ F32.rne (s.x / 2) ∧ |F32.rne (p.y - c.y)| ≤ F32.rne (s.y / 2)) := by
  have hx : F32.rne (s.x / 2) ≤ F32.maxFinite := by
    have h1 : s.x / 2 ≤ F32.maxFinite := by
      have := (abs_le.mp hs.1.2).2
      have := F32.maxFinite_pos
      linarith
    exact F32.rne_le_of_le F32.maxFinite_rep h1
  have hy : F32.rne (s.y / 2) ≤ F32.maxFinite := by
    have h1 : s.y / 2 ≤ F32.maxFinite := by
      have := (abs_le.mp hs.2.2).2
      have := F32.maxFinite_pos
      linarith
    exact F32.rne_le_of_le F32.maxFinite_rep h1
  simp only [Rounded.Box.contains, Rounded.Vec2.ofExact, Rounded.Vec2.x_sub, Rounded.Vec2.y_sub,
    F32.div_two_finite _ hs.1.2, F32.div_two_finite _ hs.2.2]
  rw [F32.sub_finite, F32.sub_finite, F32.le_abs_ofRat _ _ hx, F32.le_abs_ofRat _ _ hy]
  simp

/-! ## `Circle::contains` in binary32 -/

/-- C1: in binary32 `Circle::contains` compares the rounded length of the rounded offset
with the radius.  For finite coordinates and a radius between `2 ^ (-60)` and `2 ^ 60`, a
point whose Euclidean distance from the cached centre is at most
`radius * (1 - 2 ^ (-22))` is contained, and a point whose distance is at least
`radius * (1 + 2 ^ (-22))` is not. -/
theorem circle_contains_within_rounding (c p : Vec2) (r : ℚ) (body : BodyPtr)
    (hc : F32.IsFinite c.x ∧ F32.IsFinite c.y) (hp : F32.IsFinite p.x ∧ F32.IsFinite p.y)
    (hr1 : (2 : ℚ) ^ (-60 : ℤ) ≤ r) (hr2 : r ≤ 2 ^ (60 : ℤ)) :
    (Real.sqrt (((p.x - c.x : ℚ) : ℝ) ^ 2 + ((p.y - c.y : ℚ) : ℝ) ^ 2)
        ≤ ((r * (1 - 2 ^ (-22 : ℤ)) : ℚ) : ℝ) →
      (⟨.ofExact c, .finite r, body⟩ : Rounded.Circle).contains (.ofExact p) = true) ∧
    (((r * (1 + 2 ^ (-22 : ℤ)) : ℚ) : ℝ)
        ≤ Real.sqrt (((p.x - c.x : ℚ) : ℝ) ^ 2 + ((p.y - c.y : ℚ) : ℝ) ^ 2) →
      (⟨.ofExact c, .finite r, body⟩ : Rounded.Circle).contains (.ofExact p) = false) ∧
    (⟨.ofExact c, .finite r, body⟩ : Rounded.Circle).contains (.ofExact p) =
      F32.le (Rounded.glmLength ⟨F32.ofRat (p.x - c.x), F32.ofRat (p.y - c.y)⟩)
        (.finite r) := by
  have hr0 : 0 < r := lt_of_lt_of_le (F32.two_zpow_pos _) hr1
  have ha := F32.rne_sub_rel hp.1.1 hc.1.1
  have hb := F32.rne_sub_rel hp.2.1 hc.2.1
  have hval : (⟨.ofExact c, .finite r, body⟩ : Rounded.Circle).contains (.ofExact p) =
      F32.le (Rounded.glmLength ⟨F32.ofRat (p.x - c.x), F32.ofRat (p.y - c.y)⟩) (.finite r) := by
    simp only [Rounded.Circle.contains, Rounded.Vec2.ofExact]
    rw [show ((⟨.finite p.x, .finite p.y⟩ : Rounded.Vec2) - ⟨.finite c.x, .finite c.y⟩) =
      ⟨F32.sub (.finite p.x) (.finite c.x), F32.sub (.finite p.y) (.finite c.y)⟩ from rfl,
      F32.sub_finite, F32.sub_finite]
  have hlo : (0 : ℚ) ≤ r * (1 - 2 ^ (-22 : ℤ)) := mul_nonneg hr0.le (by norm_num)
  have hhi : (0 : ℚ) ≤ r * (1 + 2 ^ (-22 : ℤ)) := mul_nonneg hr0.le (by norm_num)
  refine ⟨?_, ?_, hval⟩
  · rw [hval]
    intro h
    have hsq := (F32.sqrt_le_iff_sq _ _ _ hlo).mp h
    obtain ⟨h1, h2⟩ := F32.abs_le_of_sq_add_sq_le hlo hsq
    have hle : r * (1 - 2 ^ (-22 : ℤ)) ≤ 2 ^ (61 : ℤ) := by
      have : r * (1 - 2 ^ (-22 : ℤ)) ≤ r * 1 := mul_le_mul_of_nonneg_left (by norm_num) hr0.le
      have h60 : (2 : ℚ) ^ (60 : ℤ) ≤ 2 ^ (61 : ℤ) := by norm_num
      linarith
    rw [F32.glmLength_ofRat_finite (le_trans h1 hle) (le_trans h2 hle)]
    have := F32.lengthRne_le ha hb hr1 hsq
    simp [F32.le, this]
  · rw [hval]
    intro h
    have hsq := (F32.le_sqrt_iff_sq _ _ _ hhi).mp h
    rcases F32.glmLength_ofRat_cases (p.x - c.x) (p.y - c.y) with hinf | hfin
    · rw [hinf]; rfl
    · rw [hfin]
      have := F32.lt_lengthRne ha hb hr1 hsq
      simp [F32.le, this]

/-- C2: in binary32 `Box::contains` holds of a point exactly when the rounded offset from
the centre is within the half extents in both coordinates, the half extents being the
halves of the stored size (exact unless they underflow), the same that the constructor
passes to the box fixture.  Every point whose exact offset is within the half extents is
contained, points on an edge or a corner among them, and the exact offset of a contained
point exceeds the half extents by less than the rounding error of the subtraction. -/
theorem box_contains_within_rounding (c s p : Vec2) (body : BodyPtr)
    (hc : F32.IsFinite c.x ∧ F32.IsFinite c.y) (hs : F32.IsFinite s.x ∧ F32.IsFinite s.y)
    (hp : F32.IsFinite p.x ∧ F32.IsFinite p.y) :
    ((⟨.ofExact c, .ofExact s, body⟩ : Rounded.Box).contains (.ofExact p) = true ↔
      |F32.rne (p.x - c.x)| ≤ F32.rne (s.x / 2) ∧ |F32.rne (p.y - c.y)| ≤ F32.rne (s.y / 2)) ∧
    (|p.x - c.x| ≤ F32.rne (s.x / 2) ∧ |p.y - c.y| ≤ F32.rne (s.y / 2) →
      (⟨.ofExact c, .ofExact s, body⟩ : Rounded.Box).contains (.ofExact p) = true) ∧
    ((⟨.ofExact c, .ofExact s, body⟩ : Rounded.Box).contains (.ofExact p) = true →
      |p.x - c.x| * (1 - 2 ^ (-24 : ℤ)) ≤ F32.rne (s.x / 2) ∧
      |p.y - c.y| * (1 - 2 ^ (-24 : ℤ)) ≤ F32.rne (s.y / 2)) ∧
    ((2 : ℚ) ^ (-125 : ℤ) ≤ |s.x| → F32.rne (s.x / 2) = s.x / 2) ∧
    ((2 : ℚ) ^ (-125 : ℤ) ≤ |s.y| → F32.rne (s.y / 2) = s.y / 2) ∧
    Rounded.Box.halfExtents (.ofExact s) = .ofExact ⟨F32.rne (s.x / 2), F32.rne (s.y / 2)⟩ := by
  have key := box_contains_rounded_aux c s p body hs
  refine ⟨key, ?_, ?_, fun h => F32.rne_half hs.1.1 h, fun h => F32.rne_half hs.2.1 h, ?_⟩
  rotate_left 2
  · simp only [Rounded.Box.halfExtents, Rounded.Vec2.ofExact, F32.div_two_finite _ hs.1.2,
      F32.div_two_finite _ hs.2.2]
  · rintro ⟨h1, h2⟩
    exact key.mpr ⟨F32.abs_rne_le_of_abs_le (F32.rne_rep _) h1,
      F32.abs_rne_le_of_abs_le (F32.rne_rep _) h2⟩
  · intro h
    obtain ⟨h1, h2⟩ := key.mp h
    have ex := F32.rne_sub_rel hp.1.1 hc.1.1
    have ey := F32.rne_sub_rel hp.2.1 hc.2.1
    have tx := abs_sub_abs_le_abs_sub (p.x - c.x) (F32.rne (p.x - c.x))
    have ty := abs_sub_abs_le_abs_sub (p.y - c.y) (F32.rne (p.y - c.y))
    rw [abs_sub_comm (p.x - c.x) (F32.rne (p.x - c.x))] at tx
    rw [abs_sub_comm (p.y - c.y) (F32.rne (p.y - c.y))] at ty
    generalize (2 : ℚ) ^ (-24 : ℤ) = u at ex ey ⊢
    constructor
    · have : |p.x - c.x| * (1 - u) = |p.x - c.x| - u * |p.x - c.x| := by ring
      rw [this]; linarith
    · have : |p.y - c.y| * (1 - u) = |p.y - c.y| - u * |p.y - c.y| := by ring
      rw [this]; linarith

/-- The world point of a pixel, for a window of at most `2 ^ 24` pixels in each
direction and a world rectangle whose extent does not overflow. -/
theorem windowToWorld_rounded_in_rect (h : Rounded.UIHelper) (wmin wmax : Vec2) (x y : Int)
    (hmin : h.worldMin = .ofExact wmin) (hmax : h.worldMax = .ofExact wmax)
    (fmin : F32.IsFinite wmin.x ∧ F32.IsFinite wmin.y)
    (fmax : F32.IsFinite wmax.x ∧ F32.IsFinite wmax.y)
    (hle : wmin.x ≤ wmax.x ∧ wmin.y ≤ wmax.y)
    (hext : wmax.x - wmin.x ≤ F32.maxFinite ∧ wmax.y - wmin.y ≤ F32.maxFinite)
    (hw : 0 < h.width ∧ h.width ≤ 2 ^ 24) (hh : 0 < h.height ∧ h.height ≤ 2 ^ 24)
    (hx : 0 ≤ x ∧ x < h.width) (hy : 0 ≤ y ∧ y < h.height) :
    ∃ r : Vec2, h.windowToWorld x y = .ofExact r ∧
      wmin.x ≤ r.x ∧ r.x ≤ wmax.x ∧ wmin.y ≤ r.y ∧ r.y ≤ wmax.y := by
  obtain ⟨rx, ex, x1, x2⟩ := F32.affine_in_range wmin.x wmax.x fmin.1 fmax.1 hle.1 hext.1
    x h.width hx.1 hx.2 hw.2
  obtain ⟨ry, ey, y1, y2⟩ := F32.affine_in_range wmin.y wmax.y fmin.2 fmax.2 hle.2 hext.2
    (h.height - 1 - y) h.height (by omega) (by omega) hh.2
  refine ⟨⟨rx, ry⟩, ?_, x1, x2, y1, y2⟩
  unfold Rounded.UIHelper.windowToWorld
  rw [hmin, hmax]
  apply Rounded.Vec2.eq_of_components
  · simp only [Rounded.Vec2.ofExact, Rounded.Vec2.x_add, Rounded.Vec2.x_mul, Rounded.Vec2.x_sub]
    exact ex
  · simp only [Rounded.Vec2.ofExact, Rounded.Vec2.y_add, Rounded.Vec2.y_mul, Rounded.Vec2.y_sub]
    exact ey
/-- The circle of radius 1/2 about the origin and the point (0.3f, 0.4f): the rounded
length of the offset is exactly 1/2. -/
theorem glmLength_point_outside :
    Rounded.glmLength ((⟨.finite (5033165 / 2 ^ 24), .finite (13421773 / 2 ^ 25)⟩ : Rounded.Vec2) -
      ⟨.finite 0, .finite 0⟩) =
      .finite (1 / 2 ^ 1) := by
  have e1 : F32.sub (.finite (5033165 / 2 ^ 24)) (.finite 0) =
      .finite (5033165 / 2 ^ 24) := by
    rw [F32.sub_finite]
    exact F32.ofRat_eval ((5033165 / 2 ^ 24) - 0)
      (5033165 / 2 ^ 24) 10066330 (-25) (by norm_num)
      (Or.inl (by norm_num)) (by norm_num)
      (by norm_num) (by norm_num) (by norm_num) (by norm_num [F32.maxFinite])
  have e2 : F32.sub (.finite (13421773 / 2 ^ 25)) (.finite 0) =
      .finite (13421773 / 2 ^ 25) := by
    rw [F32.sub_finite]
    exact F32.ofRat_eval ((13421773 / 2 ^ 25) - 0)
      (13421773 / 2 ^ 25) 13421773 (-25) (by norm_num)
      (Or.inl (by norm_num)) (by norm_num)
      (by norm_num) (by norm_num) (by norm_num) (by norm_num [F32.maxFinite])
  have e3 : F32.mul (.finite (5033165 / 2 ^ 24)) (.finite (5033165 / 2 ^ 24)) =
      .finite (3019899 / 2 ^ 25) := by
    rw [F32.mul_finite]
    exact F32.ofRat_eval ((5033165 / 2 ^ 24) * (5033165 / 2 ^ 24))
      (3019899 / 2 ^ 25) 12079596 (-27) (by norm_num)
      (Or.inl (by norm_num)) (by norm_num)
      (by norm_num) (by norm_num) (by norm_num) (by norm_num [F32.maxFinite])
  have e4 : F32.mul (.finite (13421773 / 2 ^ 25)) (.finite (13421773 / 2 ^ 25)) =
      .finite (10737419 / 2 ^ 26) := by
    rw [F32.mul_finite]
    exact F32.ofRat_eval ((13421773 / 2 ^ 25) * (13421773 / 2 ^ 25))
      (10737419 / 2 ^ 26) 10737419 (-26) (by norm_num)
      (Or.inl (by norm_num)) (by norm_num)
      (by norm_num) (by norm_num) (by norm_num) (by norm_num [F32.maxFinite])
  have e5 : F32.add (.finite (3019899 / 2 ^ 25)) (.finite (10737419 / 2 ^ 26)) =
      .finite (1 / 2 ^ 2) := by
    rw [F32.add_finite]
    exact F32.ofRat_eval_tie ((3019899 / 2 ^ 25) + (10737419 / 2 ^ 26))
      (1 / 2 ^ 2) 8388608 (-25) (by norm_num)
      (Or.inl (by norm_num)) (by norm_num)
      (Or.inl (by norm_num)) (by norm_num) (by norm_num) (by norm_num [F32.maxFinite])
  have e6 : F32.sqrt (.finite (1 / 2 ^ 2)) =
      .finite (1 / 2 ^ 1) := by
    exact F32.sqrt_eval (1 / 2 ^ 2)
      (1 / 2 ^ 1) 8388608 (-24) (-2)
      (by norm_num) (by norm_num) (by norm_num)
      (by norm_num) (by norm_num) (by norm_num) (by norm_num)
  simp only [Rounded.glmLength, Rounded.Vec2.x_sub, Rounded.Vec2.y_sub, e1, e2,
    e3, e4, e5, e6]

/-- The circle of radius 23497 about the origin and the point (20905, 10728) on it: the
rounded length of the offset exceeds the radius. -/
theorem glmLength_point_on_boundary :
    Rounded.glmLength ((⟨.finite 20905, .finite 10728⟩ : Rounded.Vec2) -
      ⟨.finite 0, .finite 0⟩) =
      .finite (12030465 / 2 ^ 9) := by
  have e1 : F32.sub (.finite 20905) (.finite 0) =
      .finite 20905 := by
    rw [F32.sub_finite]
    exact F32.ofRat_eval (20905 - 0)
      20905 10703360 (-9) (by norm_num)
      (Or.inl (by norm_num)) (by norm_num)
      (by norm_num) (by norm_num) (by norm_num) (by norm_num [F32.maxFinite])
  have e2 : F32.sub (.finite 10728) (.finite 0) =
      .finite 10728 := by
    rw [F32.sub_finite]
    exact F32.ofRat_eval (10728 - 0)
      10728 10985472 (-10) (by norm_num)
      (Or.inl (by norm_num)) (by norm_num)
      (by norm_num) (by norm_num) (by norm_num) (by norm_num [F32.maxFinite])
  have e3 : F32.mul (.finite 20905) (.finite 20905) =
      .finite 437019040 := by
    rw [F32.mul_finite]
    exact F32.ofRat_eval (20905 * 20905)
      437019040 13656845 (5) (by norm_num)
      (Or.inl (by norm_num)) (by norm_num)
      (by norm_num) (by norm_num) (by norm_num) (by norm_num [F32.maxFinite])
  have e4 : F32.mul (.finite 10728) (.finite 10728) =
      .finite 115089984 := by
    rw [F32.mul_finite]
    exact F32.ofRat_eval (10728 * 10728)
      115089984 14386248 (3) (by norm_num)
      (Or.inl (by norm_num)) (by norm_num)
      (by norm_num) (by norm_num) (by norm_num) (by norm_num [F32.maxFinite])
  have e5 : F32.add (.finite 437019040) (.finite 115089984) =
      .finite 552109056 := by
    rw [F32.add_finite]
    exact F32.ofRat_eval_tie (437019040 + 115089984)
      552109056 8626704 (6) (by norm_num)
      (Or.inl (by norm_num)) (by norm_num)
      (Or.inr (by norm_num)) (by norm_num) (by norm_num) (by norm_num [F32.maxFinite])
  have e6 : F32.sqrt (.finite 552109056) =
      .finite (12030465 / 2 ^ 9) := by
    exact F32.sqrt_eval 552109056
      (12030465 / 2 ^ 9) 12030465 (-9) (29)
      (by norm_num) (by norm_num) (by norm_num)
      (by norm_num) (by norm_num) (by norm_num) (by norm_num)
  simp only [Rounded.glmLength, Rounded.Vec2.x_sub, Rounded.Vec2.y_sub, e1, e2,
    e3, e4, e5, e6]
/-- The point (2 ^ (-79), 0): the squares underflow and the rounded length of the
offset from the origin is zero. -/
theorem glmLength_point_underflow :
    Rounded.glmLength ((⟨.finite (1 / 2 ^ 79), .finite 0⟩ : Rounded.Vec2) -
      ⟨.finite 0, .finite 0⟩) =
      .finite 0 := by
  have e1 : F32.sub (.finite (1 / 2 ^ 79)) (.finite 0) =
      .finite (1 / 2 ^ 79) := by
    rw [F32.sub_finite]
    exact F32.ofRat_eval ((1 / 2 ^ 79) - 0)
      (1 / 2 ^ 79) 8388608 (-102) (by norm_num)
      (Or.inl (by norm_num)) (by norm_num)
      (by norm_num) (by norm_num) (by norm_num) (by norm_num [F32.maxFinite])
  have e2 : F32.sub (.finite 0) (.finite 0) =
      .finite 0 := by
    rw [F32.sub_finite,
      show (0 - 0 : ℚ) = 0 by norm_num]
    exact F32.ofRat_zero
  have e3 : F32.mul (.finite (1 / 2 ^ 79)) (.finite (1 / 2 ^ 79)) =
      .finite 0 := by
    rw [F32.mul_finite]
    exact F32.ofRat_eval ((1 / 2 ^ 79) * (1 / 2 ^ 79))
      0 0 (-149) (by norm_num)
      (Or.inr ⟨rfl, by norm_num⟩) (by norm_num)
      (by norm_num) (by norm_num) (by norm_num) (by norm_num [F32.maxFinite])
  have e4 : F32.mul (.finite 0) (.finite 0) =
      .finite 0 := by
    rw [F32.mul_finite,
      show (0 * 0 : ℚ) = 0 by norm_num]
    exact F32.ofRat_zero
  have e5 : F32.add (.finite 0) (.finite 0) =
      .finite 0 := by
    rw [F32.add_finite,
      show (0 + 0 : ℚ) = 0 by norm_num]
    exact F32.ofRat_zero
  have e6 : F32.sqrt (.finite 0) = .finite 0 := by
    simp [F32.sqrt, F32.sqrtRne_zero]
  simp only [Rounded.glmLength, Rounded.Vec2.x_sub, Rounded.Vec2.y_sub, e1, e2,
    e3, e4, e5, e6]

/-- The box of size (2, 2) about (-1, 0) and the point (2 ^ (-25), 0), which lies outside
by 2 ^ (-25): the rounded offset is on the edge. -/
theorem box_contains_point_outside_eval :
    (⟨⟨.finite (-1), .finite 0⟩, ⟨.finite 2, .finite 2⟩, none⟩ : Rounded.Box).contains
      ⟨.finite (1 / 2 ^ 25), .finite 0⟩ = true := by
  have e1 : F32.sub (.finite (1 / 2 ^ 25)) (.finite (-1)) =
      .finite 1 := by
    rw [F32.sub_finite]
    exact F32.ofRat_eval ((1 / 2 ^ 25) - (-1))
      1 8388608 (-23) (by norm_num)
      (Or.inl (by norm_num)) (by norm_num)
      (by norm_num) (by norm_num) (by norm_num) (by norm_num [F32.maxFinite])
  have e2 : F32.sub (.finite 0) (.finite 0) =
      .finite 0 := by
    rw [F32.sub_finite,
      show (0 - 0 : ℚ) = 0 by norm_num]
    exact F32.ofRat_zero
  have e3 : F32.div (.finite 2) (.finite 2) =
      .finite 1 := by
    rw [F32.div_finite _ _ (by norm_num)]
    exact F32.ofRat_eval (2 / 2)
      1 8388608 (-23) (by norm_num)
      (Or.inl (by norm_num)) (by norm_num)
      (by norm_num) (by norm_num) (by norm_num) (by norm_num [F32.maxFinite])
  simp only [Rounded.Box.contains, Rounded.Vec2.x_sub, Rounded.Vec2.y_sub, F32.ofInt_two,
    e1, e2, e3]
  simp [F32.abs, F32.le]
/-- The world point of the pixel (640, 710) of the application. -/
theorem appHelper_windowToWorld_low :
    Rounded.UIHelper.windowToWorld Rounded.appHelper 640 710 =
      ⟨.finite 0, .finite (15099495 / 2 ^ 27)⟩ := by
  have e1 : F32.ofInt 640 = .finite 640 := by
    have h := F32.ofInt_of_abs_le 640 (by norm_num)
    simpa using h
  have e2 : F32.ofInt 1280 = .finite 1280 := by
    have h := F32.ofInt_of_abs_le 1280 (by norm_num)
    simpa using h
  have e3 : F32.div (.finite 640) (.finite 1280) =
      .finite (1 / 2 ^ 1) := by
    rw [F32.div_finite _ _ (by norm_num)]
    exact F32.ofRat_eval (640 / 1280)
      (1 / 2 ^ 1) 8388608 (-24) (by norm_num)
      (Or.inl (by norm_num)) (by norm_num)
      (by norm_num) (by norm_num) (by norm_num) (by norm_num [F32.maxFinite])
  have e4 : F32.sub (.finite 8) (.finite (-8)) =
      .finite 16 := by
    rw [F32.sub_finite]
    exact F32.ofRat_eval (8 - (-8))
      16 8388608 (-19) (by norm_num)
      (Or.inl (by norm_num)) (by norm_num)
      (by norm_num) (by norm_num) (by norm_num) (by norm_num [F32.maxFinite])
  have e5 : F32.mul (.finite (1 / 2 ^ 1)) (.finite 16) =
      .finite 8 := by
    rw [F32.mul_finite]
    exact F32.ofRat_eval ((1 / 2 ^ 1) * 16)
      8 8388608 (-20) (by norm_num)
      (Or.inl (by norm_num)) (by norm_num)
      (by norm_num) (by norm_num) (by norm_num) (by norm_num [F32.maxFinite])
  have e6 : F32.add (.finite (-8)) (.finite 8) =
      .finite 0 := by
    rw [F32.add_finite,
      show ((-8) + 8 : ℚ) = 0 by norm_num]
    exact F32.ofRat_zero
  have e7 : F32.ofInt 9 = .finite 9 := by
    have h := F32.ofInt_of_abs_le 9 (by norm_num)
    simpa using h
  have e8 : F32.ofInt 720 = .finite 720 := by
    have h := F32.ofInt_of_abs_le 720 (by norm_num)
    simpa using h
  have e9 : F32.div (.finite 9) (.finite 720) =
      .finite (13421773 / 2 ^ 30) := by
    rw [F32.div_finite _ _ (by norm_num)]
    exact F32.ofRat_eval (9 / 720)
      (13421773 / 2 ^ 30) 13421773 (-30) (by norm_num)
      (Or.inl (by norm_num)) (by norm_num)
      (by norm_num) (by norm_num) (by norm_num) (by norm_num [F32.maxFinite])
  have e10 : F32.sub (.finite 9) (.finite 0) =
      .finite 9 := by
    rw [F32.sub_finite]
    exact F32.ofRat_eval (9 - 0)
      9 9437184 (-20) (by norm_num)
      (Or.inl (by norm_num)) (by norm_num)
      (by norm_num) (by norm_num) (by norm_num) (by norm_num [F32.maxFinite])
  have e11 : F32.mul (.finite (13421773 / 2 ^ 30)) (.finite 9) =
      .finite (15099495 / 2 ^ 27) := by
    rw [F32.mul_finite]
    exact F32.ofRat_eval ((13421773 / 2 ^ 30) * 9)
      (15099495 / 2 ^ 27) 15099495 (-27) (by norm_num)
      (Or.inl (by norm_num)) (by norm_num)
      (by norm_num) (by norm_num) (by norm_num) (by norm_num [F32.maxFinite])
  have e12 : F32.add (.finite 0) (.finite (15099495 / 2 ^ 27)) =
      .finite (15099495 / 2 ^ 27) := by
    rw [F32.add_finite]
    exact F32.ofRat_eval (0 + (15099495 / 2 ^ 27))
      (15099495 / 2 ^ 27) 15099495 (-27) (by norm_num)
      (Or.inl (by norm_num)) (by norm_num)
      (by norm_num) (by norm_num) (by norm_num) (by norm_num [F32.maxFinite])
  apply Rounded.Vec2.eq_of_components
  · simp only [Rounded.UIHelper.windowToWorld, Rounded.appHelper, Rounded.UIHelper.new,
      Rounded.UIHelper.onMouseButtonDown, Rounded.Vec2.ofExact, Rounded.Vec2.x_add,
      Rounded.Vec2.x_mul, Rounded.Vec2.x_sub]
    rw [e1, e2, e3, e4, e5, e6]
  · simp only [Rounded.UIHelper.windowToWorld, Rounded.appHelper, Rounded.UIHelper.new,
      Rounded.UIHelper.onMouseButtonDown, Rounded.Vec2.ofExact, Rounded.Vec2.y_add,
      Rounded.Vec2.y_mul, Rounded.Vec2.y_sub]
    rw [show (720 - 1 - 710 : ℤ) = 9 by norm_num, e7, e8, e9, e10, e11, e12]

/-- The world point of the pixel (640, 718) of the application. -/
theorem appHelper_windowToWorld_lower :
    Rounded.UIHelper.windowToWorld Rounded.appHelper 640 718 =
      ⟨.finite 0, .finite (13421773 / 2 ^ 30)⟩ := by
  have e1 : F32.ofInt 640 = .finite 640 := by
    have h := F32.ofInt_of_abs_le 640 (by norm_num)
    simpa using h
  have e2 : F32.ofInt 1280 = .finite 1280 := by
    have h := F32.ofInt_of_abs_le 1280 (by norm_num)
    simpa using h
  have e3 : F32.div (.finite 640) (.finite 1280) =
      .finite (1 / 2 ^ 1) := by
    rw [F32.div_finite _ _ (by norm_num)]
    exact F32.ofRat_eval (640 / 1280)
      (1 / 2 ^ 1) 8388608 (-24) (by norm_num)
      (Or.inl (by norm_num)) (by norm_num)
      (by norm_num) (by norm_num) (by norm_num) (by norm_num [F32.maxFinite])
  have e4 : F32.sub (.finite 8) (.finite (-8)) =
      .finite 16 := by
    rw [F32.sub_finite]
    exact F32.ofRat_eval (8 - (-8))
      16 8388608 (-19) (by norm_num)
      (Or.inl (by norm_num)) (by norm_num)
      (by norm_num) (by norm_num) (by norm_num) (by norm_num [F32.maxFinite])
  have e5 : F32.mul (.finite (1 / 2 ^ 1)) (.finite 16) =
      .finite 8 := by
    rw [F32.mul_finite]
    exact F32.ofRat_eval ((1 / 2 ^ 1) * 16)
      8 8388608 (-20) (by norm_num)
      (Or.inl (by norm_num)) (by norm_num)
      (by norm_num) (by norm_num) (by norm_num) (by norm_num [F32.maxFinite])
  have e6 : F32.add (.finite (-8)) (.finite 8) =
      .finite 0 := by
    rw [F32.add_finite,
      show ((-8) + 8 : ℚ) = 0 by norm_num]
    exact F32.ofRat_zero
  have e7 : F32.ofInt 1 = .finite 1 := by
    have h := F32.ofInt_of_abs_le 1 (by norm_num)
    simpa using h
  have e8 : F32.ofInt 720 = .finite 720 := by
    have h := F32.ofInt_of_abs_le 720 (by norm_num)
    simpa using h
  have e9 : F32.div (.finite 1) (.finite 720) =
      .finite (11930465 / 2 ^ 33) := by
    rw [F32.div_finite _ _ (by norm_num)]
    exact F32.ofRat_eval (1 / 720)
      (11930465 / 2 ^ 33) 11930465 (-33) (by norm_num)
      (Or.inl (by norm_num)) (by norm_num)
      (by norm_num) (by norm_num) (by norm_num) (by norm_num [F32.maxFinite])
  have e10 : F32.sub (.finite 9) (.finite 0) =
      .finite 9 := by
    rw [F32.sub_finite]
    exact F32.ofRat_eval (9 - 0)
      9 9437184 (-20) (by norm_num)
      (Or.inl (by norm_num)) (by norm_num)
      (by norm_num) (by norm_num) (by norm_num) (by norm_num [F32.maxFinite])
  have e11 : F32.mul (.finite (11930465 / 2 ^ 33)) (.finite 9) =
      .finite (13421773 / 2 ^ 30) := by
    rw [F32.mul_finite]
    exact F32.ofRat_eval ((11930465 / 2 ^ 33) * 9)
      (13421773 / 2 ^ 30) 13421773 (-30) (by norm_num)
      (Or.inl (by norm_num)) (by norm_num)
      (by norm_num) (by norm_num) (by norm_num) (by norm_num [F32.maxFinite])
  have e12 : F32.add (.finite 0) (.finite (13421773 / 2 ^ 30)) =
      .finite (13421773 / 2 ^ 30) := by
    rw [F32.add_finite]
    exact F32.ofRat_eval (0 + (13421773 / 2 ^ 30))
      (13421773 / 2 ^ 30) 13421773 (-30) (by norm_num)
      (Or.inl (by norm_num)) (by norm_num)
      (by norm_num) (by norm_num) (by norm_num) (by norm_num [F32.maxFinite])
  apply Rounded.Vec2.eq_of_components
  · simp only [Rounded.UIHelper.windowToWorld, Rounded.appHelper, Rounded.UIHelper.new,
      Rounded.UIHelper.onMouseButtonDown, Rounded.Vec2.ofExact, Rounded.Vec2.x_add,
      Rounded.Vec2.x_mul, Rounded.Vec2.x_sub]
    rw [e1, e2, e3, e4, e5, e6]
  · simp only [Rounded.UIHelper.windowToWorld, Rounded.appHelper, Rounded.UIHelper.new,
      Rounded.UIHelper.onMouseButtonDown, Rounded.Vec2.ofExact, Rounded.Vec2.y_add,
      Rounded.Vec2.y_mul, Rounded.Vec2.y_sub]
    rw [show (720 - 1 - 718 : ℤ) = 1 by norm_num, e7, e8, e9, e10, e11, e12]

/-- The world point of the pixel (640, 359) of the application. -/
theorem appHelper_windowToWorld_mid :
    Rounded.UIHelper.windowToWorld Rounded.appHelper 640 359 =
      ⟨.finite 0, .finite (9 / 2 ^ 1)⟩ := by
  have e1 : F32.ofInt 640 = .finite 640 := by
    have h := F32.ofInt_of_abs_le 640 (by norm_num)
    simpa using h
  have e2 : F32.ofInt 1280 = .finite 1280 := by
    have h := F32.ofInt_of_abs_le 1280 (by norm_num)
    simpa using h
  have e3 : F32.div (.finite 640) (.finite 1280) =
      .finite (1 / 2 ^ 1) := by
    rw [F32.div_finite _ _ (by norm_num)]
    exact F32.ofRat_eval (640 / 1280)
      (1 / 2 ^ 1) 8388608 (-24) (by norm_num)
      (Or.inl (by norm_num)) (by norm_num)
      (by norm_num) (by norm_num) (by norm_num) (by norm_num [F32.maxFinite])
  have e4 : F32.sub (.finite 8) (.finite (-8)) =
      .finite 16 := by
    rw [F32.sub_finite]
    exact F32.ofRat_eval (8 - (-8))
      16 8388608 (-19) (by norm_num)
      (Or.inl (by norm_num)) (by norm_num)
      (by norm_num) (by norm_num) (by norm_num) (by norm_num [F32.maxFinite])
  have e5 : F32.mul (.finite (1 / 2 ^ 1)) (.finite 16) =
      .finite 8 := by
    rw [F32.mul_finite]
    exact F32.ofRat_eval ((1 / 2 ^ 1) * 16)
      8 8388608 (-20) (by norm_num)
      (Or.inl (by norm_num)) (by norm_num)
      (by norm_num) (by norm_num) (by norm_num) (by norm_num [F32.maxFinite])
  have e6 : F32.add (.finite (-8)) (.finite 8) =
      .finite 0 := by
    rw [F32.add_finite,
      show ((-8) + 8 : ℚ) = 0 by norm_num]
    exact F32.ofRat_zero
  have e7 : F32.ofInt 360 = .finite 360 := by
    have h := F32.ofInt_of_abs_le 360 (by norm_num)
    simpa using h
  have e8 : F32.ofInt 720 = .finite 720 := by
    have h := F32.ofInt_of_abs_le 720 (by norm_num)
    simpa using h
  have e9 : F32.div (.finite 360) (.finite 720) =
      .finite (1 / 2 ^ 1) := by
    rw [F32.div_finite _ _ (by norm_num)]
    exact F32.ofRat_eval (360 / 720)
      (1 / 2 ^ 1) 8388608 (-24) (by norm_num)
      (Or.inl (by norm_num)) (by norm_num)
      (by norm_num) (by norm_num) (by norm_num) (by norm_num [F32.maxFinite])
  have e10 : F32.sub (.finite 9) (.finite 0) =
      .finite 9 := by
    rw [F32.sub_finite]
    exact F32.ofRat_eval (9 - 0)
      9 9437184 (-20) (by norm_num)
      (Or.inl (by norm_num)) (by norm_num)
      (by norm_num) (by norm_num) (by norm_num) (by norm_num [F32.maxFinite])
  have e11 : F32.mul (.finite (1 / 2 ^ 1)) (.finite 9) =
      .finite (9 / 2 ^ 1) := by
    rw [F32.mul_finite]
    exact F32.ofRat_eval ((1 / 2 ^ 1) * 9)
      (9 / 2 ^ 1) 9437184 (-21) (by norm_num)
      (Or.inl (by norm_num)) (by norm_num)
      (by norm_num) (by norm_num) (by norm_num) (by norm_num [F32.maxFinite])
  have e12 : F32.add (.finite 0) (.finite (9 / 2 ^ 1)) =
      .finite (9 / 2 ^ 1) := by
    rw [F32.add_finite]
    exact F32.ofRat_eval (0 + (9 / 2 ^ 1))
      (9 / 2 ^ 1) 9437184 (-21) (by norm_num)
      (Or.inl (by norm_num)) (by norm_num)
      (by norm_num) (by norm_num) (by norm_num) (by norm_num [F32.maxFinite])
  apply Rounded.Vec2.eq_of_components
  · simp only [Rounded.UIHelper.windowToWorld, Rounded.appHelper, Rounded.UIHelper.new,
      Rounded.UIHelper.onMouseButtonDown, Rounded.Vec2.ofExact, Rounded.Vec2.x_add,
      Rounded.Vec2.x_mul, Rounded.Vec2.x_sub]
    rw [e1, e2, e3, e4, e5, e6]
  · simp only [Rounded.UIHelper.windowToWorld, Rounded.appHelper, Rounded.UIHelper.new,
      Rounded.UIHelper.onMouseButtonDown, Rounded.Vec2.ofExact, Rounded.Vec2.y_add,
      Rounded.Vec2.y_mul, Rounded.Vec2.y_sub]
    rw [show (720 - 1 - 359 : ℤ) = 360 by norm_num, e7, e8, e9, e10, e11, e12]

/-- The world point of the pixel (644, 359) of the application. -/
theorem appHelper_windowToWorld_near :
    Rounded.UIHelper.windowToWorld Rounded.appHelper 644 359 =
      ⟨.finite (52429 / 2 ^ 20), .finite (9 / 2 ^ 1)⟩ := by
  have e1 : F32.ofInt 644 = .finite 644 := by
    have h := F32.ofInt_of_abs_le 644 (by norm_num)
    simpa using h
  have e2 : F32.ofInt 1280 = .finite 1280 := by
    have h := F32.ofInt_of_abs_le 1280 (by norm_num)
    simpa using h
  have e3 : F32.div (.finite 644) (.finite 1280) =
      .finite (8441037 / 2 ^ 24) := by
    rw [F32.div_finite _ _ (by norm_num)]
    exact F32.ofRat_eval (644 / 1280)
      (8441037 / 2 ^ 24) 8441037 (-24) (by norm_num)
      (Or.inl (by norm_num)) (by norm_num)
      (by norm_num) (by norm_num) (by norm_num) (by norm_num [F32.maxFinite])
  have e4 : F32.sub (.finite 8) (.finite (-8)) =
      .finite 16 := by
    rw [F32.sub_finite]
    exact F32.ofRat_eval (8 - (-8))
      16 8388608 (-19) (by norm_num)
      (Or.inl (by norm_num)) (by norm_num)
      (by norm_num) (by norm_num) (by norm_num) (by norm_num [F32.maxFinite])
  have e5 : F32.mul (.finite (8441037 / 2 ^ 24)) (.finite 16) =
      .finite (8441037 / 2 ^ 20) := by
    rw [F32.mul_finite]
    exact F32.ofRat_eval ((8441037 / 2 ^ 24) * 16)
      (8441037 / 2 ^ 20) 8441037 (-20) (by norm_num)
      (Or.inl (by norm_num)) (by norm_num)
      (by norm_num) (by norm_num) (by norm_num) (by norm_num [F32.maxFinite])
  have e6 : F32.add (.finite (-8)) (.finite (8441037 / 2 ^ 20)) =
      .finite (52429 / 2 ^ 20) := by
    rw [F32.add_finite]
    exact F32.ofRat_eval ((-8) + (8441037 / 2 ^ 20))
      (52429 / 2 ^ 20) 13421824 (-28) (by norm_num)
      (Or.inl (by norm_num)) (by norm_num)
      (by norm_num) (by norm_num) (by norm_num) (by norm_num [F32.maxFinite])
  have e7 : F32.ofInt 360 = .finite 360 := by
    have h := F32.ofInt_of_abs_le 360 (by norm_num)
    simpa using h
  have e8 : F32.ofInt 720 = .finite 720 := by
    have h := F32.ofInt_of_abs_le 720 (by norm_num)
    simpa using h
  have e9 : F32.div (.finite 360) (.finite 720) =
      .finite (1 / 2 ^ 1) := by
    rw [F32.div_finite _ _ (by norm_num)]
    exact F32.ofRat_eval (360 / 720)
      (1 / 2 ^ 1) 8388608 (-24) (by norm_num)
      (Or.inl (by norm_num)) (by norm_num)
      (by norm_num) (by norm_num) (by norm_num) (by norm_num [F32.maxFinite])
  have e10 : F32.sub (.finite 9) (.finite 0) =
      .finite 9 := by
    rw [F32.sub_finite]
    exact F32.ofRat_eval (9 - 0)
      9 9437184 (-20) (by norm_num)
      (Or.inl (by norm_num)) (by norm_num)
      (by norm_num) (by norm_num) (by norm_num) (by norm_num [F32.maxFinite])
  have e11 : F32.mul (.finite (1 / 2 ^ 1)) (.finite 9) =
      .finite (9 / 2 ^ 1) := by
    rw [F32.mul_finite]
    exact F32.ofRat_eval ((1 / 2 ^ 1) * 9)
      (9 / 2 ^ 1) 9437184 (-21) (by norm_num)
      (Or.inl (by norm_num)) (by norm_num)
      (by norm_num) (by norm_num) (by norm_num) (by norm_num [F32.maxFinite])
  have e12 : F32.add (.finite 0) (.finite (9 / 2 ^ 1)) =
      .finite (9 / 2 ^ 1) := by
    rw [F32.add_finite]
    exact F32.ofRat_eval (0 + (9 / 2 ^ 1))
      (9 / 2 ^ 1) 9437184 (-21) (by norm_num)
      (Or.inl (by norm_num)) (by norm_num)
      (by norm_num) (by norm_num) (by norm_num) (by norm_num [F32.maxFinite])
  apply Rounded.Vec2.eq_of_components
  · simp only [Rounded.UIHelper.windowToWorld, Rounded.appHelper, Rounded.UIHelper.new,
      Rounded.UIHelper.onMouseButtonDown, Rounded.Vec2.ofExact, Rounded.Vec2.x_add,
      Rounded.Vec2.x_mul, Rounded.Vec2.x_sub]
    rw [e1, e2, e3, e4, e5, e6]
  · simp only [Rounded.UIHelper.windowToWorld, Rounded.appHelper, Rounded.UIHelper.new,
      Rounded.UIHelper.onMouseButtonDown, Rounded.Vec2.ofExact, Rounded.Vec2.y_add,
      Rounded.Vec2.y_mul, Rounded.Vec2.y_sub]
    rw [show (720 - 1 - 359 : ℤ) = 360 by norm_num, e7, e8, e9, e10, e11, e12]

/-- The world point of the pixel (648, 359) of the application. -/
theorem appHelper_windowToWorld_far :
    Rounded.UIHelper.windowToWorld Rounded.appHelper 648 359 =
      ⟨.finite (52429 / 2 ^ 19), .finite (9 / 2 ^ 1)⟩ := by
  have e1 : F32.ofInt 648 = .finite 648 := by
    have h := F32.ofInt_of_abs_le 648 (by norm_num)
    simpa using h
  have e2 : F32.ofInt 1280 = .finite 1280 := by
    have h := F32.ofInt_of_abs_le 1280 (by norm_num)
    simpa using h
  have e3 : F32.div (.finite 648) (.finite 1280) =
      .finite (4246733 / 2 ^ 23) := by
    rw [F32.div_finite _ _ (by norm_num)]
    exact F32.ofRat_eval (648 / 1280)
      (4246733 / 2 ^ 23) 8493466 (-24) (by norm_num)
      (Or.inl (by norm_num)) (by norm_num)
      (by norm_num) (by norm_num) (by norm_num) (by norm_num [F32.maxFinite])
  have e4 : F32.sub (.finite 8) (.finite (-8)) =
      .finite 16 := by
    rw [F32.sub_finite]
    exact F32.ofRat_eval (8 - (-8))
      16 8388608 (-19) (by norm_num)
      (Or.inl (by norm_num)) (by norm_num)
      (by norm_num) (by norm_num) (by norm_num) (by norm_num [F32.maxFinite])
  have e5 : F32.mul (.finite (4246733 / 2 ^ 23)) (.finite 16) =
      .finite (4246733 / 2 ^ 19) := by
    rw [F32.mul_finite]
    exact F32.ofRat_eval ((4246733 / 2 ^ 23) * 16)
      (4246733 / 2 ^ 19) 8493466 (-20) (by norm_num)
      (Or.inl (by norm_num)) (by norm_num)
      (by norm_num) (by norm_num) (by norm_num) (by norm_num [F32.maxFinite])
  have e6 : F32.add (.finite (-8)) (.finite (4246733 / 2 ^ 19)) =
      .finite (52429 / 2 ^ 19) := by
    rw [F32.add_finite]
    exact F32.ofRat_eval ((-8) + (4246733 / 2 ^ 19))
      (52429 / 2 ^ 19) 13421824 (-27) (by norm_num)
      (Or.inl (by norm_num)) (by norm_num)
      (by norm_num) (by norm_num) (by norm_num) (by norm_num [F32.maxFinite])
  have e7 : F32.ofInt 360 = .finite 360 := by
    have h := F32.ofInt_of_abs_le 360 (by norm_num)
    simpa using h
  have e8 : F32.ofInt 720 = .finite 720 := by
    have h := F32.ofInt_of_abs_le 720 (by norm_num)
    simpa using h
  have e9 : F32.div (.finite 360) (.finite 720) =
      .finite (1 / 2 ^ 1) := by
    rw [F32.div_finite _ _ (by norm_num)]
    exact F32.ofRat_eval (360 / 720)
      (1 / 2 ^ 1) 8388608 (-24) (by norm_num)
      (Or.inl (by norm_num)) (by norm_num)
      (by norm_num) (by norm_num) (by norm_num) (by norm_num [F32.maxFinite])
  have e10 : F32.sub (.finite 9) (.finite 0) =
      .finite 9 := by
    rw [F32.sub_finite]
    exact F32.ofRat_eval (9 - 0)
      9 9437184 (-20) (by norm_num)
      (Or.inl (by norm_num)) (by norm_num)
      (by norm_num) (by norm_num) (by norm_num) (by norm_num [F32.maxFinite])
  have e11 : F32.mul (.finite (1 / 2 ^ 1)) (.finite 9) =
      .finite (9 / 2 ^ 1) := by
    rw [F32.mul_finite]
    exact F32.ofRat_eval ((1 / 2 ^ 1) * 9)
      (9 / 2 ^ 1) 9437184 (-21) (by norm_num)
      (Or.inl (by norm_num)) (by norm_num)
      (by norm_num) (by norm_num) (by norm_num) (by norm_num [F32.maxFinite])
  have e12 : F32.add (.finite 0) (.finite (9 / 2 ^ 1)) =
      .finite (9 / 2 ^ 1) := by
    rw [F32.add_finite]
    exact F32.ofRat_eval (0 + (9 / 2 ^ 1))
      (9 / 2 ^ 1) 9437184 (-21) (by norm_num)
      (Or.inl (by norm_num)) (by norm_num)
      (by norm_num) (by norm_num) (by norm_num) (by norm_num [F32.maxFinite])
  apply Rounded.Vec2.eq_of_components
  · simp only [Rounded.UIHelper.windowToWorld, Rounded.appHelper, Rounded.UIHelper.new,
      Rounded.UIHelper.onMouseButtonDown, Rounded.Vec2.ofExact, Rounded.Vec2.x_add,
      Rounded.Vec2.x_mul, Rounded.Vec2.x_sub]
    rw [e1, e2, e3, e4, e5, e6]
  · simp only [Rounded.UIHelper.windowToWorld, Rounded.appHelper, Rounded.UIHelper.new,
      Rounded.UIHelper.onMouseButtonDown, Rounded.Vec2.ofExact, Rounded.Vec2.y_add,
      Rounded.Vec2.y_mul, Rounded.Vec2.y_sub]
    rw [show (720 - 1 - 359 : ℤ) = 360 by norm_num, e7, e8, e9, e10, e11, e12]

/-- The rounded length of the move from the pixel (640, 710) to the pixel (640, 718) of
the application: exactly the threshold. -/
theorem glmLength_low_move :
    Rounded.glmLength ((⟨.finite 0, .finite (13421773 / 2 ^ 30)⟩ : Rounded.Vec2) -
      ⟨.finite 0, .finite (15099495 / 2 ^ 27)⟩) = .finite (13421773 / 2 ^ 27) := by
  have e1 : F32.sub (.finite 0) (.finite 0) =
      .finite 0 := by
    rw [F32.sub_finite,
      show (0 - 0 : ℚ) = 0 by norm_num]
    exact F32.ofRat_zero
  have e2 : F32.sub (.finite (13421773 / 2 ^ 30)) (.finite (15099495 / 2 ^ 27)) =
      .finite (-(13421773 / 2 ^ 27)) := by
    rw [F32.sub_finite]
    exact F32.ofRat_eval_neg ((13421773 / 2 ^ 30) - (15099495 / 2 ^ 27))
      (-(13421773 / 2 ^ 27)) 13421773 (-27) (by norm_num)
      (Or.inl (by norm_num)) (by norm_num)
      (by norm_num) (by norm_num) (by norm_num) (by norm_num [F32.maxFinite])
  have e3 : F32.mul (.finite 0) (.finite 0) =
      .finite 0 := by
    rw [F32.mul_finite,
      show (0 * 0 : ℚ) = 0 by norm_num]
    exact F32.ofRat_zero
  have e4 : F32.mul (.finite (-(13421773 / 2 ^ 27))) (.finite (-(13421773 / 2 ^ 27))) =
      .finite (10737419 / 2 ^ 30) := by
    rw [F32.mul_finite]
    exact F32.ofRat_eval ((-(13421773 / 2 ^ 27)) * (-(13421773 / 2 ^ 27)))
      (10737419 / 2 ^ 30) 10737419 (-30) (by norm_num)
      (Or.inl (by norm_num)) (by norm_num)
      (by norm_num) (by norm_num) (by norm_num) (by norm_num [F32.maxFinite])
  have e5 : F32.add (.finite 0) (.finite (10737419 / 2 ^ 30)) =
      .finite (10737419 / 2 ^ 30) := by
    rw [F32.add_finite]
    exact F32.ofRat_eval (0 + (10737419 / 2 ^ 30))
      (10737419 / 2 ^ 30) 10737419 (-30) (by norm_num)
      (Or.inl (by norm_num)) (by norm_num)
      (by norm_num) (by norm_num) (by norm_num) (by norm_num [F32.maxFinite])
  have e6 : F32.sqrt (.finite (10737419 / 2 ^ 30)) =
      .finite (13421773 / 2 ^ 27) := by
    exact F32.sqrt_eval (10737419 / 2 ^ 30)
      (13421773 / 2 ^ 27) 13421773 (-27) (-7)
      (by norm_num) (by norm_num) (by norm_num)
      (by norm_num) (by norm_num) (by norm_num) (by norm_num)
  simp only [Rounded.glmLength, Rounded.Vec2.x_sub, Rounded.Vec2.y_sub, e1, e2,
    e3, e4, e5, e6]

/-- The rounded length of the move from the pixel (640, 359) to the pixel (648, 359) of
the application: above the threshold. -/
theorem glmLength_far_move :
    Rounded.glmLength ((⟨.finite (52429 / 2 ^ 19), .finite (9 / 2 ^ 1)⟩ : Rounded.Vec2) -
      ⟨.finite 0, .finite (9 / 2 ^ 1)⟩) = .finite (52429 / 2 ^ 19) := by
  have e1 : F32.sub (.finite (52429 / 2 ^ 19)) (.finite 0) =
      .finite (52429 / 2 ^ 19) := by
    rw [F32.sub_finite]
    exact F32.ofRat_eval ((52429 / 2 ^ 19) - 0)
      (52429 / 2 ^ 19) 13421824 (-27) (by norm_num)
      (Or.inl (by norm_num)) (by norm_num)
      (by norm_num) (by norm_num) (by norm_num) (by norm_num [F32.maxFinite])
  have e2 : F32.sub (.finite (9 / 2 ^ 1)) (.finite (9 / 2 ^ 1)) =
      .finite 0 := by
    rw [F32.sub_finite,
      show ((9 / 2 ^ 1) - (9 / 2 ^ 1) : ℚ) = 0 by norm_num]
    exact F32.ofRat_zero
  have e3 : F32.mul (.finite (52429 / 2 ^ 19)) (.finite (52429 / 2 ^ 19)) =
      .finite (2684375 / 2 ^ 28) := by
    rw [F32.mul_finite]
    exact F32.ofRat_eval ((52429 / 2 ^ 19) * (52429 / 2 ^ 19))
      (2684375 / 2 ^ 28) 10737500 (-30) (by norm_num)
      (Or.inl (by norm_num)) (by norm_num)
      (by norm_num) (by norm_num) (by norm_num) (by norm_num [F32.maxFinite])
  have e4 : F32.mul (.finite 0) (.finite 0) =
      .finite 0 := by
    rw [F32.mul_finite,
      show (0 * 0 : ℚ) = 0 by norm_num]
    exact F32.ofRat_zero
  have e5 : F32.add (.finite (2684375 / 2 ^ 28)) (.finite 0) =
      .finite (2684375 / 2 ^ 28) := by
    rw [F32.add_finite]
    exact F32.ofRat_eval ((2684375 / 2 ^ 28) + 0)
      (2684375 / 2 ^ 28) 10737500 (-30) (by norm_num)
      (Or.inl (by norm_num)) (by norm_num)
      (by norm_num) (by norm_num) (by norm_num) (by norm_num [F32.maxFinite])
  have e6 : F32.sqrt (.finite (2684375 / 2 ^ 28)) =
      .finite (52429 / 2 ^ 19) := by
    exact F32.sqrt_eval (2684375 / 2 ^ 28)
      (52429 / 2 ^ 19) 13421824 (-27) (-7)
      (by norm_num) (by norm_num) (by norm_num)
      (by norm_num) (by norm_num) (by norm_num) (by norm_num)
  simp only [Rounded.glmLength, Rounded.Vec2.x_sub, Rounded.Vec2.y_sub, e1, e2,
    e3, e4, e5, e6]

/-- The world point of the pixel (0, 0) of the coarse controller. -/
theorem coarseHelper_windowToWorld :
    Rounded.UIHelper.windowToWorld Rounded.coarseHelper 0 0 =
      ⟨.finite 20905, .finite 10728⟩ := by
  have e1 : F32.ofInt 0 = .finite 0 := by
    have h := F32.ofInt_of_abs_le 0 (by norm_num)
    simpa using h
  have e2 : F32.ofInt 1 = .finite 1 := by
    have h := F32.ofInt_of_abs_le 1 (by norm_num)
    simpa using h
  have e3 : F32.div (.finite 0) (.finite 1) =
      .finite 0 := by
    rw [F32.div_finite _ _ (by norm_num),
      show (0 / 1 : ℚ) = 0 by norm_num]
    exact F32.ofRat_zero
  have e4 : F32.sub (.finite 20906) (.finite 20905) =
      .finite 1 := by
    rw [F32.sub_finite]
    exact F32.ofRat_eval (20906 - 20905)
      1 8388608 (-23) (by norm_num)
      (Or.inl (by norm_num)) (by norm_num)
      (by norm_num) (by norm_num) (by norm_num) (by norm_num [F32.maxFinite])
  have e5 : F32.mul (.finite 0) (.finite 1) =
      .finite 0 := by
    rw [F32.mul_finite,
      show (0 * 1 : ℚ) = 0 by norm_num]
    exact F32.ofRat_zero
  have e6 : F32.add (.finite 20905) (.finite 0) =
      .finite 20905 := by
    rw [F32.add_finite]
    exact F32.ofRat_eval (20905 + 0)
      20905 10703360 (-9) (by norm_num)
      (Or.inl (by norm_num)) (by norm_num)
      (by norm_num) (by norm_num) (by norm_num) (by norm_num [F32.maxFinite])
  have e7 : F32.ofInt 0 = .finite 0 := by
    have h := F32.ofInt_of_abs_le 0 (by norm_num)
    simpa using h
  have e8 : F32.ofInt 1 = .finite 1 := by
    have h := F32.ofInt_of_abs_le 1 (by norm_num)
    simpa using h
  have e9 : F32.div (.finite 0) (.finite 1) =
      .finite 0 := by
    rw [F32.div_finite _ _ (by norm_num),
      show (0 / 1 : ℚ) = 0 by norm_num]
    exact F32.ofRat_zero
  have e10 : F32.sub (.finite 10729) (.finite 10728) =
      .finite 1 := by
    rw [F32.sub_finite]
    exact F32.ofRat_eval (10729 - 10728)
      1 8388608 (-23) (by norm_num)
      (Or.inl (by norm_num)) (by norm_num)
      (by norm_num) (by norm_num) (by norm_num) (by norm_num [F32.maxFinite])
  have e11 : F32.mul (.finite 0) (.finite 1) =
      .finite 0 := by
    rw [F32.mul_finite,
      show (0 * 1 : ℚ) = 0 by norm_num]
    exact F32.ofRat_zero
  have e12 : F32.add (.finite 10728) (.finite 0) =
      .finite 10728 := by
    rw [F32.add_finite]
    exact F32.ofRat_eval (10728 + 0)
      10728 10985472 (-10) (by norm_num)
      (Or.inl (by norm_num)) (by norm_num)
      (by norm_num) (by norm_num) (by norm_num) (by norm_num [F32.maxFinite])
  apply Rounded.Vec2.eq_of_components
  · simp only [Rounded.UIHelper.windowToWorld, Rounded.coarseHelper, Rounded.UIHelper.new,
      Rounded.UIHelper.onMouseButtonDown, Rounded.Vec2.ofExact, Rounded.Vec2.x_add,
      Rounded.Vec2.x_mul, Rounded.Vec2.x_sub]
    rw [e1, e2, e3, e4, e5, e6]
  · simp only [Rounded.UIHelper.windowToWorld, Rounded.coarseHelper, Rounded.UIHelper.new,
      Rounded.UIHelper.onMouseButtonDown, Rounded.Vec2.ofExact, Rounded.Vec2.y_add,
      Rounded.Vec2.y_mul, Rounded.Vec2.y_sub]
    rw [show (1 - 1 - 0 : ℤ) = 0 by norm_num, e7, e8, e9, e10, e11, e12]

/-- The world point of the last pixel of the wide window. -/
theorem wideHelper_windowToWorld :
    Rounded.UIHelper.windowToWorld Rounded.wideHelper 33554431 0 =
      ⟨.finite (1 / 2 ^ 23), .finite 0⟩ := by
  have e1 : F32.ofInt 33554431 = .finite 33554432 := by
    unfold F32.ofInt
    exact F32.ofRat_eval_tie (((33554431 : ℤ) : ℚ))
      33554432 16777216 (1) (by norm_num)
      (Or.inl (by norm_num)) (by norm_num)
      (Or.inr (by norm_num)) (by norm_num) (by norm_num) (by norm_num [F32.maxFinite])
  have e2 : F32.ofInt 33554432 = .finite 33554432 := by
    unfold F32.ofInt
    exact F32.ofRat_eval (((33554432 : ℤ) : ℚ))
      33554432 8388608 (2) (by norm_num)
      (Or.inl (by norm_num)) (by norm_num)
      (by norm_num) (by norm_num) (by norm_num) (by norm_num [F32.maxFinite])
  have e3 : F32.div (.finite 33554432) (.finite 33554432) =
      .finite 1 := by
    rw [F32.div_finite _ _ (by norm_num)]
    exact F32.ofRat_eval (33554432 / 33554432)
      1 8388608 (-23) (by norm_num)
      (Or.inl (by norm_num)) (by norm_num)
      (by norm_num) (by norm_num) (by norm_num) (by norm_num [F32.maxFinite])
  have e4 : F32.sub (.finite (3 / 2 ^ 25)) (.finite (-1)) =
      .finite (8388609 / 2 ^ 23) := by
    rw [F32.sub_finite]
    exact F32.ofRat_eval ((3 / 2 ^ 25) - (-1))
      (8388609 / 2 ^ 23) 8388609 (-23) (by norm_num)
      (Or.inl (by norm_num)) (by norm_num)
      (by norm_num) (by norm_num) (by norm_num) (by norm_num [F32.maxFinite])
  have e5 : F32.mul (.finite 1) (.finite (8388609 / 2 ^ 23)) =
      .finite (8388609 / 2 ^ 23) := by
    rw [F32.mul_finite]
    exact F32.ofRat_eval (1 * (8388609 / 2 ^ 23))
      (8388609 / 2 ^ 23) 8388609 (-23) (by norm_num)
      (Or.inl (by norm_num)) (by norm_num)
      (by norm_num) (by norm_num) (by norm_num) (by norm_num [F32.maxFinite])
  have e6 : F32.add (.finite (-1)) (.finite (8388609 / 2 ^ 23)) =
      .finite (1 / 2 ^ 23) := by
    rw [F32.add_finite]
    exact F32.ofRat_eval ((-1) + (8388609 / 2 ^ 23))
      (1 / 2 ^ 23) 8388608 (-46) (by norm_num)
      (Or.inl (by norm_num)) (by norm_num)
      (by norm_num) (by norm_num) (by norm_num) (by norm_num [F32.maxFinite])
  have e7 : F32.ofInt 0 = .finite 0 := by
    have h := F32.ofInt_of_abs_le 0 (by norm_num)
    simpa using h
  have e8 : F32.ofInt 1 = .finite 1 := by
    have h := F32.ofInt_of_abs_le 1 (by norm_num)
    simpa using h
  have e9 : F32.div (.finite 0) (.finite 1) =
      .finite 0 := by
    rw [F32.div_finite _ _ (by norm_num),
      show (0 / 1 : ℚ) = 0 by norm_num]
    exact F32.ofRat_zero
  have e10 : F32.sub (.finite 1) (.finite 0) =
      .finite 1 := by
    rw [F32.sub_finite]
    exact F32.ofRat_eval (1 - 0)
      1 8388608 (-23) (by norm_num)
      (Or.inl (by norm_num)) (by norm_num)
      (by norm_num) (by norm_num) (by norm_num) (by norm_num [F32.maxFinite])
  have e11 : F32.mul (.finite 0) (.finite 1) =
      .finite 0 := by
    rw [F32.mul_finite,
      show (0 * 1 : ℚ) = 0 by norm_num]
    exact F32.ofRat_zero
  have e12 : F32.add (.finite 0) (.finite 0) =
      .finite 0 := by
    rw [F32.add_finite,
      show (0 + 0 : ℚ) = 0 by norm_num]
    exact F32.ofRat_zero
  apply Rounded.Vec2.eq_of_components
  · simp only [Rounded.UIHelper.windowToWorld, Rounded.wideHelper, Rounded.UIHelper.new,
      Rounded.UIHelper.onMouseButtonDown, Rounded.Vec2.ofExact, Rounded.Vec2.x_add,
      Rounded.Vec2.x_mul, Rounded.Vec2.x_sub]
    rw [e1, e2, e3, e4, e5, e6]
  · simp only [Rounded.UIHelper.windowToWorld, Rounded.wideHelper, Rounded.UIHelper.new,
      Rounded.UIHelper.onMouseButtonDown, Rounded.Vec2.ofExact, Rounded.Vec2.y_add,
      Rounded.Vec2.y_mul, Rounded.Vec2.y_sub]
    rw [show (1 - 1 - 0 : ℤ) = 0 by norm_num, e7, e8, e9, e10, e11, e12]

/-- The world point of the last pixel of a window of `2 ^ 24 + 1` pixels in width: the width
and the pixel number convert to the same value. -/
theorem tightHelper_windowToWorld :
    Rounded.UIHelper.windowToWorld Rounded.tightHelper 16777216 0 =
      ⟨.finite (1 / 2 ^ 23), .finite 0⟩ := by
  have e1 : F32.ofInt 16777216 = .finite 16777216 := by
    have h := F32.ofInt_of_abs_le 16777216 (by norm_num)
    simpa using h
  have e2 : F32.ofInt 16777217 = .finite 16777216 := by
    unfold F32.ofInt
    exact F32.ofRat_eval_tie (((16777217 : ℤ) : ℚ))
      16777216 8388608 (1) (by norm_num)
      (Or.inl (by norm_num)) (by norm_num)
      (Or.inl (by norm_num)) (by norm_num) (by norm_num) (by norm_num [F32.maxFinite])
  have e3 : F32.div (.finite 16777216) (.finite 16777216) =
      .finite 1 := by
    rw [F32.div_finite _ _ (by norm_num)]
    exact F32.ofRat_eval (16777216 / 16777216)
      1 8388608 (-23) (by norm_num)
      (Or.inl (by norm_num)) (by norm_num)
      (by norm_num) (by norm_num) (by norm_num) (by norm_num [F32.maxFinite])
  have e4 : F32.sub (.finite (3 / 2 ^ 25)) (.finite (-1)) =
      .finite (8388609 / 2 ^ 23) := by
    rw [F32.sub_finite]
    exact F32.ofRat_eval ((3 / 2 ^ 25) - (-1))
      (8388609 / 2 ^ 23) 8388609 (-23) (by norm_num)
      (Or.inl (by norm_num)) (by norm_num)
      (by norm_num) (by norm_num) (by norm_num) (by norm_num [F32.maxFinite])
  have e5 : F32.mul (.finite 1) (.finite (8388609 / 2 ^ 23)) =
      .finite (8388609 / 2 ^ 23) := by
    rw [F32.mul_finite]
    exact F32.ofRat_eval (1 * (8388609 / 2 ^ 23))
      (8388609 / 2 ^ 23) 8388609 (-23) (by norm_num)
      (Or.inl (by norm_num)) (by norm_num)
      (by norm_num) (by norm_num) (by norm_num) (by norm_num [F32.maxFinite])
  have e6 : F32.add (.finite (-1)) (.finite (8388609 / 2 ^ 23)) =
      .finite (1 / 2 ^ 23) := by
    rw [F32.add_finite]
    exact F32.ofRat_eval ((-1) + (8388609 / 2 ^ 23))
      (1 / 2 ^ 23) 8388608 (-46) (by norm_num)
      (Or.inl (by norm_num)) (by norm_num)
      (by norm_num) (by norm_num) (by norm_num) (by norm_num [F32.maxFinite])
  have e7 : F32.ofInt 0 = .finite 0 := by
    have h := F32.ofInt_of_abs_le 0 (by norm_num)
    simpa using h
  have e8 : F32.ofInt 1 = .finite 1 := by
    have h := F32.ofInt_of_abs_le 1 (by norm_num)
    simpa using h
  have e9 : F32.div (.finite 0) (.finite 1) =
      .finite 0 := by
    rw [F32.div_finite _ _ (by norm_num),
      show (0 / 1 : ℚ) = 0 by norm_num]
    exact F32.ofRat_zero
  have e10 : F32.sub (.finite 1) (.finite 0) =
      .finite 1 := by
    rw [F32.sub_finite]
    exact F32.ofRat_eval (1 - 0)
      1 8388608 (-23) (by norm_num)
      (Or.inl (by norm_num)) (by norm_num)
      (by norm_num) (by norm_num) (by norm_num) (by norm_num [F32.maxFinite])
  have e11 : F32.mul (.finite 0) (.finite 1) =
      .finite 0 := by
    rw [F32.mul_finite,
      show (0 * 1 : ℚ) = 0 by norm_num]
    exact F32.ofRat_zero
  have e12 : F32.add (.finite 0) (.finite 0) =
      .finite 0 := by
    rw [F32.add_finite,
      show (0 + 0 : ℚ) = 0 by norm_num]
    exact F32.ofRat_zero
  apply Rounded.Vec2.eq_of_components
  · simp only [Rounded.UIHelper.windowToWorld, Rounded.tightHelper, Rounded.UIHelper.new,
      Rounded.UIHelper.onMouseButtonDown, Rounded.Vec2.ofExact, Rounded.Vec2.x_add,
      Rounded.Vec2.x_mul, Rounded.Vec2.x_sub]
    rw [e1, e2, e3, e4, e5, e6]
  · simp only [Rounded.UIHelper.windowToWorld, Rounded.tightHelper, Rounded.UIHelper.new,
      Rounded.UIHelper.onMouseButtonDown, Rounded.Vec2.ofExact, Rounded.Vec2.y_add,
      Rounded.Vec2.y_mul, Rounded.Vec2.y_sub]
    rw [show (1 - 1 - 0 : ℤ) = 0 by norm_num, e7, e8, e9, e10, e11, e12]

/-! ## Pointer moves while drawing, in binary32 -/

/-- The value of `edgeMin` after construction: the `double` literal `0.1` converted to
`float`. -/
theorem ofRat_tenth : F32.ofRat Rounded.doubleTenth = .finite (13421773 / 2 ^ 27) :=
  F32.ofRat_eval Rounded.doubleTenth (13421773 / 2 ^ 27) 13421773 (-27) (by norm_num)
    (Or.inl (by norm_num [Rounded.doubleTenth])) (by norm_num [Rounded.doubleTenth])
    (by norm_num [Rounded.doubleTenth]) (by norm_num [Rounded.doubleTenth]) (by norm_num)
    (by norm_num [F32.maxFinite])

/-- The test of `UIHelper::onMouseMotion` in `DrawMode`, for finite points. -/
theorem onMouseMotion_draw_rounded (h : Rounded.UIHelper) (e : SDL_MouseMotionEvent)
    (last q : Vec2) (E : ℚ) (hmode : h.dragMode = .DrawMode) (hdown : h.mouseDown = true)
    (hlast : h.polyline.getLast? = some (.ofExact last))
    (hq : h.windowToWorld e.x e.y = .ofExact q) (hE : h.edgeMin = .finite E) :
    h.onMouseMotion e =
      some (if F32.gt (Rounded.glmLength ⟨F32.ofRat (q.x - last.x), F32.ofRat (q.y - last.y)⟩)
          (.finite E) = true
        then { h with polyline := h.polyline ++ [.ofExact q] } else h, []) := by
  have hsub : (Rounded.Vec2.ofExact q - Rounded.Vec2.ofExact last) =
      ⟨F32.ofRat (q.x - last.x), F32.ofRat (q.y - last.y)⟩ := by
    apply Rounded.Vec2.eq_of_components
    · simp only [Rounded.Vec2.x_sub, Rounded.Vec2.ofExact, F32.sub_finite]
    · simp only [Rounded.Vec2.y_sub, Rounded.Vec2.ofExact, F32.sub_finite]
  simp only [Rounded.UIHelper.onMouseMotion, hdown, hmode, hlast, hq, hE, hsub]
  by_cases hg : F32.gt (Rounded.glmLength ⟨F32.ofRat (q.x - last.x), F32.ofRat (q.y - last.y)⟩)
      (.finite E) = true
  · simp [hg]
  · simp [hg]

/-- C4: in `DrawMode` with the button down and a non-empty accumulator, a pointer move to
the finite world point `q` issues no call and either appends `q` or leaves the controller
unchanged, as the rounded length of the rounded offset from the last accumulated point is
above `edgeMin` or not.  For a threshold `edgeMin` between `2 ^ (-60)` and `2 ^ 60`, `q` is appended when
its Euclidean distance from the last accumulated point is at least
`edgeMin * (1 + 2 ^ (-22))` and is not appended when the distance is at most
`edgeMin * (1 - 2 ^ (-22))`; the threshold after construction is the literal `0.1` converted to `float`,
and with it a point at distance at most 0.05 is not appended. -/
theorem onMouseMotion_draw_appends_within_rounding (h : Rounded.UIHelper)
    (e : SDL_MouseMotionEvent) (last q : Vec2) (E : ℚ)
    (hmode : h.dragMode = .DrawMode) (hdown : h.mouseDown = true)
    (hlast : h.polyline.getLast? = some (.ofExact last))
    (hq : h.windowToWorld e.x e.y = .ofExact q) (hE : h.edgeMin = .finite E)
    (hE1 : (2 : ℚ) ^ (-60 : ℤ) ≤ E) (hE2 : E ≤ 2 ^ (60 : ℤ))
    (hl : F32.IsFinite last.x ∧ F32.IsFinite last.y) :
    (h.onMouseMotion e = some ({ h with polyline := h.polyline ++ [.ofExact q] }, []) ∨
      h.onMouseMotion e = some (h, [])) ∧
    (((E * (1 + 2 ^ (-22 : ℤ)) : ℚ) : ℝ)
        ≤ Real.sqrt (((q.x - last.x : ℚ) : ℝ) ^ 2 + ((q.y - last.y : ℚ) : ℝ) ^ 2) →
      h.onMouseMotion e = some ({ h with polyline := h.polyline ++ [.ofExact q] }, [])) ∧
    (Real.sqrt (((q.x - last.x : ℚ) : ℝ) ^ 2 + ((q.y - last.y : ℚ) : ℝ) ^ 2)
        ≤ ((E * (1 - 2 ^ (-22 : ℤ)) : ℚ) : ℝ) →
      h.onMouseMotion e = some (h, [])) ∧
    (Rounded.UIHelper.new h.worldMin h.worldMax h.width h.height).edgeMin =
      .finite (13421773 / 2 ^ 27) ∧
    (E = 13421773 / 2 ^ 27 →
      Real.sqrt (((q.x - last.x : ℚ) : ℝ) ^ 2 + ((q.y - last.y : ℚ) : ℝ) ^ 2)
        ≤ ((1 / 20 : ℚ) : ℝ) →
      h.onMouseMotion e = some (h, [])) ∧
    h.onMouseMotion e =
      some (if F32.gt (Rounded.glmLength ⟨F32.ofRat (q.x - last.x), F32.ofRat (q.y - last.y)⟩)
          (.finite E) = true
        then { h with polyline := h.polyline ++ [.ofExact q] } else h, []) := by
  have hval := onMouseMotion_draw_rounded h e last q E hmode hdown hlast hq hE
  have hE0 : 0 < E := lt_of_lt_of_le (F32.two_zpow_pos _) hE1
  -- the point is a finite binary32 value, being the result of an addition
  have hqx : F32.IsFinite q.x := by
    have := congrArg Rounded.Vec2.x hq
    simp only [Rounded.UIHelper.windowToWorld, Rounded.Vec2.x_add, Rounded.Vec2.ofExact] at this
    exact F32.isFinite_of_add_eq this
  have hqy : F32.IsFinite q.y := by
    have := congrArg Rounded.Vec2.y hq
    simp only [Rounded.UIHelper.windowToWorld, Rounded.Vec2.y_add, Rounded.Vec2.ofExact] at this
    exact F32.isFinite_of_add_eq this
  have ha := F32.rne_sub_rel hqx.1 hl.1.1
  have hb := F32.rne_sub_rel hqy.1 hl.2.1
  have hlo : (0 : ℚ) ≤ E * (1 - 2 ^ (-22 : ℤ)) := mul_nonneg hE0.le (by norm_num)
  have hhi : (0 : ℚ) ≤ E * (1 + 2 ^ (-22 : ℤ)) := mul_nonneg hE0.le (by norm_num)
  have far : ((E * (1 + 2 ^ (-22 : ℤ)) : ℚ) : ℝ)
        ≤ Real.sqrt (((q.x - last.x : ℚ) : ℝ) ^ 2 + ((q.y - last.y : ℚ) : ℝ) ^ 2) →
      h.onMouseMotion e = some ({ h with polyline := h.polyline ++ [.ofExact q] }, []) := by
    intro hd
    have hsq := (F32.le_sqrt_iff_sq _ _ _ hhi).mp hd
    rw [hval]
    rcases F32.glmLength_ofRat_cases (q.x - last.x) (q.y - last.y) with hinf | hfin
    · rw [hinf]; rfl
    · rw [hfin]
      have := F32.lt_lengthRne ha hb hE1 hsq
      simp [F32.gt, F32.lt, this]
  have near : Real.sqrt (((q.x - last.x : ℚ) : ℝ) ^ 2 + ((q.y - last.y : ℚ) : ℝ) ^ 2)
        ≤ ((E * (1 - 2 ^ (-22 : ℤ)) : ℚ) : ℝ) →
      h.onMouseMotion e = some (h, []) := by
    intro hd
    have hsq := (F32.sqrt_le_iff_sq _ _ _ hlo).mp hd
    obtain ⟨h1, h2⟩ := F32.abs_le_of_sq_add_sq_le hlo hsq
    have hle : E * (1 - 2 ^ (-22 : ℤ)) ≤ 2 ^ (61 : ℤ) := by
      have : E * (1 - 2 ^ (-22 : ℤ)) ≤ E * 1 := mul_le_mul_of_nonneg_left (by norm_num) hE0.le
      have h60 : (2 : ℚ) ^ (60 : ℤ) ≤ 2 ^ (61 : ℤ) := by norm_num
      linarith
    rw [hval, F32.glmLength_ofRat_finite (le_trans h1 hle) (le_trans h2 hle)]
    have := F32.lengthRne_le ha hb hE1 hsq
    simp [F32.gt, F32.lt, not_lt.mpr this]
  refine ⟨?_, far, near, ?_, ?_, hval⟩
  · rw [hval]
    by_cases hg : F32.gt (Rounded.glmLength
        ⟨F32.ofRat (q.x - last.x), F32.ofRat (q.y - last.y)⟩) (.finite E) = true
    · left; simp [hg]
    · right; simp [hg]
  · exact ofRat_tenth
  · intro hEq hd
    apply near
    refine le_trans hd ?_
    rw [hEq]
    have : ((1 / 20 : ℚ)) ≤ 13421773 / 2 ^ 27 * (1 - 2 ^ (-22 : ℤ)) := by norm_num
    exact_mod_cast this

/-! ### The sample strokes -/

theorem Rounded.windowToWorld_congr (h g : Rounded.UIHelper) (x y : Int)
    (h1 : h.worldMin = g.worldMin) (h2 : h.worldMax = g.worldMax) (h3 : h.width = g.width)
    (h4 : h.height = g.height) : h.windowToWorld x y = g.windowToWorld x y := by
  unfold Rounded.UIHelper.windowToWorld
  rw [h1, h2, h3, h4]

theorem lowStroke_eq :
    Rounded.lowStroke = { Rounded.appHelper with
      mouseDown := true, polyline := [⟨.finite 0, .finite (15099495 / 2 ^ 27)⟩] } := by
  have h := appHelper_windowToWorld_low
  have e : Rounded.UIHelper.windowToWorld { Rounded.appHelper with mouseDown := true } 640 710 =
      Rounded.UIHelper.windowToWorld Rounded.appHelper 640 710 :=
    Rounded.windowToWorld_congr _ _ _ _ rfl rfl rfl rfl
  simp only [Rounded.lowStroke, Rounded.UIHelper.onMouseButtonDown, e, h]
  rfl

theorem midStroke_eq :
    Rounded.midStroke = { Rounded.appHelper with
      mouseDown := true, polyline := [⟨.finite 0, .finite (9 / 2)⟩] } := by
  have h := appHelper_windowToWorld_mid
  have e : Rounded.UIHelper.windowToWorld { Rounded.appHelper with mouseDown := true } 640 359 =
      Rounded.UIHelper.windowToWorld Rounded.appHelper 640 359 :=
    Rounded.windowToWorld_congr _ _ _ _ rfl rfl rfl rfl
  simp only [Rounded.midStroke, Rounded.UIHelper.onMouseButtonDown, e, h]
  rfl

theorem appHelper_edgeMin : Rounded.appHelper.edgeMin = .finite (13421773 / 2 ^ 27) :=
  ofRat_tenth

/-- C4, as stated, fails in binary32.  In the application, after a pointer-down at the pixel
(640, 710) a move to the pixel (640, 718) is not appended although the distance between
the two world points exceeds `edgeMin`; and with the threshold 23497 a move from the
origin to the point (20905, 10728), at distance exactly 23497, is appended. -/
theorem onMouseMotion_test_differs_from_distance :
    (Rounded.lowStroke.dragMode = .DrawMode ∧ Rounded.lowStroke.mouseDown = true ∧
      Rounded.lowStroke.polyline = [⟨.finite 0, .finite (15099495 / 2 ^ 27)⟩] ∧
      Rounded.lowStroke.edgeMin = .finite (13421773 / 2 ^ 27) ∧
      Rounded.lowStroke.windowToWorld 640 718 = ⟨.finite 0, .finite (13421773 / 2 ^ 30)⟩ ∧
      ((13421773 / 2 ^ 27 : ℚ) : ℝ) < Real.sqrt (((0 - 0 : ℚ) : ℝ) ^ 2 +
        ((13421773 / 2 ^ 30 - 15099495 / 2 ^ 27 : ℚ) : ℝ) ^ 2) ∧
      Rounded.lowStroke.onMouseMotion ⟨640, 718⟩ = some (Rounded.lowStroke, [])) ∧
    (Rounded.coarseHelper.dragMode = .DrawMode ∧ Rounded.coarseHelper.mouseDown = true ∧
      Rounded.coarseHelper.polyline = [⟨.finite 0, .finite 0⟩] ∧
      Rounded.coarseHelper.edgeMin = .finite 23497 ∧
      Rounded.coarseHelper.windowToWorld 0 0 = ⟨.finite 20905, .finite 10728⟩ ∧
      Real.sqrt (((20905 - 0 : ℚ) : ℝ) ^ 2 + ((10728 - 0 : ℚ) : ℝ) ^ 2) = ((23497 : ℚ) : ℝ) ∧
      Rounded.coarseHelper.onMouseMotion ⟨0, 0⟩ =
        some ({ Rounded.coarseHelper with
          polyline := [⟨.finite 0, .finite 0⟩, ⟨.finite 20905, .finite 10728⟩] }, [])) := by
  have hw : Rounded.lowStroke.windowToWorld 640 718 =
      ⟨.finite 0, .finite (13421773 / 2 ^ 30)⟩ := by
    rw [lowStroke_eq]
    exact (Rounded.windowToWorld_congr _ _ _ _ rfl rfl rfl rfl).trans appHelper_windowToWorld_lower
  refine ⟨⟨by rw [lowStroke_eq]; rfl, by rw [lowStroke_eq], by rw [lowStroke_eq], ?_, hw, ?_, ?_⟩,
    ⟨rfl, rfl, rfl, rfl, coarseHelper_windowToWorld, ?_, ?_⟩⟩
  · rw [lowStroke_eq]; exact appHelper_edgeMin
  · rw [Real.lt_sqrt (by norm_num)]
    norm_num
  · have hp : Rounded.lowStroke.polyline.getLast? =
        some ⟨.finite 0, .finite (15099495 / 2 ^ 27)⟩ := by
      rw [lowStroke_eq]; rfl
    have hd : Rounded.lowStroke.mouseDown = true := by rw [lowStroke_eq]
    have hm : Rounded.lowStroke.dragMode = .DrawMode := by rw [lowStroke_eq]; rfl
    have he : Rounded.lowStroke.edgeMin = .finite (13421773 / 2 ^ 27) := by
      rw [lowStroke_eq]; exact appHelper_edgeMin
    simp only [Rounded.UIHelper.onMouseMotion, hd, hm, hp, hw, he, glmLength_low_move]
    simp [F32.gt, F32.lt]
  · have : ((20905 - 0 : ℚ) : ℝ) ^ 2 + ((10728 - 0 : ℚ) : ℝ) ^ 2 = ((23497 : ℚ) : ℝ) ^ 2 := by
      norm_num
    rw [this]
    exact Real.sqrt_sq (by norm_num)
  · have hp : Rounded.coarseHelper.polyline.getLast? = some ⟨.finite 0, .finite 0⟩ := rfl
    have hd : Rounded.coarseHelper.mouseDown = true := rfl
    have hm : Rounded.coarseHelper.dragMode = .DrawMode := rfl
    have he : Rounded.coarseHelper.edgeMin = .finite 23497 := rfl
    simp only [Rounded.UIHelper.onMouseMotion, hd, hm, hp, coarseHelper_windowToWorld, he,
      glmLength_point_on_boundary]
    simp [F32.gt, F32.lt, Rounded.coarseHelper, Rounded.Vec2.ofExact]
    norm_num

/-- A number of at least `2 ^ 128` rounds to the positive infinity. -/
theorem F32.ofRat_overflow {q : ℚ} (h : (2 : ℚ) ^ (128 : ℤ) ≤ q) : F32.ofRat q = .inf false := by
  have h1 : (2 : ℚ) ^ (128 : ℤ) ≤ F32.rne q :=
    F32.le_rne_of_le (F32.two_pow_rep 128 (by norm_num)) h
  have hq : ¬ q < 0 := not_lt.mpr (le_trans (F32.two_zpow_pos _).le h)
  have h2 : F32.maxFinite < (2 : ℚ) ^ (128 : ℤ) := by unfold F32.maxFinite; norm_num
  have h3 : ¬ |F32.rne q| ≤ F32.maxFinite := by
    rw [not_le]
    exact lt_of_lt_of_le h2 (le_trans h1 (le_abs_self _))
  unfold F32.ofRat
  rw [if_neg h3]
  simp [hq]

/-- The point (2 ^ 99, 0): the square overflows and the rounded length of the offset from
the origin is infinite. -/
theorem glmLength_point_overflow :
    Rounded.glmLength ((⟨.finite (2 ^ 99), .finite 0⟩ : Rounded.Vec2) - ⟨.finite 0, .finite 0⟩) =
      .inf false := by
  have e1 : F32.sub (.finite (2 ^ 99)) (.finite 0) = .finite (2 ^ 99) := by
    rw [F32.sub_finite, sub_zero]
    exact F32.ofRat_of_isFinite
      (F32.isFinite_of_int_pow 1 99 (by norm_num) (by norm_num) (by norm_num) (by norm_num))
  have e2 : F32.sub (.finite 0) (.finite 0) = .finite 0 := by
    rw [F32.sub_finite, sub_zero]; exact F32.ofRat_zero
  have e3 : F32.mul (.finite (2 ^ 99)) (.finite (2 ^ 99)) = .inf false := by
    rw [F32.mul_finite]
    exact F32.ofRat_overflow (by norm_num)
  have e4 : F32.mul (.finite 0) (.finite 0) = .finite 0 := by
    rw [F32.mul_finite, mul_zero]; exact F32.ofRat_zero
  simp only [Rounded.glmLength, Rounded.Vec2.x_sub, Rounded.Vec2.y_sub, e1, e2, e3, e4]
  rfl

/-- C1, as stated, fails in binary32: the point (0.3f, 0.4f) lies strictly outside the circle of
radius 1/2 about the origin and is contained; the point (20905, 10728) lies on the circle
of radius 23497 about the origin and is not contained; for the radius `2 ^ 100` the point
(2 ^ 99, 0), well inside, is not contained, and for the radius `2 ^ (-80)` the point
(2 ^ (-79), 0), well outside, is contained. -/
theorem circle_contains_differs_from_distance :
    (F32.IsFinite (5033165 / 2 ^ 24) ∧ F32.IsFinite (13421773 / 2 ^ 25) ∧
      (⟨⟨.finite 0, .finite 0⟩, .finite (1 / 2), none⟩ : Rounded.Circle).contains
        ⟨.finite (5033165 / 2 ^ 24), .finite (13421773 / 2 ^ 25)⟩ = true ∧
      ((1 / 2 : ℚ) : ℝ) < Real.sqrt (((5033165 / 2 ^ 24 - 0 : ℚ) : ℝ) ^ 2 +
        ((13421773 / 2 ^ 25 - 0 : ℚ) : ℝ) ^ 2)) ∧
    ((⟨⟨.finite 0, .finite 0⟩, .finite 23497, none⟩ : Rounded.Circle).contains
        ⟨.finite 20905, .finite 10728⟩ = false ∧
      Real.sqrt (((20905 - 0 : ℚ) : ℝ) ^ 2 + ((10728 - 0 : ℚ) : ℝ) ^ 2) = ((23497 : ℚ) : ℝ)) ∧
    ((⟨⟨.finite 0, .finite 0⟩, .finite (2 ^ 100), none⟩ : Rounded.Circle).contains
        ⟨.finite (2 ^ 99), .finite 0⟩ = false ∧
      Real.sqrt (((2 ^ 99 - 0 : ℚ) : ℝ) ^ 2 + ((0 - 0 : ℚ) : ℝ) ^ 2)
        ≤ ((2 ^ 100 * (1 - 2 ^ (-22 : ℤ)) : ℚ) : ℝ)) ∧
    ((⟨⟨.finite 0, .finite 0⟩, .finite (1 / 2 ^ 80), none⟩ : Rounded.Circle).contains
        ⟨.finite (1 / 2 ^ 79), .finite 0⟩ = true ∧
      ((1 / 2 ^ 80 * (1 + 2 ^ (-22 : ℤ)) : ℚ) : ℝ)
        ≤ Real.sqrt (((1 / 2 ^ 79 - 0 : ℚ) : ℝ) ^ 2 + ((0 - 0 : ℚ) : ℝ) ^ 2)) := by
  refine ⟨⟨?_, ?_, ?_, ?_⟩, ⟨?_, ?_⟩, ⟨?_, ?_⟩, ⟨?_, ?_⟩⟩
  · exact F32.isFinite_of_int_pow 5033165 (-24) (by norm_num) (by norm_num) (by norm_num)
      (by norm_num)
  · exact F32.isFinite_of_int_pow 13421773 (-25) (by norm_num) (by norm_num) (by norm_num)
      (by norm_num)
  · simp only [Rounded.Circle.contains, glmLength_point_outside]
    simp [F32.le]
  · rw [Real.lt_sqrt (by norm_num)]
    norm_num
  · simp only [Rounded.Circle.contains, glmLength_point_on_boundary]
    simp [F32.le]
    norm_num
  · have : ((20905 - 0 : ℚ) : ℝ) ^ 2 + ((10728 - 0 : ℚ) : ℝ) ^ 2 = ((23497 : ℚ) : ℝ) ^ 2 := by
      norm_num
    rw [this]
    exact Real.sqrt_sq (by norm_num)
  · simp only [Rounded.Circle.contains, glmLength_point_overflow]
    rfl
  · rw [Real.sqrt_le_left (by norm_num)]
    norm_num
  · simp only [Rounded.Circle.contains, glmLength_point_underflow]
    simp [F32.le]
  · rw [Real.le_sqrt (by norm_num) (by norm_num)]
    norm_num

/-- C1, at the circle of radius 6 about the origin and the point (3, 4), at distance 5. -/
theorem circle_contains_within_rounding_witness :
    (F32.IsFinite (0 : ℚ) ∧ F32.IsFinite (3 : ℚ) ∧ F32.IsFinite (4 : ℚ)) ∧
    ((2 : ℚ) ^ (-60 : ℤ) ≤ 6 ∧ (6 : ℚ) ≤ 2 ^ (60 : ℤ)) ∧
    (⟨.ofExact ⟨0, 0⟩, .finite 6, none⟩ : Rounded.Circle).contains (.ofExact ⟨3, 4⟩) = true := by
  have f0 : F32.IsFinite (0 : ℚ) := by
    have := F32.isFinite_of_int 0 (by norm_num); simpa using this
  have f3 : F32.IsFinite (3 : ℚ) := by
    have := F32.isFinite_of_int 3 (by norm_num); simpa using this
  have f4 : F32.IsFinite (4 : ℚ) := by
    have := F32.isFinite_of_int 4 (by norm_num); simpa using this
  refine ⟨⟨f0, f3, f4⟩, ⟨by norm_num, by norm_num⟩, ?_⟩
  apply (circle_contains_within_rounding ⟨0, 0⟩ ⟨3, 4⟩ 6 none ⟨f0, f0⟩ ⟨f3, f4⟩ (by norm_num)
    (by norm_num)).1
  rw [Real.sqrt_le_left (by norm_num)]
  norm_num

/-- C2, as stated, fails in binary32: the point (2 ^ (-25), 0) is contained in the box of size (2, 2)
about (-1, 0), whose half extent is 1, although its offset from the centre is
1 + 2 ^ (-25). -/
theorem box_contains_point_outside :
    F32.IsFinite (1 / 2 ^ 25 : ℚ) ∧
    (⟨⟨.finite (-1), .finite 0⟩, ⟨.finite 2, .finite 2⟩, none⟩ : Rounded.Box).contains
      ⟨.finite (1 / 2 ^ 25), .finite 0⟩ = true ∧
    ¬ (|(1 / 2 ^ 25 : ℚ) - (-1)| ≤ 2 / 2 ∧ |(0 : ℚ) - 0| ≤ 2 / 2) := by
  refine ⟨?_, box_contains_point_outside_eval, ?_⟩
  · exact F32.isFinite_of_int_pow 1 (-25) (by norm_num) (by norm_num) (by norm_num) (by norm_num)
  · intro h
    have h1 := h.1
    rw [abs_of_pos (by norm_num)] at h1
    norm_num at h1

/-- C2, at the box of size (2, 2) about (-1, 0) and its corner (0, 1), which is
contained. -/
theorem box_contains_within_rounding_witness :
    (F32.IsFinite (-1 : ℚ) ∧ F32.IsFinite (0 : ℚ) ∧ F32.IsFinite (2 : ℚ) ∧
      F32.IsFinite (1 : ℚ)) ∧
    (⟨.ofExact ⟨-1, 0⟩, .ofExact ⟨2, 2⟩, none⟩ : Rounded.Box).contains (.ofExact ⟨0, 1⟩) = true := by
  have fm : F32.IsFinite (-1 : ℚ) := by
    have := F32.isFinite_of_int (-1) (by norm_num); simpa using this
  have f0 : F32.IsFinite (0 : ℚ) := by
    have := F32.isFinite_of_int 0 (by norm_num); simpa using this
  have f1 : F32.IsFinite (1 : ℚ) := by
    have := F32.isFinite_of_int 1 (by norm_num); simpa using this
  have f2 : F32.IsFinite (2 : ℚ) := by
    have := F32.isFinite_of_int 2 (by norm_num); simpa using this
  have T := box_contains_within_rounding ⟨-1, 0⟩ ⟨2, 2⟩ ⟨0, 1⟩ none ⟨fm, f0⟩ ⟨f2, f2⟩ ⟨f0, f1⟩
  have hh : F32.rne ((2 : ℚ) / 2) = 2 / 2 := T.2.2.2.1 (by norm_num)
  refine ⟨⟨fm, f0, f2, f1⟩, T.2.1 ⟨?_, ?_⟩⟩
  · show |(0 : ℚ) - (-1)| ≤ F32.rne ((2 : ℚ) / 2)
    rw [hh]; norm_num
  · show |(1 : ℚ) - 0| ≤ F32.rne ((2 : ℚ) / 2)
    rw [hh]; norm_num

/-! ## Window to world in binary32 -/

/-- C17: in binary32, for a window of at most `2 ^ 24` pixels in each direction, a world
rectangle with finite corners, `worldMin ≤ worldMax` componentwise and an extent that does
not overflow, and a pixel inside the window, `windowToWorld` is finite and lies inside the
world rectangle; in the application every pixel of the 1280x720 window maps into
[-8, 8] x [0, 9]. -/
theorem windowToWorld_in_world_rect_rounded (h : Rounded.UIHelper) (wmin wmax : Vec2)
    (x y : Int) (hmin : h.worldMin = .ofExact wmin) (hmax : h.worldMax = .ofExact wmax)
    (fmin : F32.IsFinite wmin.x ∧ F32.IsFinite wmin.y)
    (fmax : F32.IsFinite wmax.x ∧ F32.IsFinite wmax.y)
    (hle : wmin.x ≤ wmax.x ∧ wmin.y ≤ wmax.y)
    (hext : wmax.x - wmin.x ≤ F32.maxFinite ∧ wmax.y - wmin.y ≤ F32.maxFinite)
    (hw : 0 < h.width ∧ h.width ≤ 2 ^ 24) (hh : 0 < h.height ∧ h.height ≤ 2 ^ 24)
    (hx : 0 ≤ x ∧ x < h.width) (hy : 0 ≤ y ∧ y < h.height) :
    (∃ r : Vec2, h.windowToWorld x y = .ofExact r ∧
      wmin.x ≤ r.x ∧ r.x ≤ wmax.x ∧ wmin.y ≤ r.y ∧ r.y ≤ wmax.y) ∧
    (∀ px py : Int, 0 ≤ px → px < 1280 → 0 ≤ py → py < 720 →
      ∃ r : Vec2, Rounded.appHelper.windowToWorld px py = .ofExact r ∧
        -8 ≤ r.x ∧ r.x ≤ 8 ∧ 0 ≤ r.y ∧ r.y ≤ 9) := by
  refine ⟨windowToWorld_rounded_in_rect h wmin wmax x y hmin hmax fmin fmax hle hext hw hh hx hy,
    ?_⟩
  intro px py h0 h1 h2 h3
  have fm8 : F32.IsFinite (-8 : ℚ) := by
    have := F32.isFinite_of_int (-8) (by norm_num); simpa using this
  have f0 : F32.IsFinite (0 : ℚ) := by
    have := F32.isFinite_of_int 0 (by norm_num); simpa using this
  have f8 : F32.IsFinite (8 : ℚ) := by
    have := F32.isFinite_of_int 8 (by norm_num); simpa using this
  have f9 : F32.IsFinite (9 : ℚ) := by
    have := F32.isFinite_of_int 9 (by norm_num); simpa using this
  exact windowToWorld_rounded_in_rect Rounded.appHelper ⟨-8, 0⟩ ⟨8, 9⟩ px py rfl rfl ⟨fm8, f0⟩
    ⟨f8, f9⟩ ⟨by norm_num, by norm_num⟩
    ⟨by norm_num [F32.maxFinite], by norm_num [F32.maxFinite]⟩
    ⟨by decide, by decide⟩ ⟨by decide, by decide⟩ ⟨h0, h1⟩ ⟨h2, h3⟩

/-- C17, at the controller of the application and the pixel (640, 359). -/
theorem windowToWorld_in_world_rect_rounded_witness :
    (F32.IsFinite (-8 : ℚ) ∧ F32.IsFinite (0 : ℚ) ∧ F32.IsFinite (8 : ℚ) ∧
      F32.IsFinite (9 : ℚ)) ∧
    ((0 : Int) < Rounded.appHelper.width ∧ Rounded.appHelper.width ≤ 2 ^ 24) ∧
    ((0 : Int) < Rounded.appHelper.height ∧ Rounded.appHelper.height ≤ 2 ^ 24) ∧
    ∃ r : Vec2, Rounded.appHelper.windowToWorld 640 359 = .ofExact r ∧
      (-8 : ℚ) ≤ r.x ∧ r.x ≤ 8 ∧ (0 : ℚ) ≤ r.y ∧ r.y ≤ 9 := by
  have fm8 : F32.IsFinite (-8 : ℚ) := by
    have := F32.isFinite_of_int (-8) (by norm_num); simpa using this
  have f0 : F32.IsFinite (0 : ℚ) := by
    have := F32.isFinite_of_int 0 (by norm_num); simpa using this
  have f8 : F32.IsFinite (8 : ℚ) := by
    have := F32.isFinite_of_int 8 (by norm_num); simpa using this
  have f9 : F32.IsFinite (9 : ℚ) := by
    have := F32.isFinite_of_int 9 (by norm_num); simpa using this
  exact ⟨⟨fm8, f0, f8, f9⟩, ⟨by decide, by decide⟩, ⟨by decide, by decide⟩,
    (windowToWorld_in_world_rect_rounded Rounded.appHelper ⟨-8, 0⟩ ⟨8, 9⟩ 640 359 rfl rfl
      ⟨fm8, f0⟩ ⟨f8, f9⟩ ⟨by norm_num, by norm_num⟩
      ⟨by norm_num [F32.maxFinite], by norm_num [F32.maxFinite]⟩
      ⟨by decide, by decide⟩ ⟨by decide, by decide⟩ ⟨by decide, by decide⟩
      ⟨by decide, by decide⟩).1⟩

/-- The world point of the pixel (1, 0) of the controller whose world rectangle is too
wide: the extent overflows. -/
theorem hugeHelper_windowToWorld :
    Rounded.hugeHelper.windowToWorld 1 0 = ⟨.inf false, .finite 0⟩ := by
  have e1 : F32.ofInt 1 = .finite 1 := by
    have h := F32.ofInt_of_abs_le 1 (by norm_num)
    simpa using h
  have e2 : F32.ofInt 2 = .finite 2 := F32.ofInt_two
  have e0 : F32.ofInt 0 = .finite 0 := by
    have h := F32.ofInt_of_abs_le 0 (by norm_num)
    simpa using h
  have e3 : F32.div (.finite 1) (.finite 2) = .finite (1 / 2) := by
    rw [F32.div_finite _ _ (by norm_num)]
    exact F32.ofRat_of_isFinite
      (F32.isFinite_of_int_pow 1 (-1) (by norm_num) (by norm_num) (by norm_num) (by norm_num))
  have e4 : F32.sub (.finite (2 ^ 127)) (.finite (-(2 ^ 127))) = .inf false := by
    rw [F32.sub_finite]
    exact F32.ofRat_overflow (by norm_num)
  have e5 : F32.mul (.finite (1 / 2)) (.inf false) = .inf false := by
    simp [F32.mul]
  have e6 : F32.add (.finite (-(2 ^ 127))) (.inf false) = .inf false := rfl
  have e7 : F32.div (.finite 0) (.finite 1) = .finite 0 := by
    rw [F32.div_finite _ _ (by norm_num), zero_div]; exact F32.ofRat_zero
  have e8 : F32.sub (.finite 1) (.finite 0) = .finite 1 := by
    rw [F32.sub_finite, sub_zero]
    have := F32.ofInt_of_abs_le 1 (by norm_num)
    simpa [F32.ofInt] using this
  have e9 : F32.mul (.finite 0) (.finite 1) = .finite 0 := by
    rw [F32.mul_finite, zero_mul]; exact F32.ofRat_zero
  have e10 : F32.add (.finite 0) (.finite 0) = .finite 0 := by
    rw [F32.add_finite, add_zero]; exact F32.ofRat_zero
  apply Rounded.Vec2.eq_of_components
  · simp only [Rounded.UIHelper.windowToWorld, Rounded.hugeHelper, Rounded.UIHelper.new,
      Rounded.Vec2.ofExact, Rounded.Vec2.x_add, Rounded.Vec2.x_mul, Rounded.Vec2.x_sub]
    rw [e1, e2, e3, e4, e5, e6]
  · simp only [Rounded.UIHelper.windowToWorld, Rounded.hugeHelper, Rounded.UIHelper.new,
      Rounded.Vec2.ofExact, Rounded.Vec2.y_add, Rounded.Vec2.y_mul, Rounded.Vec2.y_sub]
    rw [show (1 - 1 - 0 : ℤ) = 0 by norm_num, e0, e1, e7, e8, e9, e10]

/-- C17, as stated, fails in binary32.  For a window of `2 ^ 24 + 1` pixels in width the
width and the number of the last pixel convert to the same `float`, and over the world
interval from -1 to `3 / 2 ^ 25` the last pixel maps to `1 / 2 ^ 23`, beyond `worldMax`; the
same holds for a window of `2 ^ 25` pixels.  And for the world interval from `-(2 ^ 127)`
to `2 ^ 127`, whose extent overflows, the world x of a pixel is infinite. -/
theorem windowToWorld_leaves_world_rect :
    (Rounded.tightHelper.worldMin = ⟨.finite (-1), .finite 0⟩ ∧
      Rounded.tightHelper.worldMax = ⟨.finite (3 / 2 ^ 25), .finite 1⟩ ∧
      F32.IsFinite (3 / 2 ^ 25 : ℚ) ∧
      Rounded.tightHelper.width = 2 ^ 24 + 1 ∧ (0 : Int) < Rounded.tightHelper.height ∧
      (16777216 : Int) < Rounded.tightHelper.width ∧
      Rounded.tightHelper.windowToWorld 16777216 0 = ⟨.finite (1 / 2 ^ 23), .finite 0⟩ ∧
      (3 / 2 ^ 25 : ℚ) < 1 / 2 ^ 23) ∧
    (Rounded.wideHelper.worldMin = ⟨.finite (-1), .finite 0⟩ ∧
      Rounded.wideHelper.worldMax = ⟨.finite (3 / 2 ^ 25), .finite 1⟩ ∧
      Rounded.wideHelper.width = 2 ^ 25 ∧ (0 : Int) < Rounded.wideHelper.height ∧
      (33554431 : Int) < Rounded.wideHelper.width ∧
      Rounded.wideHelper.windowToWorld 33554431 0 = ⟨.finite (1 / 2 ^ 23), .finite 0⟩) ∧
    (Rounded.hugeHelper.worldMin = ⟨.finite (-(2 ^ 127)), .finite 0⟩ ∧
      Rounded.hugeHelper.worldMax = ⟨.finite (2 ^ 127), .finite 1⟩ ∧
      F32.IsFinite (2 ^ 127 : ℚ) ∧
      (1 : Int) < Rounded.hugeHelper.width ∧ (0 : Int) < Rounded.hugeHelper.height ∧
      Rounded.hugeHelper.windowToWorld 1 0 = ⟨.inf false, .finite 0⟩) := by
  refine ⟨⟨rfl, rfl, ?_, by decide, by decide, by decide, tightHelper_windowToWorld,
      by norm_num⟩,
    ⟨rfl, rfl, by decide, by decide, by decide, wideHelper_windowToWorld⟩,
    ⟨rfl, rfl, ?_, by decide, by decide, hugeHelper_windowToWorld⟩⟩
  · exact F32.isFinite_of_int_pow 3 (-25) (by norm_num) (by norm_num) (by norm_num) (by norm_num)
  · exact F32.isFinite_of_int_pow 8388608 104 (by norm_num) (by norm_num) (by norm_num)
      (by norm_num)

/-- C4, at the application after a pointer-down at the pixel (640, 359) and a move to the
pixel (644, 359): the point lies at about half the threshold and is not appended. -/
theorem onMouseMotion_draw_appends_within_rounding_witness :
    Rounded.midStroke.dragMode = .DrawMode ∧ Rounded.midStroke.mouseDown = true ∧
    Rounded.midStroke.polyline.getLast? = some (.ofExact ⟨0, 9 / 2⟩) ∧
    Rounded.midStroke.windowToWorld 644 359 = .ofExact ⟨52429 / 2 ^ 20, 9 / 2⟩ ∧
    Rounded.midStroke.edgeMin = .finite (13421773 / 2 ^ 27) ∧
    Rounded.midStroke.onMouseMotion ⟨644, 359⟩ = some (Rounded.midStroke, []) := by
  have hm : Rounded.midStroke.dragMode = .DrawMode := by rw [midStroke_eq]; rfl
  have hd : Rounded.midStroke.mouseDown = true := by rw [midStroke_eq]
  have hp : Rounded.midStroke.polyline.getLast? = some (.ofExact ⟨0, 9 / 2⟩) := by
    rw [midStroke_eq]; rfl
  have hw : Rounded.midStroke.windowToWorld 644 359 = .ofExact ⟨52429 / 2 ^ 20, 9 / 2⟩ := by
    rw [midStroke_eq]
    exact (Rounded.windowToWorld_congr _ _ _ _ rfl rfl rfl rfl).trans appHelper_windowToWorld_near
  have he : Rounded.midStroke.edgeMin = .finite (13421773 / 2 ^ 27) := by
    rw [midStroke_eq]; exact appHelper_edgeMin
  have f0 : F32.IsFinite (0 : ℚ) := by
    have := F32.isFinite_of_int 0 (by norm_num); simpa using this
  have f92 : F32.IsFinite (9 / 2 : ℚ) :=
    F32.isFinite_of_int_pow 9 (-1) (by norm_num) (by norm_num) (by norm_num) (by norm_num)
  refine ⟨hm, hd, hp, hw, he, ?_⟩
  apply (onMouseMotion_draw_appends_within_rounding Rounded.midStroke ⟨644, 359⟩ ⟨0, 9 / 2⟩
    ⟨52429 / 2 ^ 20, 9 / 2⟩ (13421773 / 2 ^ 27) hm hd hp hw he (by norm_num) (by norm_num)
    ⟨f0, f92⟩).2.2.1
  rw [Real.sqrt_le_left (by norm_num)]
  norm_num

end Pencil
